import Mathlib

/-!
libdpfp: image primitives, minutiae detection and device control.

A shallow embedding of the image routines of libdpfp
(`dpfp_fprint.c`, `dpfp_fprint_fvs.c`, `dpfp_fprint_efinger.c`) and of its
device routines (`dpfp.c`, `dpfp_hw.c`, `dpfp_simple.c`), and the properties
of them that the specification states.

Conventions of the embedding.

* Memory reached through a C pointer is a total function `Nat → uchar`
  from byte offsets to bytes; an in-place update returns the updated function.
  The pixel window `fp->data` of a fingerprint is 0x10000 + 0xB340 - 64 bytes
  long, so every offset the routines compute is far below `2^31` and the
  `int` / `size_t` index arithmetic of the C code never wraps; offsets are
  therefore natural numbers.
* A C `for (i = lo; i < hi; i++)` loop without `break` is `for_range`.
* In the matching and in the enhancement routines a `float` or `double` is a
  rational number; the rounding of every operation and the functions of libm
  are parameters (`float_env`, `libm`).
* Two distinct fingerprint arguments never alias.
-/

namespace Dpfp

/-! ## Data model -/

/-- The C type `unsigned char`. -/
abbrev uchar := Fin 256

/-- Image height, `#define DPFP_IMG_HEIGHT 289`. -/
abbrev DPFP_IMG_HEIGHT : Nat := 289

/-- Image width, `#define DPFP_IMG_WIDTH 384`. -/
abbrev DPFP_IMG_WIDTH : Nat := 384

/-- Capacity of a minutiae set, `#define DPFP_MAX_MINUTIAE 384`. -/
abbrev DPFP_MAX_MINUTIAE : Nat := 384

/-- The C `struct dpfp_fprint`.  The field `header` stands for the first 64
bytes of the allocation and `data` for the view `header + 64`; the routines
below only ever go through `data`. -/
structure dpfp_fprint where
  header_size : Nat
  data_size : Nat
  header : Nat → uchar
  data : Nat → uchar

/-- The C `struct dpfp_minutia`. -/
structure dpfp_minutia where
  x : Int
  y : Int
deriving DecidableEq, Repr

/-- The C `struct dpfp_mset`.  The array `minutiae[DPFP_MAX_MINUTIAE]` is a
function of the index; an index of 384 or more is a slot past the end of the
C array, kept in the model so that a write there is observable. -/
structure dpfp_mset where
  minutiae : Nat → dpfp_minutia
  count : Nat

/-! ## Loops and memory -/

/-- The loop `for (k = 0; k < n; k++, i++) s = body i s`: `n` iterations of
`body` starting at index `i`. -/
def for_loop {σ : Type} (body : Nat → σ → σ) : Nat → Nat → σ → σ
  | 0, _, s => s
  | n + 1, i, s => for_loop body n (i + 1) (body i s)

/-- The C loop `for (i = lo; i < hi; i++) body`. -/
def for_range {σ : Type} (lo hi : Nat) (body : Nat → σ → σ) (s : σ) : σ :=
  for_loop body (hi - lo) lo s

/-- The store `p[i] = v`. -/
def store (p : Nat → uchar) (i : Nat) (v : uchar) : Nat → uchar :=
  fun k => if k = i then v else p k

/-- The call `memcpy(dst + d, src + s, n)`; all of the source is read before
the destination changes, which is what C guarantees for regions that do not
overlap. -/
def memcpy (dst : Nat → uchar) (d : Nat) (src : Nat → uchar) (s n : Nat) : Nat → uchar :=
  fun k => if d ≤ k ∧ k < d + n then src (s + (k - d)) else dst k

/-! ## dpfp_fprint.c -/

/-- One iteration of the loop of `dpfp_fprint_flip_v`: rows at `offset` and
`swap_offset` are exchanged through `rowbuf`. -/
def flip_v_body (data_size : Nat) (i : Nat) (data : Nat → uchar) : Nat → uchar :=
  let offset := i * DPFP_IMG_WIDTH
  let swap_offset := data_size - DPFP_IMG_WIDTH * (i + 1)
  let rowbuf := memcpy (fun _ => 0) 0 data offset DPFP_IMG_WIDTH
  let data1 := memcpy data offset data swap_offset DPFP_IMG_WIDTH
  memcpy data1 swap_offset rowbuf 0 DPFP_IMG_WIDTH

/-- In-place vertical flip, `dpfp_fprint_flip_v`. -/
def dpfp_fprint_flip_v (fp : dpfp_fprint) : dpfp_fprint :=
  let num_rows := fp.data_size / DPFP_IMG_WIDTH
  { fp with data := for_range 0 (num_rows / 2) (flip_v_body fp.data_size) fp.data }

/-- The inner loop of `dpfp_fprint_flip_h` for the row at `offset`: the row is
saved in `rowbuf` and written back in reverse order. -/
def flip_h_body (i : Nat) (data : Nat → uchar) : Nat → uchar :=
  let offset := i * DPFP_IMG_WIDTH
  let rowbuf := memcpy (fun _ => 0) 0 data offset DPFP_IMG_WIDTH
  for_range 0 DPFP_IMG_WIDTH
    (fun j dat =>
      let h_offset := DPFP_IMG_WIDTH - j - 1
      store dat (offset + j) (rowbuf h_offset))
    data

/-- In-place horizontal flip, `dpfp_fprint_flip_h`. -/
def dpfp_fprint_flip_h (fp : dpfp_fprint) : dpfp_fprint :=
  let num_rows := fp.data_size / DPFP_IMG_WIDTH
  { fp with data := for_range 0 num_rows flip_h_body fp.data }

/-- Conversion of an `int` to `unsigned char` (reduction modulo 256). -/
def uchar_of_int (p : Int) : uchar :=
  Fin.ofNat (p % 256).toNat

/-- One iteration of the loop of `dpfp_fprint_subtract`:
`p = a[i] - b[i]; if (p < 0) p = -p; a[i] = p`. -/
def subtract_body (b : Nat → uchar) (i : Nat) (a : Nat → uchar) : Nat → uchar :=
  let p : Int := ((a i).val : Int) - ((b i).val : Int)
  let p : Int := if p < 0 then -p else p
  store a i (uchar_of_int p)

/-- The routine `dpfp_fprint_subtract(a, b)`, "a = a - b".  The result is the
pair of the final states of `a` and `b`. -/
def dpfp_fprint_subtract (a b : dpfp_fprint) : dpfp_fprint × dpfp_fprint :=
  if a.data_size ≠ b.data_size then (a, b)
  else ({ a with data := for_range 0 a.data_size (subtract_body b.data) a.data }, b)

/-- The composite `subtract(subtract(copy(A), B), B)`: `B` is subtracted twice
from a copy of `A`.  A copy is the value `A` itself. -/
def subtract_twice (A B : dpfp_fprint) : dpfp_fprint :=
  (dpfp_fprint_subtract (dpfp_fprint_subtract A B).1 B).1

/-! ## dpfp_fprint_fvs.c -/

/-- The routine `dpfp_fprint_binarize(fp, limit)`. -/
def dpfp_fprint_binarize (fp : dpfp_fprint) (limit : uchar) : dpfp_fprint :=
  { fp with
    data := for_range 0 (DPFP_IMG_WIDTH * DPFP_IMG_HEIGHT)
      (fun n imgbuf => store imgbuf n (if imgbuf n < limit then 0xff else 0))
      fp.data }

/-! ## dpfp_fprint_efinger.c: single-precision arithmetic

`dpfp_fprint_detect_minutiae` accumulates its 3 x 3 mask in a C `float`.  The
values that occur are non-negative multiples of `2^-27` below 32, so a `float`
is represented here by the natural number `v` with value `v * 2^-27`, and
every operation is computed exactly and then rounded to the 24-bit significand
of IEEE 754 binary32, to nearest with ties to even (`FLT_EVAL_METHOD == 0`). -/

/-- Number of low-order bits of `v` that do not fit a 24-bit significand:
the least `s` with `v < 2^(24 + s)`.  The first argument bounds the recursion;
`v` itself always suffices. -/
def f32_excess : Nat → Nat → Nat
  | 0, _ => 0
  | n + 1, v => if v < 2 ^ 24 then 0 else f32_excess n (v / 2) + 1

/-- Rounding of the real number `v * 2^-27` to binary32, to nearest, ties to
even. -/
def f32_round (v : Nat) : Nat :=
  let s := f32_excess v v
  if s = 0 then v
  else
    let q := v / 2 ^ s
    let r := v % 2 ^ s
    let half := 2 ^ (s - 1)
    if half < r ∨ (r = half ∧ q % 2 = 1) then (q + 1) * 2 ^ s else q * 2 ^ s

/-- The `float` nearest to the constant `0.1`: `13421773 * 2^-27`. -/
def f32_tenth : Nat := 13421773

/-- The `float` `1.0`: `2^27 * 2^-27`. -/
def f32_one : Nat := 2 ^ 27

/-- Single-precision sum `a + b`. -/
def f32_add (a b : Nat) : Nat := f32_round (a + b)

/-- Single-precision product `n * a` of an integer `n` (converted to `float`
exactly) and a `float` `a`. -/
def f32_mul_int (n a : Nat) : Nat := f32_round (n * a)

/-- Conversion of a non-negative `float` to `int`: truncation. -/
def f32_to_int (a : Nat) : Nat := a / 2 ^ 27

/-! ### Minutiae detection -/

/-- The table `mask[3][3] = {{0.1,0.1,0.1},{0.1,1,0.1},{0.1,0.1,0.1}}`;
the arguments are the C indices `k + 1` and `l + 1`. -/
def detect_mask (k l : Nat) : Nat :=
  if k = 1 ∧ l = 1 then f32_one else f32_tenth

/-- The accumulator `value` of `dpfp_fprint_detect_minutiae` at row `i`,
column `j`.  The loop variables here are the C `k + 1` and `l + 1`, so that
the pixel read is `buf[((i + k) * DPFP_IMG_WIDTH) + j + l]`; the scan has
`i ≥ 1` and `j ≥ 1`, so the offset is never negative. -/
def detect_value (buf : Nat → uchar) (i j : Nat) : Nat :=
  for_range 0 3
    (fun k value =>
      for_range 0 3
        (fun l value =>
          let pval : Nat := if buf ((i + k - 1) * DPFP_IMG_WIDTH + j + l - 1) ≠ 0 then 1 else 0
          f32_add value (f32_mul_int pval (detect_mask k l)))
        value)
    0

/-- The integer `mag = value * 10` of `dpfp_fprint_detect_minutiae`. -/
def detect_mag (buf : Nat → uchar) (i j : Nat) : Nat :=
  f32_to_int (f32_mul_int 10 (detect_value buf i j))

/-- The three statements `pos = mset->count++; mset->minutiae[pos].x = j;
mset->minutiae[pos].y = i`. -/
def mset_push (mset : dpfp_mset) (j i : Nat) : dpfp_mset :=
  let pos := mset.count
  { minutiae := fun n => if n = pos then { x := (j : Int), y := (i : Int) } else mset.minutiae n,
    count := mset.count + 1 }

/-- The inner loop `for (j = ...; j < DPFP_IMG_WIDTH - 1; j++)` of
`dpfp_fprint_detect_minutiae` on row `i`, with `n` columns left from column
`j`; it ends early (`break`) once `count >= DPFP_MAX_MINUTIAE` after a store. -/
def detect_row (buf : Nat → uchar) (i : Nat) : Nat → Nat → dpfp_mset → dpfp_mset
  | 0, _, mset => mset
  | n + 1, j, mset =>
    let mag := detect_mag buf i j
    if mag = 11 ∨ mag = 13 then
      let mset1 := mset_push mset j i
      if mset1.count ≥ DPFP_MAX_MINUTIAE then mset1
      else detect_row buf i n (j + 1) mset1
    else detect_row buf i n (j + 1) mset

/-- The outer loop `for (i = ...; i < DPFP_IMG_HEIGHT - 1; i++)` of
`dpfp_fprint_detect_minutiae`, with `n` rows left from row `i`; after each row
it ends (`break`) if `count >= DPFP_MAX_MINUTIAE`. -/
def detect_rows (buf : Nat → uchar) : Nat → Nat → dpfp_mset → dpfp_mset
  | 0, _, mset => mset
  | n + 1, i, mset =>
    let mset1 := detect_row buf i (DPFP_IMG_WIDTH - 1 - 1) 1 mset
    if mset1.count ≥ DPFP_MAX_MINUTIAE then mset1
    else detect_rows buf n (i + 1) mset1

/-- The routine `dpfp_fprint_detect_minutiae(fp, mset)`: the returned `int`
(always 0) and the final state of `*mset`. -/
def dpfp_fprint_detect_minutiae (fp : dpfp_fprint) (mset : dpfp_mset) : Int × dpfp_mset :=
  (0, detect_rows fp.data (DPFP_IMG_HEIGHT - 1 - 1) 1 mset)

/-- The set returned by `dpfp_mset_alloc`: all bytes zero. -/
def dpfp_mset_alloc : dpfp_mset :=
  { minutiae := fun _ => { x := 0, y := 0 }, count := 0 }

/-! ## Closed forms used in the proofs -/

/-- 1 if the pixel at column `x`, row `y` is non-zero, else 0. -/
def ridge (buf : Nat → uchar) (x y : Nat) : Nat :=
  if buf (y * DPFP_IMG_WIDTH + x) ≠ 0 then 1 else 0

/-- Number of non-zero pixels among the eight neighbours of column `j`, row `i`. -/
def neighbours (buf : Nat → uchar) (i j : Nat) : Nat :=
  ridge buf (j - 1) (i - 1) + ridge buf j (i - 1) + ridge buf (j + 1) (i - 1)
  + ridge buf (j - 1) i + ridge buf (j + 1) i
  + ridge buf (j - 1) (i + 1) + ridge buf j (i + 1) + ridge buf (j + 1) (i + 1)

/-- The accumulator and `mag` for a neighbourhood given by nine 0/1 values in
scan order (`e` is the centre). -/
def mag_of (a b c d e f g h i : Nat) : Nat :=
  f32_to_int (f32_mul_int 10
    (f32_add (f32_add (f32_add (f32_add (f32_add (f32_add (f32_add (f32_add (f32_add 0
      (f32_mul_int a f32_tenth)) (f32_mul_int b f32_tenth)) (f32_mul_int c f32_tenth))
      (f32_mul_int d f32_tenth)) (f32_mul_int e f32_one)) (f32_mul_int f f32_tenth))
      (f32_mul_int g f32_tenth)) (f32_mul_int h f32_tenth)) (f32_mul_int i f32_tenth)))

/-- Whether the scan stores a minutia at row `i`, column `j`. -/
def detect_hit (buf : Nat → uchar) (i j : Nat) : Bool :=
  decide (detect_mag buf i j = 11 ∨ detect_mag buf i j = 13)

/-- The minutiae a full scan of `n` columns of row `i` from column `j` finds. -/
def row_hits (buf : Nat → uchar) (i : Nat) : Nat → Nat → List dpfp_minutia
  | 0, _ => []
  | n + 1, j =>
    if detect_hit buf i j then { x := (j : Int), y := (i : Int) } :: row_hits buf i n (j + 1)
    else row_hits buf i n (j + 1)

/-- The minutiae a full scan of `n` rows from row `i` finds, in scan order. -/
def hits (buf : Nat → uchar) : Nat → Nat → List dpfp_minutia
  | 0, _ => []
  | n + 1, i => row_hits buf i 382 1 ++ hits buf n (i + 1)

/-- Appending a list of minutiae to a set, without regard to capacity. -/
def push_all (mset : dpfp_mset) : List dpfp_minutia → dpfp_mset
  | [] => mset
  | m :: ms =>
    push_all
      { minutiae := fun n => if n = mset.count then m else mset.minutiae n,
        count := mset.count + 1 } ms

/-- State of the pixel window after the first `k` iterations of the loop of
`dpfp_fprint_flip_v`, in terms of the original window `d`. -/
def flip_v_after (ds k : Nat) (d : Nat → uchar) : Nat → uchar :=
  fun x =>
    if x < k * 384 then d (ds - 384 * (x / 384 + 1) + x % 384)
    else if ds - k * 384 ≤ x ∧ x < ds then
      d ((ds - 1 - x) / 384 * 384 + (383 - (ds - 1 - x) % 384))
    else d x

/-- State of the pixel window after the first `k` rows of `dpfp_fprint_flip_h`. -/
def flip_h_after (k : Nat) (d : Nat → uchar) : Nat → uchar :=
  fun x => if x < k * 384 then d (x / 384 * 384 + (383 - x % 384)) else d x

/-- The value `|u - v|` that `subtract_body` stores for the bytes `u` and `v`. -/
def absdiff (u v : uchar) : uchar :=
  uchar_of_int
    (if ((u.val : Int) - (v.val : Int)) < 0 then -((u.val : Int) - (v.val : Int))
     else ((u.val : Int) - (v.val : Int)))

/-- The value `dpfp_fprint_binarize` stores for a pixel `p`. -/
def binarize_pixel (limit p : uchar) : uchar :=
  if p < limit then 0xff else 0

/-! ## Fixtures -/

/-- A full frame whose pixel at offset `k` is `k mod 256`. -/
def fp_ramp : dpfp_fprint :=
  { header_size := 64, data_size := 110976, header := fun _ => 0,
    data := fun k => Fin.ofNat k }

/-- A fingerprint of two rows and one byte whose pixel at offset `k` is `k mod 256`. -/
def fp_ragged : dpfp_fprint :=
  { header_size := 64, data_size := 769, header := fun _ => 0,
    data := fun k => Fin.ofNat k }

/-- A fingerprint of exactly two rows whose pixel at offset `k` is `k mod 256`. -/
def fp_two_rows : dpfp_fprint :=
  { header_size := 64, data_size := 768, header := fun _ => 0,
    data := fun k => Fin.ofNat k }

/-- A full frame with every pixel equal to `v`. -/
def fp_const (v : uchar) : dpfp_fprint :=
  { header_size := 64, data_size := 110976, header := fun _ => 0,
    data := fun _ => v }

/-- A full frame that is 0xFF at row 1, columns 1 and 2 and 0 elsewhere. -/
def fp_pair : dpfp_fprint :=
  { header_size := 64, data_size := 110976, header := fun _ => 0,
    data := fun k => if k = 385 ∨ k = 386 then 0xff else 0 }

/-- A full minutiae set: 384 entries. -/
def mset_full : dpfp_mset :=
  { minutiae := fun _ => { x := 0, y := 0 }, count := 384 }

/-- A one-row fingerprint with every pixel equal to `v`. -/
def fp_short (v : uchar) : dpfp_fprint :=
  { header_size := 64, data_size := 384, header := fun _ => 0,
    data := fun _ => v }

/-! ## dpfp_hw.c -/

/-- Request size of the first bulk read, `#define DATABLK1_RQSIZE 0x10000`. -/
abbrev DATABLK1_RQSIZE : Nat := 0x10000

/-- Request size of the second bulk read, `#define DATABLK2_RQSIZE 0xb340`. -/
abbrev DATABLK2_RQSIZE : Nat := 0xb340

/-- Outcome of one call of libusb's `usb_bulk_read`, which is outside the
library: the returned `int` (a negative error code, or the number of bytes
received) and the bytes the device delivered. -/
structure bulk_result where
  ret : Int
  bytes : Nat → uchar

/-- The whole allocation of a fingerprint, of which `header` is the start and
`data` the view at offset 64. -/
def fp_buffer (fp : dpfp_fprint) : Nat → uchar :=
  fun k => if k < 64 then fp.header k else fp.data (k - 64)

/-- The fingerprint whose allocation holds `buf`. -/
def fp_with_buffer (fp : dpfp_fprint) (buf : Nat → uchar) : dpfp_fprint :=
  { fp with header := buf, data := fun k => buf (k + 64) }

/-- Effect of `usb_bulk_read(..., buf + off, size, ...)` with outcome `r` on the
memory at `buf`: the bytes received are stored from offset `off` on; a failed
transfer is taken to store nothing. -/
def usb_bulk_read (r : bulk_result) (buf : Nat → uchar) (off : Nat) : Nat → uchar :=
  if r.ret < 0 then buf else memcpy buf off r.bytes 0 r.ret.toNat

/-- Conversion of an `int` to `size_t` (64 bits wide). -/
def size_t_of_int (v : Int) : Nat :=
  (v % 2 ^ 64).toNat

/-- The routine `dpfp_capture_fprint(dev, fp)`, given the outcomes `r1` and `r2`
that the device produces for the two bulk reads: the returned `int` and the
final state of `*fp`. -/
def dpfp_capture_fprint (r1 r2 : bulk_result) (fp : dpfp_fprint) : Int × dpfp_fprint :=
  let trf1 := r1.ret
  let buf1 := usb_bulk_read r1 (fp_buffer fp) 0
  if trf1 < 0 then (trf1, fp_with_buffer fp buf1)
  else
    let trf2 := r2.ret
    let buf2 := usb_bulk_read r2 buf1 trf1.toNat
    if trf2 < 0 then (trf2, fp_with_buffer fp buf2)
    else
      (0, { fp_with_buffer fp buf2 with
            header_size := 64, data_size := size_t_of_int (trf1 + trf2 - 64) })

/-- A bulk read that delivers `n` bytes, all equal to `v`. -/
def bulk_of (n : Nat) (v : uchar) : bulk_result :=
  { ret := (n : Int), bytes := fun _ => v }

/-! ## Closed forms for the minutiae scan order -/

/-- The entries of a minutiae set, `minutiae[0 .. count - 1]`, as a list. -/
def mset_list (m : dpfp_mset) : List dpfp_minutia :=
  (List.range m.count).map m.minutiae

/-- Whether the pixel at row `i`, column `j` qualifies as a minutia: it is
non-zero and exactly 1 or exactly 3 of its eight neighbours are non-zero. -/
def qualifies (buf : Nat → uchar) (i j : Nat) : Bool :=
  decide (buf (i * DPFP_IMG_WIDTH + j) ≠ 0 ∧
    (neighbours buf i j = 1 ∨ neighbours buf i j = 3))

/-- The qualifying pixels of row `i` among the columns `1 .. W - 2`, by
increasing column. -/
def qualifying_row (buf : Nat → uchar) (i : Nat) : List dpfp_minutia :=
  ((List.range' 1 382).filter (fun j => qualifies buf i j)).map
    (fun (j : Nat) => { x := (j : Int), y := (i : Int) })

/-- All qualifying interior pixels of an image in row-major order: rows
`1 .. H - 2` from the top, each by increasing column. -/
def qualifying (buf : Nat → uchar) : List dpfp_minutia :=
  (List.range' 1 287).flatMap (fun i => qualifying_row buf i)

/-- Strict row-major order on minutiae: by `y`, then by `x`. -/
def rowmajor_lt (a b : dpfp_minutia) : Prop :=
  a.y < b.y ∨ (a.y = b.y ∧ a.x < b.x)

/-! ## dpfp_fprint_efinger.c: noise pruning -/

/-- Border distance used by `dpfp_mset_remove_noise`, `#define NOISE_THICKNESS 15`. -/
abbrev NOISE_THICKNESS : Int := 15

/-- The read `fp->data[idx]` for an `int` index `idx` (never negative for
coordinates inside the image). -/
def fp_at (fp : dpfp_fprint) (idx : Int) : uchar :=
  fp.data idx.toNat

/-- One iteration of the loop of `dpfp_mset_remove_noise`: minutia `i` of
`mset` is skipped (`continue`) if the mask is 0 at the point itself or at one
of the four clipped points, and stored in `new` otherwise. -/
def remove_noise_body (mset : dpfp_mset) (mask : dpfp_fprint) (i : Nat)
    (new : dpfp_mset) : dpfp_mset :=
  let x := (mset.minutiae i).x
  let y := (mset.minutiae i).y
  if fp_at mask ((y * DPFP_IMG_WIDTH) + x) = 0 then new
  else
    let val : Int := x + NOISE_THICKNESS
    let val : Int := if val > (DPFP_IMG_WIDTH : Int) - 1 then (DPFP_IMG_WIDTH : Int) - 1 else val
    if fp_at mask ((y * DPFP_IMG_WIDTH) + val) = 0 then new
    else
      let val : Int := x - NOISE_THICKNESS
      let val : Int := if val < 0 then 0 else val
      if fp_at mask ((y * DPFP_IMG_WIDTH) + val) = 0 then new
      else
        let val : Int := y + NOISE_THICKNESS
        let val : Int := if val > (DPFP_IMG_HEIGHT : Int) - 1 then (DPFP_IMG_HEIGHT : Int) - 1 else val
        if fp_at mask ((val * DPFP_IMG_WIDTH) + x) = 0 then new
        else
          let val : Int := y - NOISE_THICKNESS
          let val : Int := if val < 0 then 0 else val
          if fp_at mask ((val * DPFP_IMG_WIDTH) + x) = 0 then new
          else
            let val := new.count
            { minutiae := fun n => if n = val then { x := x, y := y } else new.minutiae n,
              count := new.count + 1 }

/-- The routine `dpfp_mset_remove_noise(mset, mask)`.  `alloc` is the outcome
of its call of `dpfp_mset_alloc` (`none` for `NULL`).  The result is the set
the returned pointer refers to (`none` for `NULL`) and the final state of
`*mset`. -/
def dpfp_mset_remove_noise (alloc : Option dpfp_mset) (mset : dpfp_mset)
    (mask : dpfp_fprint) : Option dpfp_mset × dpfp_mset :=
  match alloc with
  | none => (none, mset)
  | some new => (some (for_range 0 mset.count (remove_noise_body mset mask) new), mset)

/-- The mask value at column `x`, row `y`. -/
def mask_at (mask : dpfp_fprint) (x y : Int) : uchar :=
  mask.data (y * DPFP_IMG_WIDTH + x).toNat

/-- Whether the mask is non-zero at `(x, y)`, `(min(x + 15, W - 1), y)`,
`(max(x - 15, 0), y)`, `(x, min(y + 15, H - 1))` and `(x, max(y - 15, 0))`. -/
def noise_keep (mask : dpfp_fprint) (m : dpfp_minutia) : Bool :=
  decide (mask_at mask m.x m.y ≠ 0 ∧
    mask_at mask (min (m.x + 15) ((DPFP_IMG_WIDTH : Int) - 1)) m.y ≠ 0 ∧
    mask_at mask (max (m.x - 15) 0) m.y ≠ 0 ∧
    mask_at mask m.x (min (m.y + 15) ((DPFP_IMG_HEIGHT : Int) - 1)) ≠ 0 ∧
    mask_at mask m.x (max (m.y - 15) 0) ≠ 0)

/-- A set of three minutiae: (100, 100), (5, 100) and (200, 150). -/
def mset_three : dpfp_mset :=
  { minutiae := fun n =>
      if n = 0 then { x := 100, y := 100 }
      else if n = 1 then { x := 5, y := 100 }
      else { x := 200, y := 150 },
    count := 3 }

/-- A mask that is 0xFF from column 50 on and 0 to the left of it. -/
def fp_mask_right : dpfp_fprint :=
  { header_size := 64, data_size := 110976, header := fun _ => 0,
    data := fun k => if 50 ≤ k % 384 then 0xff else 0 }

/-! ## dpfp_fprint_efinger.c: thinning -/

/-- Direction masks `masks[] = { 0200, 0002, 0040, 0010 }` (N, S, W, E). -/
def masks : List Nat := [0o200, 0o002, 0o040, 0o010]

/-- The table `delet[512]`, indexed by the neighbourhood map `abcdefghi`
(`a` is bit 8, the centre `e` bit 4, `i` bit 0). -/
def delet : List Nat :=
  [
   0, 0, 0, 0, 0, 0, 0, 0, 0, 0, 0, 0, 0, 0, 0, 0,
   0, 0, 0, 1, 0, 0, 1, 1, 0, 1, 1, 1, 0, 0, 1, 1,
   0, 0, 0, 0, 0, 0, 0, 0, 0, 0, 0, 0, 0, 0, 0, 0,
   0, 0, 1, 1, 1, 0, 1, 1, 0, 0, 1, 1, 0, 0, 1, 1,
   0, 0, 0, 0, 0, 0, 0, 0, 0, 0, 0, 0, 0, 0, 0, 0,
   0, 0, 0, 0, 0, 0, 0, 0, 1, 1, 1, 1, 0, 0, 1, 1,
   0, 0, 0, 0, 0, 0, 0, 0, 0, 0, 0, 0, 0, 0, 0, 0,
   0, 0, 0, 0, 0, 0, 0, 0, 0, 0, 1, 1, 0, 0, 1, 1,
   0, 0, 0, 0, 0, 0, 0, 0, 0, 0, 0, 0, 0, 0, 0, 0,
   0, 0, 0, 0, 0, 0, 0, 0, 1, 1, 1, 1, 0, 0, 1, 1,
   0, 0, 0, 0, 0, 0, 0, 0, 0, 0, 0, 0, 0, 0, 0, 0,
   1, 0, 1, 1, 1, 0, 1, 1, 1, 1, 1, 1, 1, 1, 1, 1,
   0, 0, 0, 0, 0, 0, 0, 0, 0, 0, 0, 0, 0, 0, 0, 0,
   1, 0, 0, 0, 0, 0, 0, 0, 1, 1, 1, 1, 0, 0, 1, 1,
   0, 0, 0, 0, 0, 0, 0, 0, 0, 0, 0, 0, 0, 0, 0, 0,
   1, 0, 1, 1, 1, 0, 1, 1, 1, 1, 1, 1, 1, 1, 1, 1,
   0, 0, 0, 0, 0, 0, 0, 0, 0, 0, 0, 0, 0, 0, 0, 0,
   0, 0, 0, 0, 0, 0, 0, 0, 0, 0, 0, 0, 0, 0, 0, 0,
   0, 0, 0, 0, 0, 0, 0, 0, 0, 0, 0, 0, 0, 0, 0, 0,
   1, 0, 1, 1, 1, 0, 1, 1, 0, 0, 1, 1, 0, 0, 1, 1,
   0, 0, 0, 0, 0, 0, 0, 0, 0, 0, 0, 0, 0, 0, 0, 0,
   0, 0, 0, 0, 0, 0, 0, 0, 0, 0, 0, 0, 0, 0, 0, 0,
   0, 0, 0, 0, 0, 0, 0, 0, 0, 0, 0, 0, 0, 0, 0, 0,
   0, 0, 0, 0, 0, 0, 0, 0, 0, 0, 1, 1, 0, 0, 1, 1,
   0, 0, 0, 0, 0, 0, 0, 0, 0, 0, 0, 0, 0, 0, 0, 0,
   1, 0, 0, 0, 0, 0, 0, 0, 1, 1, 1, 1, 0, 0, 1, 1,
   0, 0, 0, 0, 0, 0, 0, 0, 0, 0, 0, 0, 0, 0, 0, 0,
   1, 0, 1, 1, 1, 0, 1, 1, 1, 1, 1, 1, 1, 1, 1, 1,
   0, 0, 0, 0, 0, 0, 0, 0, 0, 0, 0, 0, 0, 0, 0, 0,
   1, 0, 0, 0, 0, 0, 0, 0, 1, 1, 1, 1, 0, 0, 1, 1,
   0, 0, 0, 0, 0, 0, 0, 0, 0, 0, 0, 0, 0, 0, 0, 0,
   1, 0, 1, 1, 1, 0, 1, 1, 1, 1, 1, 1, 1, 1, 1, 1
  ]

/-- The C value (0 or 1) of the comparison `v != 0`. -/
def nz (v : uchar) : Nat :=
  if v ≠ 0 then 1 else 0

/-- The local variables of `dpfp_fprint_thin` that a pass works on: the image
`imgbuf`, the previous-scanline buffer `qb` (an array of `unsigned char`), the
neighbourhood map `p` and the deletion count `count`. -/
structure thin_state where
  imgbuf : Nat → uchar
  qb : Nat → Nat
  p : Nat
  count : Nat

/-- The test `((p & m) == 0) && delet[p]`. -/
def thin_deletable (m p : Nat) : Bool :=
  decide (p &&& m = 0) && decide (delet.getD p 0 ≠ 0)

/-- The statement `if (((p & m) == 0) && delet[p]) { count++; imgbuf[pos] = 0; }`. -/
def thin_pixel (m pos : Nat) (s : thin_state) : thin_state :=
  if thin_deletable m s.p = true then
    { s with count := s.count + 1, imgbuf := store s.imgbuf pos 0 }
  else s

/-- "Build initial previous scan buffer": `p = imgbuf[0] != 0;` followed by
`qb[x] = p = ((p << 1) & 0006) | (imgbuf[x + 1] != 0)` for `x < W - 1`.  The
store into the `unsigned char` array keeps the low 8 bits. -/
def thin_init (s : thin_state) : thin_state :=
  for_range 0 (DPFP_IMG_WIDTH - 1)
    (fun x s =>
      let p := ((s.p <<< 1) &&& 0o006) ||| nz (s.imgbuf (x + 1))
      { s with p := p, qb := fun k => if k = x then p % 256 else s.qb k })
    { s with p := nz (s.imgbuf 0) }

/-- The body of the loop over `y < H - 1` of a pass: the row start, the inner
loop over `x < W - 1`, and the right edge pixel. -/
def thin_row (m y : Nat) (s : thin_state) : thin_state :=
  let q := s.qb 0
  let s1 : thin_state :=
    { s with p := ((q <<< 3) &&& 0o110) ||| nz (s.imgbuf ((y + 1) * DPFP_IMG_WIDTH)) }
  let s2 : thin_state :=
    for_range 0 (DPFP_IMG_WIDTH - 1)
      (fun x s =>
        let q := s.qb x
        let p := ((s.p <<< 1) &&& 0o666) ||| ((q <<< 3) &&& 0o110) |||
          nz (s.imgbuf (((y + 1) * DPFP_IMG_WIDTH) + x + 1))
        thin_pixel m ((y * DPFP_IMG_WIDTH) + x)
          { s with p := p, qb := fun k => if k = x then p % 256 else s.qb k })
      s1
  thin_pixel m ((y * DPFP_IMG_WIDTH) + DPFP_IMG_WIDTH - 1)
    { s2 with p := (s2.p <<< 1) &&& 0o666 }

/-- "Process bottom scan line": the loop over `x < W`. -/
def thin_bottom (m : Nat) (s : thin_state) : thin_state :=
  for_range 0 DPFP_IMG_WIDTH
    (fun x s =>
      let q := s.qb x
      thin_pixel m (((DPFP_IMG_HEIGHT - 1) * DPFP_IMG_WIDTH) + x)
        { s with p := ((s.p <<< 1) &&& 0o666) ||| ((q <<< 3) &&& 0o110) })
    s

/-- One direction pass with mask `m`: the body of `for (i = 0; i < 4; i++)`. -/
def thin_pass (m : Nat) (s : thin_state) : thin_state :=
  thin_bottom m (for_range 0 (DPFP_IMG_HEIGHT - 1) (thin_row m) (thin_init s))

/-- One sweep, the body of `while (count)`: `count = 0` and the four passes
(the pass counter `pc` is never read and is left out). -/
def thin_sweep (s : thin_state) : thin_state :=
  for_range 0 4 (fun i s => thin_pass (masks.getD i 0) s) { s with count := 0 }

/-- The loop `while (count) { ... }`, cut off after `fuel` evaluations of its
condition; `none` means the loop has not ended within them. -/
def thin_loop : Nat → thin_state → Option thin_state
  | 0, _ => none
  | fuel + 1, s => if s.count ≠ 0 then thin_loop fuel (thin_sweep s) else some s

/-- The state in which `dpfp_fprint_thin` enters its loop: `count = 1` and
`qb[W - 1] = 0`.  The other locals are not initialised in C; each is written
before it is read, so they are taken as 0. -/
def thin_start (fp : dpfp_fprint) : thin_state :=
  { imgbuf := fp.data, qb := fun _ => 0, p := 0, count := 1 }

/-- The routine `dpfp_fprint_thin(fp)` with its loop cut off after `fuel`
evaluations of the condition: the final state of `*fp`, or `none` if the loop
has not ended. -/
def dpfp_fprint_thin (fuel : Nat) (fp : dpfp_fprint) : Option dpfp_fprint :=
  (thin_loop fuel (thin_start fp)).map (fun s => { fp with data := s.imgbuf })

/-! ## Closed forms for a thinning pass -/

/-- Whether the pixel at column `x`, row `y` is non-zero. -/
def lit (img : Nat → uchar) (x y : Nat) : Bool :=
  decide (img (y * 384 + x) ≠ 0)

/-- The neighbourhood map with the bits `a b c / d e f / g h i`. -/
def nbcode (a b c d e f g h i : Bool) : Nat :=
  256 * a.toNat + 128 * b.toNat + 64 * c.toNat + 32 * d.toNat + 16 * e.toNat
    + 8 * f.toNat + 4 * g.toNat + 2 * h.toNat + i.toNat

/-- Top bit of the column that a pass uses in a row `y < H - 1` as middle
column of pixel `n - 1` (and as left column of pixel `n`, right column of pixel
`n - 2`).  For `2 ≤ n ≤ W` it is the pixel above image column `n - 1`; for
`n = 1`, where image column 0 is expected, the pass takes image column 1; for
`n = 0` and `n > W` the column is outside the image. -/
def thin_top (img : Nat → uchar) (y n : Nat) : Bool :=
  if n = 0 then false
  else if n = 1 then (decide (y ≠ 0) && lit img 1 (y - 1))
  else if n ≤ 384 then (decide (y ≠ 0) && lit img (n - 1) (y - 1))
  else false

/-- Middle bit of the same column. -/
def thin_mid (img : Nat → uchar) (y n : Nat) : Bool :=
  if n = 0 then false
  else if n = 1 then lit img 1 y
  else if n ≤ 384 then lit img (n - 1) y
  else false

/-- Bottom bit of the same column. -/
def thin_bot (img : Nat → uchar) (y n : Nat) : Bool :=
  if n = 0 then false
  else if n = 1 then lit img 0 (y + 1)
  else if n ≤ 384 then lit img (n - 1) (y + 1)
  else false

/-- Top bit of the column that a pass uses on the bottom scan line as left
column of pixel `n - 1`.  The first two columns are left over from the right
edge of the row above. -/
def thin_btop (img : Nat → uchar) (n : Nat) : Bool :=
  if n = 0 then thin_top img 287 383
  else if n = 1 then thin_top img 287 384
  else if n = 2 then false
  else thin_top img 288 (n - 1)

/-- Middle bit of the same column. -/
def thin_bmid (img : Nat → uchar) (n : Nat) : Bool :=
  if n = 0 then thin_mid img 287 383
  else if n = 1 then thin_mid img 287 384
  else if n = 2 then false
  else thin_mid img 288 (n - 1)

/-- Bottom bit of the same column. -/
def thin_bbot (img : Nat → uchar) (n : Nat) : Bool :=
  if n = 0 then thin_bot img 287 383
  else if n = 1 then thin_bot img 287 384
  else false

/-- The value of `p` in a row `y < H - 1` after `x` pixels of the row have
been processed (for `x = 0`, the value set at the row start); the
neighbourhood map the pass tests for pixel `x` is `thin_rowp img y (x + 1)`. -/
def thin_rowp (img : Nat → uchar) (y x : Nat) : Nat :=
  nbcode (thin_top img y (x - 1)) (thin_top img y x) (thin_top img y (x + 1))
    (thin_mid img y (x - 1)) (thin_mid img y x) (thin_mid img y (x + 1))
    (thin_bot img y (x - 1)) (thin_bot img y x) (thin_bot img y (x + 1))

/-- The value of `p` on the bottom scan line after `x` pixels have been
processed. -/
def thin_botp (img : Nat → uchar) (x : Nat) : Nat :=
  nbcode (thin_btop img x) (thin_btop img (x + 1)) (thin_btop img (x + 2))
    (thin_bmid img x) (thin_bmid img (x + 1)) (thin_bmid img (x + 2))
    (thin_bbot img x) (thin_bbot img (x + 1)) (thin_bbot img (x + 2))

/-- The neighbourhood map a pass over the image `img` tests for the pixel at
column `x`, row `y`. -/
def thin_code (img : Nat → uchar) (x y : Nat) : Nat :=
  if y = 288 then thin_botp img (x + 1) else thin_rowp img y (x + 1)

/-- Whether a pass with mask `m` over the image `img` deletes (and counts) the
pixel at offset `k`. -/
def thin_del (img : Nat → uchar) (m k : Nat) : Bool :=
  thin_deletable m (thin_code img (k % 384) (k / 384))

/-- The image after a pass with mask `m` over `img`. -/
def thin_pass_img (img : Nat → uchar) (m : Nat) : Nat → uchar :=
  fun k => if k < 110976 ∧ thin_del img m k = true then 0 else img k

/-- The number of pixels among the first `n` that a pass with mask `m` counts
as deleted. -/
def thin_pass_count (img : Nat → uchar) (m n : Nat) : Nat :=
  (List.range n).countP (thin_del img m)

/-- The bits of `qb[k]` that a pass reads: `(q << 3) & 0110`. -/
def qb_bits (q : Nat) : Nat :=
  (q <<< 3) &&& 0o110

/-- Invariant of the inner loop of a pass in row `y`, before pixel `x`: the
pixels before offset `y * W + x` have been treated, `p` is the map left by
pixel `x - 1`, and `qb` holds the maps of this row up to `x - 1` and those of
the row above from `x` on. -/
def thin_inner_inv (img : Nat → uchar) (m c0 y x : Nat) (t : thin_state) : Prop :=
  (∀ k, t.imgbuf k = if k < y * 384 + x ∧ thin_del img m k = true then 0 else img k) ∧
  t.count = c0 + thin_pass_count img m (y * 384 + x) ∧
  t.p = thin_rowp img y x ∧
  (∀ k, k < x → qb_bits (t.qb k)
      = 64 * (thin_mid img y (k + 2)).toNat + 8 * (thin_bot img y (k + 2)).toNat) ∧
  (∀ k, x ≤ k → k ≤ 382 → qb_bits (t.qb k)
      = 64 * (thin_top img y (k + 2)).toNat + 8 * (thin_mid img y (k + 2)).toNat) ∧
  t.qb 383 = 0

/-- Invariant of the loop over the rows of a pass, before row `y`. -/
def thin_outer_inv (img : Nat → uchar) (m c0 y : Nat) (t : thin_state) : Prop :=
  (∀ k, t.imgbuf k = if k < y * 384 ∧ thin_del img m k = true then 0 else img k) ∧
  t.count = c0 + thin_pass_count img m (y * 384) ∧
  (∀ k, k ≤ 382 → qb_bits (t.qb k)
      = 64 * (thin_top img y (k + 2)).toNat + 8 * (thin_mid img y (k + 2)).toNat) ∧
  t.qb 383 = 0 ∧
  (1 ≤ y → t.p = thin_rowp img (y - 1) 384)

/-- Invariant of the loop over the bottom scan line of a pass, before pixel `x`. -/
def thin_bottom_inv (img : Nat → uchar) (m c0 x : Nat) (t : thin_state) : Prop :=
  (∀ k, t.imgbuf k = if k < 288 * 384 + x ∧ thin_del img m k = true then 0 else img k) ∧
  t.count = c0 + thin_pass_count img m (288 * 384 + x) ∧
  t.p = thin_botp img x ∧
  (∀ k, k ≤ 382 → qb_bits (t.qb k)
      = 64 * (thin_top img 288 (k + 2)).toNat + 8 * (thin_mid img 288 (k + 2)).toNat) ∧
  t.qb 383 = 0

/-- The image after one sweep over `img`: the passes N, S, W, E in turn. -/
def thin_sweep_img (img : Nat → uchar) : Nat → uchar :=
  thin_pass_img (thin_pass_img (thin_pass_img (thin_pass_img img 0o200) 0o002) 0o040) 0o010

/-- The value of `count` after one sweep over `img`. -/
def thin_sweep_count (img : Nat → uchar) : Nat :=
  0 + thin_pass_count img 0o200 110976
    + thin_pass_count (thin_pass_img img 0o200) 0o002 110976
    + thin_pass_count (thin_pass_img (thin_pass_img img 0o200) 0o002) 0o040 110976
    + thin_pass_count
        (thin_pass_img (thin_pass_img (thin_pass_img img 0o200) 0o002) 0o040) 0o010 110976

/-- A full frame that is 0xFF at (column, row) = (1, 2), (2, 2) and (0, 3) and 0
elsewhere. -/
def fp_stuck : dpfp_fprint :=
  { header_size := 64, data_size := 110976, header := fun _ => 0,
    data := fun k => if k = 769 ∨ k = 770 ∨ k = 1152 then 0xff else 0 }

/-- A full frame that is 0xFF on row `r`, columns `c1 .. c2`, and 0 elsewhere. -/
def fp_bar (r c1 c2 : Nat) : dpfp_fprint :=
  { header_size := 64, data_size := 110976, header := fun _ => 0,
    data := fun k => if k / 384 = r ∧ c1 ≤ k % 384 ∧ k % 384 ≤ c2 then 0xff else 0 }

/-! ## The deletion table and 8-simple pixels -/

/-- Row of cell `k` of a 3 x 3 window whose cells are numbered 0 .. 8 in scan
order (`a b c / d e f / g h i`). -/
def cell_row (k : Nat) : Nat := k / 3

/-- Column of cell `k` of the window. -/
def cell_col (k : Nat) : Nat := k % 3

/-- Cells `j` and `k` of the window are distinct and touch by an edge or a
corner. -/
def adj8 (j k : Nat) : Bool :=
  decide (j ≠ k) && decide (cell_row j ≤ cell_row k + 1) && decide (cell_row k ≤ cell_row j + 1)
    && decide (cell_col j ≤ cell_col k + 1) && decide (cell_col k ≤ cell_col j + 1)

/-- Cells `j` and `k` of the window touch by an edge. -/
def adj4 (j k : Nat) : Bool :=
  adj8 j k && (decide (cell_row j = cell_row k) || decide (cell_col j = cell_col k))

/-- The set `x` of cells (bit `k` for cell `k`) together with the cells to the
left and to the right of its cells. -/
def widen (x : Nat) : Nat :=
  x ||| ((x &&& 0o333) <<< 1) ||| ((x &&& 0o666) >>> 1)

/-- The set `x` of cells together with the cells above and below its cells. -/
def heighten (x : Nat) : Nat :=
  x ||| ((x <<< 3) &&& 0o777) ||| (x >>> 3)

/-- The set `x` with all cells that touch it by an edge or a corner. -/
def grow8 (x : Nat) : Nat := heighten (widen x)

/-- The set `x` with all cells that touch it by an edge. -/
def grow4 (x : Nat) : Nat := widen x ||| heighten x

/-- Number of connected components of the set of cells `s`, where `grow` adds
to a set the cells that touch it: the cells are visited in order, and each cell
of `s` that no earlier flood fill has reached starts a new component, which
eight fill steps inside `s` exhaust. -/
def components (grow : Nat → Nat) (s : Nat) : Nat :=
  ((List.range 9).foldl
    (fun (st : Nat × Nat) k =>
      if s.testBit k && !st.1.testBit k then
        ((fun x => grow x &&& s)^[8] (st.1 ||| 2 ^ k), st.2 + 1)
      else st)
    (0, 0)).2

/-- The window `a b c / d e f / g h i` as the set of its set cells. -/
def window (a b c d e f g h i : Bool) : Nat :=
  a.toNat + 2 * b.toNat + 4 * c.toNat + 8 * d.toNat + 16 * e.toNat + 32 * f.toNat
    + 64 * g.toNat + 128 * h.toNat + 256 * i.toNat

/-- Number of set neighbours of the centre. -/
def set_neighbours (a b c d f g h i : Bool) : Nat :=
  a.toNat + b.toNat + c.toNat + d.toNat + f.toNat + g.toNat + h.toNat + i.toNat

/-- The centre of the window is 8-simple: clearing it changes neither the number
of 8-connected components of the set pixels of the window nor the number of
4-connected components of its clear pixels. -/
def simple8 (a b c d f g h i : Bool) : Bool :=
  decide (components grow8 (window a b c d true f g h i)
            = components grow8 (window a b c d false f g h i)) &&
  decide (components grow4 (511 - window a b c d true f g h i)
            = components grow4 (511 - window a b c d false f g h i))

/-! ## dpfp_hw.c and dpfp_simple.c: interrupts -/

/-- Length of an interrupt packet, `#define DPFP_IRQ_LENGTH 64`. -/
abbrev DPFP_IRQ_LENGTH : Nat := 64

/-- Reduction of a value to the range of `int` (32 bits, two's complement). -/
def int_wrap (v : Int) : Int :=
  (v + 2 ^ 31) % 2 ^ 32 - 2 ^ 31

/-- What lies outside the library when it waits for interrupts: the value of
the macro `ETIMEDOUT` of `<errno.h>`, and for each `n` the outcome of the
`n`-th call of libusb's `usb_interrupt_read` on the interrupt endpoint. -/
structure irq_source where
  ETIMEDOUT : Int
  reads : Nat → bulk_result

/-- The interrupt buffer together with the number of interrupt reads made so far. -/
structure irq_state where
  buf : Nat → uchar
  pos : Nat

/-- Effect of `usb_interrupt_read(..., buf, DPFP_IRQ_LENGTH, 1000)` with outcome
`r` on the memory at `buf`: the bytes received are stored from the start; a
failed transfer is taken to store nothing. -/
def usb_interrupt_read (r : bulk_result) (buf : Nat → uchar) : Nat → uchar :=
  if r.ret < 0 then buf else memcpy buf 0 r.bytes 0 r.ret.toNat

/-- The part of `dpfp_get_irq` from the label `retry` on, with at most `fuel`
interrupt reads; `none` means that more reads are needed.  The decrement
`timeout--` is reduced to the range of `int`. -/
def get_irq_retry (dev : irq_source) :
    Nat → Int → Bool → irq_state → Option (Int × irq_state)
  | 0, _, _, _ => none
  | fuel + 1, timeout, infinite_timeout, s =>
    let r := (dev.reads s.pos).ret
    let s1 : irq_state := { buf := usb_interrupt_read (dev.reads s.pos) s.buf, pos := s.pos + 1 }
    if r = -dev.ETIMEDOUT ∧
        ((infinite_timeout = false ∧ timeout > 0) ∨ infinite_timeout = true) then
      get_irq_retry dev fuel (int_wrap (timeout - 1)) infinite_timeout s1
    else if r < 0 then some (r, s1)
    else if r < DPFP_IRQ_LENGTH then some (-1, s1)
    else some (0, s1)

/-- The routine `dpfp_get_irq(dev, buf, timeout)` with at most `fuel` interrupt
reads: the returned `int` and the state afterwards. -/
def dpfp_get_irq (dev : irq_source) (fuel : Nat) (timeout : Int) (s : irq_state) :
    Option (Int × irq_state) :=
  get_irq_retry dev fuel timeout (decide (timeout = 0)) s

/-- The value `be16_to_cpu(*((uint16_t *) buf))`: the first two bytes of the
buffer read as a big-endian number.  On a little-endian machine the load gives
`buf[0] + 256 * buf[1]` and the macro `(((x & 0xff) << 8) | (x >> 8))` swaps
the two bytes; on a big-endian machine the load gives the same value and the
macro is the identity. -/
def irq_type (buf : Nat → uchar) : Nat :=
  let x := (buf 0).val + 256 * (buf 1).val
  (((x &&& 0xff) <<< 8) ||| (x >>> 8)) % 65536

/-- The routine `dpfp_simple_get_irq_with_type(dev, irqtype, irqbuf, timeout)`
with at most `fuel` rounds of its `do ... while` loop, each with at most `g`
interrupt reads: the returned `int` and the state afterwards.  The counter
`discarded` only feeds a debug message and is left out. -/
def dpfp_simple_get_irq_with_type (dev : irq_source) (g : Nat) (irqtype : Nat)
    (timeout : Int) : Nat → irq_state → Option (Int × irq_state)
  | 0, _ => none
  | fuel + 1, s =>
    match dpfp_get_irq dev g timeout s with
    | none => none
    | some (result, s1) =>
      if result < 0 then some (result, s1)
      else if irq_type s1.buf ≠ irqtype then
        dpfp_simple_get_irq_with_type dev g irqtype timeout fuel s1
      else some (0, s1)

/-- An interrupt source on which every read times out (`ETIMEDOUT` is 110 on Linux). -/
def irq_silent : irq_source :=
  { ETIMEDOUT := 110, reads := fun _ => { ret := -110, bytes := fun _ => 0 } }

/-- An interrupt source that delivers a 64-byte packet starting `01 01`, then a
64-byte packet starting `56 AA`, and then only times out. -/
def irq_two_packets : irq_source :=
  { ETIMEDOUT := 110,
    reads := fun n =>
      if n = 0 then { ret := 64, bytes := fun k => if k < 2 then 0x01 else 0 }
      else if n = 1 then { ret := 64, bytes := fun k => if k = 0 then 0x56 else if k = 1 then 0xaa else 0 }
      else { ret := -110, bytes := fun _ => 0 } }

/-- The state before any interrupt read, with a zeroed buffer. -/
def irq_start : irq_state :=
  { buf := fun _ => 0, pos := 0 }

/-! ## dpfp_fprint.c: writing a PGM file -/

/-- The values of `errno` that the library sets itself. -/
inductive errno_code where
  | EIO
  | EFBIG
  | ENODEV
  | ENOMEM
deriving DecidableEq, Repr

/-- What lies outside the library when it writes a file: whether `fopen`
succeeds, and whether the `n`-th output call on the stream (`fputs`, `fputc`,
`fwrite`, counted from 0) succeeds. -/
structure file_env where
  fopen_ok : Bool
  write_ok : Nat → Bool

/-- Outcome of `dpfp_fprint_write_to_file`: the returned `int`, the value the
routine itself stores in `errno` (if any), and the contents of the file (if it
was opened, which truncates it). -/
structure write_result where
  ret : Int
  errno : Option errno_code
  file : Option (List uchar)
deriving DecidableEq

/-- The bytes of an ASCII string. -/
def ascii (s : String) : List uchar :=
  s.toList.map (fun c => Fin.ofNat c.toNat)

/-- The characters that the conversion `%d` produces for `v`. -/
def decimal (v : Int) : List uchar :=
  if v < 0 then ascii "-" ++ (Nat.toDigits 10 v.natAbs).map (fun c => Fin.ofNat c.toNat)
  else (Nat.toDigits 10 v.natAbs).map (fun c => Fin.ofNat c.toNat)

/-- The call `sprintf(buf, "%d", v)` into an array of `cap` bytes: the
characters stored before the terminating NUL, or `none` when they and the NUL
do not fit into the array (the call then writes past its end). -/
def sprintf_d (cap : Nat) (v : Int) : Option (List uchar) :=
  if (decimal v).length + 1 ≤ cap then some (decimal v) else none

/-- The pixel bytes `data[0 .. data_size - 1]` of a fingerprint. -/
def fp_bytes (fp : dpfp_fprint) : List uchar :=
  (List.range fp.data_size).map fp.data

/-- The end of `dpfp_fprint_write_to_file`, from `fwrite` on, with the file
contents `f` written so far: the count that `fwrite` returns, which is
`data_size` when the call succeeds and is taken as 0 when it fails, is stored
in the `int` variable `result` and so reduced to the range of `int`. -/
def write_pixels (env : file_env) (fp : dpfp_fprint) (f : List uchar) : write_result :=
  if int_wrap (if env.write_ok 5 = true then (fp.data_size : Int) else 0) < 0 then
    { ret := -1, errno := none,
      file := some (if env.write_ok 5 = true then f ++ fp_bytes fp else f) }
  else
    { ret := 0, errno := none,
      file := some (if env.write_ok 5 = true then f ++ fp_bytes fp else f) }

/-- The part of `dpfp_fprint_write_to_file` after the successful `fopen`: the
output calls in order, each followed by its `goto err` test.  The result is
`none` when a `sprintf` writes past the end of `pgm_header[4]`.  A failed
output call is taken to write nothing. -/
def write_header (env : file_env) (fp : dpfp_fprint) (num_rows : Int) : Option write_result :=
  if env.write_ok 0 = false then some { ret := -1, errno := none, file := some [] }
  else
    (sprintf_d 4 (DPFP_IMG_WIDTH : Int)).bind (fun width =>
      if env.write_ok 1 = false then
        some { ret := -1, errno := none, file := some (ascii "P5 ") }
      else if env.write_ok 2 = false then
        some { ret := -1, errno := none, file := some (ascii "P5 " ++ width) }
      else
        (sprintf_d 4 num_rows).bind (fun rows =>
          if env.write_ok 3 = false then
            some { ret := -1, errno := none, file := some (ascii "P5 " ++ width ++ ascii " ") }
          else if env.write_ok 4 = false then
            some { ret := -1, errno := none,
                   file := some (ascii "P5 " ++ width ++ ascii " " ++ rows) }
          else
            some (write_pixels env fp (ascii "P5 " ++ width ++ ascii " " ++ rows ++ ascii " 255 "))))

/-- The routine `dpfp_fprint_write_to_file(fp, filename)`.  `num_rows` is an
`int`, so the quotient `data_size / DPFP_IMG_WIDTH` is reduced to its range. -/
def dpfp_fprint_write_to_file (env : file_env) (fp : dpfp_fprint) : Option write_result :=
  if fp.data_size ≤ 0 then some { ret := -1, errno := some errno_code.EIO, file := none }
  else if int_wrap ((fp.data_size / DPFP_IMG_WIDTH : Nat) : Int) > 999 then
    some { ret := -1, errno := some errno_code.EFBIG, file := none }
  else if env.fopen_ok = false then some { ret := -1, errno := none, file := none }
  else write_header env fp (int_wrap ((fp.data_size / DPFP_IMG_WIDTH : Nat) : Int))

/-- A file system on which every call succeeds. -/
def env_ok : file_env :=
  { fopen_ok := true, write_ok := fun _ => true }

/-- The fingerprint that `dpfp_capture_fprint` leaves when both bulk reads
succeed with 0 bytes: its `data_size` is `2^64 - 64`. -/
def fp_wrapped : dpfp_fprint :=
  (dpfp_capture_fprint (bulk_of 0 0) (bulk_of 0 0) fp_ramp).2

/-! ## dpfp_fprint_efinger.c: matching -/

/-- The floating-point arithmetic that `dpfp_fprint_mset_match1` relies on, which
is outside the library: `rnd32` and `rnd64` round an exact result to `float` and
to `double`, and `pow02 d` and `pow03 d` are what libm's `pow` returns for
`pow(d, 0.2)` and `pow(d, 0.3)` with the `int` value `d`. -/
structure float_env where
  rnd32 : ℚ → ℚ
  rnd64 : ℚ → ℚ
  pow02 : Int → ℚ
  pow03 : Int → ℚ

/-- What `dpfp_fprint_mset_match1` leaves: the returned `float` and the two sets. -/
structure match_result where
  score : ℚ
  mset1 : dpfp_mset
  mset2 : dpfp_mset

/-- The loop body `meanx += minutiae[i].x; meany += minutiae[i].y;`. -/
def mean_body (mset : dpfp_mset) (i : Nat) (m : Int × Int) : Int × Int :=
  (int_wrap (m.1 + (mset.minutiae i).x), int_wrap (m.2 + (mset.minutiae i).y))

/-- The sums of the coordinates followed by `meanx /= count; meany /= count;`
(division of `int`s truncates towards zero). -/
def mset_mean (mset : dpfp_mset) : Int × Int :=
  let sum := for_range 0 mset.count (mean_body mset) (0, 0)
  (Int.tdiv sum.1 (mset.count : Int), Int.tdiv sum.2 (mset.count : Int))

/-- The loop body `minutiae[i].x -= mean1x - mean2x; minutiae[i].y -= mean1y - mean2y;`. -/
def translate_body (mean1 mean2 : Int × Int) (i : Nat) (mset : dpfp_mset) : dpfp_mset :=
  { mset with
    minutiae := fun n =>
      if n = i then
        { x := int_wrap ((mset.minutiae i).x - int_wrap (mean1.1 - mean2.1)),
          y := int_wrap ((mset.minutiae i).y - int_wrap (mean1.2 - mean2.2)) }
      else mset.minutiae n }

/-- The `int` expression `(x2 - x) * (x2 - x) + (y2 - y) * (y2 - y)` for the
points `p = (x, y)` and `q = (x2, y2)`. -/
def match_dist2 (p q : dpfp_minutia) : Int :=
  int_wrap (int_wrap (int_wrap (q.x - p.x) * int_wrap (q.x - p.x))
    + int_wrap (int_wrap (q.y - p.y) * int_wrap (q.y - p.y)))

/-- The value `1.0f / (float) (pow(d2, e) + 1)`, where `pw d2` is the result of
`pow`: the sum is a `double`, the quotient a `float`. -/
def match_new_value (env : float_env) (pw : Int → ℚ) (d2 : Int) : ℚ :=
  env.rnd32 (1 / env.rnd32 (env.rnd64 (pw d2 + 1)))

/-- Round `j` of the inner loop for point `i` of the set `own` against the set
`other`: like the source it reads `other->minutiae[i]`, not `[j]`. -/
def match_inner (env : float_env) (pw : Int → ℚ) (own other : dpfp_mset) (i : Nat)
    (_j : Nat) (thisValue : ℚ) : ℚ :=
  if match_new_value env pw (match_dist2 (own.minutiae i) (other.minutiae i)) > thisValue then
    match_new_value env pw (match_dist2 (own.minutiae i) (other.minutiae i))
  else thisValue

/-- One of the two scoring loops: `value` after the loop over the points of
`own`, each scored by the inner loop over `other->count` rounds. -/
def match_sum (env : float_env) (pw : Int → ℚ) (own other : dpfp_mset) : ℚ :=
  for_range 0 own.count
    (fun i value =>
      env.rnd32 (value + for_range 0 other.count (match_inner env pw own other i) 0))
    0

/-- The routine `dpfp_fprint_mset_match1(mset1, mset2)` on two distinct sets;
`none` when a count is 0, where the routine divides by zero. -/
def dpfp_fprint_mset_match1 (env : float_env) (mset1 mset2 : dpfp_mset) : Option match_result :=
  if mset1.count = 0 then none
  else if mset2.count = 0 then none
  else
    let moved := for_range 0 mset1.count (translate_body (mset_mean mset1) (mset_mean mset2)) mset1
    let returnValue := env.rnd32 (match_sum env env.pow02 moved mset2 / env.rnd32 (moved.count : ℚ))
    let returnValue2 := env.rnd32 (returnValue
      + env.rnd32 (match_sum env env.pow03 mset2 moved / env.rnd32 (mset2.count : ℚ)))
    some { score := env.rnd32 (returnValue2 * 50), mset1 := moved, mset2 := mset2 }

/-- Round `j` of the inner loop as the specification describes it: point `i` of
`own` against point `j` of `other`. -/
def match_inner_spec (env : float_env) (pw : Int → ℚ) (own other : dpfp_mset) (i : Nat)
    (j : Nat) (thisValue : ℚ) : ℚ :=
  if match_new_value env pw (match_dist2 (own.minutiae i) (other.minutiae j)) > thisValue then
    match_new_value env pw (match_dist2 (own.minutiae i) (other.minutiae j))
  else thisValue

/-- The scoring loop as the specification describes it: each point of `own` is
scored by the best value over all points of `other`. -/
def match_sum_spec (env : float_env) (pw : Int → ℚ) (own other : dpfp_mset) : ℚ :=
  for_range 0 own.count
    (fun i value =>
      env.rnd32 (value + for_range 0 other.count (match_inner_spec env pw own other i) 0))
    0

/-- Search for the greatest `r` with `r ^ k ≤ n`, upwards from `r`. -/
def floor_root_from (k n : Nat) : Nat → Nat → Nat
  | 0, r => r
  | fuel + 1, r => if (r + 1) ^ k ≤ n then floor_root_from k n fuel (r + 1) else r

/-- The greatest `r` with `r ^ k ≤ n` (for `k ≥ 1`). -/
def floor_root (k n : Nat) : Nat :=
  floor_root_from k n n 0

/-- Exact arithmetic with a `pow` that is rounded down to an integer: an
environment in which the routines can be evaluated. -/
def env_exact : float_env :=
  { rnd32 := fun q => q, rnd64 := fun q => q,
    pow02 := fun d => (floor_root 5 d.toNat : ℚ),
    pow03 := fun d => (floor_root 10 (d.toNat ^ 3) : ℚ) }

/-- The set of the points in the list `l`. -/
def mset_of (l : List dpfp_minutia) : dpfp_mset :=
  { minutiae := fun n => l.getD n { x := 0, y := 0 }, count := l.length }

/-- The set with the points (0, 0) and (10, 0). -/
def mset_near : dpfp_mset :=
  mset_of [{ x := 0, y := 0 }, { x := 10, y := 0 }]

/-- The same two points in the other order. -/
def mset_near_swapped : dpfp_mset :=
  mset_of [{ x := 10, y := 0 }, { x := 0, y := 0 }]

/-- The sum of `f` over the points `0 .. count - 1` of a set. -/
def coord_sum (f : dpfp_minutia → Int) (mset : dpfp_mset) : Int :=
  ((List.range mset.count).map (fun i => f (mset.minutiae i))).sum

/-- The mean of the `x` coordinates of a set, truncated towards zero. -/
def mean_x (mset : dpfp_mset) : Int :=
  Int.tdiv (coord_sum (fun p => p.x) mset) (mset.count : Int)

/-- The mean of the `y` coordinates of a set, truncated towards zero. -/
def mean_y (mset : dpfp_mset) : Int :=
  Int.tdiv (coord_sum (fun p => p.y) mset) (mset.count : Int)

/-- The set is not empty, fits the array, and has coordinates of absolute value
at most `b`. -/
def mset_within (b : Int) (mset : dpfp_mset) : Prop :=
  0 < mset.count ∧ mset.count ≤ DPFP_MAX_MINUTIAE ∧
  ∀ i, i < mset.count →
    -b ≤ (mset.minutiae i).x ∧ (mset.minutiae i).x ≤ b ∧
    -b ≤ (mset.minutiae i).y ∧ (mset.minutiae i).y ≤ b

/-- The first `n` entries of the array of a set have coordinates of absolute
value at most `b`. -/
def entries_within (b : Int) (mset : dpfp_mset) (n : Nat) : Prop :=
  ∀ i, i < n →
    -b ≤ (mset.minutiae i).x ∧ (mset.minutiae i).x ≤ b ∧
    -b ≤ (mset.minutiae i).y ∧ (mset.minutiae i).y ≤ b

/-- The set with every entry moved by `(dx, dy)`. -/
def mset_shift (dx dy : Int) (mset : dpfp_mset) : dpfp_mset :=
  { mset with
    minutiae := fun i => { x := (mset.minutiae i).x + dx, y := (mset.minutiae i).y + dy } }

/-- What IEEE 754 arithmetic and the C standard guarantee of an environment:
rounding is monotone, the integers up to 384 are `float` values and 1 is a
`double` value, `pow(0, y)` is 0 for `y > 0`, and `pow` of a non-negative base
is not negative. -/
def float_env_ok (env : float_env) : Prop :=
  (∀ a b : ℚ, a ≤ b → env.rnd32 a ≤ env.rnd32 b) ∧
  (∀ a b : ℚ, a ≤ b → env.rnd64 a ≤ env.rnd64 b) ∧
  (∀ n : Nat, n ≤ 384 → env.rnd32 (n : ℚ) = (n : ℚ)) ∧
  env.rnd64 1 = 1 ∧
  env.pow02 0 = 0 ∧ env.pow03 0 = 0 ∧
  (∀ d : Int, 0 ≤ d → 0 ≤ env.pow02 d) ∧ (∀ d : Int, 0 ≤ d → 0 ≤ env.pow03 d)

/-- The first set after the loop that moves it. -/
def match_moved (mset1 mset2 : dpfp_mset) : dpfp_mset :=
  for_range 0 mset1.count (translate_body (mset_mean mset1) (mset_mean mset2)) mset1

/-- The score that the routine computes from the moved first set `a` and the
second set `b`. -/
def match_score (env : float_env) (a b : dpfp_mset) : ℚ :=
  env.rnd32 (env.rnd32 (env.rnd32 (match_sum env env.pow02 a b / env.rnd32 (a.count : ℚ))
    + env.rnd32 (match_sum env env.pow03 b a / env.rnd32 (b.count : ℚ))) * 50)

/-! ## dpfp.c: opening a device -/

/-- The fields of libusb's `struct usb_endpoint_descriptor` that the library reads. -/
structure usb_endpoint_descriptor where
  bEndpointAddress : Nat
  bmAttributes : Nat

/-- The fields of libusb's `struct usb_interface_descriptor` that the library reads. -/
structure usb_interface_descriptor where
  bInterfaceNumber : Nat
  bInterfaceClass : Nat
  bInterfaceSubClass : Nat
  bInterfaceProtocol : Nat
  bNumEndpoints : Nat
  endpoint : List usb_endpoint_descriptor

/-- The library's view of libusb's `struct usb_interface`. -/
structure usb_interface where
  num_altsetting : Int
  altsetting : List usb_interface_descriptor

/-- One call of libusb's `usb_control_msg`: request type, request, value, index,
the bytes handed over and the size. -/
structure ctrl_msg where
  requesttype : Nat
  request : Nat
  value : Nat
  index : Nat
  data : List uchar
  size : Nat
deriving DecidableEq

/-- OpenSSL's `AES_KEY`, a key schedule, held as what it was expanded from: the
user key and its size in bits as given to `AES_set_encrypt_key`, or `none` for
the zeroed schedule that the global `aeskey` holds before `dpfp_init`. -/
abbrev AES_KEY := Option (List uchar × Nat)

/-- The table `crkey[]`. -/
def crkey : List uchar :=
  [0x79, 0xac, 0x91, 0x79, 0x5c, 0xa1, 0x47, 0x8e,
   0x98, 0xe0, 0x0f, 0x3c, 0x59, 0x8f, 0x5f, 0x4b]

/-- The routine `dpfp_init()`: the value it leaves in the global `aeskey`,
`AES_set_encrypt_key(crkey, 128, &aeskey)` (its return value is always 0, and
`usb_init` has no effect on the library's own state). -/
def dpfp_init : AES_KEY :=
  some (crkey, 128)

/-- What lies outside the library when it opens a device, with `σ` the state of
the device: the interfaces of the configuration (`config->interface[0 ..
bNumInterfaces - 1]`), whether `usb_open` and `malloc` succeed, what
`usb_claim_interface` returns, how the device answers a control message (the
returned `int`, the bytes it delivers, its next state), the interrupts it
sends, the value of `EIO`, the key schedule held by the global `aeskey`, and
OpenSSL's `AES_encrypt` (key schedule, then the 16-byte block). -/
structure usb_world (σ : Type) where
  interfaces : List usb_interface
  open_ok : Bool
  claim : Int
  malloc_ok : Bool
  control : σ → ctrl_msg → Int × List uchar × σ
  irq : irq_source
  EIO : Int
  aeskey : AES_KEY
  aes : AES_KEY → List uchar → List uchar

/-- State while a device is opened: the state of the device, the control
messages sent so far (oldest first), and the interrupt buffer with the number
of interrupt reads made. -/
structure open_state (σ : Type) where
  dev : σ
  log : List ctrl_msg
  irqs : irq_state

/-- `#define USB_IN 0xc0`. -/
abbrev USB_IN : Nat := 0xc0
/-- `#define USB_OUT 0x40`. -/
abbrev USB_OUT : Nat := 0x40
/-- `#define USB_RQ 0x04`. -/
abbrev USB_RQ : Nat := 0x04
/-- `#define HWSTAT_CONTROL 0x07`. -/
abbrev HWSTAT_CONTROL : Nat := 0x07
/-- `#define MODE_CONTROL 0x4e`. -/
abbrev MODE_CONTROL : Nat := 0x4e
/-- `#define AUTH_CHALLENGE 0x2010`. -/
abbrev AUTH_CHALLENGE : Nat := 0x2010
/-- `#define AUTH_RESPONSE 0x2000`. -/
abbrev AUTH_RESPONSE : Nat := 0x2000
/-- `#define DPFP_AUTH_CR_LENGTH 16`. -/
abbrev DPFP_AUTH_CR_LENGTH : Nat := 16
/-- `#define EP_INTR 0x81`. -/
abbrev EP_INTR : Nat := 0x81
/-- `#define EP_DATA 0x82`. -/
abbrev EP_DATA : Nat := 0x82
/-- `#define DPFP_IRQDATA_SCANPWR_ON 0x56aa`. -/
abbrev DPFP_IRQDATA_SCANPWR_ON : Nat := 0x56aa
/-- `DEV_TYPE_URU4000Bg2 = 2`. -/
abbrev DEV_TYPE_URU4000Bg2 : Nat := 2
/-- libusb's `USB_ENDPOINT_TYPE_MASK`. -/
abbrev USB_ENDPOINT_TYPE_MASK : Nat := 0x03
/-- libusb's `USB_ENDPOINT_TYPE_BULK`. -/
abbrev USB_ENDPOINT_TYPE_BULK : Nat := 2
/-- libusb's `USB_ENDPOINT_TYPE_INTERRUPT`. -/
abbrev USB_ENDPOINT_TYPE_INTERRUPT : Nat := 3

/-- The table `dev_type_tbl`: `firmware_start` and `fw_enc_offset` by device type. -/
def dev_type_tbl : List (Nat × Nat) :=
  [(0x400, 0x3f7), (0x100, 0x42b), (0x100, 0x52e)]

/-- The call `usb_control_msg(dev->handle, ...)`: the message is recorded and
answered by the device. -/
def usb_control_msg {σ : Type} (w : usb_world σ) (s : open_state σ) (m : ctrl_msg) :
    Int × List uchar × open_state σ :=
  ((w.control s.dev m).1, (w.control s.dev m).2.1,
    { s with dev := (w.control s.dev m).2.2, log := s.log ++ [m] })

/-- The byte at `*data` after a control read of one byte into it: the byte
delivered, or the old one when nothing was delivered. -/
def read_byte (r : Int) (reply : List uchar) (old : uchar) : uchar :=
  if 0 < r then reply.getD 0 old else old

/-- The routine `dpfp_get_hwstat(dev, data)`: the returned `int`, the byte at
`*data` afterwards, and the state. -/
def dpfp_get_hwstat {σ : Type} (w : usb_world σ) (s : open_state σ) (old : uchar) :
    Int × uchar × open_state σ :=
  let r := usb_control_msg w s
    { requesttype := USB_IN, request := USB_RQ, value := HWSTAT_CONTROL, index := 0,
      data := [], size := 1 }
  (r.1, read_byte r.1 r.2.1 old, r.2.2)

/-- The routine `dpfp_set_hwstat(dev, val)`. -/
def dpfp_set_hwstat {σ : Type} (w : usb_world σ) (s : open_state σ) (val : uchar) :
    Int × open_state σ :=
  let r := usb_control_msg w s
    { requesttype := USB_OUT, request := USB_RQ, value := HWSTAT_CONTROL, index := 0,
      data := [val], size := 1 }
  (r.1, r.2.2)

/-- The routine `dpfp_set_mode(dev, mode)`. -/
def dpfp_set_mode {σ : Type} (w : usb_world σ) (s : open_state σ) (mode : uchar) :
    Int × open_state σ :=
  let r := usb_control_msg w s
    { requesttype := USB_OUT, request := USB_RQ, value := MODE_CONTROL, index := 0,
      data := [mode], size := 1 }
  (r.1, r.2.2)

/-- The routine `fix_firmware(dev)` for a device of type `type`; `val` is
uninitialised before the read and taken as 0. -/
def fix_firmware {σ : Type} (w : usb_world σ) (type : Nat) (s : open_state σ) :
    Int × open_state σ :=
  let enc_addr := ((dev_type_tbl.getD type (0, 0)).1 + (dev_type_tbl.getD type (0, 0)).2)
    % 2 ^ 32
  let r := usb_control_msg w s
    { requesttype := 0xc0, request := 0x0c, value := enc_addr, index := 0, data := [],
      size := 1 }
  if r.1 < 0 then (r.1, r.2.2)
  else
    let val := read_byte r.1 r.2.1 0
    let new : uchar := Fin.ofNat (val.val &&& 0xef)
    if new = val then (0, r.2.2)
    else
      let r2 := usb_control_msg w r.2.2
        { requesttype := 0x40, request := 0x04, value := enc_addr, index := 0, data := [new],
          size := 1 }
      if r2.1 < 0 then (r2.1, r2.2.2) else (1, r2.2.2)

/-- The routine `dpfp_simple_auth_cr(dev)`; the array `challenge` is taken as
zeroed before the read. -/
def dpfp_simple_auth_cr {σ : Type} (w : usb_world σ) (s : open_state σ) : Int × open_state σ :=
  let r := usb_control_msg w s
    { requesttype := USB_IN, request := USB_RQ, value := AUTH_CHALLENGE, index := 0,
      data := [], size := DPFP_AUTH_CR_LENGTH }
  if r.1 < 0 then (r.1, r.2.2)
  else if r.1 < 0x10 then (-w.EIO, r.2.2)
  else
    let challenge := (List.range DPFP_AUTH_CR_LENGTH).map (fun k => r.2.1.getD k 0)
    let r2 := usb_control_msg w r.2.2
      { requesttype := USB_OUT, request := USB_RQ, value := AUTH_RESPONSE, index := 0,
        data := w.aes w.aeskey challenge, size := DPFP_AUTH_CR_LENGTH }
    if r2.1 > 0 ∧ r2.1 < 0x10 then (-w.EIO, r2.2.2) else (r2.1, r2.2.2)

/-- The loop `for (i = 0; i < 100; i++)` that follows the first `set_hwstat` of
the power reboot, with `n` rounds left: the status and the state at its end, or
the state at a failed read (`goto err_release`).  A status with bit 0 set ends
the loop early. -/
def reboot_wait {σ : Type} (w : usb_world σ) :
    Nat → open_state σ → uchar → Except (open_state σ) (uchar × open_state σ)
  | 0, s, status => .ok (status, s)
  | n + 1, s, status =>
    if (dpfp_get_hwstat w s status).1 < 0 then .error (dpfp_get_hwstat w s status).2.2
    else if (dpfp_get_hwstat w s status).2.1.val &&& 0x1 ≠ 0 then
      .ok ((dpfp_get_hwstat w s status).2.1, (dpfp_get_hwstat w s status).2.2)
    else
      reboot_wait w n (dpfp_get_hwstat w s status).2.2 (dpfp_get_hwstat w s status).2.1

/-- One round of the loop that powers the device up, after its `set_hwstat`
succeeded in state `s`: `buf[0]` and the state, with `true` when the loop ends
here (`break`), or the state at a failed call. -/
def power_up_round {σ : Type} (w : usb_world σ) (type : Nat) (s : open_state σ) (buf0 : uchar) :
    Except (open_state σ) (Bool × uchar × open_state σ) :=
  if (dpfp_get_hwstat w s buf0).1 < 0 then .error (dpfp_get_hwstat w s buf0).2.2
  else if (dpfp_get_hwstat w s buf0).2.1.val &&& 0x80 = 0 then
    .ok (true, (dpfp_get_hwstat w s buf0).2.1, (dpfp_get_hwstat w s buf0).2.2)
  else if type = DEV_TYPE_URU4000Bg2 then
    if (dpfp_simple_auth_cr w (dpfp_get_hwstat w s buf0).2.2).1 < 0 then
      .error (dpfp_simple_auth_cr w (dpfp_get_hwstat w s buf0).2.2).2
    else
      .ok (false, (dpfp_get_hwstat w s buf0).2.1,
        (dpfp_simple_auth_cr w (dpfp_get_hwstat w s buf0).2.2).2)
  else .ok (false, (dpfp_get_hwstat w s buf0).2.1, (dpfp_get_hwstat w s buf0).2.2)

/-- The loop `for (i = 0; i < 100; i++)` that powers the device up, with `n`
rounds left: `buf[0]` and the state at its end, or the state at a failed call. -/
def power_up {σ : Type} (w : usb_world σ) (type : Nat) (status : uchar) :
    Nat → open_state σ → uchar → Except (open_state σ) (uchar × open_state σ)
  | 0, s, buf0 => .ok (buf0, s)
  | n + 1, s, buf0 =>
    if (dpfp_set_hwstat w s (Fin.ofNat (status.val &&& 0xf))).1 < 0 then
      .error (dpfp_set_hwstat w s (Fin.ofNat (status.val &&& 0xf))).2
    else
      match power_up_round w type (dpfp_set_hwstat w s (Fin.ofNat (status.val &&& 0xf))).2 buf0 with
      | .error e => .error e
      | .ok (true, b, t) => .ok (b, t)
      | .ok (false, b, t) => power_up w type status n t b

/-- The interface that the search loop of `dpfp_open_usb` settles on: the first
one that has an alternate setting and whose first alternate setting has class,
subclass and protocol 255. -/
def find_interface (l : List usb_interface) : Option usb_interface_descriptor :=
  match l.find? (fun i =>
      decide (¬ i.num_altsetting < 1) &&
      (match i.altsetting.head? with
       | none => false
       | some d => decide (d.bInterfaceClass = 255 ∧ d.bInterfaceSubClass = 255 ∧
           d.bInterfaceProtocol = 255))) with
  | none => none
  | some i => i.altsetting.head?

/-- The endpoint checks of `dpfp_open_usb`. -/
def endpoints_ok (d : usb_interface_descriptor) : Bool :=
  decide (d.bNumEndpoints = 2) &&
  (match d.endpoint.get? 0 with
   | none => false
   | some ep => decide (ep.bEndpointAddress = EP_INTR ∧
       ep.bmAttributes &&& USB_ENDPOINT_TYPE_MASK = USB_ENDPOINT_TYPE_INTERRUPT)) &&
  (match d.endpoint.get? 1 with
   | none => false
   | some ep => decide (ep.bEndpointAddress = EP_DATA ∧
       ep.bmAttributes &&& USB_ENDPOINT_TYPE_MASK = USB_ENDPOINT_TYPE_BULK))

/-- The power reboot of `dpfp_open_usb`, entered with the first status read:
the status and the state afterwards, or the state at `goto err_release`. -/
def power_reboot {σ : Type} (w : usb_world σ) (s : open_state σ) (status : uchar) :
    Except (open_state σ) (uchar × open_state σ) :=
  if status.val &&& 0x84 = 0x84 then
    if (dpfp_set_hwstat w s (Fin.ofNat (status.val &&& 0xf))).1 < 0 then
      .error (dpfp_set_hwstat w s (Fin.ofNat (status.val &&& 0xf))).2
    else
      match reboot_wait w 100 (dpfp_set_hwstat w s (Fin.ofNat (status.val &&& 0xf))).2 status with
      | .error e => .error e
      | .ok (st, t) => if st.val &&& 0x1 = 0 then .error t else .ok (st, t)
  else .ok (status, s)

/-- The step `if ((status & 0x80) == 0) { status |= 0x80; set_hwstat }`. -/
def scan_power_off {σ : Type} (w : usb_world σ) (s : open_state σ) (status : uchar) :
    Except (open_state σ) (uchar × open_state σ) :=
  if status.val &&& 0x80 = 0 then
    if (dpfp_set_hwstat w s (Fin.ofNat (status.val ||| 0x80))).1 < 0 then
      .error (dpfp_set_hwstat w s (Fin.ofNat (status.val ||| 0x80))).2
    else .ok (Fin.ofNat (status.val ||| 0x80), (dpfp_set_hwstat w s (Fin.ofNat (status.val ||| 0x80))).2)
  else .ok (status, s)

/-- The end of `dpfp_open_usb`, from `fix_firmware` on, for a device of type
`type`: whether a device handle is returned, and the state; `none` means that
the wait for the interrupt needs more than `fuel` rounds of at most `g` reads.
`buf[0]` is uninitialised before the first read into it and taken as 0. -/
def open_power_up {σ : Type} (w : usb_world σ) (type : Nat) (fuel g : Nat)
    (s : open_state σ) (status : uchar) : Option (Bool × open_state σ) :=
  if (fix_firmware w type s).1 < 0 then some (false, (fix_firmware w type s).2)
  else
    match power_up w type status 100 (fix_firmware w type s).2 0 with
    | .error e => some (false, e)
    | .ok (buf0, t) =>
      if buf0.val &&& 0x80 ≠ 0 then some (false, t)
      else
        match dpfp_simple_get_irq_with_type w.irq g DPFP_IRQDATA_SCANPWR_ON 5 fuel
            { buf := store t.irqs.buf 0 buf0, pos := t.irqs.pos } with
        | none => none
        | some (res, i) => some (decide (¬ res < 0), { t with irqs := i })

/-- The part of `dpfp_open_usb` after `malloc`: the handshake with the device.
`status` is uninitialised before the first read and taken as 0. -/
def open_handshake {σ : Type} (w : usb_world σ) (type : Nat) (fuel g : Nat)
    (s : open_state σ) : Option (Bool × open_state σ) :=
  if (dpfp_get_hwstat w s 0).1 < 0 then some (false, (dpfp_get_hwstat w s 0).2.2)
  else
    match power_reboot w (dpfp_get_hwstat w s 0).2.2 (dpfp_get_hwstat w s 0).2.1 with
    | .error e => some (false, e)
    | .ok (status, t) =>
      match scan_power_off w t status with
      | .error e => some (false, e)
      | .ok (status2, t2) => open_power_up w type fuel g t2 status2

/-- The routine `dpfp_open_usb(udev, deventry)` for a device entry of type
`type`: whether a device handle (not `NULL`) is returned, and the state. -/
def dpfp_open_usb {σ : Type} (w : usb_world σ) (type : Nat) (fuel g : Nat)
    (s : open_state σ) : Option (Bool × open_state σ) :=
  if w.open_ok = false then some (false, s)
  else
    match find_interface w.interfaces with
    | none => some (false, s)
    | some d =>
      if endpoints_ok d = false then some (false, s)
      else if w.claim < 0 then some (false, s)
      else if w.malloc_ok = false then some (false, s)
      else open_handshake w type fuel g s

/-- An interrupt source that delivers one 64-byte packet starting `56 AA` and
then only times out. -/
def irq_power_on : irq_source :=
  { ETIMEDOUT := 110,
    reads := fun n =>
      if n = 0 then
        { ret := 64, bytes := fun k => if k = 0 then 0x56 else if k = 1 then 0xaa else 0 }
      else { ret := -110, bytes := fun _ => 0 } }

/-- A mock device with the fingerprint interface and its two endpoints.  Its
state is the number of hwstat reads so far: the hwstat register reads 0x85 for
the first three reads and 0x01 afterwards; every other control transfer
succeeds in full, reads delivering zero bytes; it sends one interrupt `56 AA`. -/
def mock_world : usb_world Nat :=
  { interfaces :=
      [{ num_altsetting := 1,
         altsetting :=
           [{ bInterfaceNumber := 0, bInterfaceClass := 255, bInterfaceSubClass := 255,
              bInterfaceProtocol := 255, bNumEndpoints := 2,
              endpoint := [{ bEndpointAddress := 0x81, bmAttributes := 3 },
                           { bEndpointAddress := 0x82, bmAttributes := 2 }] }] }],
    open_ok := true, claim := 0, malloc_ok := true,
    control := fun n m =>
      if m.requesttype = USB_IN ∧ m.request = USB_RQ ∧ m.value = HWSTAT_CONTROL then
        (1, [if n < 3 then 0x85 else 0x01], n + 1)
      else if m.requesttype = USB_IN then ((m.size : Int), List.replicate m.size 0, n)
      else ((m.size : Int), [], n),
    irq := irq_power_on, EIO := 5, aeskey := dpfp_init, aes := fun _ l => l }

/-- The state before `dpfp_open_usb` talks to the mock device. -/
def mock_start : open_state Nat :=
  { dev := 0, log := [], irqs := irq_start }

/-! ## dpfp_fprint_fvs.c: the mask -/

/-- The C `struct dpfp_ffield`: the array `pimg` of `W * H` doubles.  A double
is represented by its value; the fields the claims are about hold no NaN. -/
structure dpfp_ffield where
  pimg : Nat → ℚ

/-- The body of the marking loop of `image_dilate` at column `x`, row `y`:
`if (P(x, y) == 0xff) { P(x - 1, y) |= 0x80; P(x + 1, y) |= 0x80;
P(x, y - 1) |= 0x80; P(x, y + 1) |= 0x80; }`. -/
def dilate_body (y x : Nat) (imgbuf : Nat → uchar) : Nat → uchar :=
  if imgbuf (x + y * DPFP_IMG_WIDTH) = 0xff then
    let b1 := store imgbuf (x - 1 + y * DPFP_IMG_WIDTH)
      (imgbuf (x - 1 + y * DPFP_IMG_WIDTH) ||| 0x80)
    let b2 := store b1 (x + 1 + y * DPFP_IMG_WIDTH) (b1 (x + 1 + y * DPFP_IMG_WIDTH) ||| 0x80)
    let b3 := store b2 (x + (y - 1) * DPFP_IMG_WIDTH) (b2 (x + (y - 1) * DPFP_IMG_WIDTH) ||| 0x80)
    store b3 (x + (y + 1) * DPFP_IMG_WIDTH) (b3 (x + (y + 1) * DPFP_IMG_WIDTH) ||| 0x80)
  else imgbuf

/-- The routine `image_dilate(image)` on the pixel array: the marking loop over
the inner rows and columns, then the loop that turns every non-zero pixel into
0xff. -/
def image_dilate (imgbuf : Nat → uchar) : Nat → uchar :=
  for_range 0 (DPFP_IMG_WIDTH * DPFP_IMG_HEIGHT)
    (fun y b => if b y ≠ 0 then store b y 0xff else b)
    (for_range 1 (DPFP_IMG_HEIGHT - 1)
      (fun y b => for_range 1 (DPFP_IMG_WIDTH - 1) (dilate_body y) b) imgbuf)

/-- The body of the marking loop of `image_erode` at column `x`, row `y`:
`if (P(x, y) == 0) { P(x - 1, y) &= 0x80; P(x + 1, y) &= 0x80;
P(x, y - 1) &= 0x80; P(x, y + 1) &= 0x80; }`. -/
def erode_body (y x : Nat) (imgbuf : Nat → uchar) : Nat → uchar :=
  if imgbuf (x + y * DPFP_IMG_WIDTH) = 0 then
    let b1 := store imgbuf (x - 1 + y * DPFP_IMG_WIDTH)
      (imgbuf (x - 1 + y * DPFP_IMG_WIDTH) &&& 0x80)
    let b2 := store b1 (x + 1 + y * DPFP_IMG_WIDTH) (b1 (x + 1 + y * DPFP_IMG_WIDTH) &&& 0x80)
    let b3 := store b2 (x + (y - 1) * DPFP_IMG_WIDTH) (b2 (x + (y - 1) * DPFP_IMG_WIDTH) &&& 0x80)
    store b3 (x + (y + 1) * DPFP_IMG_WIDTH) (b3 (x + (y + 1) * DPFP_IMG_WIDTH) &&& 0x80)
  else imgbuf

/-- The routine `image_erode(image)` on the pixel array: the marking loop, then
the loop that clears every pixel that is not 0xff. -/
def image_erode (imgbuf : Nat → uchar) : Nat → uchar :=
  for_range 0 (DPFP_IMG_WIDTH * DPFP_IMG_HEIGHT)
    (fun y b => if b y ≠ 0xff then store b y 0 else b)
    (for_range 1 (DPFP_IMG_HEIGHT - 1)
      (fun y b => for_range 1 (DPFP_IMG_WIDTH - 1) (erode_body y) b) imgbuf)

/-- The double `1.0 / 25`. -/
def freqmin : ℚ := 5764607523034235 / 2 ^ 57

/-- The double `1.0 / 3`. -/
def freqmax : ℚ := 6004799503160661 / 2 ^ 54

/-- The thresholding loop of `dpfp_fprint_get_mask`, after the `memset`. -/
def mask_threshold (freq : Nat → ℚ) (out : Nat → uchar) : Nat → uchar :=
  for_range 0 DPFP_IMG_HEIGHT
    (fun y out =>
      for_range 0 DPFP_IMG_WIDTH
        (fun x out =>
          if freq (x + y * DPFP_IMG_WIDTH) ≥ freqmin ∧ freq (x + y * DPFP_IMG_WIDTH) ≤ freqmax then
            store (store out (x + y * DPFP_IMG_WIDTH) 0) (x + y * DPFP_IMG_WIDTH) 255
          else store out (x + y * DPFP_IMG_WIDTH) 0)
        out)
    out

/-- The `memset(out, 0, W * H)` of `dpfp_fprint_get_mask`. -/
def mask_clear (out : Nat → uchar) : Nat → uchar :=
  fun k => if k < DPFP_IMG_WIDTH * DPFP_IMG_HEIGHT then 0 else out k

/-- The pixel array of the mask before the last of the 12 erosions of
`dpfp_fprint_get_mask`. -/
def mask_before_last (frequency : dpfp_ffield) (mask : dpfp_fprint) : Nat → uchar :=
  for_range 0 11 (fun _ b => image_erode b)
    (for_range 0 4 (fun _ b => image_dilate b)
      (mask_threshold frequency.pimg (mask_clear mask.data)))

/-- The routine `dpfp_fprint_get_mask(fp, direction, frequency, mask)`, which
reads only `frequency`: the returned `int` and the final state of `*mask`. -/
def dpfp_fprint_get_mask (frequency : dpfp_ffield) (mask : dpfp_fprint) : Int × dpfp_fprint :=
  (0, { mask with
        data := for_range 0 12 (fun _ b => image_erode b)
          (for_range 0 4 (fun _ b => image_dilate b)
            (mask_threshold frequency.pimg (mask_clear mask.data))) })

/-! ## Closed forms for the mask -/

/-- The common shape of the marking loops of `image_dilate` and `image_erode`:
a pixel equal to `t` applies `op` to its four neighbours. -/
def mark_body (t : uchar) (op : uchar → uchar) (y x : Nat) (imgbuf : Nat → uchar) :
    Nat → uchar :=
  if imgbuf (x + y * 384) = t then
    let b1 := store imgbuf (x - 1 + y * 384) (op (imgbuf (x - 1 + y * 384)))
    let b2 := store b1 (x + 1 + y * 384) (op (b1 (x + 1 + y * 384)))
    let b3 := store b2 (x + (y - 1) * 384) (op (b2 (x + (y - 1) * 384)))
    store b3 (x + (y + 1) * 384) (op (b3 (x + (y + 1) * 384)))
  else imgbuf

/-- Pixel `k` of `img` touches, by an edge, an inner pixel that equals `t` and
comes before column `x` of row `y` in scan order. -/
def marked_by (t : uchar) (img : Nat → uchar) (x y k : Nat) : Prop :=
  ∃ cx cy, 1 ≤ cx ∧ cx ≤ 382 ∧ 1 ≤ cy ∧ cy ≤ 287 ∧ (cy < y ∨ (cy = y ∧ cx < x)) ∧
    img (cx + cy * 384) = t ∧
    (k = cx - 1 + cy * 384 ∨ k = cx + 1 + cy * 384 ∨ k = cx + (cy - 1) * 384 ∨
      k = cx + (cy + 1) * 384)

/-- State of the pixel array when a marking loop over `img` reaches column `x`
of row `y`: exactly the marked pixels have had `op` applied. -/
def mark_inv (t : uchar) (op : uchar → uchar) (img : Nat → uchar) (x y : Nat)
    (b : Nat → uchar) : Prop :=
  ∀ k, (marked_by t img x y k ∧ b k = op (img k)) ∨ (¬ marked_by t img x y k ∧ b k = img k)

/-- Every pixel of the image is 0 or 0xff. -/
def binary_image (img : Nat → uchar) : Prop :=
  ∀ k, k < 110976 → img k = 0 ∨ img k = 0xff

/-- The value the thresholding loop gives to pixel `k`. -/
def thr_pixel (freq : Nat → ℚ) (k : Nat) : uchar :=
  if freq k ≥ freqmin ∧ freq k ≤ freqmax then 255 else 0

/-- A frequency field that is 0.1 everywhere except at pixel (0, 0), where it is 0. -/
def freq_hole : dpfp_ffield :=
  { pimg := fun k => if k = 0 then 0 else 1 / 10 }

/-- The image that is 0xff everywhere except at pixel (0, 0), followed by the
memory `d` past the image. -/
def img_hole (d : Nat → uchar) : Nat → uchar :=
  fun k => if k < 110976 then (if k = 0 then 0 else 0xff) else d k

/-! ## Thinning: the parallel operator of the specification -/

/-- The specification's reading of a pixel for a neighbourhood: whether the
pixel at column `x`, row `y` of the image is non-zero, a position outside the
image counting as zero. -/
def pixel_set (img : Nat → uchar) (x y : Int) : Bool :=
  decide (0 ≤ x ∧ x < 384 ∧ 0 ≤ y ∧ y < 289) && decide (img (y.toNat * 384 + x.toNat) ≠ 0)

/-- The specification's 9-bit 3 x 3 neighbourhood code `N(x, y)` of the image
`img`, bits `a b c / d e f / g h i` with the centre `e`. -/
def neighbourhood (img : Nat → uchar) (x y : Int) : Nat :=
  nbcode (pixel_set img (x - 1) (y - 1)) (pixel_set img x (y - 1)) (pixel_set img (x + 1) (y - 1))
    (pixel_set img (x - 1) y) (pixel_set img x y) (pixel_set img (x + 1) y)
    (pixel_set img (x - 1) (y + 1)) (pixel_set img x (y + 1)) (pixel_set img (x + 1) (y + 1))

/-- The specification's direction neighbour of pass `i` (0 is N: the pixel
above, 1 is S: below, 2 is W: left, 3 is E: right). -/
def direction_neighbour (img : Nat → uchar) (i : Nat) (x y : Int) : Bool :=
  match i with
  | 0 => pixel_set img x (y - 1)
  | 1 => pixel_set img x (y + 1)
  | 2 => pixel_set img (x - 1) y
  | _ => pixel_set img (x + 1) y

/-- The naive parallel operator of the specification for pass `i`, applied to
the image `img` as it is at the start of the pass: a pixel becomes 0 if
`delet[N(x, y)] = 1` and its direction neighbour is zero, and keeps its value
otherwise. -/
def parallel_pass (img : Nat → uchar) (i : Nat) : Nat → uchar :=
  fun k =>
    if k < 110976 ∧ delet.getD (neighbourhood img ((k % 384 : Nat) : Int) ((k / 384 : Nat) : Int)) 0 = 1
        ∧ direction_neighbour img i ((k % 384 : Nat) : Int) ((k / 384 : Nat) : Int) = false
    then 0 else img k

/-- A full frame that is 0xFF at (column, row) = (0, 1), (0, 2) and (1, 2) and 0
elsewhere. -/
def fp_edge : dpfp_fprint :=
  { header_size := 64, data_size := 110976, header := fun _ => 0,
    data := fun k => if k = 384 ∨ k = 768 ∨ k = 769 then 0xff else 0 }

/-! ## Fixtures for the dilation -/

/-- An image that is 0xff at the border pixel (0, 1), offset 384, and 0 elsewhere. -/
def img_left_edge : Nat → uchar :=
  fun k => if k = 384 then 0xff else 0

/-- An image that is 0xff at the inner pixel (1, 1), offset 385, and 0 elsewhere. -/
def img_dot : Nat → uchar :=
  fun k => if k = 385 then 0xff else 0

/-- Pixel (cx, cy) is one of the four neighbours of pixel (x, y) in the
plus-shaped kernel `{(-1,0),(1,0),(0,-1),(0,1)}`. -/
def adjacent4 (x y cx cy : Nat) : Prop :=
  (cx + 1 = x ∧ cy = y) ∨ (cx = x + 1 ∧ cy = y) ∨ (cx = x ∧ cy + 1 = y) ∨ (cx = x ∧ cy = y + 1)

/-- Pixel (x, y) has, among its four neighbours, an inner pixel of the image
(column 1 to `W - 2`, row 1 to `H - 2`) that is 0xff in `img`. -/
def touches_inner (img : Nat → uchar) (x y : Nat) : Prop :=
  ∃ cx cy, 1 ≤ cx ∧ cx ≤ 382 ∧ 1 ≤ cy ∧ cy ≤ 287 ∧ adjacent4 x y cx cy ∧
    img (cx + cy * 384) = 0xff

/-! ## Fixtures for sets of different counts -/

/-- A set with the single point (5, 0); the entries past `count` are as
`dpfp_mset_alloc` leaves them, (0, 0). -/
def mset_one : dpfp_mset :=
  mset_of [{ x := 5, y := 0 }]

/-- The same set, `count = 1` with the point (5, 0), whose array still holds
the point (10, 0) at index 1, past `count`. -/
def mset_one_stale : dpfp_mset :=
  { minutiae := fun n => if n = 0 then { x := 5, y := 0 } else { x := 10, y := 0 }, count := 1 }

/-! ## dpfp_fprint_fvs.c: the peaks of an x-signature -/

/-- `#define BLOCK_L 32`. -/
abbrev BLOCK_L : Nat := 32

/-- The array `peak_pos` and the counter `peak_cnt` of
`dpfp_fprint_get_frequency`. -/
structure peak_state where
  peak_pos : Nat → Int
  peak_cnt : Nat

/-- The loop after `pmax = pmin = Xsig[0]`: `(pmin, pmax)` once it has run over
`k = 1 .. BLOCK_L - 1`.  Comparisons of doubles are exact. -/
def signal_range (Xsig : Nat → ℚ) : ℚ × ℚ :=
  for_range 1 BLOCK_L
    (fun k (p : ℚ × ℚ) =>
      (if p.1 > Xsig k then Xsig k else p.1, if p.2 < Xsig k then Xsig k else p.2))
    (Xsig 0, Xsig 0)

/-- The statement `if ((Xsig[k-1] < Xsig[k]) && (Xsig[k] >= Xsig[k+1]))
peak_pos[peak_cnt++] = k;`. -/
def peak_body (Xsig : Nat → ℚ) (k : Nat) (s : peak_state) : peak_state :=
  if Xsig (k - 1) < Xsig k ∧ Xsig k ≥ Xsig (k + 1) then
    { peak_pos := fun n => if n = s.peak_cnt then (k : Int) else s.peak_pos n,
      peak_cnt := s.peak_cnt + 1 }
  else s

/-- The peak search: `peak_cnt = 0`, then, if `(pmax - pmin) > 64.0`, the loop
over `k = 1 .. BLOCK_L - 2`.  The difference is a `double`.  The array
`peak_pos` is not initialised in C and is taken as zeroed. -/
def find_peaks (env : float_env) (Xsig : Nat → ℚ) : peak_state :=
  if env.rnd64 ((signal_range Xsig).2 - (signal_range Xsig).1) > 64 then
    for_range 1 (BLOCK_L - 1) (peak_body Xsig) { peak_pos := fun _ => 0, peak_cnt := 0 }
  else { peak_pos := fun _ => 0, peak_cnt := 0 }

/-- "Compute mean value": `peak_freq = 0.0`, and for `peak_cnt >= 2` the sum of
the `int` differences `peak_pos[k + 1] - peak_pos[k]`, accumulated in a
`double`, divided by `peak_cnt - 1`. -/
def mean_spacing (env : float_env) (s : peak_state) : ℚ :=
  if s.peak_cnt ≥ 2 then
    env.rnd64
      (for_range 0 (s.peak_cnt - 1)
          (fun k peak_freq => env.rnd64 (peak_freq + ((s.peak_pos (k + 1) - s.peak_pos k : Int) : ℚ)))
          0
        / ((s.peak_cnt - 1 : Nat) : ℚ))
  else 0

/-- The value stored in `out[x + y * W]` for a block with the x-signature
`Xsig`: 0 if `peak_freq > 30.0`, 0 if `peak_freq < 2.0`, and `1.0 / peak_freq`
otherwise. -/
def block_frequency (env : float_env) (Xsig : Nat → ℚ) : ℚ :=
  if mean_spacing env (find_peaks env Xsig) > 30 then 0
  else if mean_spacing env (find_peaks env Xsig) < 2 then 0
  else env.rnd64 (1 / mean_spacing env (find_peaks env Xsig))

/-! ## Closed forms for the peaks -/

/-- Whether `k` is a local maximum of the x-signature:
`X[k-1] < X[k] >= X[k+1]`. -/
def is_peak (Xsig : Nat → ℚ) (k : Nat) : Bool :=
  decide (Xsig (k - 1) < Xsig k ∧ Xsig k ≥ Xsig (k + 1))

/-- The local maxima among the positions `1 .. n`, in increasing order. -/
def peaks_upto (Xsig : Nat → ℚ) (n : Nat) : List Nat :=
  (List.range' 1 n).filter (is_peak Xsig)

/-- The local maxima of an x-signature, positions `1 .. 30`, in increasing order. -/
def peak_list (Xsig : Nat → ℚ) : List Nat :=
  peaks_upto Xsig 30

/-- What IEEE 754 guarantees of `double` for sums of positions: every integer of
absolute value at most `2 ^ 53` is a `double`. -/
def double_ints_exact (env : float_env) : Prop :=
  ∀ z : Int, -2 ^ 53 ≤ z → z ≤ 2 ^ 53 → env.rnd64 (z : ℚ) = (z : ℚ)

/-- An x-signature that alternates between 0 (even positions) and 100 (odd
positions). -/
def sig_comb : Nat → ℚ :=
  fun k => if k % 2 = 1 then 100 else 0

/-- An x-signature with the two peaks 5 and 12 (values 100) on a floor of 0. -/
def sig_two : Nat → ℚ :=
  fun k => if k = 5 ∨ k = 12 then 100 else 0

/-! ## Closed forms for the control messages -/

/-- The control message that `dpfp_get_hwstat` sends. -/
def hwstat_read : ctrl_msg :=
  { requesttype := USB_IN, request := USB_RQ, value := HWSTAT_CONTROL, index := 0,
    data := [], size := 1 }

/-- The control message that `dpfp_set_hwstat(dev, val)` sends. -/
def hwstat_write (val : uchar) : ctrl_msg :=
  { requesttype := USB_OUT, request := USB_RQ, value := HWSTAT_CONTROL, index := 0,
    data := [val], size := 1 }

/-- The control message that `dpfp_auth_read_challenge` sends. -/
def auth_challenge_read : ctrl_msg :=
  { requesttype := USB_IN, request := USB_RQ, value := AUTH_CHALLENGE, index := 0,
    data := [], size := DPFP_AUTH_CR_LENGTH }

/-- The control message that `dpfp_auth_write_response(dev, data)` sends. -/
def auth_response_write (data : List uchar) : ctrl_msg :=
  { requesttype := USB_OUT, request := USB_RQ, value := AUTH_RESPONSE, index := 0,
    data := data, size := DPFP_AUTH_CR_LENGTH }

/-- The array `challenge[16]` after a control read that delivered `reply`. -/
def challenge_of (reply : List uchar) : List uchar :=
  (List.range DPFP_AUTH_CR_LENGTH).map (fun k => reply.getD k 0)

/-- The hwstat writes among the control messages `l`, in order. -/
def hwstat_writes (l : List ctrl_msg) : List ctrl_msg :=
  l.filter (fun m => decide (m.requesttype = USB_OUT ∧ m.request = USB_RQ ∧
    m.value = HWSTAT_CONTROL))

/-- The state after the control message `m` was sent in state `s`. -/
def after_msg {σ : Type} (w : usb_world σ) (s : open_state σ) (m : ctrl_msg) : open_state σ :=
  { s with dev := (w.control s.dev m).2.2, log := s.log ++ [m] }

/-- The situation in which the power loop never sees bit 0x80 clear, for a set
`R` of device states that no control message leaves: every hwstat read
delivers a byte with bit 0x80 set, every hwstat write succeeds, and for a
device of type `DEV_TYPE_URU4000Bg2` the two transfers of the authentication
are complete. -/
def power_never_up {σ : Type} (w : usb_world σ) (type : Nat) (R : σ → Prop) : Prop :=
  (∀ d m, R d → R (w.control d m).2.2) ∧
  (∀ d, R d → 0 < (w.control d hwstat_read).1 ∧
    ∃ b, (w.control d hwstat_read).2.1.head? = some b ∧ b.val &&& 0x80 ≠ 0) ∧
  (∀ d v, R d → ¬ (w.control d (hwstat_write v)).1 < 0) ∧
  (type = DEV_TYPE_URU4000Bg2 → ∀ d, R d →
    16 ≤ (w.control d auth_challenge_read).1 ∧
    ∀ data, 16 ≤ (w.control (w.control d auth_challenge_read).2.2
      (auth_response_write data)).1)

/-- A mock device like `mock_world` whose hwstat register always reads 0x81,
and whose authentication challenge is the bytes 0, 1, .., 15.  In place of
OpenSSL's AES the world carries a stand-in that can be evaluated: the bytewise
exclusive-or of the block and the user key. -/
def stuck_world : usb_world Nat :=
  { interfaces := mock_world.interfaces,
    open_ok := true, claim := 0, malloc_ok := true,
    control := fun n m =>
      if m.requesttype = USB_IN ∧ m.request = USB_RQ ∧ m.value = HWSTAT_CONTROL then
        (1, [0x81], n + 1)
      else if m.requesttype = USB_IN then
        ((m.size : Int), (List.range m.size).map (fun k => Fin.ofNat k), n)
      else ((m.size : Int), [], n),
    irq := irq_power_on, EIO := 5, aeskey := dpfp_init,
    aes := fun key block =>
      match key with
      | some (k, _) => List.zipWith (fun a b => a ^^^ b) block k
      | none => block }

/-- The state `t`, reached from `s`, has read no interrupt and its device state
is in `R`. -/
def quiet_from {σ : Type} (R : σ → Prop) (s t : open_state σ) : Prop :=
  t.irqs = s.irqs ∧ R t.dev

/-- Both outcomes of a step of the handshake from `s` are quiet. -/
def quiet_step {σ : Type} (R : σ → Prop) (s : open_state σ)
    (x : Except (open_state σ) (uchar × open_state σ)) : Prop :=
  match x with
  | .error e => quiet_from R s e
  | .ok (_, t) => quiet_from R s t

/-! ## dpfp_fprint_fvs.c: the value returned by the orientation routines -/

/-- Which of the five buffers that `fprint_direction_low_pass` allocates are not
`NULL`, in the order of the `malloc` calls. -/
structure low_pass_allocs where
  fbuf : Bool
  phix : Bool
  phiy : Bool
  phi2x : Bool
  phi2y : Bool

/-- The routine `fprint_direction_low_pass(theta, ffbuf, filter_size)`, as far
as its return value goes: the returned `int` and the value stored in `errno`, if
any.  The local `result` is declared without an initialiser and is assigned only
where an allocation has failed (`result = -1`); the loops that fill the buffers
never assign it.  `indeterminate` is the value the variable holds when it is
read without having been assigned. -/
def fprint_direction_low_pass (a : low_pass_allocs) (indeterminate : Int) :
    Int × Option errno_code :=
  if (!a.fbuf || !a.phi2x || !a.phi2y || !a.phix || !a.phiy) = true then
    (-1, some errno_code.ENOMEM)
  else (indeterminate, none)

/-- The routine `dpfp_fprint_get_direction(fp, ff, block_size, filter_size)`, as
far as its return value goes: the returned `int` and the value stored in
`errno`, if any.  `theta_ok` says whether the `malloc` of `theta` succeeds.  The
image and `block_size` only enter the loops that fill the field, which never
assign `result`. -/
def dpfp_fprint_get_direction (_fp : dpfp_fprint) (_block_size : Int) (filter_size : Int)
    (theta_ok : Bool) (a : low_pass_allocs) (indeterminate : Int) : Int × Option errno_code :=
  if filter_size > 0 ∧ theta_ok = false then (-1, some errno_code.ENOMEM)
  else if filter_size > 0 then fprint_direction_low_pass a indeterminate
  else (0, none)

/-- Every allocation of `fprint_direction_low_pass` succeeds. -/
def allocs_ok : low_pass_allocs :=
  { fbuf := true, phix := true, phiy := true, phi2x := true, phi2y := true }

/-! ## Fixture for the thinning of a square -/

/-- A full frame that is 0xFF on the 2 x 2 square of the columns 10, 11 and the
rows 10, 11 (offsets 3850, 3851, 4234, 4235) and 0 elsewhere. -/
def fp_square : dpfp_fprint :=
  { header_size := 64, data_size := 110976, header := fun _ => 0,
    data := fun k => if k = 3850 ∨ k = 3851 ∨ k = 4234 ∨ k = 4235 then 0xff else 0 }

/-! ## dpfp_fprint_fvs.c: smoothing, orientation, frequency and the Gabor filter -/

/-- What the enhancement routines take from outside the library: libm's `sin`,
`cos`, `atan2` and `exp` on doubles, and the conversion of a double to an
integer type, `(int) d` and `(unsigned char) d`.  The source fixes none of
their values.  Doubles are rationals, and every arithmetic operation on them
is followed by the rounding `rnd64` of `float_env`. -/
structure libm where
  sin : ℚ → ℚ
  cos : ℚ → ℚ
  atan2 : ℚ → ℚ → ℚ
  exp : ℚ → ℚ
  to_int : ℚ → Int

/-- The store `a[i] = v` into an array of doubles. -/
def dstore (a : Nat → ℚ) (i : Nat) (v : ℚ) : Nat → ℚ :=
  fun k => if k = i then v else a k

/-- The sum `c` of `dpfp_fprint_soften_mean` for the pixel at column `x`, row
`y`: `for (q = -soften_size; q <= soften_size; q++) for (p = -soften_size;
p <= soften_size; p++) c += copy[(x + p) + (y + q) * DPFP_IMG_WIDTH]`, the two
counters running from 0 here. -/
def soften_sum (copy : Nat → uchar) (soften_size x y : Nat) : Nat :=
  for_range 0 (2 * soften_size + 1)
    (fun q c =>
      for_range 0 (2 * soften_size + 1)
        (fun p c =>
          c + (copy ((x + p - soften_size) + (y + q - soften_size) * DPFP_IMG_WIDTH)).val)
        c)
    0

/-- The routine `dpfp_fprint_soften_mean(fp, size)`: the returned `int` and the
final state of `*fp`; `malloc_ok` says whether the allocation of `copy`
succeeds.  The sums read `copy`, which holds the pixels as they were before the
loops, so they are taken from `fp.data`.  The result is `none` where C defines
no behaviour: for `size = 0` (division by `soften_area = 0`) and for
`data_size` below `W * H`, where the loops read past the `data_size` bytes of
`copy`. -/
def dpfp_fprint_soften_mean (malloc_ok : Bool) (fp : dpfp_fprint) (size : Nat) :
    Option (Int × dpfp_fprint) :=
  if malloc_ok = false then some (-1, fp)
  else if size = 0 ∨ fp.data_size < DPFP_IMG_WIDTH * DPFP_IMG_HEIGHT then none
  else
    some (0, { fp with
      data :=
        for_range (size / 2) (DPFP_IMG_HEIGHT - size / 2)
          (fun y buf =>
            for_range (size / 2) (DPFP_IMG_WIDTH - size / 2)
              (fun x buf =>
                store buf (x + y * DPFP_IMG_WIDTH)
                  (Fin.ofNat (soften_sum fp.data (size / 2) x y / (size * size))))
              buf)
          fp.data })

/-- The field returned by `dpfp_ffield_alloc`: `W * H` doubles, all 0. -/
def dpfp_ffield_alloc : dpfp_ffield :=
  { pimg := fun _ => 0 }

/-- The macro `P(x,y)` of `dpfp_fprint_get_direction`,
`((int32_t) imgbuf[(x) + (y) * DPFP_IMG_WIDTH])`. -/
def P_int32 (imgbuf : Nat → uchar) (x y : Nat) : Int :=
  ((imgbuf (x + y * DPFP_IMG_WIDTH)).val : Int)

/-- Step 2 of `dpfp_fprint_get_direction`: the arrays `dx` and `dy` for the
block centred at column `x`, row `y`. -/
def direction_gradient (imgbuf : Nat → uchar) (block_size x y : Nat) :
    (Nat → ℚ) × (Nat → ℚ) :=
  for_range 0 (block_size * 2 + 1)
    (fun j d =>
      for_range 0 (block_size * 2 + 1)
        (fun i (d : (Nat → ℚ) × (Nat → ℚ)) =>
          (dstore d.1 (i * (block_size * 2 + 1) + j)
              ((P_int32 imgbuf (x + i - block_size) (y + j - block_size)
                - P_int32 imgbuf (x + i - block_size - 1) (y + j - block_size) : Int) : ℚ),
            dstore d.2 (i * (block_size * 2 + 1) + j)
              ((P_int32 imgbuf (x + i - block_size) (y + j - block_size)
                - P_int32 imgbuf (x + i - block_size) (y + j - block_size - 1) : Int) : ℚ)))
        d)
    (fun _ => 0, fun _ => 0)

/-- Step 3 of `dpfp_fprint_get_direction`: the sums `nx` and `ny` over the
arrays `dx` and `dy`. -/
def direction_sums (env : float_env) (block_size : Nat) (d : (Nat → ℚ) × (Nat → ℚ)) : ℚ × ℚ :=
  for_range 0 (block_size * 2 + 1)
    (fun v n =>
      for_range 0 (block_size * 2 + 1)
        (fun u (n : ℚ × ℚ) =>
          (env.rnd64 (n.1 + env.rnd64 (env.rnd64 (2 * d.1 (u * (block_size * 2 + 1) + v))
              * d.2 (u * (block_size * 2 + 1) + v))),
            env.rnd64 (n.2 + env.rnd64 (
              env.rnd64 (d.1 (u * (block_size * 2 + 1) + v) * d.1 (u * (block_size * 2 + 1) + v))
              - env.rnd64 (d.2 (u * (block_size * 2 + 1) + v)
                  * d.2 (u * (block_size * 2 + 1) + v))))))
        n)
    (0, 0)

/-- The loop over the blocks of `dpfp_fprint_get_direction`, which stores
`atan2(nx, ny)` in `theta` (`halve = false`, the case `filter_size > 0`) or
`atan2(nx, ny) * 0.5` in `ffbuf` (`halve = true`); `field` is the array written. -/
def direction_blocks (env : float_env) (lm : libm) (imgbuf : Nat → uchar) (block_size : Nat)
    (halve : Bool) (field : Nat → ℚ) : Nat → ℚ :=
  for_range (block_size + 1) (DPFP_IMG_HEIGHT - block_size - 1)
    (fun y f =>
      for_range (block_size + 1) (DPFP_IMG_WIDTH - block_size - 1)
        (fun x f =>
          dstore f (x + y * DPFP_IMG_WIDTH)
            (if halve then
              env.rnd64 (lm.atan2
                  (direction_sums env block_size (direction_gradient imgbuf block_size x y)).1
                  (direction_sums env block_size (direction_gradient imgbuf block_size x y)).2
                * (1 / 2))
            else
              lm.atan2
                (direction_sums env block_size (direction_gradient imgbuf block_size x y)).1
                (direction_sums env block_size (direction_gradient imgbuf block_size x y)).2))
        f)
    field

/-- Step 4 of `fprint_direction_low_pass`: the array `phix` (`g = cos`) or
`phiy` (`g = sin`), `g(theta[val])` at every pixel. -/
def low_pass_phi (g : ℚ → ℚ) (theta : Nat → ℚ) : Nat → ℚ :=
  for_range 0 DPFP_IMG_HEIGHT
    (fun y phi =>
      for_range 0 DPFP_IMG_WIDTH
        (fun x phi => dstore phi (x + y * DPFP_IMG_WIDTH) (g (theta (x + y * DPFP_IMG_WIDTH))))
        phi)
    (fun _ => 0)

/-- "Build the low-pass filter": the array `fbuf`, every entry set to 1.0, and
the sum `nx` of the entries; then every entry is divided by `nx` if
`nx > 1.0`. -/
def low_pass_filter (env : float_env) (fsize : Nat) : Nat → ℚ :=
  let built : (Nat → ℚ) × ℚ :=
    for_range 0 fsize
      (fun j s =>
        for_range 0 fsize
          (fun i (s : (Nat → ℚ) × ℚ) =>
            (dstore s.1 (j * fsize + i) 1,
              env.rnd64 (s.2 + dstore s.1 (j * fsize + i) 1 (j * fsize + i))))
          s)
      (fun _ => 0, 0)
  if built.2 > 1 then
    for_range 0 fsize
      (fun j fbuf =>
        for_range 0 fsize
          (fun i fbuf =>
            dstore fbuf (j * fsize + i) (env.rnd64 (fbuf (j * fsize + i) / built.2)))
          fbuf)
      built.1
  else built.1

/-- "Low-pass on the result arrays": the array `phi2x` from `phix` (and `phi2y`
from `phiy`), the sum over the `fsize` x `fsize` window of `fbuf * phi` at every
pixel that has the whole window to its right and below. -/
def low_pass_convolve (env : float_env) (fsize : Nat) (fbuf phi : Nat → ℚ) : Nat → ℚ :=
  for_range 0 (DPFP_IMG_HEIGHT - fsize)
    (fun y phi2 =>
      for_range 0 (DPFP_IMG_WIDTH - fsize)
        (fun x phi2 =>
          dstore phi2 (x + y * DPFP_IMG_WIDTH)
            (for_range 0 fsize
              (fun j n =>
                for_range 0 fsize
                  (fun i n =>
                    env.rnd64 (n + env.rnd64 (fbuf (j * fsize + i)
                      * phi ((x + i) + (j + y) * DPFP_IMG_WIDTH))))
                  n)
              0))
        phi2)
    (fun _ => 0)

/-- The array `ffbuf` that `fprint_direction_low_pass(theta, ffbuf, filter_size)`
leaves when its allocations succeed: step 5 stores
`atan2(phi2y[val], phi2x[val]) * 0.5`. -/
def low_pass_field (env : float_env) (lm : libm) (theta ffbuf : Nat → ℚ) (filter_size : Nat) :
    Nat → ℚ :=
  for_range 0 (DPFP_IMG_HEIGHT - (filter_size * 2 + 1))
    (fun y ffbuf =>
      for_range 0 (DPFP_IMG_WIDTH - (filter_size * 2 + 1))
        (fun x ffbuf =>
          dstore ffbuf (x + y * DPFP_IMG_WIDTH)
            (env.rnd64 (lm.atan2
                (low_pass_convolve env (filter_size * 2 + 1)
                  (low_pass_filter env (filter_size * 2 + 1)) (low_pass_phi lm.sin theta)
                  (x + y * DPFP_IMG_WIDTH))
                (low_pass_convolve env (filter_size * 2 + 1)
                  (low_pass_filter env (filter_size * 2 + 1)) (low_pass_phi lm.cos theta)
                  (x + y * DPFP_IMG_WIDTH))
              * (1 / 2))))
        ffbuf)
    ffbuf

/-- The field `*ff` that `dpfp_fprint_get_direction(fp, ff, block_size,
filter_size)` leaves; its returned `int` is `dpfp_fprint_get_direction` above.
`theta_ok` says whether the allocation of `theta` succeeds and `a` which
allocations of `fprint_direction_low_pass` do; where one fails the field is as
it was. -/
def get_direction_field (env : float_env) (lm : libm) (theta_ok : Bool) (a : low_pass_allocs)
    (fp : dpfp_fprint) (ff : dpfp_ffield) (block_size filter_size : Nat) : dpfp_ffield :=
  if filter_size > 0 then
    if theta_ok = false then ff
    else if a.fbuf = false ∨ a.phi2x = false ∨ a.phi2y = false ∨ a.phix = false
        ∨ a.phiy = false then ff
    else
      { pimg := low_pass_field env lm
          (direction_blocks env lm fp.data block_size false (fun _ => 0)) ff.pimg filter_size }
  else { pimg := direction_blocks env lm fp.data block_size true ff.pimg }

/-- Block width, `#define BLOCK_W 16`. -/
abbrev BLOCK_W : Nat := 16

/-- `#define BLOCK_W2 8`. -/
abbrev BLOCK_W2 : Nat := 8

/-- `#define BLOCK_L2 16`. -/
abbrev BLOCK_L2 : Nat := 16

/-- `#define LPSIZE 3`. -/
abbrev LPSIZE : Nat := 3

/-- The double `0.0001`, `#define EPSILON 0.0001`. -/
def EPSILON : ℚ := 7378697629483821 / 2 ^ 66

/-- The double `1.0 / 49`, `#define LPFACTOR (1.0 / ((LPSIZE * 2 + 1) * (LPSIZE * 2 + 1)))`. -/
def LPFACTOR : ℚ := 5882252574524729 / 2 ^ 58

/-- "Clipping" of a sample coordinate: `if (u < 0) u = 0; else if (u > hi) u = hi;`. -/
def clip (u : Int) (hi : Nat) : Nat :=
  if u < 0 then 0 else if u > (hi : Int) then hi else u.toNat

/-- The sample column `u` of `dpfp_fprint_get_frequency` after clipping:
`u = (int) (x + (d - BLOCK_W2) * cosdir + (k - BLOCK_L2) * sindir)`. -/
def sample_u (env : float_env) (lm : libm) (x d k : Nat) (cosdir sindir : ℚ) : Nat :=
  clip
    (lm.to_int (env.rnd64 (env.rnd64 ((x : ℚ)
        + env.rnd64 ((((d : Int) - (BLOCK_W2 : Int) : Int) : ℚ) * cosdir))
      + env.rnd64 ((((k : Int) - (BLOCK_L2 : Int) : Int) : ℚ) * sindir))))
    (DPFP_IMG_WIDTH - 1)

/-- The sample row `v` of `dpfp_fprint_get_frequency` after clipping:
`v = (int) (y + (d - BLOCK_W2) * sindir - (k - BLOCK_L2) * cosdir)`. -/
def sample_v (env : float_env) (lm : libm) (y d k : Nat) (cosdir sindir : ℚ) : Nat :=
  clip
    (lm.to_int (env.rnd64 (env.rnd64 ((y : ℚ)
        + env.rnd64 ((((d : Int) - (BLOCK_W2 : Int) : Int) : ℚ) * sindir))
      - env.rnd64 ((((k : Int) - (BLOCK_L2 : Int) : Int) : ℚ) * cosdir))))
    (DPFP_IMG_HEIGHT - 1)

/-- Step 3 of `dpfp_fprint_get_frequency`: the x-signature `Xsig[0 .. 31]` of the
block at column `x`, row `y`, each entry the sum of `BLOCK_W` sampled pixels
divided by `BLOCK_W`. -/
def x_signature (env : float_env) (lm : libm) (imgbuf : Nat → uchar) (x y : Nat)
    (cosdir sindir : ℚ) : Nat → ℚ :=
  for_range 0 BLOCK_L
    (fun k Xsig =>
      dstore Xsig k
        (env.rnd64
          (for_range 0 BLOCK_W
              (fun d acc =>
                env.rnd64 (acc + (((imgbuf (sample_u env lm x d k cosdir sindir
                  + sample_v env lm y d k cosdir sindir * DPFP_IMG_WIDTH)).val : Nat) : ℚ)))
              0
            / (BLOCK_W : ℚ))))
    (fun _ => 0)

/-- Steps 1 to 4 of `dpfp_fprint_get_frequency`: the array `out` after the loop
over the blocks, with `dir = orientation[(x + BLOCK_W2) + (y + BLOCK_W2) * W]`,
`cosdir = -sin(dir)` and `sindir = cos(dir)`. -/
def frequency_blocks (env : float_env) (lm : libm) (imgbuf : Nat → uchar)
    (orientation out : Nat → ℚ) : Nat → ℚ :=
  for_range BLOCK_L2 (DPFP_IMG_HEIGHT - BLOCK_L2)
    (fun y out =>
      for_range BLOCK_L2 (DPFP_IMG_WIDTH - BLOCK_L2)
        (fun x out =>
          dstore out (x + y * DPFP_IMG_WIDTH)
            (block_frequency env
              (x_signature env lm imgbuf x y
                (-(lm.sin (orientation ((x + BLOCK_W2) + (y + BLOCK_W2) * DPFP_IMG_WIDTH))))
                (lm.cos (orientation ((x + BLOCK_W2) + (y + BLOCK_W2) * DPFP_IMG_WIDTH))))))
        out)
    out

/-- Step 5 of `dpfp_fprint_get_frequency`, "interpolated ridge period for the
unknown points": an entry below `EPSILON` takes the entry above it, or else the
entry to its left, if that one exceeds `EPSILON`. -/
def frequency_fill (out : Nat → ℚ) : Nat → ℚ :=
  for_range BLOCK_L2 (DPFP_IMG_HEIGHT - BLOCK_L2)
    (fun y out =>
      for_range BLOCK_L2 (DPFP_IMG_WIDTH - BLOCK_L2)
        (fun x out =>
          if out (x + y * DPFP_IMG_WIDTH) < EPSILON then
            if out (x + (y - 1) * DPFP_IMG_WIDTH) > EPSILON then
              dstore out (x + y * DPFP_IMG_WIDTH) (out (x + (y - 1) * DPFP_IMG_WIDTH))
            else if out (x - 1 + y * DPFP_IMG_WIDTH) > EPSILON then
              dstore out (x + y * DPFP_IMG_WIDTH) (out (x - 1 + y * DPFP_IMG_WIDTH))
            else out
          else out)
        out)
    out

/-- Step 6 of `dpfp_fprint_get_frequency`: `freq[k]` is the sum of `out` over the
7 x 7 window around the pixel, times `LPFACTOR`; the two window counters run
from 0 here. -/
def frequency_smooth (env : float_env) (out freq : Nat → ℚ) : Nat → ℚ :=
  for_range BLOCK_L2 (DPFP_IMG_HEIGHT - BLOCK_L2)
    (fun y freq =>
      for_range BLOCK_L2 (DPFP_IMG_WIDTH - BLOCK_L2)
        (fun x freq =>
          dstore freq (x + y * DPFP_IMG_WIDTH)
            (env.rnd64
              (for_range 0 (2 * LPSIZE + 1)
                  (fun v peak_freq =>
                    for_range 0 (2 * LPSIZE + 1)
                      (fun u peak_freq =>
                        env.rnd64 (peak_freq
                          + out ((x + u - LPSIZE) + (y + v - LPSIZE) * DPFP_IMG_WIDTH)))
                      peak_freq)
                  0
                * LPFACTOR)))
        freq)
    freq

/-- The routine `dpfp_fprint_get_frequency(fp, direction, frequency)`: the
returned `int` and the final state of `*frequency`; `malloc_ok` says whether
the allocation of `out` succeeds.  `memset` clears `out` and the `W * H`
doubles of `freq` before the loops. -/
def dpfp_fprint_get_frequency (env : float_env) (lm : libm) (malloc_ok : Bool)
    (fp : dpfp_fprint) (direction frequency : dpfp_ffield) : Int × dpfp_ffield :=
  if malloc_ok = false then (-1, frequency)
  else
    (0, {
      pimg :=
        frequency_smooth env
          (frequency_fill (frequency_blocks env lm fp.data direction.pimg (fun _ => 0)))
          (fun k => if k < DPFP_IMG_WIDTH * DPFP_IMG_HEIGHT then 0 else frequency.pimg k) })

/-- The double nearest to pi, `M_PI`. -/
def M_PI : ℚ := 884279719003555 / 2 ^ 48

/-- The helper `enhance_gabor(x, y, phi, f, r2)`, the Gabor filter factor. -/
def enhance_gabor (env : float_env) (lm : libm) (x y phi f r2 : ℚ) : ℚ :=
  let dy2 := env.rnd64 (1 / r2)
  let dx2 := env.rnd64 (1 / r2)
  let phi := env.rnd64 (phi + M_PI / 2)
  let x2 := env.rnd64 (env.rnd64 (-x * lm.sin phi) + env.rnd64 (y * lm.cos phi))
  let y2 := env.rnd64 (env.rnd64 (x * lm.cos phi) + env.rnd64 (y * lm.sin phi))
  env.rnd64
    (lm.exp (env.rnd64 (-(1 / 2) * env.rnd64 (env.rnd64 (env.rnd64 (x2 * x2) * dx2)
        + env.rnd64 (env.rnd64 (y2 * y2) * dy2))))
      * lm.cos (env.rnd64 (env.rnd64 (env.rnd64 (2 * M_PI) * x2) * f)))

/-- The sum of `dpfp_fprint_enhance_gabor` for the pixel at column `i`, row `j`:
`sum += enhance_gabor(u, v, o, f, radius) * imgbuf[(i - u) + (j - v) * W]` for
`u` and `v` from `-Wg2` to `Wg2`, `Wg2 = 8`; the two counters run from 0 here. -/
def gabor_sum (env : float_env) (lm : libm) (imgbuf : Nat → uchar) (o f radius : ℚ)
    (i j : Nat) : ℚ :=
  for_range 0 17
    (fun v sum =>
      for_range 0 17
        (fun u sum =>
          env.rnd64 (sum + env.rnd64
            (enhance_gabor env lm ((((u : Int) - 8 : Int) : ℚ)) ((((v : Int) - 8 : Int) : ℚ))
                o f radius
              * (((imgbuf ((i + 8 - u) + (j + 8 - v) * DPFP_IMG_WIDTH)).val : Nat) : ℚ))))
        sum)
    0

/-- The value `(unsigned char) sum` stored by `dpfp_fprint_enhance_gabor`, after
`if (sum > 255.0) sum = 255.0; if (sum < 0.0) sum = 0.0;`. -/
def gabor_pixel (lm : libm) (sum : ℚ) : uchar :=
  Fin.ofNat (lm.to_int
    (if (if sum > 255 then 255 else sum) < 0 then 0 else (if sum > 255 then 255 else sum))).toNat

/-- The test `mask == NULL || mask->data[k] != 0` of `dpfp_fprint_enhance_gabor`;
`none` stands for `NULL`. -/
def mask_selects (mask : Option dpfp_fprint) (k : Nat) : Bool :=
  match mask with
  | none => true
  | some m => decide (m.data k ≠ 0)

/-- The routine `dpfp_fprint_enhance_gabor(fp, direction, frequency, mask,
radius)`: the returned `int` and the final state of `*fp`; `malloc_ok` says
whether the allocation of `enhanced` succeeds and `mask = none` stands for the
argument `NULL`. -/
def dpfp_fprint_enhance_gabor (env : float_env) (lm : libm) (malloc_ok : Bool)
    (fp : dpfp_fprint) (direction frequency : dpfp_ffield) (mask : Option dpfp_fprint)
    (radius : ℚ) : Int × dpfp_fprint :=
  if malloc_ok = false then (-1, fp)
  else
    (0, { fp with
      data :=
        memcpy fp.data 0
          (for_range 8 (DPFP_IMG_HEIGHT - 8)
            (fun j enhanced =>
              for_range 8 (DPFP_IMG_WIDTH - 8)
                (fun i enhanced =>
                  if mask_selects mask (i + j * DPFP_IMG_WIDTH) = true then
                    store enhanced (i + j * DPFP_IMG_WIDTH)
                      (gabor_pixel lm
                        (gabor_sum env lm fp.data (direction.pimg (i + j * DPFP_IMG_WIDTH))
                          (frequency.pimg (i + j * DPFP_IMG_WIDTH))
                          (env.rnd64 (radius * radius)) i j))
                  else enhanced)
                enhanced)
            (fun _ => 0))
          0 (DPFP_IMG_WIDTH * DPFP_IMG_HEIGHT) })

/-- The enhancement calls of `main` in `examples/enhance_from_file.c`, in its
order and with its arguments, followed by the detection of minutiae:
`dpfp_fprint_soften_mean(fp, 3)`, `dpfp_fprint_get_direction(fp, direction, 7,
8)`, `dpfp_fprint_get_frequency`, `dpfp_fprint_get_mask`,
`dpfp_fprint_enhance_gabor(..., mask, 4.0)`, `dpfp_fprint_binarize(fp, 0x80)`
and `dpfp_fprint_detect_minutiae(fp, mset)`.  As there, the two fields come
from `dpfp_ffield_alloc` and the values returned by the enhancement routines
are not looked at; every allocation is taken to succeed.  The thinning and the
writing of files, which the example does between `binarize` and the detection,
are left out.  The result is that of `dpfp_fprint_detect_minutiae`. -/
def enhance_and_detect (env : float_env) (lm : libm) (fp mask : dpfp_fprint) (mset : dpfp_mset) :
    Option (Int × dpfp_mset) :=
  (dpfp_fprint_soften_mean true fp 3).map
    (fun s =>
      dpfp_fprint_detect_minutiae
        (dpfp_fprint_binarize
          (dpfp_fprint_enhance_gabor env lm true s.2
            (get_direction_field env lm true allocs_ok s.2 dpfp_ffield_alloc 7 8)
            (dpfp_fprint_get_frequency env lm true s.2
              (get_direction_field env lm true allocs_ok s.2 dpfp_ffield_alloc 7 8)
              dpfp_ffield_alloc).2
            (some (dpfp_fprint_get_mask
              (dpfp_fprint_get_frequency env lm true s.2
                (get_direction_field env lm true allocs_ok s.2 dpfp_ffield_alloc 7 8)
                dpfp_ffield_alloc).2
              mask).2)
            4).2
          0x80)
        mset)

/-- A stand-in for libm with the values of the functions at 0 (`sin` 0, `cos` 1,
`atan2` 0, `exp` 1) and truncation towards zero as the conversion to integers. -/
def libm_at_zero : libm :=
  { sin := fun _ => 0, cos := fun _ => 1, atan2 := fun _ _ => 0, exp := fun _ => 1,
    to_int := fun q => q.num.tdiv (q.den : Int) }

/-! ## Loop rule -/

/-- Invariant rule for `for_loop`. -/
theorem for_loop_inv {σ : Type} (body : Nat → σ → σ) (P : Nat → σ → Prop)
    (n i : Nat) (s : σ) (h0 : P i s)
    (hstep : ∀ k t, i ≤ k → k < i + n → P k t → P (k + 1) (body k t)) :
    P (i + n) (for_loop body n i s) := by
  induction n generalizing i s with
  | zero => simpa [for_loop] using h0
  | succ n ih =>
    have h1 : P (i + 1) (body i s) := hstep i s (le_refl i) (by omega) h0
    have h2 := ih (i + 1) (body i s) h1
      (fun k t hk hk2 hP => hstep k t (by omega) (by omega) hP)
    have e : i + (n + 1) = i + 1 + n := by omega
    rw [e]
    exact h2

/-- Invariant rule for `for_range`. -/
theorem for_range_inv {σ : Type} (body : Nat → σ → σ) (P : Nat → σ → Prop)
    (hi : Nat) (s : σ) (h0 : P 0 s)
    (hstep : ∀ k t, k < hi → P k t → P (k + 1) (body k t)) :
    P hi (for_range 0 hi body s) := by
  have h := for_loop_inv body P hi 0 s h0
    (fun k t _ hk hP => hstep k t (by omega) hP)
  simpa [for_range] using h

theorem flip_v_loop_eq (ds : Nat) (d : Nat → uchar) :
    for_range 0 (ds / 384 / 2) (flip_v_body ds) d = flip_v_after ds (ds / 384 / 2) d := by
  refine for_range_inv (flip_v_body ds) (fun k t => t = flip_v_after ds k d) _ d ?_ ?_
  · funext x
    simp only [flip_v_after]
    split_ifs with h1 h2
    · omega
    · omega
    · rfl
  · intro k t hk ht
    subst ht
    funext x
    simp only [flip_v_body, memcpy, flip_v_after, DPFP_IMG_WIDTH]
    split_ifs <;> first | (exfalso; omega) | (refine congrArg d ?_; omega)

theorem flip_v_data (fp : dpfp_fprint) :
    (dpfp_fprint_flip_v fp).data
      = flip_v_after fp.data_size (fp.data_size / 384 / 2) fp.data := by
  simp only [dpfp_fprint_flip_v, DPFP_IMG_WIDTH]
  exact flip_v_loop_eq fp.data_size fp.data

theorem flip_v_after_involutive (ds : Nat) (d : Nat → uchar) :
    flip_v_after ds (ds / 384 / 2) (flip_v_after ds (ds / 384 / 2) d) = d := by
  funext x
  simp only [flip_v_after]
  split_ifs <;> first | (exfalso; omega) | (refine congrArg d ?_; omega)

/-! ### Horizontal flip -/

theorem flip_h_body_eq (i : Nat) (d : Nat → uchar) :
    flip_h_body i d
      = fun x => if i * 384 ≤ x ∧ x < i * 384 + 384
          then d (i * 384 + (383 - (x - i * 384))) else d x := by
  simp only [flip_h_body, DPFP_IMG_WIDTH]
  have h := for_range_inv
    (fun j dat => store dat (i * 384 + j) (memcpy (fun _ => 0) 0 d (i * 384) 384 (384 - j - 1)))
    (fun k t => t = fun x => if i * 384 ≤ x ∧ x < i * 384 + k
          then d (i * 384 + (383 - (x - i * 384))) else d x) 384 d ?_ ?_
  · exact h
  · funext x
    split_ifs with h1
    · omega
    · rfl
  · intro k t hk ht
    subst ht
    funext x
    simp only [store, memcpy]
    split_ifs <;> first | (exfalso; omega) | (refine congrArg d ?_; omega)

theorem flip_h_loop_eq (n : Nat) (d : Nat → uchar) :
    for_range 0 n flip_h_body d = flip_h_after n d := by
  refine for_range_inv flip_h_body (fun k t => t = flip_h_after k d) n d ?_ ?_
  · funext x
    simp only [flip_h_after]
    split_ifs with h1
    · omega
    · rfl
  · intro k t _ ht
    subst ht
    rw [flip_h_body_eq]
    funext x
    simp only [flip_h_after]
    split_ifs <;> first | (exfalso; omega) | (refine congrArg d ?_; omega)

theorem flip_h_data (fp : dpfp_fprint) :
    (dpfp_fprint_flip_h fp).data = flip_h_after (fp.data_size / 384) fp.data := by
  simp only [dpfp_fprint_flip_h, DPFP_IMG_WIDTH]
  exact flip_h_loop_eq _ fp.data

theorem flip_h_after_involutive (n : Nat) (d : Nat → uchar) :
    flip_h_after n (flip_h_after n d) = d := by
  funext x
  simp only [flip_h_after]
  split_ifs <;> first | (exfalso; omega) | (refine congrArg d ?_; omega)

/-! ### Subtract -/

theorem absdiff_val (u v : uchar) :
    ((absdiff u v).val : Int) = |(u.val : Int) - (v.val : Int)| := by
  have hu := u.isLt
  have hv := v.isLt
  simp only [absdiff, uchar_of_int, Fin.ofNat]
  split_ifs with h
  · rw [abs_of_neg h]
    omega
  · rw [abs_of_nonneg (by omega)]
    omega

theorem subtract_loop_eq (n : Nat) (a b : Nat → uchar) :
    for_range 0 n (subtract_body b) a
      = fun x => if x < n then absdiff (a x) (b x) else a x := by
  refine for_range_inv (subtract_body b)
    (fun k t => t = fun x => if x < k then absdiff (a x) (b x) else a x) n a ?_ ?_
  · funext x
    simp
  · intro k t _ ht
    subst ht
    funext x
    simp only [subtract_body, store, absdiff]
    by_cases h1 : x = k
    · subst h1
      simp
    · by_cases h2 : x < k
      · have h3 : x < k + 1 := by omega
        simp [h1, h2, h3]
      · have h3 : ¬ x < k + 1 := by omega
        simp [h1, h2, h3]

theorem subtract_eq (a b : dpfp_fprint) (h : a.data_size = b.data_size) :
    dpfp_fprint_subtract a b
      = ({ a with data := fun x => if x < a.data_size then absdiff (a.data x) (b.data x)
                                   else a.data x }, b) := by
  simp only [dpfp_fprint_subtract, h, ne_eq, not_true_eq_false, if_false]
  rw [← h, subtract_loop_eq]

theorem subtract_mismatch (a b : dpfp_fprint) (h : a.data_size ≠ b.data_size) :
    dpfp_fprint_subtract a b = (a, b) := by
  simp [dpfp_fprint_subtract, h]

/-! ### Binarize -/

theorem binarize_data (fp : dpfp_fprint) (limit : uchar) :
    (dpfp_fprint_binarize fp limit).data
      = fun x => if x < 110976 then binarize_pixel limit (fp.data x) else fp.data x := by
  simp only [dpfp_fprint_binarize, DPFP_IMG_WIDTH, DPFP_IMG_HEIGHT]
  refine for_range_inv
    (fun n imgbuf => store imgbuf n (if imgbuf n < limit then 0xff else 0))
    (fun k t => t = fun x => if x < k then binarize_pixel limit (fp.data x) else fp.data x)
    (384 * 289) fp.data ?_ ?_
  · funext x
    simp
  · intro k t _ ht
    subst ht
    funext x
    simp only [store, binarize_pixel]
    by_cases h1 : x = k
    · subst h1
      simp
    · by_cases h2 : x < k
      · have h3 : x < k + 1 := by omega
        simp [h1, h2, h3]
      · have h3 : ¬ x < k + 1 := by omega
        simp [h1, h2, h3]

theorem absdiff_eq_zero (u v : uchar) : absdiff u v = 0 ↔ u = v := by
  have h := absdiff_val u v
  constructor
  · intro h0
    rw [h0] at h
    have h1 : |(u.val : Int) - (v.val : Int)| = 0 := by simpa using h.symm
    have h2 := abs_eq_zero.mp h1
    exact Fin.ext (by omega)
  · intro huv
    subst huv
    apply Fin.ext
    have h1 : ((absdiff u u).val : Int) = 0 := by simpa using h
    have h2 : (absdiff u u).val = 0 := by omega
    simpa using h2

theorem absdiff_eq_right (u v : uchar) :
    absdiff u v = v ↔ (u = 0 ∨ u.val = 2 * v.val) := by
  have h := absdiff_val u v
  constructor
  · intro h0
    rw [h0] at h
    rcases abs_cases ((u.val : Int) - (v.val : Int)) with ⟨h1, _⟩ | ⟨h1, _⟩
    · right
      omega
    · left
      exact Fin.ext (by simp only [Fin.val_zero]; omega)
  · rintro (h0 | h0)
    · subst h0
      apply Fin.ext
      have h1 : |((0 : uchar).val : Int) - (v.val : Int)| = (v.val : Int) := by
        simp
      omega
    · apply Fin.ext
      have h1 : |(u.val : Int) - (v.val : Int)| = (v.val : Int) := by
        rw [abs_of_nonneg (by omega)]
        omega
      omega

theorem binarize_pixel_twice (t p : uchar) (ht : 0 < t) :
    binarize_pixel t (binarize_pixel t p)
      = if binarize_pixel t p = 0 then 0xff else 0 := by
  have h255 : ¬ ((0xff : uchar) < t) := by
    have := t.isLt
    simp only [Fin.lt_def]
    have e : ((0xff : uchar)).val = 255 := rfl
    omega
  have hne : (0xff : uchar) ≠ 0 := by decide
  by_cases hp : p < t
  · simp [binarize_pixel, hp, h255]
  · simp [binarize_pixel, hp, ht]

theorem binarize_pixel_twice_ne (t p : uchar) (ht : 0 < t) :
    binarize_pixel t (binarize_pixel t p) ≠ binarize_pixel t p := by
  rw [binarize_pixel_twice t p ht]
  have hne : (0xff : uchar) ≠ 0 := by decide
  by_cases h0 : binarize_pixel t p = 0
  · simp [h0]
  · simp only [h0, if_false]
    exact fun h => h0 h.symm

theorem binarize_applied_twice_data (fp : dpfp_fprint) (t : uchar) :
    (dpfp_fprint_binarize (dpfp_fprint_binarize fp t) t).data
      = fun x => if x < 110976 then binarize_pixel t (binarize_pixel t (fp.data x))
                 else fp.data x := by
  rw [binarize_data, binarize_data]
  funext x
  by_cases hx : x < 110976
  · simp only [hx, if_true]
  · simp only [hx, if_false]

theorem subtract_twice_data (A B : dpfp_fprint) (h : A.data_size = B.data_size) :
    (subtract_twice A B).data
      = fun x => if x < A.data_size then absdiff (absdiff (A.data x) (B.data x)) (B.data x)
                 else A.data x := by
  have e : (dpfp_fprint_subtract A B).1.data_size = B.data_size := by
    rw [subtract_eq A B h]
    exact h
  simp only [subtract_twice]
  rw [subtract_eq _ B e, subtract_eq A B h]
  funext x
  by_cases hx : x < A.data_size
  · simp only [hx, if_true]
  · simp only [hx, if_false]

theorem subtract_twice_pixel_zero_iff (A B : dpfp_fprint) (h : A.data_size = B.data_size)
    (i : Nat) (hi : i < A.data_size) :
    (subtract_twice A B).data i = 0 ↔
      (A.data i = 0 ∨ (A.data i).val = 2 * (B.data i).val) := by
  rw [subtract_twice_data A B h]
  simp only [hi, if_true]
  rw [absdiff_eq_zero, absdiff_eq_right]

/-! ## The claims -/

/-- C1: for every fingerprint whose `data_size` is `W * H`, two applications of
`dpfp_fprint_flip_v` give back the original pixel data. -/
theorem flip_v_twice (fp : dpfp_fprint)
    (h : fp.data_size = DPFP_IMG_WIDTH * DPFP_IMG_HEIGHT) :
    (dpfp_fprint_flip_v (dpfp_fprint_flip_v fp)).data = fp.data := by
  have hs : (dpfp_fprint_flip_v fp).data_size = fp.data_size := rfl
  rw [flip_v_data, hs, flip_v_data, h]
  exact flip_v_after_involutive _ fp.data

/-- Instance of C1 at the full frame `fp_ramp`. -/
theorem flip_v_twice_witness :
    fp_ramp.data_size = DPFP_IMG_WIDTH * DPFP_IMG_HEIGHT ∧
    (dpfp_fprint_flip_v (dpfp_fprint_flip_v fp_ramp)).data = fp_ramp.data :=
  ⟨by decide, flip_v_twice fp_ramp (by decide)⟩

/-- C2: for every fingerprint whose `data_size` is `W * H`, two applications of
`dpfp_fprint_flip_h` give back the original pixel data. -/
theorem flip_h_twice (fp : dpfp_fprint)
    (h : fp.data_size = DPFP_IMG_WIDTH * DPFP_IMG_HEIGHT) :
    (dpfp_fprint_flip_h (dpfp_fprint_flip_h fp)).data = fp.data := by
  have hs : (dpfp_fprint_flip_h fp).data_size = fp.data_size := rfl
  rw [flip_h_data, hs, flip_h_data, h]
  exact flip_h_after_involutive _ fp.data

/-- Instance of C2 at the full frame `fp_ramp`. -/
theorem flip_h_twice_witness :
    fp_ramp.data_size = DPFP_IMG_WIDTH * DPFP_IMG_HEIGHT ∧
    (dpfp_fprint_flip_h (dpfp_fprint_flip_h fp_ramp)).data = fp_ramp.data :=
  ⟨by decide, flip_h_twice fp_ramp (by decide)⟩

/-- C3, as stated, fails: for the fingerprint of 769 bytes (two rows and one
byte) the pixel at row 0, column 0 after `dpfp_fprint_flip_v` is the original
byte at offset 385, not the original pixel at row 1, column 0 (offset 384). -/
theorem flip_v_rows_claim_fails :
    ¬ (fp_ragged.data_size ≤ DPFP_IMG_WIDTH * DPFP_IMG_HEIGHT →
        ∀ i c, i < fp_ragged.data_size / DPFP_IMG_WIDTH → c < DPFP_IMG_WIDTH →
          (dpfp_fprint_flip_v fp_ragged).data (i * DPFP_IMG_WIDTH + c)
            = fp_ragged.data
                ((fp_ragged.data_size / DPFP_IMG_WIDTH - 1 - i) * DPFP_IMG_WIDTH + c)) := by
  intro h
  have h1 := h (by decide) 0 0 (by decide) (by decide)
  revert h1
  decide

/-- C3, amended: for every fingerprint with `data_size ≤ W * H` and
`R = data_size / W`, `dpfp_fprint_flip_v` exchanges, for every `i < R / 2`, the
`W`-byte block at offset `i * W` with the `W`-byte block at offset
`data_size - W * (i + 1)`; when `data_size` is a multiple of `W` the pixel at
row `i`, column `c` afterwards is the original pixel at row `R - 1 - i`,
column `c`, for every `i < R` and `c < W`. -/
theorem flip_v_rows (fp : dpfp_fprint)
    (h : fp.data_size ≤ DPFP_IMG_WIDTH * DPFP_IMG_HEIGHT) :
    (∀ i c, i < fp.data_size / DPFP_IMG_WIDTH / 2 → c < DPFP_IMG_WIDTH →
        (dpfp_fprint_flip_v fp).data (i * DPFP_IMG_WIDTH + c)
          = fp.data (fp.data_size - DPFP_IMG_WIDTH * (i + 1) + c) ∧
        (dpfp_fprint_flip_v fp).data (fp.data_size - DPFP_IMG_WIDTH * (i + 1) + c)
          = fp.data (i * DPFP_IMG_WIDTH + c)) ∧
    (fp.data_size % DPFP_IMG_WIDTH = 0 →
      ∀ i c, i < fp.data_size / DPFP_IMG_WIDTH → c < DPFP_IMG_WIDTH →
        (dpfp_fprint_flip_v fp).data (i * DPFP_IMG_WIDTH + c)
          = fp.data ((fp.data_size / DPFP_IMG_WIDTH - 1 - i) * DPFP_IMG_WIDTH + c)) := by
  have _ := h
  rw [flip_v_data]
  simp only [flip_v_after, DPFP_IMG_WIDTH]
  refine ⟨fun i c hi hc => ⟨?_, ?_⟩, fun hm i c hi hc => ?_⟩
  · split_ifs <;> first | (exfalso; omega) | (refine congrArg fp.data ?_; omega)
  · split_ifs <;> first | (exfalso; omega) | (refine congrArg fp.data ?_; omega)
  · split_ifs <;> first | (exfalso; omega) | (refine congrArg fp.data ?_; omega)

/-- Instance of the amended C3 at the two-row fingerprint `fp_two_rows`, column 5. -/
theorem flip_v_rows_witness :
    fp_two_rows.data_size ≤ DPFP_IMG_WIDTH * DPFP_IMG_HEIGHT ∧
    ((dpfp_fprint_flip_v fp_two_rows).data (0 * DPFP_IMG_WIDTH + 5)
        = fp_two_rows.data (fp_two_rows.data_size - DPFP_IMG_WIDTH * (0 + 1) + 5) ∧
      (dpfp_fprint_flip_v fp_two_rows).data
          (fp_two_rows.data_size - DPFP_IMG_WIDTH * (0 + 1) + 5)
        = fp_two_rows.data (0 * DPFP_IMG_WIDTH + 5)) ∧
    (dpfp_fprint_flip_v fp_two_rows).data (1 * DPFP_IMG_WIDTH + 5)
      = fp_two_rows.data
          ((fp_two_rows.data_size / DPFP_IMG_WIDTH - 1 - 1) * DPFP_IMG_WIDTH + 5) :=
  ⟨by decide,
   (flip_v_rows fp_two_rows (by decide)).1 0 5 (by decide) (by decide),
   (flip_v_rows fp_two_rows (by decide)).2 (by decide) 1 5 (by decide) (by decide)⟩

/-- C4: for fingerprints `a`, `b` of equal `data_size`, after
`dpfp_fprint_subtract(a, b)` every pixel `i < data_size` of `a` is
`|a_old[i] - b[i]|`, `b` is unchanged, and the bytes of `a` at offsets
`≥ data_size` are unchanged. -/
theorem subtract_abs_diff (a b : dpfp_fprint) (h : a.data_size = b.data_size) :
    (∀ i, i < a.data_size →
        (((dpfp_fprint_subtract a b).1.data i).val : Int)
          = |((a.data i).val : Int) - ((b.data i).val : Int)|) ∧
    (dpfp_fprint_subtract a b).2 = b ∧
    (∀ i, a.data_size ≤ i → (dpfp_fprint_subtract a b).1.data i = a.data i) := by
  rw [subtract_eq a b h]
  refine ⟨fun i hi => ?_, rfl, fun i hi => ?_⟩
  · simp only [hi, if_true]
    exact absdiff_val _ _
  · have h1 : ¬ i < a.data_size := by omega
    simp only [h1, if_false]

/-- Instance of C4 at `fp_ramp` and the constant frame of value 200. -/
theorem subtract_abs_diff_witness :
    fp_ramp.data_size = (fp_const 200).data_size ∧
    (((dpfp_fprint_subtract fp_ramp (fp_const 200)).1.data 7).val : Int)
      = |((fp_ramp.data 7).val : Int) - (((fp_const 200).data 7).val : Int)| ∧
    (dpfp_fprint_subtract fp_ramp (fp_const 200)).2 = fp_const 200 ∧
    (dpfp_fprint_subtract fp_ramp (fp_const 200)).1.data 110976 = fp_ramp.data 110976 :=
  ⟨by decide,
   (subtract_abs_diff fp_ramp (fp_const 200) (by decide)).1 7 (by decide),
   (subtract_abs_diff fp_ramp (fp_const 200) (by decide)).2.1,
   (subtract_abs_diff fp_ramp (fp_const 200) (by decide)).2.2 110976 (by decide)⟩

/-- C5: when the `data_size` values of `a` and `b` differ,
`dpfp_fprint_subtract(a, b)` leaves both `a` and `b` unchanged. -/
theorem subtract_size_mismatch (a b : dpfp_fprint) (h : a.data_size ≠ b.data_size) :
    dpfp_fprint_subtract a b = (a, b) :=
  subtract_mismatch a b h

/-- Instance of C5 at a full frame and a one-row fingerprint. -/
theorem subtract_size_mismatch_witness :
    fp_ramp.data_size ≠ (fp_short 3).data_size ∧
    dpfp_fprint_subtract fp_ramp (fp_short 3) = (fp_ramp, fp_short 3) :=
  ⟨by decide, subtract_size_mismatch fp_ramp (fp_short 3) (by decide)⟩

/-- C6, as stated, fails: for `A = B` the full frame with every pixel 1, the
two frames have equal pixel data and are full frames, yet subtracting `B`
twice from a copy of `A` leaves pixel 0 equal to 1, not 0. -/
theorem subtract_twice_claim_fails :
    ¬ ((∀ i, i < DPFP_IMG_WIDTH * DPFP_IMG_HEIGHT →
          (subtract_twice (fp_const 1) (fp_const 1)).data i = 0) ↔
        ((fp_const 1).data = (fp_const 1).data ∧
          (fp_const 1).data_size = DPFP_IMG_WIDTH * DPFP_IMG_HEIGHT ∧
          (fp_const 1).data_size = DPFP_IMG_WIDTH * DPFP_IMG_HEIGHT)) := by
  intro h
  have h1 := h.mpr ⟨rfl, by decide, by decide⟩ 0 (by decide)
  have h2 := (subtract_twice_pixel_zero_iff (fp_const 1) (fp_const 1) rfl 0 (by decide)).mp h1
  revert h2
  decide

/-- C6, amended: for fingerprints `A`, `B` of equal `data_size`, subtracting `B`
once from a copy of `A` yields 0 at every pixel `i < data_size` iff `A` and `B`
agree at every such pixel; subtracting `B` a second time yields 0 at every
pixel `i < data_size` iff at every such pixel `A[i] = 0` or `A[i] = 2 * B[i]`. -/
theorem subtract_twice_zero_iff (A B : dpfp_fprint) (h : A.data_size = B.data_size) :
    ((∀ i, i < A.data_size → (dpfp_fprint_subtract A B).1.data i = 0) ↔
      (∀ i, i < A.data_size → A.data i = B.data i)) ∧
    ((∀ i, i < A.data_size → (subtract_twice A B).data i = 0) ↔
      (∀ i, i < A.data_size → A.data i = 0 ∨ (A.data i).val = 2 * (B.data i).val)) := by
  constructor
  · rw [subtract_eq A B h]
    constructor
    · intro hz i hi
      have h1 := hz i hi
      simp only [hi, if_true] at h1
      exact (absdiff_eq_zero _ _).mp h1
    · intro hz i hi
      simp only [hi, if_true]
      exact (absdiff_eq_zero _ _).mpr (hz i hi)
  · constructor
    · intro hz i hi
      exact (subtract_twice_pixel_zero_iff A B h i hi).mp (hz i hi)
    · intro hz i hi
      exact (subtract_twice_pixel_zero_iff A B h i hi).mpr (hz i hi)

/-- Instance of the amended C6 at the constant frames of value 6 and 3. -/
theorem subtract_twice_zero_iff_witness :
    (fp_const 6).data_size = (fp_const 3).data_size ∧
    (((∀ i, i < (fp_const 6).data_size →
          (dpfp_fprint_subtract (fp_const 6) (fp_const 3)).1.data i = 0) ↔
        (∀ i, i < (fp_const 6).data_size → (fp_const 6).data i = (fp_const 3).data i)) ∧
      ((∀ i, i < (fp_const 6).data_size →
          (subtract_twice (fp_const 6) (fp_const 3)).data i = 0) ↔
        (∀ i, i < (fp_const 6).data_size →
          (fp_const 6).data i = 0 ∨
            ((fp_const 6).data i).val = 2 * ((fp_const 3).data i).val))) :=
  ⟨by decide, subtract_twice_zero_iff (fp_const 6) (fp_const 3) (by decide)⟩

/-- C7: for every image and every threshold, after `dpfp_fprint_binarize` each of
the `W * H` pixels is 0xFF if its original value was strictly below the
threshold and 0 otherwise. -/
theorem binarize_pixels (fp : dpfp_fprint) (limit : uchar) (n : Nat)
    (hn : n < DPFP_IMG_WIDTH * DPFP_IMG_HEIGHT) :
    (dpfp_fprint_binarize fp limit).data n = if fp.data n < limit then 0xff else 0 := by
  have h1 : n < 110976 := hn
  rw [binarize_data]
  simp only [h1, if_true, binarize_pixel]

/-- Instance of C7 at `fp_ramp`, threshold 0x80, pixel 300. -/
theorem binarize_pixels_witness :
    (300 : Nat) < DPFP_IMG_WIDTH * DPFP_IMG_HEIGHT ∧
    (dpfp_fprint_binarize fp_ramp 0x80).data 300
      = if fp_ramp.data 300 < 0x80 then 0xff else 0 :=
  ⟨by decide, binarize_pixels fp_ramp 0x80 300 (by decide)⟩

/-- C8, as stated, fails: for the all-zero full frame and threshold 1 (> 0),
binarizing twice does not give the same pixel data as binarizing once. -/
theorem binarize_idempotent_claim_fails :
    ¬ ((0 : uchar) < 1 →
        (dpfp_fprint_binarize (dpfp_fprint_binarize (fp_const 0) 1) 1).data
          = (dpfp_fprint_binarize (fp_const 0) 1).data) := by
  intro h
  have h1 := congrFun (h (by decide)) 0
  rw [binarize_applied_twice_data, binarize_data] at h1
  have h0 : (0 : Nat) < 110976 := by decide
  simp only [h0, if_true] at h1
  exact binarize_pixel_twice_ne 1 _ (by decide) h1

/-- C8, amended: for every image and every threshold `t > 0`, each of the
`W * H` pixels of `binarize(binarize(I, t), t)` is the complement of the same
pixel of `binarize(I, t)` (0xFF where that is 0, and 0 otherwise), so the two
differ at every pixel; `binarize(binarize(I, t), t)` has the same pixel data as
`binarize(I, t)` exactly when `t = 0`. -/
theorem binarize_twice (fp : dpfp_fprint) (t : uchar) :
    (0 < t → ∀ n, n < DPFP_IMG_WIDTH * DPFP_IMG_HEIGHT →
        (dpfp_fprint_binarize (dpfp_fprint_binarize fp t) t).data n
            = (if (dpfp_fprint_binarize fp t).data n = 0 then 0xff else 0) ∧
        (dpfp_fprint_binarize (dpfp_fprint_binarize fp t) t).data n
            ≠ (dpfp_fprint_binarize fp t).data n) ∧
    ((dpfp_fprint_binarize (dpfp_fprint_binarize fp t) t).data
        = (dpfp_fprint_binarize fp t).data ↔ t = 0) := by
  rw [binarize_applied_twice_data, binarize_data]
  refine ⟨fun ht n hn => ?_, ?_, ?_⟩
  · have h1 : n < 110976 := hn
    simp only [h1, if_true]
    exact ⟨binarize_pixel_twice t _ ht, binarize_pixel_twice_ne t _ ht⟩
  · intro h
    by_contra h0
    have ht : 0 < t := by
      rcases Fin.eq_zero_or_eq_succ t with h1 | ⟨j, h1⟩
      · exact absurd h1 h0
      · rw [h1]
        exact Fin.succ_pos j
    have h1 := congrFun h 0
    have h2 : (0 : Nat) < 110976 := by decide
    simp only [h2, if_true] at h1
    exact binarize_pixel_twice_ne t _ ht h1
  · intro h0
    subst h0
    funext x
    by_cases hx : x < 110976
    · simp [hx, binarize_pixel]
    · simp only [hx, if_false]

/-- Instance of the amended C8 at `fp_ramp`, threshold 0x80, pixel 300. -/
theorem binarize_twice_witness :
    (0 : uchar) < 0x80 ∧ (300 : Nat) < DPFP_IMG_WIDTH * DPFP_IMG_HEIGHT ∧
    ((dpfp_fprint_binarize (dpfp_fprint_binarize fp_ramp 0x80) 0x80).data 300
        = (if (dpfp_fprint_binarize fp_ramp 0x80).data 300 = 0 then 0xff else 0) ∧
      (dpfp_fprint_binarize (dpfp_fprint_binarize fp_ramp 0x80) 0x80).data 300
        ≠ (dpfp_fprint_binarize fp_ramp 0x80).data 300) :=
  ⟨by decide, by decide, (binarize_twice fp_ramp 0x80).1 (by decide) 300 (by decide)⟩

/-! ### Minutiae detection: the accumulator -/

theorem f32_excess_small (n v : Nat) (h : v < 2 ^ 24) : f32_excess n v = 0 := by
  cases n with
  | zero => rfl
  | succ n => simp only [f32_excess, h, if_true]

/-- Values with at most 24 significant bits are not changed by rounding. -/
theorem f32_round_exact (v : Nat) (h : v < 2 ^ 24) : f32_round v = v := by
  simp only [f32_round, f32_excess_small v v h, if_true]

/-- The sum `1.0f + 0.1f` is the `float` `9227469 * 2^-23`, i.e. `1.1f`. -/
theorem f32_one_add_tenth : f32_add f32_one f32_tenth = 9227469 * 2 ^ 4 := by
  decide

/-- The product `1.3f * 10`, a tie between two neighbouring `float`s, rounds to
the even one, `13.0f`. -/
theorem f32_tie_to_even : f32_mul_int 10 (10905190 * 2 ^ 4) = 13 * 2 ^ 27 := by
  decide

theorem mag_of_bits : ∀ a b c d e f g h i : Bool,
    mag_of a.toNat b.toNat c.toNat d.toNat e.toNat f.toNat g.toNat h.toNat i.toNat
      = 10 * e.toNat
        + (a.toNat + b.toNat + c.toNat + d.toNat + f.toNat + g.toNat + h.toNat + i.toNat) := by
  decide

theorem ridge_toNat (buf : Nat → uchar) (x y : Nat) :
    ridge buf x y = (decide (buf (y * 384 + x) ≠ 0)).toNat := by
  simp only [ridge, DPFP_IMG_WIDTH]
  split_ifs with h <;> simp [h]

theorem detect_mag_eq_mag_of (buf : Nat → uchar) (i j : Nat) :
    detect_mag buf (i + 1) (j + 1)
      = mag_of (ridge buf j i) (ridge buf (j + 1) i) (ridge buf (j + 2) i)
          (ridge buf j (i + 1)) (ridge buf (j + 1) (i + 1)) (ridge buf (j + 2) (i + 1))
          (ridge buf j (i + 2)) (ridge buf (j + 1) (i + 2)) (ridge buf (j + 2) (i + 2)) := by
  have e00 : (i + 1 + 0 - 1) * 384 + (j + 1) + 0 - 1 = i * 384 + j := by omega
  have e01 : (i + 1 + 0 - 1) * 384 + (j + 1) + 1 - 1 = i * 384 + (j + 1) := by omega
  have e02 : (i + 1 + 0 - 1) * 384 + (j + 1) + 2 - 1 = i * 384 + (j + 2) := by omega
  have e10 : (i + 1 + 1 - 1) * 384 + (j + 1) + 0 - 1 = (i + 1) * 384 + j := by omega
  have e11 : (i + 1 + 1 - 1) * 384 + (j + 1) + 1 - 1 = (i + 1) * 384 + (j + 1) := by omega
  have e12 : (i + 1 + 1 - 1) * 384 + (j + 1) + 2 - 1 = (i + 1) * 384 + (j + 2) := by omega
  have e20 : (i + 1 + 2 - 1) * 384 + (j + 1) + 0 - 1 = (i + 2) * 384 + j := by omega
  have e21 : (i + 1 + 2 - 1) * 384 + (j + 1) + 1 - 1 = (i + 2) * 384 + (j + 1) := by omega
  have e22 : (i + 1 + 2 - 1) * 384 + (j + 1) + 2 - 1 = (i + 2) * 384 + (j + 2) := by omega
  have m00 : detect_mask 0 0 = f32_tenth := by decide
  have m01 : detect_mask 0 1 = f32_tenth := by decide
  have m02 : detect_mask 0 2 = f32_tenth := by decide
  have m10 : detect_mask 1 0 = f32_tenth := by decide
  have m11 : detect_mask 1 1 = f32_one := by decide
  have m12 : detect_mask 1 2 = f32_tenth := by decide
  have m20 : detect_mask 2 0 = f32_tenth := by decide
  have m21 : detect_mask 2 1 = f32_tenth := by decide
  have m22 : detect_mask 2 2 = f32_tenth := by decide
  simp only [detect_mag, detect_value, for_range, for_loop, Nat.sub_zero, Nat.zero_add,
    Nat.reduceAdd, DPFP_IMG_WIDTH, e00, e01, e02, e10, e11, e12, e20, e21, e22,
    m00, m01, m02, m10, m11, m12, m20, m21, m22, mag_of, ridge]

theorem detect_mag_eq (buf : Nat → uchar) (i j : Nat) (hi : 1 ≤ i) (hj : 1 ≤ j) :
    detect_mag buf i j = 10 * ridge buf j i + neighbours buf i j := by
  obtain ⟨i, rfl⟩ : ∃ a, i = a + 1 := ⟨i - 1, by omega⟩
  obtain ⟨j, rfl⟩ : ∃ a, j = a + 1 := ⟨j - 1, by omega⟩
  rw [detect_mag_eq_mag_of]
  simp only [neighbours, ridge_toNat, Nat.add_sub_cancel, mag_of_bits, Nat.add_assoc,
    Nat.reduceAdd]

theorem ridge_le_one (buf : Nat → uchar) (x y : Nat) : ridge buf x y ≤ 1 := by
  simp only [ridge]
  split_ifs <;> omega

theorem neighbours_le (buf : Nat → uchar) (i j : Nat) : neighbours buf i j ≤ 8 := by
  have h1 := ridge_le_one buf (j - 1) (i - 1)
  have h2 := ridge_le_one buf j (i - 1)
  have h3 := ridge_le_one buf (j + 1) (i - 1)
  have h4 := ridge_le_one buf (j - 1) i
  have h5 := ridge_le_one buf (j + 1) i
  have h6 := ridge_le_one buf (j - 1) (i + 1)
  have h7 := ridge_le_one buf j (i + 1)
  have h8 := ridge_le_one buf (j + 1) (i + 1)
  simp only [neighbours]
  omega

theorem detect_hit_iff (buf : Nat → uchar) (i j : Nat) (hi : 1 ≤ i) (hj : 1 ≤ j) :
    detect_hit buf i j = true ↔
      (buf (i * DPFP_IMG_WIDTH + j) ≠ 0 ∧
        (neighbours buf i j = 1 ∨ neighbours buf i j = 3)) := by
  have h8 := neighbours_le buf i j
  have hr : ridge buf j i = if buf (i * DPFP_IMG_WIDTH + j) ≠ 0 then 1 else 0 := rfl
  simp only [detect_hit, decide_eq_true_eq, detect_mag_eq buf i j hi hj, hr]
  split_ifs with h
  · constructor
    · intro h1
      exact ⟨h, by omega⟩
    · intro h1
      omega
  · constructor
    · intro h1
      omega
    · intro h1
      exact absurd h1.1 h

/-! ### Minutiae detection: the scan -/

theorem push_all_count (l : List dpfp_minutia) (m : dpfp_mset) :
    (push_all m l).count = m.count + l.length := by
  induction l generalizing m with
  | nil => simp [push_all]
  | cons x xs ih =>
    simp only [push_all, ih, List.length_cons]
    omega

theorem push_all_append (l1 l2 : List dpfp_minutia) (m : dpfp_mset) :
    push_all m (l1 ++ l2) = push_all (push_all m l1) l2 := by
  induction l1 generalizing m with
  | nil => simp [push_all]
  | cons x xs ih =>
    show push_all _ (xs ++ l2) = _
    exact ih _

theorem push_all_old (l : List dpfp_minutia) (m : dpfp_mset) (idx : Nat)
    (h : idx < m.count) : (push_all m l).minutiae idx = m.minutiae idx := by
  induction l generalizing m with
  | nil => simp [push_all]
  | cons x xs ih =>
    simp only [push_all]
    rw [ih]
    · have h1 : idx ≠ m.count := by omega
      simp only [h1, if_false]
    · simp only
      omega

theorem push_all_new (l : List dpfp_minutia) (m : dpfp_mset) (k : Nat)
    (h : k < l.length) : (push_all m l).minutiae (m.count + k) = l.get ⟨k, h⟩ := by
  induction l generalizing m k with
  | nil => simp at h
  | cons x xs ih =>
    simp only [push_all]
    cases k with
    | zero =>
      rw [push_all_old]
      · simp
      · simp
    | succ k =>
      have h1 : k < xs.length := by simpa using h
      have h2 := ih { minutiae := fun n => if n = m.count then x else m.minutiae n,
                      count := m.count + 1 } k h1
      have e : m.count + (k + 1) = m.count + 1 + k := by omega
      rw [e]
      simpa using h2

theorem detect_row_eq (buf : Nat → uchar) (i n j : Nat) (m : dpfp_mset)
    (hm : m.count < 384) :
    detect_row buf i n j m = push_all m ((row_hits buf i n j).take (384 - m.count)) := by
  induction n generalizing j m with
  | zero => simp [detect_row, row_hits, push_all]
  | succ n ih =>
    obtain ⟨k, hk⟩ : ∃ k, 384 - m.count = k + 1 := ⟨383 - m.count, by omega⟩
    by_cases hit : detect_mag buf i j = 11 ∨ detect_mag buf i j = 13
    · have hh : detect_hit buf i j = true := by simpa [detect_hit] using hit
      simp only [detect_row, row_hits, hit, hh, if_true, hk, List.take_succ_cons, push_all,
        mset_push, DPFP_MAX_MINUTIAE]
      by_cases hc : m.count + 1 ≥ 384
      · have hk0 : k = 0 := by omega
        simp only [hc, if_true, hk0, List.take_zero, push_all]
      · simp only [hc, if_false]
        rw [ih]
        · have e : 384 - (m.count + 1) = k := by omega
          simp only [e]
        · simp only
          omega
    · have hh : detect_hit buf i j = false := by simpa [detect_hit] using hit
      simp only [detect_row, row_hits, hit, hh, if_false]
      exact ih (j + 1) m hm

theorem detect_rows_eq (buf : Nat → uchar) (n i : Nat) (m : dpfp_mset)
    (hm : m.count < 384) :
    detect_rows buf n i m = push_all m ((hits buf n i).take (384 - m.count)) := by
  induction n generalizing i m with
  | zero => simp [detect_rows, hits, push_all]
  | succ n ih =>
    have hrow := detect_row_eq buf i 382 1 m hm
    simp only [detect_rows, hits, DPFP_IMG_WIDTH, DPFP_MAX_MINUTIAE, Nat.reduceSub, hrow,
      push_all_count, List.length_take, List.take_append_eq_append_take, push_all_append]
    by_cases hc : m.count + min (384 - m.count) (row_hits buf i 382 1).length ≥ 384
    · have h0 : 384 - m.count - (row_hits buf i 382 1).length = 0 := by omega
      simp only [hc, if_true, h0, List.take_zero, push_all]
    · simp only [hc, if_false]
      have hlen : (row_hits buf i 382 1).length < 384 - m.count := by omega
      rw [ih]
      · simp only [push_all_count, List.length_take]
        have e : 384 - (m.count + min (384 - m.count) (row_hits buf i 382 1).length)
            = 384 - m.count - (row_hits buf i 382 1).length := by omega
        rw [e]
      · simp only [push_all_count, List.length_take]
        omega

theorem detect_rows_count_le (buf : Nat → uchar) (n i : Nat) (m : dpfp_mset)
    (hm : m.count < 384) : (detect_rows buf n i m).count ≤ 384 := by
  rw [detect_rows_eq buf n i m hm, push_all_count, List.length_take]
  omega

theorem mem_row_hits (buf : Nat → uchar) (i n j0 : Nat) (p : dpfp_minutia) :
    p ∈ row_hits buf i n j0 ↔
      ∃ j, j0 ≤ j ∧ j < j0 + n ∧ detect_hit buf i j = true ∧
        p = { x := (j : Int), y := (i : Int) } := by
  induction n generalizing j0 with
  | zero =>
    simp only [row_hits, List.not_mem_nil, false_iff]
    rintro ⟨j, h1, h2, _⟩
    omega
  | succ n ih =>
    by_cases hh : detect_hit buf i j0 = true
    · simp only [row_hits, hh, if_true, List.mem_cons, ih]
      constructor
      · rintro (h | ⟨j, h1, h2, h3, h4⟩)
        · exact ⟨j0, le_refl _, by omega, hh, h⟩
        · exact ⟨j, by omega, by omega, h3, h4⟩
      · rintro ⟨j, h1, h2, h3, h4⟩
        by_cases e : j = j0
        · subst e
          exact Or.inl h4
        · exact Or.inr ⟨j, by omega, by omega, h3, h4⟩
    · have hf : detect_hit buf i j0 = false := by simpa using hh
      simp only [row_hits, hf, Bool.false_eq_true, if_false, ih]
      constructor
      · rintro ⟨j, h1, h2, h3, h4⟩
        exact ⟨j, by omega, by omega, h3, h4⟩
      · rintro ⟨j, h1, h2, h3, h4⟩
        by_cases e : j = j0
        · subst e
          exact absurd h3 hh
        · exact ⟨j, by omega, by omega, h3, h4⟩

theorem mem_hits (buf : Nat → uchar) (n i0 : Nat) (p : dpfp_minutia) :
    p ∈ hits buf n i0 ↔
      ∃ i j, i0 ≤ i ∧ i < i0 + n ∧ 1 ≤ j ∧ j < 383 ∧ detect_hit buf i j = true ∧
        p = { x := (j : Int), y := (i : Int) } := by
  induction n generalizing i0 with
  | zero =>
    simp only [hits, List.not_mem_nil, false_iff]
    rintro ⟨i, j, h1, h2, _⟩
    omega
  | succ n ih =>
    simp only [hits, List.mem_append, mem_row_hits, ih]
    constructor
    · rintro (⟨j, h1, h2, h3, h4⟩ | ⟨i, j, h1, h2, h3, h4, h5, h6⟩)
      · exact ⟨i0, j, le_refl _, by omega, h1, by omega, h3, h4⟩
      · exact ⟨i, j, by omega, by omega, h3, h4, h5, h6⟩
    · rintro ⟨i, j, h1, h2, h3, h4, h5, h6⟩
      by_cases e : i = i0
      · subst e
        exact Or.inl ⟨j, h3, by omega, h5, h6⟩
      · exact Or.inr ⟨i, j, by omega, by omega, h3, h4, h5, h6⟩

theorem push_all_mem (l : List dpfp_minutia) (m : dpfp_mset) (hm : m.count = 0)
    (p : dpfp_minutia) :
    (∃ idx, idx < (push_all m l).count ∧ (push_all m l).minutiae idx = p) ↔ p ∈ l := by
  rw [push_all_count, hm, Nat.zero_add]
  constructor
  · rintro ⟨idx, h1, h2⟩
    have h3 := push_all_new l m idx h1
    rw [hm, Nat.zero_add] at h3
    rw [← h2, h3]
    exact List.get_mem l idx h1
  · intro hp
    obtain ⟨⟨k, hk⟩, hk2⟩ := List.get_of_mem hp
    refine ⟨k, hk, ?_⟩
    have h3 := push_all_new l m k hk
    rw [hm, Nat.zero_add] at h3
    rw [h3, hk2]

theorem row_hits_nil (buf : Nat → uchar) (i n j : Nat) (hi : 1 ≤ i) (hj : 1 ≤ j)
    (hz : ∀ j', j ≤ j' → buf (i * DPFP_IMG_WIDTH + j') = 0) : row_hits buf i n j = [] := by
  induction n generalizing j with
  | zero => rfl
  | succ n ih =>
    have hh : ¬ detect_hit buf i j = true := by
      rw [detect_hit_iff buf i j hi hj]
      intro h
      exact h.1 (hz j (le_refl j))
    have hf : detect_hit buf i j = false := by simpa using hh
    simp only [row_hits, hf, Bool.false_eq_true, if_false]
    exact ih (j + 1) (by omega) (fun j' hj' => hz j' (by omega))

theorem hits_nil (buf : Nat → uchar) (n i : Nat) (hi : 1 ≤ i)
    (hz : ∀ i' j', i ≤ i' → buf (i' * DPFP_IMG_WIDTH + j') = 0) : hits buf n i = [] := by
  induction n generalizing i with
  | zero => rfl
  | succ n ih =>
    simp only [hits]
    rw [row_hits_nil buf i 382 1 hi (le_refl 1) (fun j' _ => hz i j' (le_refl i)),
      ih (i + 1) (by omega) (fun i' j' h => hz i' j' (by omega))]
    rfl

theorem fp_pair_hits :
    hits fp_pair.data 287 1 = [{ x := 1, y := 1 }, { x := 2, y := 1 }] := by
  have h1 : detect_hit fp_pair.data 1 1 = true := by decide
  have h2 : detect_hit fp_pair.data 1 2 = true := by decide
  have h3 : row_hits fp_pair.data 1 380 3 = [] := by
    apply row_hits_nil _ _ _ _ (by decide) (by decide)
    intro j' hj'
    have e : ¬ (1 * DPFP_IMG_WIDTH + j' = 385 ∨ 1 * DPFP_IMG_WIDTH + j' = 386) := by
      simp only [DPFP_IMG_WIDTH]
      omega
    simp only [fp_pair, e, if_false]
  have h4 : hits fp_pair.data 286 2 = [] := by
    apply hits_nil _ _ _ (by decide)
    intro i' j' hi'
    have e : ¬ (i' * DPFP_IMG_WIDTH + j' = 385 ∨ i' * DPFP_IMG_WIDTH + j' = 386) := by
      simp only [DPFP_IMG_WIDTH]
      omega
    simp only [fp_pair, e, if_false]
  have e1 : hits fp_pair.data 287 1
      = row_hits fp_pair.data 1 382 1 ++ hits fp_pair.data 286 2 := rfl
  have e2 : row_hits fp_pair.data 1 382 1
      = if detect_hit fp_pair.data 1 1 then
          { x := ((1 : Nat) : Int), y := ((1 : Nat) : Int) } :: row_hits fp_pair.data 1 381 2
        else row_hits fp_pair.data 1 381 2 := rfl
  have e3 : row_hits fp_pair.data 1 381 2
      = if detect_hit fp_pair.data 1 2 then
          { x := ((2 : Nat) : Int), y := ((1 : Nat) : Int) } :: row_hits fp_pair.data 1 380 3
        else row_hits fp_pair.data 1 380 3 := rfl
  rw [e1, e2, e3, h1, h2, h3, h4]
  rfl

theorem fp_pair_detect_count :
    (dpfp_fprint_detect_minutiae fp_pair dpfp_mset_alloc).2.count = 2 := by
  have h : dpfp_mset_alloc.count < 384 := by decide
  simp only [dpfp_fprint_detect_minutiae, DPFP_IMG_HEIGHT, Nat.reduceSub]
  rw [detect_rows_eq _ _ _ _ h, push_all_count, fp_pair_hits]
  rfl

theorem detect_emitted_iff_mem_hits (fp : dpfp_fprint) (mset : dpfp_mset)
    (h0 : mset.count = 0)
    (hcap : (dpfp_fprint_detect_minutiae fp mset).2.count < DPFP_MAX_MINUTIAE)
    (p : dpfp_minutia) :
    (∃ idx, idx < (dpfp_fprint_detect_minutiae fp mset).2.count ∧
        (dpfp_fprint_detect_minutiae fp mset).2.minutiae idx = p) ↔
      p ∈ hits fp.data 287 1 := by
  have hm : mset.count < 384 := by omega
  have e : (dpfp_fprint_detect_minutiae fp mset).2
      = push_all mset ((hits fp.data 287 1).take (384 - mset.count)) :=
    detect_rows_eq fp.data 287 1 mset hm
  rw [e] at hcap ⊢
  rw [push_all_count, List.length_take, h0] at hcap
  have hlen : (hits fp.data 287 1).length ≤ 384 - mset.count := by
    simp only [DPFP_MAX_MINUTIAE] at hcap
    omega
  rw [List.take_of_length_le hlen]
  exact push_all_mem _ mset h0 p

/-- C9: the cap fails for a set that is already full.  With `count = 384` on
entry and the image that is 0xFF at row 1, columns 1 and 2,
`dpfp_fprint_detect_minutiae` stores the minutia (1, 1) at index 384, past the
end of the array, and leaves `count = 385`. -/
theorem detect_minutiae_full_set_overrun :
    mset_full.count = DPFP_MAX_MINUTIAE ∧
    (dpfp_fprint_detect_minutiae fp_pair mset_full).2.count = 385 ∧
    mset_full.minutiae 384 = { x := 0, y := 0 } ∧
    (dpfp_fprint_detect_minutiae fp_pair mset_full).2.minutiae 384 = { x := 1, y := 1 } := by
  decide

/-- C10: for every image and every set that is empty on entry and does not
reach capacity, `dpfp_fprint_detect_minutiae` emits the minutia `(x = j, y = i)`
if and only if `1 ≤ i < H - 1`, `1 ≤ j < W - 1`, the pixel at column `j`, row `i`
is non-zero and exactly 1 or exactly 3 of its eight neighbours are non-zero. -/
theorem detect_minutiae_emits_iff (fp : dpfp_fprint) (mset : dpfp_mset)
    (h0 : mset.count = 0)
    (hcap : (dpfp_fprint_detect_minutiae fp mset).2.count < DPFP_MAX_MINUTIAE)
    (i j : Nat) :
    (∃ idx, idx < (dpfp_fprint_detect_minutiae fp mset).2.count ∧
        (dpfp_fprint_detect_minutiae fp mset).2.minutiae idx
          = { x := (j : Int), y := (i : Int) }) ↔
      (1 ≤ i ∧ i < DPFP_IMG_HEIGHT - 1 ∧ 1 ≤ j ∧ j < DPFP_IMG_WIDTH - 1 ∧
        fp.data (i * DPFP_IMG_WIDTH + j) ≠ 0 ∧
        (neighbours fp.data i j = 1 ∨ neighbours fp.data i j = 3)) := by
  rw [detect_emitted_iff_mem_hits fp mset h0 hcap, mem_hits]
  simp only [DPFP_IMG_HEIGHT, DPFP_IMG_WIDTH, Nat.reduceSub]
  constructor
  · rintro ⟨i', j', h1, h2, h3, h4, h5, h6⟩
    have hx : (j : Int) = (j' : Int) := congrArg dpfp_minutia.x h6
    have hy : (i : Int) = (i' : Int) := congrArg dpfp_minutia.y h6
    have ej : j = j' := by omega
    have ei : i = i' := by omega
    subst ej
    subst ei
    have h7 := (detect_hit_iff fp.data i j h1 h3).mp h5
    exact ⟨h1, by omega, h3, h4, h7.1, h7.2⟩
  · rintro ⟨h1, h2, h3, h4, h5, h6⟩
    exact ⟨i, j, h1, by omega, h3, h4, (detect_hit_iff fp.data i j h1 h3).mpr ⟨h5, h6⟩, rfl⟩

/-- Instance of C10 at the image `fp_pair`, a fresh set and the pixel at row 1, column 1. -/
theorem detect_minutiae_emits_iff_witness :
    dpfp_mset_alloc.count = 0 ∧
    (dpfp_fprint_detect_minutiae fp_pair dpfp_mset_alloc).2.count < DPFP_MAX_MINUTIAE ∧
    ((∃ idx, idx < (dpfp_fprint_detect_minutiae fp_pair dpfp_mset_alloc).2.count ∧
        (dpfp_fprint_detect_minutiae fp_pair dpfp_mset_alloc).2.minutiae idx
          = { x := ((1 : Nat) : Int), y := ((1 : Nat) : Int) }) ↔
      (1 ≤ 1 ∧ 1 < DPFP_IMG_HEIGHT - 1 ∧ 1 ≤ 1 ∧ 1 < DPFP_IMG_WIDTH - 1 ∧
        fp_pair.data (1 * DPFP_IMG_WIDTH + 1) ≠ 0 ∧
        (neighbours fp_pair.data 1 1 = 1 ∨ neighbours fp_pair.data 1 1 = 3))) :=
  ⟨rfl, by rw [fp_pair_detect_count]; decide,
   detect_minutiae_emits_iff fp_pair dpfp_mset_alloc rfl
     (by rw [fp_pair_detect_count]; decide) 1 1⟩

/-! ## Frame capture -/

theorem fp_buffer_with_buffer (fp : dpfp_fprint) (buf : Nat → uchar) :
    fp_buffer (fp_with_buffer fp buf) = buf := by
  funext k
  simp only [fp_buffer, fp_with_buffer]
  split_ifs with h
  · rfl
  · refine congrArg buf ?_
    omega

theorem capture_ok (r1 r2 : bulk_result) (fp : dpfp_fprint)
    (h1 : 0 ≤ r1.ret) (h2 : 0 ≤ r2.ret) :
    dpfp_capture_fprint r1 r2 fp
      = (0, { fp_with_buffer fp
                (memcpy (memcpy (fp_buffer fp) 0 r1.bytes 0 r1.ret.toNat)
                  r1.ret.toNat r2.bytes 0 r2.ret.toNat) with
              header_size := 64, data_size := size_t_of_int (r1.ret + r2.ret - 64) }) := by
  have n1 : ¬ r1.ret < 0 := by omega
  have n2 : ¬ r2.ret < 0 := by omega
  simp only [dpfp_capture_fprint, usb_bulk_read, n1, n2, if_false]

theorem size_t_of_int_small (v : Int) (h0 : 0 ≤ v) (h1 : v < 2 ^ 64) :
    ((size_t_of_int v : Nat) : Int) = v := by
  simp only [size_t_of_int]
  rw [Int.emod_eq_of_lt h0 h1]
  exact Int.toNat_of_nonneg h0

/-- C18, as stated, fails: when both bulk reads succeed with 0 bytes each, the
`size_t` field `data_size` is `2^64 - 64`, not `0 + 0 - 64`. -/
theorem capture_data_size_claim_fails :
    0 ≤ (bulk_of 0 0).ret ∧
    (dpfp_capture_fprint (bulk_of 0 0) (bulk_of 0 0) fp_ramp).1 = 0 ∧
    (((dpfp_capture_fprint (bulk_of 0 0) (bulk_of 0 0) fp_ramp).2.data_size : Nat) : Int)
      ≠ (bulk_of 0 0).ret + (bulk_of 0 0).ret - 64 := by
  decide

/-- C18, amended: when both bulk reads succeed, each with at most the requested
number of bytes, and at least 64 bytes are received in total,
`dpfp_capture_fprint` returns 0 with `header_size = 64` and
`data_size = (bytes of the first read + bytes of the second read) - 64`, and
the allocation holds the bytes of the first read from offset 0 and those of
the second read directly after them. -/
theorem capture_sizes (r1 r2 : bulk_result) (fp : dpfp_fprint)
    (h1 : 0 ≤ r1.ret) (h1' : r1.ret ≤ DATABLK1_RQSIZE)
    (h2 : 0 ≤ r2.ret) (h2' : r2.ret ≤ DATABLK2_RQSIZE)
    (h64 : 64 ≤ r1.ret + r2.ret) :
    (dpfp_capture_fprint r1 r2 fp).1 = 0 ∧
    (dpfp_capture_fprint r1 r2 fp).2.header_size = 64 ∧
    (((dpfp_capture_fprint r1 r2 fp).2.data_size : Nat) : Int) = r1.ret + r2.ret - 64 ∧
    (∀ k : Nat, (k : Int) < r1.ret →
      fp_buffer (dpfp_capture_fprint r1 r2 fp).2 k = r1.bytes k) ∧
    (∀ k : Nat, (k : Int) < r2.ret →
      fp_buffer (dpfp_capture_fprint r1 r2 fp).2 (r1.ret.toNat + k) = r2.bytes k) := by
  rw [capture_ok r1 r2 fp h1 h2]
  simp only [DATABLK1_RQSIZE, DATABLK2_RQSIZE, Nat.cast_ofNat] at h1' h2'
  refine ⟨rfl, rfl, ?_, ?_, ?_⟩
  · exact size_t_of_int_small _ (by omega) (by omega)
  · intro k hk
    have e : fp_buffer { fp_with_buffer fp
                (memcpy (memcpy (fp_buffer fp) 0 r1.bytes 0 r1.ret.toNat)
                  r1.ret.toNat r2.bytes 0 r2.ret.toNat) with
              header_size := 64, data_size := size_t_of_int (r1.ret + r2.ret - 64) }
        = memcpy (memcpy (fp_buffer fp) 0 r1.bytes 0 r1.ret.toNat)
                  r1.ret.toNat r2.bytes 0 r2.ret.toNat :=
      fp_buffer_with_buffer fp _
    rw [e]
    simp only [memcpy]
    have c1 : ¬ (r1.ret.toNat ≤ k ∧ k < r1.ret.toNat + r2.ret.toNat) := by omega
    have c2 : 0 ≤ k ∧ k < 0 + r1.ret.toNat := by omega
    simp only [c1, c2, if_false, if_true]
    refine congrArg r1.bytes ?_
    omega
  · intro k hk
    have e : fp_buffer { fp_with_buffer fp
                (memcpy (memcpy (fp_buffer fp) 0 r1.bytes 0 r1.ret.toNat)
                  r1.ret.toNat r2.bytes 0 r2.ret.toNat) with
              header_size := 64, data_size := size_t_of_int (r1.ret + r2.ret - 64) }
        = memcpy (memcpy (fp_buffer fp) 0 r1.bytes 0 r1.ret.toNat)
                  r1.ret.toNat r2.bytes 0 r2.ret.toNat :=
      fp_buffer_with_buffer fp _
    rw [e]
    simp only [memcpy]
    have c1 : r1.ret.toNat ≤ r1.ret.toNat + k ∧
        r1.ret.toNat + k < r1.ret.toNat + r2.ret.toNat := by omega
    simp only [c1, if_true]
    refine congrArg r2.bytes ?_
    omega

/-- Instance of the amended C18 at two full reads. -/
theorem capture_sizes_witness :
    (dpfp_capture_fprint (bulk_of 0x10000 7) (bulk_of 0xb340 9) fp_ramp).1 = 0 ∧
    (dpfp_capture_fprint (bulk_of 0x10000 7) (bulk_of 0xb340 9) fp_ramp).2.header_size = 64 ∧
    (((dpfp_capture_fprint (bulk_of 0x10000 7) (bulk_of 0xb340 9) fp_ramp).2.data_size : Nat)
        : Int) = (bulk_of 0x10000 7).ret + (bulk_of 0xb340 9).ret - 64 ∧
    fp_buffer (dpfp_capture_fprint (bulk_of 0x10000 7) (bulk_of 0xb340 9) fp_ramp).2 3
      = (bulk_of 0x10000 7).bytes 3 ∧
    fp_buffer (dpfp_capture_fprint (bulk_of 0x10000 7) (bulk_of 0xb340 9) fp_ramp).2
        ((bulk_of 0x10000 7).ret.toNat + 5) = (bulk_of 0xb340 9).bytes 5 :=
  ⟨(capture_sizes (bulk_of 0x10000 7) (bulk_of 0xb340 9) fp_ramp
      (by decide) (by decide) (by decide) (by decide) (by decide)).1,
   (capture_sizes (bulk_of 0x10000 7) (bulk_of 0xb340 9) fp_ramp
      (by decide) (by decide) (by decide) (by decide) (by decide)).2.1,
   (capture_sizes (bulk_of 0x10000 7) (bulk_of 0xb340 9) fp_ramp
      (by decide) (by decide) (by decide) (by decide) (by decide)).2.2.1,
   (capture_sizes (bulk_of 0x10000 7) (bulk_of 0xb340 9) fp_ramp
      (by decide) (by decide) (by decide) (by decide) (by decide)).2.2.2.1 3 (by decide),
   (capture_sizes (bulk_of 0x10000 7) (bulk_of 0xb340 9) fp_ramp
      (by decide) (by decide) (by decide) (by decide) (by decide)).2.2.2.2 5 (by decide)⟩

/-- C19, as stated, fails: a short read is not refused.  When the first bulk
read delivers only 100 of the 0x10000 bytes requested (and the second is
complete), `dpfp_capture_fprint` returns 0, not a negative value, and sets
`data_size = 100 + 0xb340 - 64`. -/
theorem capture_short_read_accepted :
    (bulk_of 100 7).ret < DATABLK1_RQSIZE ∧
    (dpfp_capture_fprint (bulk_of 100 7) (bulk_of 0xb340 9) fp_ramp).1 = 0 ∧
    (dpfp_capture_fprint (bulk_of 100 7) (bulk_of 0xb340 9) fp_ramp).2.data_size = 45924 := by
  decide

/-- C20, as stated, fails: when both bulk reads return their full requested
sizes the capture succeeds with `data_size = 111360`, which exceeds
`W * H = 110976`. -/
theorem capture_data_size_bound_claim_fails :
    (dpfp_capture_fprint (bulk_of 0x10000 7) (bulk_of 0xb340 9) fp_ramp).1 = 0 ∧
    ¬ ((dpfp_capture_fprint (bulk_of 0x10000 7) (bulk_of 0xb340 9) fp_ramp).2.data_size
        ≤ DPFP_IMG_WIDTH * DPFP_IMG_HEIGHT) := by
  decide

/-- C20, amended: after a successful `dpfp_capture_fprint` in which each read
delivers at most the requested number of bytes and at least 64 bytes arrive in
total, `data_size ≤ 0x10000 + 0xB340 - 64 = 111360 = W * (H + 1)`; when both
reads return their full requested sizes, `data_size = 111360`, one row more
than `W * H`. -/
theorem capture_data_size_bound (r1 r2 : bulk_result) (fp : dpfp_fprint)
    (h1 : 0 ≤ r1.ret) (h1' : r1.ret ≤ DATABLK1_RQSIZE)
    (h2 : 0 ≤ r2.ret) (h2' : r2.ret ≤ DATABLK2_RQSIZE)
    (h64 : 64 ≤ r1.ret + r2.ret) :
    (dpfp_capture_fprint r1 r2 fp).2.data_size ≤ DPFP_IMG_WIDTH * (DPFP_IMG_HEIGHT + 1) ∧
    (r1.ret = DATABLK1_RQSIZE → r2.ret = DATABLK2_RQSIZE →
      (dpfp_capture_fprint r1 r2 fp).2.data_size = DPFP_IMG_WIDTH * (DPFP_IMG_HEIGHT + 1)) := by
  rw [capture_ok r1 r2 fp h1 h2]
  simp only [DATABLK1_RQSIZE, DATABLK2_RQSIZE, Nat.cast_ofNat] at h1' h2'
  have e := size_t_of_int_small (r1.ret + r2.ret - 64) (by omega) (by omega)
  simp only [DPFP_IMG_WIDTH, DPFP_IMG_HEIGHT, DATABLK1_RQSIZE, DATABLK2_RQSIZE,
    Nat.cast_ofNat]
  constructor
  · omega
  · intro e1 e2
    omega

/-- Instance of the amended C20 at two full reads. -/
theorem capture_data_size_bound_witness :
    (dpfp_capture_fprint (bulk_of 0x10000 7) (bulk_of 0xb340 9) fp_ramp).2.data_size
      ≤ DPFP_IMG_WIDTH * (DPFP_IMG_HEIGHT + 1) ∧
    (dpfp_capture_fprint (bulk_of 0x10000 7) (bulk_of 0xb340 9) fp_ramp).2.data_size
      = DPFP_IMG_WIDTH * (DPFP_IMG_HEIGHT + 1) :=
  ⟨(capture_data_size_bound (bulk_of 0x10000 7) (bulk_of 0xb340 9) fp_ramp
      (by decide) (by decide) (by decide) (by decide) (by decide)).1,
   (capture_data_size_bound (bulk_of 0x10000 7) (bulk_of 0xb340 9) fp_ramp
      (by decide) (by decide) (by decide) (by decide) (by decide)).2 (by decide) (by decide)⟩

/-! ### Minutiae detection: order of the result -/

theorem detect_hit_eq_qualifies (buf : Nat → uchar) (i j : Nat) (hi : 1 ≤ i) (hj : 1 ≤ j) :
    detect_hit buf i j = qualifies buf i j := by
  have h := detect_hit_iff buf i j hi hj
  by_cases hq : buf (i * DPFP_IMG_WIDTH + j) ≠ 0 ∧
      (neighbours buf i j = 1 ∨ neighbours buf i j = 3)
  · have h1 : detect_hit buf i j = true := h.mpr hq
    have h2 : qualifies buf i j = true := decide_eq_true hq
    rw [h1, h2]
  · have h1 : detect_hit buf i j = false := by
      cases hd : detect_hit buf i j with
      | false => rfl
      | true => exact absurd (h.mp hd) hq
    have h2 : qualifies buf i j = false := decide_eq_false hq
    rw [h1, h2]

theorem row_hits_eq_filter (buf : Nat → uchar) (i n j : Nat) (hi : 1 ≤ i) (hj : 1 ≤ j) :
    row_hits buf i n j
      = ((List.range' j n).filter (fun j => qualifies buf i j)).map
          (fun (j : Nat) => { x := (j : Int), y := (i : Int) }) := by
  induction n generalizing j with
  | zero => simp [row_hits]
  | succ n ih =>
    have e := detect_hit_eq_qualifies buf i j hi hj
    simp only [row_hits, List.range'_succ, List.filter_cons, e, ih (j + 1) (by omega)]
    cases qualifies buf i j <;> simp

theorem hits_eq_bind (buf : Nat → uchar) (n i : Nat) (hi : 1 ≤ i) :
    hits buf n i = (List.range' i n).flatMap (fun i => qualifying_row buf i) := by
  induction n generalizing i with
  | zero => simp [hits]
  | succ n ih =>
    simp only [hits, List.range'_succ, List.flatMap_cons, ih (i + 1) (by omega)]
    rw [row_hits_eq_filter buf i 382 1 hi (le_refl 1)]
    rfl

theorem hits_eq_qualifying (buf : Nat → uchar) : hits buf 287 1 = qualifying buf :=
  hits_eq_bind buf 287 1 (le_refl 1)

theorem mset_list_push_all (l : List dpfp_minutia) (m : dpfp_mset) :
    mset_list (push_all m l) = mset_list m ++ l := by
  induction l generalizing m with
  | nil => simp [push_all]
  | cons x xs ih =>
    simp only [push_all]
    rw [ih]
    have e : mset_list { minutiae := fun n => if n = m.count then x else m.minutiae n,
                         count := m.count + 1 } = mset_list m ++ [x] := by
      simp only [mset_list, List.range_succ, List.map_append, List.map_cons, List.map_nil,
        if_true]
      congr 1
      apply List.map_congr_left
      intro a ha
      have h1 : a ≠ m.count := by
        have := List.mem_range.mp ha
        omega
      simp only [h1, if_false]
    rw [e, List.append_assoc]
    rfl

theorem pairwise_row_hits (buf : Nat → uchar) (i n j : Nat) :
    List.Pairwise rowmajor_lt (row_hits buf i n j) := by
  induction n generalizing j with
  | zero => simp [row_hits]
  | succ n ih =>
    by_cases hh : detect_hit buf i j = true
    · simp only [row_hits, hh, if_true, List.pairwise_cons]
      refine ⟨?_, ih (j + 1)⟩
      intro b hb
      obtain ⟨j', h1, _, _, h4⟩ := (mem_row_hits buf i n (j + 1) b).mp hb
      subst h4
      right
      refine ⟨rfl, ?_⟩
      show (j : Int) < (j' : Int)
      omega
    · have hf : detect_hit buf i j = false := by simpa using hh
      simp only [row_hits, hf, Bool.false_eq_true, if_false]
      exact ih (j + 1)

theorem pairwise_hits (buf : Nat → uchar) (n i : Nat) :
    List.Pairwise rowmajor_lt (hits buf n i) := by
  induction n generalizing i with
  | zero => simp [hits]
  | succ n ih =>
    simp only [hits, List.pairwise_append]
    refine ⟨pairwise_row_hits buf i 382 1, ih (i + 1), ?_⟩
    intro a ha b hb
    obtain ⟨j, _, _, _, h4⟩ := (mem_row_hits buf i 382 1 a).mp ha
    obtain ⟨i', j', h1, _, _, _, _, h6⟩ := (mem_hits buf n (i + 1) b).mp hb
    subst h4
    subst h6
    left
    show (i : Int) < (i' : Int)
    omega

/-- C11: for every image and every set that is empty on entry, the minutiae
produced by `dpfp_fprint_detect_minutiae` are exactly the first 384 (or all, if
there are fewer) of the qualifying pixels taken in row-major order, so the
count is 384 when there are at least 384 qualifying pixels, and the entries
are strictly increasing by `y`, then `x`. -/
theorem detect_minutiae_order (fp : dpfp_fprint) (mset : dpfp_mset)
    (h0 : mset.count = 0) :
    mset_list (dpfp_fprint_detect_minutiae fp mset).2
      = (qualifying fp.data).take DPFP_MAX_MINUTIAE ∧
    (dpfp_fprint_detect_minutiae fp mset).2.count
      = min DPFP_MAX_MINUTIAE (qualifying fp.data).length ∧
    List.Pairwise rowmajor_lt (mset_list (dpfp_fprint_detect_minutiae fp mset).2) := by
  have hm : mset.count < 384 := by omega
  have e : (dpfp_fprint_detect_minutiae fp mset).2
      = push_all mset ((hits fp.data 287 1).take (384 - mset.count)) :=
    detect_rows_eq fp.data 287 1 mset hm
  have e0 : mset_list mset = [] := by simp [mset_list, h0]
  have el : mset_list (dpfp_fprint_detect_minutiae fp mset).2
      = (qualifying fp.data).take 384 := by
    rw [e, mset_list_push_all, e0, h0, hits_eq_qualifying]
    rfl
  refine ⟨el, ?_, ?_⟩
  · rw [e, push_all_count, h0, hits_eq_qualifying, List.length_take]
    simp
  · rw [el, ← hits_eq_qualifying]
    exact List.Pairwise.sublist (List.take_sublist _ _) (pairwise_hits fp.data 287 1)

/-- Instance of C11 at the image `fp_pair` and a fresh set. -/
theorem detect_minutiae_order_witness :
    dpfp_mset_alloc.count = 0 ∧
    mset_list (dpfp_fprint_detect_minutiae fp_pair dpfp_mset_alloc).2
      = (qualifying fp_pair.data).take DPFP_MAX_MINUTIAE ∧
    (dpfp_fprint_detect_minutiae fp_pair dpfp_mset_alloc).2.count
      = min DPFP_MAX_MINUTIAE (qualifying fp_pair.data).length ∧
    List.Pairwise rowmajor_lt
      (mset_list (dpfp_fprint_detect_minutiae fp_pair dpfp_mset_alloc).2) :=
  ⟨rfl, detect_minutiae_order fp_pair dpfp_mset_alloc rfl⟩

/-! ### Noise pruning -/

theorem mset_list_push (new : dpfp_mset) (m : dpfp_minutia) :
    mset_list { minutiae := fun n => if n = new.count then m else new.minutiae n,
                count := new.count + 1 } = mset_list new ++ [m] :=
  mset_list_push_all [m] new

theorem remove_noise_body_eq (mset : dpfp_mset) (mask : dpfp_fprint) (i : Nat)
    (new : dpfp_mset) :
    remove_noise_body mset mask i new
      = if noise_keep mask (mset.minutiae i) = true then
          { minutiae := fun n => if n = new.count then mset.minutiae i else new.minutiae n,
            count := new.count + 1 }
        else new := by
  have emin : ∀ a b : Int, (if a > b then b else a) = min a b := by
    intro a b
    split_ifs with h
    · exact (min_eq_right (le_of_lt h)).symm
    · exact (min_eq_left (not_lt.mp h)).symm
  have emax : ∀ a : Int, (if a < 0 then 0 else a) = max a 0 := by
    intro a
    split_ifs with h
    · exact (max_eq_right (le_of_lt h)).symm
    · exact (max_eq_left (not_lt.mp h)).symm
  simp only [remove_noise_body, noise_keep, fp_at, mask_at, NOISE_THICKNESS, emin, emax,
    decide_eq_true_eq]
  split_ifs <;> first | rfl | (exfalso; tauto)

theorem remove_noise_loop (mset : dpfp_mset) (mask : dpfp_fprint) (new : dpfp_mset) (n : Nat) :
    mset_list (for_range 0 n (remove_noise_body mset mask) new)
      = mset_list new ++ ((List.range n).map mset.minutiae).filter (noise_keep mask) := by
  refine for_range_inv (remove_noise_body mset mask)
    (fun k t => mset_list t
      = mset_list new ++ ((List.range k).map mset.minutiae).filter (noise_keep mask))
    n new ?_ ?_
  · simp
  · intro k t _ ht
    rw [remove_noise_body_eq]
    simp only [List.range_succ, List.map_append, List.filter_append, List.map_cons,
      List.map_nil, List.filter_cons, List.filter_nil]
    by_cases hk : noise_keep mask (mset.minutiae k) = true
    · simp only [hk, if_true]
      rw [mset_list_push, ht, List.append_assoc]
    · simp only [hk]
      simpa using ht

/-- C16: for every minutiae set with at most 384 entries, all inside the image,
and every mask, `dpfp_mset_remove_noise` (its allocation succeeding) returns a
set whose entries are exactly the subsequence, in the original order, of the
minutiae `(x, y)` at which the mask is non-zero at `(x, y)`,
`(min(x + 15, W - 1), y)`, `(max(x - 15, 0), y)`, `(x, min(y + 15, H - 1))`
and `(x, max(y - 15, 0))`; the input set is not modified. -/
theorem remove_noise_filter (mset : dpfp_mset) (mask : dpfp_fprint)
    (hc : mset.count ≤ DPFP_MAX_MINUTIAE)
    (hin : ∀ i, i < mset.count →
      0 ≤ (mset.minutiae i).x ∧ (mset.minutiae i).x < DPFP_IMG_WIDTH ∧
      0 ≤ (mset.minutiae i).y ∧ (mset.minutiae i).y < DPFP_IMG_HEIGHT) :
    ∃ r, dpfp_mset_remove_noise (some dpfp_mset_alloc) mset mask = (some r, mset) ∧
      mset_list r = (mset_list mset).filter (noise_keep mask) := by
  have _ := hc
  have _ := hin
  refine ⟨for_range 0 mset.count (remove_noise_body mset mask) dpfp_mset_alloc, rfl, ?_⟩
  rw [remove_noise_loop]
  simp [mset_list, dpfp_mset_alloc]

theorem mset_three_in_image :
    ∀ i, i < mset_three.count →
      0 ≤ (mset_three.minutiae i).x ∧ (mset_three.minutiae i).x < DPFP_IMG_WIDTH ∧
      0 ≤ (mset_three.minutiae i).y ∧ (mset_three.minutiae i).y < DPFP_IMG_HEIGHT := by
  intro i hi
  have h3 : i < 3 := hi
  interval_cases i <;> decide

/-- Instance of C16 at the set `mset_three` and the mask `fp_mask_right`. -/
theorem remove_noise_filter_witness :
    mset_three.count ≤ DPFP_MAX_MINUTIAE ∧
    ∃ r, dpfp_mset_remove_noise (some dpfp_mset_alloc) mset_three fp_mask_right
        = (some r, mset_three) ∧
      mset_list r = (mset_list mset_three).filter (noise_keep fp_mask_right) :=
  ⟨by decide, remove_noise_filter mset_three fp_mask_right (by decide) mset_three_in_image⟩

/-! ### Thinning: bit manipulation -/

theorem nb_shift : ∀ a b c d e f g h i : Bool,
    ((nbcode a b c d e f g h i) <<< 1) &&& 0o666
      = nbcode b c false e f false h i false := by
  decide

theorem nb_or : ∀ b c e f h i t u n : Bool,
    nbcode b c false e f false h i false ||| (64 * t.toNat + 8 * u.toNat) ||| n.toNat
      = nbcode b c t e f u h i n := by
  decide

theorem nb_or_bottom : ∀ b c e f h i t u : Bool,
    nbcode b c false e f false h i false ||| (64 * t.toNat + 8 * u.toNat)
      = nbcode b c t e f u h i false := by
  decide

theorem nb_store : ∀ a b c d e f g h i : Bool,
    qb_bits (nbcode a b c d e f g h i % 256) = 64 * f.toNat + 8 * i.toNat := by
  decide

theorem nb_start : ∀ t u n : Bool,
    (64 * t.toNat + 8 * u.toNat) ||| n.toNat
      = nbcode false false t false false u false false n := by
  decide

theorem nb_init : ∀ g h i n : Bool,
    ((4 * g.toNat + 2 * h.toNat + i.toNat) <<< 1) &&& 0o006 ||| n.toNat
      = 4 * h.toNat + 2 * i.toNat + n.toNat ∧
    qb_bits ((4 * h.toNat + 2 * i.toNat + n.toNat) % 256)
      = 64 * false.toNat + 8 * n.toNat := by
  decide

set_option maxRecDepth 100000 in
theorem delet_centre : ∀ a b c d e f g h i : Bool,
    delet.getD (nbcode a b c d e f g h i) 0 ≠ 0 → e = true := by
  decide

theorem nz_eq_lit (img : Nat → uchar) (x y : Nat) :
    nz (img (y * 384 + x)) = (lit img x y).toNat := by
  simp only [nz, lit]
  split_ifs with h <;> simp [h]

/-! ### Thinning: one pass -/

theorem thin_pass_count_succ (img : Nat → uchar) (m n : Nat) :
    thin_pass_count img m (n + 1)
      = thin_pass_count img m n + (if thin_del img m n = true then 1 else 0) := by
  simp only [thin_pass_count, List.range_succ, List.countP_append, List.countP_cons,
    List.countP_nil, Nat.zero_add]

theorem thin_pixel_inv (img : Nat → uchar) (m c0 k : Nat)
    (im : Nat → uchar) (qb : Nat → Nat) (p cnt : Nat)
    (hp : p = thin_code img (k % 384) (k / 384))
    (himg : ∀ j, im j = if j < k ∧ thin_del img m j = true then 0 else img j)
    (hc : cnt = c0 + thin_pass_count img m k) :
    (∀ j, (thin_pixel m k ⟨im, qb, p, cnt⟩).imgbuf j
        = if j < k + 1 ∧ thin_del img m j = true then 0 else img j) ∧
    (thin_pixel m k ⟨im, qb, p, cnt⟩).count = c0 + thin_pass_count img m (k + 1) ∧
    (thin_pixel m k ⟨im, qb, p, cnt⟩).p = p ∧ (thin_pixel m k ⟨im, qb, p, cnt⟩).qb = qb := by
  have hd : thin_deletable m p = thin_del img m k := by
    rw [hp]
    rfl
  rw [thin_pass_count_succ]
  by_cases h : thin_del img m k = true
  · have ep : thin_pixel m k ⟨im, qb, p, cnt⟩ = ⟨store im k 0, qb, p, cnt + 1⟩ := by
      simp only [thin_pixel, hd, h, if_true]
    rw [ep]
    simp only [h, if_true]
    refine ⟨?_, by omega, trivial, trivial⟩
    intro j
    simp only [store]
    by_cases e : j = k
    · subst e
      simp [h]
    · simp only [e, if_false, himg j]
      by_cases hj : j < k
      · have hj' : j < k + 1 := by omega
        simp only [hj, hj', true_and]
      · have hj' : ¬ j < k + 1 := by omega
        simp only [hj, hj', false_and]
  · have hf : thin_del img m k = false := by simpa using h
    have ep : thin_pixel m k ⟨im, qb, p, cnt⟩ = ⟨im, qb, p, cnt⟩ := by
      simp only [thin_pixel, hd, hf, Bool.false_eq_true, if_false]
    rw [ep]
    simp only [hf, Bool.false_eq_true, if_false]
    refine ⟨?_, by omega, trivial, trivial⟩
    intro j
    rw [himg j]
    by_cases e : j = k
    · subst e
      simp [hf]
    · by_cases hj : j < k
      · have hj' : j < k + 1 := by omega
        simp only [hj, hj', true_and]
      · have hj' : ¬ j < k + 1 := by omega
        simp only [hj, hj', false_and]
theorem nz_toNat (v : uchar) : nz v = (decide (v ≠ 0)).toNat := by
  simp only [nz]
  split_ifs with h <;> simp [h]

theorem thin_top_std (img : Nat → uchar) (y n : Nat) (h2 : 2 ≤ n) (h3 : n ≤ 384) :
    thin_top img y n = (decide (y ≠ 0) && lit img (n - 1) (y - 1)) := by
  have a : n ≠ 0 := by omega
  have b : n ≠ 1 := by omega
  simp only [thin_top, a, b, h3, if_false, if_true]

theorem thin_mid_std (img : Nat → uchar) (y n : Nat) (h2 : 2 ≤ n) (h3 : n ≤ 384) :
    thin_mid img y n = lit img (n - 1) y := by
  have a : n ≠ 0 := by omega
  have b : n ≠ 1 := by omega
  simp only [thin_mid, a, b, h3, if_false, if_true]

theorem thin_bot_std (img : Nat → uchar) (y n : Nat) (h2 : 2 ≤ n) (h3 : n ≤ 384) :
    thin_bot img y n = lit img (n - 1) (y + 1) := by
  have a : n ≠ 0 := by omega
  have b : n ≠ 1 := by omega
  simp only [thin_bot, a, b, h3, if_false, if_true]

theorem thin_init_spec (s : thin_state) :
    (thin_init s).imgbuf = s.imgbuf ∧ (thin_init s).count = s.count ∧
    (∀ k, k ≤ 382 → qb_bits ((thin_init s).qb k)
      = 64 * (thin_top s.imgbuf 0 (k + 2)).toNat
        + 8 * (thin_mid s.imgbuf 0 (k + 2)).toNat) ∧
    (thin_init s).qb 383 = s.qb 383 := by
  have hI : thin_init s = for_range 0 383
      (fun x (s : thin_state) =>
        let p := ((s.p <<< 1) &&& 0o006) ||| nz (s.imgbuf (x + 1))
        ({ s with p := p, qb := fun k => if k = x then p % 256 else s.qb k } : thin_state))
      { s with p := nz (s.imgbuf 0) } := rfl
  rw [hI]
  have h := for_range_inv
    (fun x (s : thin_state) =>
      let p := ((s.p <<< 1) &&& 0o006) ||| nz (s.imgbuf (x + 1))
      ({ s with p := p, qb := fun k => if k = x then p % 256 else s.qb k } : thin_state))
    (fun x t => t.imgbuf = s.imgbuf ∧ t.count = s.count ∧
      (∃ g h i : Bool, t.p = 4 * g.toNat + 2 * h.toNat + i.toNat) ∧
      (∀ k, k < x → qb_bits (t.qb k) = 8 * (lit s.imgbuf (k + 1) 0).toNat) ∧
      t.qb 383 = s.qb 383)
    383 { s with p := nz (s.imgbuf 0) } ?_ ?_
  · obtain ⟨h1, h2, _, h4, h5⟩ := h
    refine ⟨h1, h2, ?_, h5⟩
    intro k hk
    have e1 : thin_top s.imgbuf 0 (k + 2) = false := by
      rw [thin_top_std _ _ _ (by omega) (by omega)]
      simp
    have e2 : thin_mid s.imgbuf 0 (k + 2) = lit s.imgbuf (k + 1) 0 := by
      rw [thin_mid_std _ _ _ (by omega) (by omega)]
      rfl
    rw [e1, e2]
    rw [h4 k (by omega)]
    simp only [Bool.toNat_false, Nat.mul_zero, Nat.zero_add]
  · refine ⟨rfl, rfl, ⟨false, false, decide (s.imgbuf 0 ≠ 0), ?_⟩, ?_, rfl⟩
    · simp only [nz_toNat]
      simp
    · intro k hk
      omega
  · rintro x t hx ⟨h1, h2, ⟨g, h, i, h3⟩, h4, h5⟩
    have hb := nb_init g h i (decide (t.imgbuf (x + 1) ≠ 0))
    have ep : ((t.p <<< 1) &&& 0o006) ||| nz (t.imgbuf (x + 1))
        = 4 * h.toNat + 2 * i.toNat + (decide (t.imgbuf (x + 1) ≠ 0)).toNat := by
      rw [h3, nz_toNat]
      exact hb.1
    refine ⟨h1, h2, ⟨h, i, decide (t.imgbuf (x + 1) ≠ 0), ep⟩, ?_, ?_⟩
    · intro k hk
      by_cases e : k = x
      · subst e
        simp only [if_true]
        rw [ep, hb.2, h1]
        simp [lit]
      · simp only [e, if_false]
        exact h4 k (by omega)
    · have e : (383 : Nat) ≠ x := by omega
      simp only [e, if_false]
      exact h5

theorem thin_inner_step (img : Nat → uchar) (m c0 y x : Nat) (t : thin_state)
    (hy : y ≤ 287) (hx : x < 383) (h : thin_inner_inv img m c0 y x t) :
    thin_inner_inv img m c0 y (x + 1)
      (thin_pixel m ((y * DPFP_IMG_WIDTH) + x)
        { t with
          p := ((t.p <<< 1) &&& 0o666) ||| ((t.qb x <<< 3) &&& 0o110) |||
            nz (t.imgbuf (((y + 1) * DPFP_IMG_WIDTH) + x + 1)),
          qb := fun k =>
            if k = x then
              (((t.p <<< 1) &&& 0o666) ||| ((t.qb x <<< 3) &&& 0o110) |||
                nz (t.imgbuf (((y + 1) * DPFP_IMG_WIDTH) + x + 1))) % 256
            else t.qb k }) := by
  obtain ⟨himg, hc, hp, hq1, hq2, hq3⟩ := h
  have hq := hq2 x (le_refl x) (by omega)
  have hread : nz (t.imgbuf (((y + 1) * DPFP_IMG_WIDTH) + x + 1))
      = (thin_bot img y (x + 2)).toNat := by
    rw [thin_bot_std _ _ _ (by omega) (by omega), himg]
    have c : ¬ ((y + 1) * DPFP_IMG_WIDTH + x + 1 < y * 384 + x ∧
        thin_del img m ((y + 1) * DPFP_IMG_WIDTH + x + 1) = true) := by
      simp only [DPFP_IMG_WIDTH]
      omega
    simp only [c, if_false]
    have e : (y + 1) * DPFP_IMG_WIDTH + x + 1 = (y + 1) * 384 + (x + 2 - 1) := by
      simp only [DPFP_IMG_WIDTH]
      omega
    rw [e, nz_eq_lit]
  have eP : ((t.p <<< 1) &&& 0o666) ||| ((t.qb x <<< 3) &&& 0o110) |||
      nz (t.imgbuf (((y + 1) * DPFP_IMG_WIDTH) + x + 1)) = thin_rowp img y (x + 1) := by
    have e3 : (t.qb x <<< 3) &&& 0o110 = qb_bits (t.qb x) := rfl
    rw [hread, e3, hq, hp]
    simp only [thin_rowp, nb_shift, nb_or, Nat.add_sub_cancel]
  rw [eP]
  have hpix := thin_pixel_inv img m c0 (y * DPFP_IMG_WIDTH + x)
    t.imgbuf (fun k => if k = x then thin_rowp img y (x + 1) % 256 else t.qb k)
    (thin_rowp img y (x + 1)) t.count
    (by
      have e1 : (y * DPFP_IMG_WIDTH + x) % 384 = x := by
        simp only [DPFP_IMG_WIDTH]
        omega
      have e2 : (y * DPFP_IMG_WIDTH + x) / 384 = y := by
        simp only [DPFP_IMG_WIDTH]
        omega
      have e3 : y ≠ 288 := by omega
      simp only [e1, e2, thin_code, e3, if_false])
    himg hc
  obtain ⟨k1, k2, k3, k4⟩ := hpix
  refine ⟨?_, ?_, ?_, ?_, ?_, ?_⟩
  · intro k
    rw [k1 k]
    simp only [DPFP_IMG_WIDTH, Nat.add_assoc]
  · rw [k2]
    simp only [DPFP_IMG_WIDTH, Nat.add_assoc]
  · rw [k3]
  · intro k hk
    rw [k4]
    by_cases e : k = x
    · subst e
      simp only [if_true, thin_rowp, nb_store]
    · simp only [e, if_false]
      exact hq1 k (by omega)
  · intro k hk1 hk2
    rw [k4]
    have e : k ≠ x := by omega
    simp only [e, if_false]
    exact hq2 k (by omega) hk2
  · rw [k4]
    have e : (383 : Nat) ≠ x := by omega
    simp only [e, if_false]
    exact hq3
theorem thin_row_start (img : Nat → uchar) (m c0 y : Nat) (s : thin_state)
    (_hy : y ≤ 287) (h : thin_outer_inv img m c0 y s) :
    thin_inner_inv img m c0 y 0
      { s with p := ((s.qb 0 <<< 3) &&& 0o110) |||
                 nz (s.imgbuf ((y + 1) * DPFP_IMG_WIDTH)) } := by
  obtain ⟨himg, hc, hq, hq3, _⟩ := h
  have e3 : (s.qb 0 <<< 3) &&& 0o110 = qb_bits (s.qb 0) := rfl
  have hread : nz (s.imgbuf ((y + 1) * DPFP_IMG_WIDTH)) = (thin_bot img y 1).toNat := by
    rw [himg]
    have c : ¬ ((y + 1) * DPFP_IMG_WIDTH < y * 384 ∧
        thin_del img m ((y + 1) * DPFP_IMG_WIDTH) = true) := by
      simp only [DPFP_IMG_WIDTH]
      omega
    simp only [c, if_false]
    have e : (y + 1) * DPFP_IMG_WIDTH = (y + 1) * 384 + 0 := by
      simp only [DPFP_IMG_WIDTH, Nat.add_zero]
    rw [e, nz_eq_lit]
    simp only [thin_bot, if_true, one_ne_zero, if_false]
  have e1 : thin_top img y 1 = thin_top img y 2 := by
    simp only [thin_top, if_true, one_ne_zero, if_false, Nat.reduceSub]
    have a : (2 : Nat) ≠ 0 := by omega
    have b : (2 : Nat) ≠ 1 := by omega
    have c : (2 : Nat) ≤ 384 := by omega
    simp only [a, b, c, if_false, if_true]
  have e2 : thin_mid img y 1 = thin_mid img y 2 := by
    simp only [thin_mid, if_true, one_ne_zero, if_false, Nat.reduceSub]
    have a : (2 : Nat) ≠ 0 := by omega
    have b : (2 : Nat) ≠ 1 := by omega
    have c : (2 : Nat) ≤ 384 := by omega
    simp only [a, b, c, if_false, if_true]
  have e0t : thin_top img y 0 = false := by simp only [thin_top, if_true]
  have e0m : thin_mid img y 0 = false := by simp only [thin_mid, if_true]
  have e0b : thin_bot img y 0 = false := by simp only [thin_bot, if_true]
  have ep : ((s.qb 0 <<< 3) &&& 0o110) ||| nz (s.imgbuf ((y + 1) * DPFP_IMG_WIDTH))
        = thin_rowp img y 0 := by
    rw [e3, hq 0 (by omega), hread, nb_start]
    simp only [thin_rowp, Nat.zero_sub, Nat.zero_add, e1, e0t, e0m, e0b, e2]
  refine ⟨?_, ?_, ep, ?_, ?_, hq3⟩
  · intro k
    rw [show y * 384 + 0 = y * 384 from Nat.add_zero _]
    exact himg k
  · rw [show y * 384 + 0 = y * 384 from Nat.add_zero _]
    exact hc
  · intro k hk
    omega
  · intro k _ hk
    exact hq k hk
theorem thin_row_spec (img : Nat → uchar) (m c0 y : Nat) (s : thin_state)
    (hy : y ≤ 287) (h : thin_outer_inv img m c0 y s) :
    thin_outer_inv img m c0 (y + 1) (thin_row m y s) := by
  obtain ⟨himg, hc, hq, hq3, hlast⟩ := h
  have hstart := thin_row_start img m c0 y s hy ⟨himg, hc, hq, hq3, hlast⟩
  -- the inner loop
  have hloop := for_range_inv
    (fun x (s : thin_state) =>
      let q := s.qb x
      let p := ((s.p <<< 1) &&& 0o666) ||| ((q <<< 3) &&& 0o110) |||
        nz (s.imgbuf (((y + 1) * DPFP_IMG_WIDTH) + x + 1))
      thin_pixel m ((y * DPFP_IMG_WIDTH) + x)
        { s with p := p, qb := fun k => if k = x then p % 256 else s.qb k })
    (fun x t => thin_inner_inv img m c0 y x t) 383
    { s with p := ((s.qb 0 <<< 3) &&& 0o110) |||
               nz (s.imgbuf ((y + 1) * DPFP_IMG_WIDTH)) }
    hstart
    (fun x t hx ht => thin_inner_step img m c0 y x t hy hx ht)
  have hR : thin_row m y s
      = thin_pixel m ((y * DPFP_IMG_WIDTH) + DPFP_IMG_WIDTH - 1)
          { (for_range 0 383
              (fun x (s : thin_state) =>
                let q := s.qb x
                let p := ((s.p <<< 1) &&& 0o666) ||| ((q <<< 3) &&& 0o110) |||
                  nz (s.imgbuf (((y + 1) * DPFP_IMG_WIDTH) + x + 1))
                thin_pixel m ((y * DPFP_IMG_WIDTH) + x)
                  { s with p := p, qb := fun k => if k = x then p % 256 else s.qb k })
              { s with p := ((s.qb 0 <<< 3) &&& 0o110) |||
                         nz (s.imgbuf ((y + 1) * DPFP_IMG_WIDTH)) }) with
            p := ((for_range 0 383
              (fun x (s : thin_state) =>
                let q := s.qb x
                let p := ((s.p <<< 1) &&& 0o666) ||| ((q <<< 3) &&& 0o110) |||
                  nz (s.imgbuf (((y + 1) * DPFP_IMG_WIDTH) + x + 1))
                thin_pixel m ((y * DPFP_IMG_WIDTH) + x)
                  { s with p := p, qb := fun k => if k = x then p % 256 else s.qb k })
              { s with p := ((s.qb 0 <<< 3) &&& 0o110) |||
                         nz (s.imgbuf ((y + 1) * DPFP_IMG_WIDTH)) }).p <<< 1) &&& 0o666 } := rfl
  rw [hR]
  generalize (for_range 0 383
              (fun x (s : thin_state) =>
                let q := s.qb x
                let p := ((s.p <<< 1) &&& 0o666) ||| ((q <<< 3) &&& 0o110) |||
                  nz (s.imgbuf (((y + 1) * DPFP_IMG_WIDTH) + x + 1))
                thin_pixel m ((y * DPFP_IMG_WIDTH) + x)
                  { s with p := p, qb := fun k => if k = x then p % 256 else s.qb k })
              { s with p := ((s.qb 0 <<< 3) &&& 0o110) |||
                         nz (s.imgbuf ((y + 1) * DPFP_IMG_WIDTH)) }) = s2 at hloop ⊢
  obtain ⟨iimg, ic, ip, iq1, _, iq3⟩ := hloop
  -- the right edge pixel
  have eP : (s2.p <<< 1) &&& 0o666 = thin_rowp img y 384 := by
    rw [ip]
    have e5 : thin_top img y 385 = false := by simp [thin_top]
    have e6 : thin_mid img y 385 = false := by simp [thin_mid]
    have e7 : thin_bot img y 385 = false := by simp [thin_bot]
    simp only [thin_rowp, nb_shift, Nat.reduceAdd, Nat.reduceSub, e5, e6, e7]
  have ek : y * DPFP_IMG_WIDTH + DPFP_IMG_WIDTH - 1 = y * 384 + 383 := by
    simp only [DPFP_IMG_WIDTH]
    omega
  rw [eP, ek]
  have hpix := thin_pixel_inv img m c0 (y * 384 + 383)
    s2.imgbuf s2.qb (thin_rowp img y 384) s2.count
    (by
      have e1 : (y * 384 + 383) % 384 = 383 := by omega
      have e2 : (y * 384 + 383) / 384 = y := by omega
      have e3 : y ≠ 288 := by omega
      simp only [e1, e2, thin_code, e3, if_false])
    iimg ic
  obtain ⟨k1, k2, k3, k4⟩ := hpix
  have epos : y * 384 + 383 + 1 = (y + 1) * 384 := by omega
  refine ⟨?_, ?_, ?_, ?_, ?_⟩
  · intro k
    rw [k1 k, epos]
  · rw [k2, epos]
  · intro k hk
    rw [k4]
    rw [iq1 k (by omega), thin_top_std _ _ _ (by omega) (by omega),
      thin_mid_std _ _ _ (by omega) (by omega), thin_mid_std _ _ _ (by omega) (by omega),
      thin_bot_std _ _ _ (by omega) (by omega)]
    simp
  · rw [k4]
    exact iq3
  · intro _
    rw [k3]
    simp only [Nat.add_sub_cancel]

theorem thin_bottom_step (img : Nat → uchar) (m c0 x : Nat) (t : thin_state)
    (hx : x < 384) (h : thin_bottom_inv img m c0 x t) :
    thin_bottom_inv img m c0 (x + 1)
      (thin_pixel m (((DPFP_IMG_HEIGHT - 1) * DPFP_IMG_WIDTH) + x)
        { t with p := ((t.p <<< 1) &&& 0o666) ||| ((t.qb x <<< 3) &&& 0o110) }) := by
  obtain ⟨himg, hc, hp, hq, hq3⟩ := h
  have e3 : (t.qb x <<< 3) &&& 0o110 = qb_bits (t.qb x) := rfl
  have hqx : qb_bits (t.qb x)
      = 64 * (thin_btop img (x + 3)).toNat + 8 * (thin_bmid img (x + 3)).toNat := by
    have a : x + 3 ≠ 0 := by omega
    have b : x + 3 ≠ 1 := by omega
    have c : x + 3 ≠ 2 := by omega
    simp only [thin_btop, thin_bmid, a, b, c, if_false, Nat.add_sub_cancel]
    by_cases e : x = 383
    · subst e
      rw [hq3]
      simp [qb_bits, thin_top, thin_mid]
    · have e' : x + 3 - 1 = x + 2 := by omega
      rw [e']
      exact hq x (by omega)
  have eP : ((t.p <<< 1) &&& 0o666) ||| ((t.qb x <<< 3) &&& 0o110) = thin_botp img (x + 1) := by
    rw [e3, hqx, hp]
    have e9 : thin_bbot img (x + 3) = false := by
      have a : x + 3 ≠ 0 := by omega
      have b : x + 3 ≠ 1 := by omega
      simp only [thin_bbot, a, b, if_false]
    simp only [thin_botp, nb_shift, nb_or_bottom, e9, Nat.add_assoc, Nat.reduceAdd]
  rw [eP]
  have ek : (DPFP_IMG_HEIGHT - 1) * DPFP_IMG_WIDTH + x = 288 * 384 + x := rfl
  rw [ek]
  have hpix := thin_pixel_inv img m c0 (288 * 384 + x)
    t.imgbuf t.qb (thin_botp img (x + 1)) t.count
    (by
      have e1 : (288 * 384 + x) % 384 = x := by omega
      have e2 : (288 * 384 + x) / 384 = 288 := by omega
      simp only [e1, e2, thin_code, if_true])
    himg hc
  obtain ⟨k1, k2, k3, k4⟩ := hpix
  refine ⟨?_, ?_, ?_, ?_, ?_⟩
  · intro k
    rw [k1 k]
    simp only [Nat.add_assoc]
  · rw [k2]
    simp only [Nat.add_assoc]
  · rw [k3]
  · intro k hk
    rw [k4]
    exact hq k hk
  · rw [k4]
    exact hq3

theorem thin_pass_spec (m : Nat) (s : thin_state) (hq : s.qb 383 = 0) :
    (thin_pass m s).imgbuf = thin_pass_img s.imgbuf m ∧
    (thin_pass m s).count = s.count + thin_pass_count s.imgbuf m 110976 ∧
    (thin_pass m s).qb 383 = 0 := by
  obtain ⟨i1, i2, i3, i4⟩ := thin_init_spec s
  have h0 : thin_outer_inv s.imgbuf m s.count 0 (thin_init s) := by
    refine ⟨?_, ?_, i3, ?_, ?_⟩
    · intro k
      rw [i1]
      simp
    · rw [i2]
      simp [thin_pass_count]
    · rw [i4, hq]
    · intro h
      omega
  have hrows := for_range_inv (thin_row m)
    (fun y t => thin_outer_inv s.imgbuf m s.count y t) 288 (thin_init s) h0
    (fun y t hy ht => thin_row_spec s.imgbuf m s.count y t (by omega) ht)
  have hP : thin_pass m s
      = for_range 0 384
          (fun x (s : thin_state) =>
            let q := s.qb x
            thin_pixel m (((DPFP_IMG_HEIGHT - 1) * DPFP_IMG_WIDTH) + x)
              { s with p := ((s.p <<< 1) &&& 0o666) ||| ((q <<< 3) &&& 0o110) })
          (for_range 0 288 (thin_row m) (thin_init s)) := rfl
  rw [hP]
  generalize for_range 0 288 (thin_row m) (thin_init s) = s1 at hrows ⊢
  obtain ⟨r1, r2, r3, r4, r5⟩ := hrows
  have hb0 : thin_bottom_inv s.imgbuf m s.count 0 s1 := by
    refine ⟨?_, ?_, ?_, r3, r4⟩
    · intro k
      rw [show 288 * 384 + 0 = 288 * 384 from Nat.add_zero _]
      exact r1 k
    · rw [show 288 * 384 + 0 = 288 * 384 from Nat.add_zero _]
      exact r2
    · rw [r5 (by omega)]
      have e5 : thin_top s.imgbuf 287 385 = false := by simp [thin_top]
      have e6 : thin_mid s.imgbuf 287 385 = false := by simp [thin_mid]
      have e7 : thin_bot s.imgbuf 287 385 = false := by simp [thin_bot]
      simp only [thin_rowp, thin_botp, thin_btop, thin_bmid, thin_bbot, Nat.reduceAdd,
        Nat.reduceSub, e5, e6, e7]
      simp
  have hbot := for_range_inv
    (fun x (s : thin_state) =>
      let q := s.qb x
      thin_pixel m (((DPFP_IMG_HEIGHT - 1) * DPFP_IMG_WIDTH) + x)
        { s with p := ((s.p <<< 1) &&& 0o666) ||| ((q <<< 3) &&& 0o110) })
    (fun x t => thin_bottom_inv s.imgbuf m s.count x t) 384 s1 hb0
    (fun x t hx ht => thin_bottom_step s.imgbuf m s.count x t hx ht)
  obtain ⟨b1, b2, _, _, b5⟩ := hbot
  refine ⟨?_, ?_, b5⟩
  · funext k
    rw [b1 k]
    rfl
  · rw [b2]

/-! ### Thinning: sweeps and the loop -/

theorem thin_pass_img_of_count_zero (img : Nat → uchar) (m : Nat)
    (h : thin_pass_count img m 110976 = 0) : thin_pass_img img m = img := by
  funext k
  simp only [thin_pass_img]
  split_ifs with hk
  · exfalso
    have h1 := List.countP_eq_zero.mp h k (List.mem_range.mpr hk.1)
    exact h1 hk.2
  · rfl

theorem for_loop_succ {σ : Type} (body : Nat → σ → σ) (n i : Nat) (s : σ) :
    for_loop body (n + 1) i s = for_loop body n (i + 1) (body i s) := rfl

theorem for_loop_zero {σ : Type} (body : Nat → σ → σ) (i : Nat) (s : σ) :
    for_loop body 0 i s = s := rfl

theorem thin_sweep_unfold (s : thin_state) :
    thin_sweep s
      = thin_pass 0o010 (thin_pass 0o040 (thin_pass 0o002 (thin_pass 0o200
          { s with count := 0 }))) := by
  have e4 : (4 : Nat) - 0 = 0 + 1 + 1 + 1 + 1 := by decide
  have m0 : masks.getD 0 0 = 0o200 := by decide
  have m1 : masks.getD (0 + 1) 0 = 0o002 := by decide
  have m2 : masks.getD (0 + 1 + 1) 0 = 0o040 := by decide
  have m3 : masks.getD (0 + 1 + 1 + 1) 0 = 0o010 := by decide
  unfold thin_sweep for_range
  rw [e4, for_loop_succ, for_loop_succ, for_loop_succ, for_loop_succ, for_loop_zero,
    m0, m1, m2, m3]

theorem thin_sweep_spec (s : thin_state) (hq : s.qb 383 = 0) :
    (thin_sweep s).imgbuf = thin_sweep_img s.imgbuf ∧
    (thin_sweep s).count = thin_sweep_count s.imgbuf ∧
    (thin_sweep s).qb 383 = 0 := by
  rw [thin_sweep_unfold]
  obtain ⟨a1, a2, a3⟩ := thin_pass_spec 0o200 ⟨s.imgbuf, s.qb, s.p, 0⟩ hq
  generalize thin_pass 0o200 ⟨s.imgbuf, s.qb, s.p, 0⟩ = s1 at a1 a2 a3 ⊢
  obtain ⟨b1, b2, b3⟩ := thin_pass_spec 0o002 s1 a3
  generalize thin_pass 0o002 s1 = s2 at b1 b2 b3 ⊢
  obtain ⟨c1, c2, c3⟩ := thin_pass_spec 0o040 s2 b3
  generalize thin_pass 0o040 s2 = s3 at c1 c2 c3 ⊢
  obtain ⟨d1, d2, d3⟩ := thin_pass_spec 0o010 s3 c3
  generalize thin_pass 0o010 s3 = s4 at d1 d2 d3 ⊢
  refine ⟨?_, ?_, d3⟩
  · rw [d1, c1, b1, a1]
    rfl
  · rw [d2, c2, b2, a2, c1, b1, a1]
    rfl

theorem thin_sweep_img_of_count_zero (img : Nat → uchar) (h : thin_sweep_count img = 0) :
    thin_sweep_img img = img := by
  simp only [thin_sweep_count] at h
  have h1 : thin_pass_count img 0o200 110976 = 0 := by omega
  have e1 := thin_pass_img_of_count_zero img 0o200 h1
  rw [e1] at h
  have h2 : thin_pass_count img 0o002 110976 = 0 := by omega
  have e2 := thin_pass_img_of_count_zero img 0o002 h2
  rw [e2] at h
  have h3 : thin_pass_count img 0o040 110976 = 0 := by omega
  have e3 := thin_pass_img_of_count_zero img 0o040 h3
  rw [e3] at h
  have h4 : thin_pass_count img 0o010 110976 = 0 := by omega
  have e4 := thin_pass_img_of_count_zero img 0o010 h4
  simp only [thin_sweep_img, e1, e2, e3, e4]

/-- A state the loop of `dpfp_fprint_thin` returns is either the state it
started from, with `count = 0`, or the result of a sweep that deleted nothing. -/
theorem thin_loop_result (n : Nat) (s s' : thin_state) (hq : s.qb 383 = 0)
    (h : thin_loop n s = some s') :
    (s.count = 0 ∧ s' = s) ∨
    (thin_sweep_count s'.imgbuf = 0 ∧ thin_sweep_img s'.imgbuf = s'.imgbuf) := by
  induction n generalizing s with
  | zero => simp [thin_loop] at h
  | succ n ih =>
    by_cases hc : s.count ≠ 0
    · rw [thin_loop, if_pos hc] at h
      obtain ⟨w1, w2, w3⟩ := thin_sweep_spec s hq
      rcases ih (thin_sweep s) w3 h with ⟨z1, z2⟩ | hz
      · right
        rw [w2] at z1
        have e := thin_sweep_img_of_count_zero s.imgbuf z1
        rw [z2, w1, e]
        exact ⟨z1, e⟩
      · exact Or.inr hz
    · rw [thin_loop, if_neg hc] at h
      left
      refine ⟨by omega, ?_⟩
      exact (Option.some.inj h).symm

theorem thin_fixed (fp : dpfp_fprint) (h : thin_sweep_count fp.data = 0) :
    dpfp_fprint_thin 2 fp = some fp := by
  have hq : (thin_start fp).qb 383 = 0 := rfl
  obtain ⟨w1, w2, _⟩ := thin_sweep_spec (thin_start fp) hq
  have hc : (thin_start fp).count ≠ 0 := by
    show (1 : Nat) ≠ 0
    omega
  have hi : (thin_start fp).imgbuf = fp.data := rfl
  rw [hi] at w1 w2
  have hc2 : ¬ (thin_sweep (thin_start fp)).count ≠ 0 := by
    rw [w2, h]
    simp
  have e : thin_loop 2 (thin_start fp) = some (thin_sweep (thin_start fp)) := by
    rw [thin_loop, if_pos hc, thin_loop, if_neg hc2]
  simp only [dpfp_fprint_thin, e, Option.map_some']
  rw [w1, thin_sweep_img_of_count_zero fp.data h]

/-- Whenever `dpfp_fprint_thin` returns an image `J` (for an input `I`, after
any number of sweeps), applying `dpfp_fprint_thin` to `J` ends after one sweep
and returns `J` with no pixel changed. -/
theorem thin_result_fixed (I J : dpfp_fprint) (n : Nat)
    (h : dpfp_fprint_thin n I = some J) : dpfp_fprint_thin 2 J = some J := by
  simp only [dpfp_fprint_thin, Option.map_eq_some'] at h
  obtain ⟨s', h1, h2⟩ := h
  have hq : (thin_start I).qb 383 = 0 := rfl
  rcases thin_loop_result n (thin_start I) s' hq h1 with ⟨z1, _⟩ | ⟨z1, _⟩
  · exfalso
    have : (thin_start I).count = 1 := rfl
    omega
  · apply thin_fixed
    rw [← h2]
    exact z1
/-! ### Thinning: where a pass can delete -/

theorem thin_deletable_getD (m p : Nat) (h : thin_deletable m p = true) :
    delet.getD p 0 ≠ 0 := by
  simp only [thin_deletable, Bool.and_eq_true, decide_eq_true_eq] at h
  exact h.2

theorem thin_del_centre (img : Nat → uchar) (m k : Nat) (h : thin_del img m k = true) :
    (k / 384 ≠ 288 ∧ thin_mid img (k / 384) (k % 384 + 1) = true) ∨
    (k / 384 = 288 ∧ thin_bmid img (k % 384 + 2) = true) := by
  have h1 := thin_deletable_getD m _ h
  by_cases hy : k / 384 = 288
  · right
    refine ⟨hy, ?_⟩
    simp only [thin_code, hy, if_true, thin_botp] at h1
    exact delet_centre _ _ _ _ _ _ _ _ _ h1
  · left
    refine ⟨hy, ?_⟩
    simp only [thin_code, hy, if_false, thin_rowp] at h1
    exact delet_centre _ _ _ _ _ _ _ _ _ h1

theorem lit_true (img : Nat → uchar) (x y : Nat) (h : lit img x y = true) :
    img (y * 384 + x) ≠ 0 := by
  simpa [lit] using h

set_option maxRecDepth 100000 in
theorem delet_row : ∀ d e f : Bool,
    delet.getD (nbcode false false false d e f false false false) 0 = 0 := by
  decide

/-- An image whose non-zero pixels all lie in one row `r` with `1 ≤ r ≤ H - 2`
is left alone by every pass: with no pixel above or below, no neighbourhood
map is deletable. -/
theorem thin_del_single_row (img : Nat → uchar) (r : Nat) (hr1 : 1 ≤ r) (hr2 : r ≤ 287)
    (hrow : ∀ k, img k ≠ 0 → k / 384 = r) (m k : Nat) :
    thin_del img m k = false := by
  have hlit : ∀ x y, x < 384 → lit img x y = true → y = r := by
    intro x y hx h
    have h1 := hrow _ (lit_true img x y h)
    omega
  have htop : ∀ n, thin_top img r n = false := by
    intro n
    simp only [thin_top]
    split_ifs with a b c
    · rfl
    · cases hl : lit img 1 (r - 1) with
      | false => simp
      | true =>
        have := hlit 1 (r - 1) (by omega) hl
        omega
    · cases hl : lit img (n - 1) (r - 1) with
      | false => simp
      | true =>
        have := hlit (n - 1) (r - 1) (by omega) hl
        omega
    · rfl
  have hbot : ∀ n, thin_bot img r n = false := by
    intro n
    simp only [thin_bot]
    split_ifs with a b c
    · rfl
    · cases hl : lit img 0 (r + 1) with
      | false => rfl
      | true =>
        have := hlit 0 (r + 1) (by omega) hl
        omega
    · cases hl : lit img (n - 1) (r + 1) with
      | false => rfl
      | true =>
        have := hlit (n - 1) (r + 1) (by omega) hl
        omega
    · rfl
  cases hd : thin_del img m k with
  | false => rfl
  | true =>
    exfalso
    rcases thin_del_centre img m k hd with ⟨hy, hm⟩ | ⟨hy, hm⟩
    · have hyr : k / 384 = r := by
        simp only [thin_mid] at hm
        split_ifs at hm
        all_goals exact hlit _ _ (by omega) hm
      have h1 := thin_deletable_getD m _ hd
      have hr288 : ¬ r = 288 := by omega
      simp only [thin_code, thin_rowp, hyr, hr288, if_false, htop, hbot] at h1
      exact h1 (delet_row _ _ _)
    · simp only [thin_bmid] at hm
      split_ifs at hm
      all_goals first
        | omega
        | (simp only [thin_mid] at hm
           split_ifs at hm
           all_goals first
             | omega
             | (have hq := hlit _ 288 (by omega) hm
                omega))

theorem thin_pass_count_zero (img : Nat → uchar) (m n : Nat)
    (h : ∀ k, k < n → thin_del img m k = false) : thin_pass_count img m n = 0 := by
  simp only [thin_pass_count]
  apply List.countP_eq_zero.mpr
  intro k hk
  rw [h k (List.mem_range.mp hk)]
  simp

theorem thin_sweep_count_single_row (img : Nat → uchar) (r : Nat) (hr1 : 1 ≤ r)
    (hr2 : r ≤ 287) (hrow : ∀ k, img k ≠ 0 → k / 384 = r) : thin_sweep_count img = 0 := by
  have h : ∀ m, thin_pass_count img m 110976 = 0 := fun m =>
    thin_pass_count_zero img m 110976 (fun k _ => thin_del_single_row img r hr1 hr2 hrow m k)
  have e : ∀ m, thin_pass_img img m = img := fun m =>
    thin_pass_img_of_count_zero img m (h m)
  simp only [thin_sweep_count, e, h]

theorem fp_bar_row (r c1 c2 : Nat) : ∀ k, (fp_bar r c1 c2).data k ≠ 0 → k / 384 = r := by
  intro k hk
  simp only [fp_bar] at hk
  split_ifs at hk with h
  · exact h.1
  · exact absurd rfl hk

theorem thin_bar_fixed (r c1 c2 : Nat) (hr1 : 1 ≤ r) (hr2 : r ≤ 287) :
    dpfp_fprint_thin 2 (fp_bar r c1 c2) = some (fp_bar r c1 c2) :=
  thin_fixed _ (thin_sweep_count_single_row _ r hr1 hr2 (fp_bar_row r c1 c2))

/-! ### Thinning: an image on which the loop never ends -/

theorem fp_stuck_lit (x y : Nat) (hx : x < 384) (h : lit fp_stuck.data x y = true) :
    (x = 1 ∧ y = 2) ∨ (x = 2 ∧ y = 2) ∨ (x = 0 ∧ y = 3) := by
  have h1 := lit_true _ _ _ h
  simp only [fp_stuck] at h1
  split_ifs at h1 with h2
  · omega
  · exact absurd rfl h1

set_option maxRecDepth 100000 in
theorem fp_stuck_code_769 : delet.getD (thin_code fp_stuck.data 1 2) 0 = 0 := by decide

set_option maxRecDepth 100000 in
theorem fp_stuck_code_770 : delet.getD (thin_code fp_stuck.data 2 2) 0 = 0 := by decide

set_option maxRecDepth 100000 in
theorem fp_stuck_del_768 : thin_del fp_stuck.data 0o200 768 = true := by decide

/-- A pass over `fp_stuck` deletes at most the pixel at offset 768, which is
zero already: it leaves the image as it was. -/
theorem fp_stuck_pass (m : Nat) : thin_pass_img fp_stuck.data m = fp_stuck.data := by
  funext k
  simp only [thin_pass_img]
  split_ifs with hk
  · obtain ⟨_, hd⟩ := hk
    rcases thin_del_centre _ m k hd with ⟨hy, hm⟩ | ⟨hy, hm⟩
    · simp only [thin_mid] at hm
      split_ifs at hm
      all_goals first
        | (have h3 := fp_stuck_lit _ _ (by omega) hm
           have e : k = 768 := by omega
           rw [e]
           rfl)
        | (have h3 := fp_stuck_lit _ _ (by omega) hm
           have hd1 := thin_deletable_getD m _ hd
           rcases h3 with ⟨a, b⟩ | ⟨a, b⟩ | ⟨a, b⟩
           · have e1 : k % 384 = 1 := by omega
             rw [e1, b] at hd1
             exact absurd fp_stuck_code_769 hd1
           · have e1 : k % 384 = 2 := by omega
             rw [e1, b] at hd1
             exact absurd fp_stuck_code_770 hd1
           · omega)
    · simp only [thin_bmid] at hm
      split_ifs at hm
      all_goals first
        | omega
        | (simp only [thin_mid] at hm
           split_ifs at hm
           all_goals first
             | omega
             | (have hq := fp_stuck_lit _ 288 (by omega) hm
                omega))
  · rfl

theorem fp_stuck_sweep_img : thin_sweep_img fp_stuck.data = fp_stuck.data := by
  simp only [thin_sweep_img, fp_stuck_pass]

theorem thin_pass_count_pos (img : Nat → uchar) (m n k : Nat) (hk : k < n)
    (hd : thin_del img m k = true) : 0 < thin_pass_count img m n :=
  List.countP_pos_iff.mpr ⟨k, List.mem_range.mpr hk, hd⟩

theorem thin_sweep_count_pos (img : Nat → uchar) (k : Nat) (hk : k < 110976)
    (hd : thin_del img 0o200 k = true) : thin_sweep_count img ≠ 0 := by
  have h := thin_pass_count_pos img 0o200 110976 k hk hd
  unfold thin_sweep_count
  omega

theorem fp_stuck_sweep_count : thin_sweep_count fp_stuck.data ≠ 0 :=
  thin_sweep_count_pos _ 768 (by decide) fp_stuck_del_768

theorem fp_stuck_loop (n : Nat) (s : thin_state) (hi : s.imgbuf = fp_stuck.data)
    (hq : s.qb 383 = 0) (hc : s.count ≠ 0) : thin_loop n s = none := by
  induction n generalizing s with
  | zero => rfl
  | succ n ih =>
    rw [thin_loop, if_pos hc]
    obtain ⟨w1, w2, w3⟩ := thin_sweep_spec s hq
    apply ih
    · rw [w1, hi, fp_stuck_sweep_img]
    · exact w3
    · rw [w2, hi]
      exact fp_stuck_sweep_count

/-- C12 (refuted for the code): on the image `fp_stuck`, non-zero exactly at
(column, row) = (1, 2), (2, 2) and (0, 3), the loop of `dpfp_fprint_thin` has not
ended after any number of sweeps.  The pass with mask 0200 counts a deletion at
offset 768, the pixel (0, 2), which is zero already, and no pass changes the
image, so every sweep ends with `count` non-zero. -/
theorem thin_never_ends :
    (∀ n, dpfp_fprint_thin n fp_stuck = none) ∧
    thin_del fp_stuck.data 0o200 768 = true ∧ fp_stuck.data 768 = 0 ∧
    thin_sweep_img fp_stuck.data = fp_stuck.data ∧ thin_sweep_count fp_stuck.data ≠ 0 := by
  refine ⟨?_, fp_stuck_del_768, rfl, fp_stuck_sweep_img, fp_stuck_sweep_count⟩
  intro n
  have h := fp_stuck_loop n (thin_start fp_stuck) rfl rfl (by decide)
  simp only [dpfp_fprint_thin, h, Option.map_none']

/-! ### A horizontal bar: thinning and minutiae -/

theorem fp_bar_ridge (r c1 c2 x y : Nat) (hx : x < 384) :
    ridge (fp_bar r c1 c2).data x y = if y = r ∧ c1 ≤ x ∧ x ≤ c2 then 1 else 0 := by
  have e1 : (y * 384 + x) / 384 = y := by omega
  have e2 : (y * 384 + x) % 384 = x := by omega
  simp only [ridge, fp_bar, DPFP_IMG_WIDTH, e1, e2]
  by_cases h : y = r ∧ c1 ≤ x ∧ x ≤ c2
  · simp only [h, and_self, if_true]
    decide
  · simp only [h, if_false]
    decide

theorem fp_bar_hit (r c1 c2 i j : Nat) (hr1 : 1 ≤ r) (hc : c1 < c2)
    (hi : 1 ≤ i) (hj1 : 1 ≤ j) (hj2 : j < 383) :
    detect_hit (fp_bar r c1 c2).data i j = true ↔ i = r ∧ (j = c1 ∨ j = c2) := by
  rw [detect_hit_iff _ _ _ hi hj1]
  have hc : ridge (fp_bar r c1 c2).data j i = if (fp_bar r c1 c2).data (i * DPFP_IMG_WIDTH + j) ≠ 0
      then 1 else 0 := rfl
  have hnz : (fp_bar r c1 c2).data (i * DPFP_IMG_WIDTH + j) ≠ 0 ↔ ridge (fp_bar r c1 c2).data j i = 1 := by
    rw [hc]
    split_ifs with h
    · simp [h]
    · simp [h]
  rw [hnz]
  simp only [neighbours, fp_bar_ridge r c1 c2 (j - 1) _ (by omega), fp_bar_ridge r c1 c2 j _ (by omega),
    fp_bar_ridge r c1 c2 (j + 1) _ (by omega)]
  by_cases hir : i = r
  · subst hir
    have a1 : ¬ (i - 1 = i) := by omega
    have a2 : ¬ (i + 1 = i) := by omega
    simp only [a1, a2, false_and, if_false, true_and, Nat.zero_add, Nat.add_zero]
    split_ifs <;> simp <;> omega
  · simp [hir]

theorem rowmajor_lt_irrefl (a : dpfp_minutia) : ¬ rowmajor_lt a a := by
  simp [rowmajor_lt]

theorem rowmajor_lt_asymm (a b : dpfp_minutia) (h1 : rowmajor_lt a b) (h2 : rowmajor_lt b a) :
    False := by
  simp only [rowmajor_lt] at h1 h2
  omega

theorem sorted_pair_eq (l : List dpfp_minutia) (a b : dpfp_minutia)
    (hs : List.Pairwise rowmajor_lt l) (hab : rowmajor_lt a b)
    (hm : ∀ p, p ∈ l ↔ p = a ∨ p = b) : l = [a, b] := by
  have hne : a ≠ b := fun e => rowmajor_lt_irrefl a (by rw [← e] at hab; exact hab)
  have hnd : l.Nodup := hs.imp (fun {x y} hxy (heq : x = y) => rowmajor_lt_irrefl x (by rw [← heq] at hxy; exact hxy))
  have hnd2 : [a, b].Nodup := by simp [hne]
  have hp : l.Perm [a, b] := by
    rw [List.perm_ext_iff_of_nodup hnd hnd2]
    intro p
    rw [hm p]
    simp
  have hs2 : List.Pairwise rowmajor_lt [a, b] := by simp [hab]
  have hlen := hp.length_eq
  match l, hlen with
  | [x, y], _ =>
    have hxy : rowmajor_lt x y := by
      simp only [List.pairwise_cons, List.mem_singleton, forall_eq] at hs
      exact hs.1
    have hx := (hm x).mp (by simp)
    have hy := (hm y).mp (by simp)
    rcases hx with hx | hx <;> rcases hy with hy | hy
    · subst hx; subst hy
      exact absurd hxy (rowmajor_lt_irrefl _)
    · rw [hx, hy]
    · subst hx; subst hy
      exact (rowmajor_lt_asymm _ _ hab hxy).elim
    · subst hx; subst hy
      exact absurd hxy (rowmajor_lt_irrefl _)

theorem fp_bar_hits (r c1 c2 : Nat) (hr1 : 1 ≤ r) (hr2 : r ≤ 287) (hc1 : 1 ≤ c1)
    (hc : c1 < c2) (hc2 : c2 ≤ 382) :
    hits (fp_bar r c1 c2).data 287 1
      = [{ x := (c1 : Int), y := (r : Int) }, { x := (c2 : Int), y := (r : Int) }] := by
  apply sorted_pair_eq _ _ _ (pairwise_hits _ _ _)
  · right
    exact ⟨rfl, Int.ofNat_lt.mpr hc⟩
  · intro p
    rw [mem_hits]
    constructor
    · rintro ⟨i, j, h1, h2, h3, h4, h5, h6⟩
      rw [fp_bar_hit r c1 c2 i j hr1 hc h1 h3 h4] at h5
      obtain ⟨e1, e2 | e2⟩ := h5
      · left
        rw [h6, e1, e2]
      · right
        rw [h6, e1, e2]
    · rintro (h | h)
      · exact ⟨r, c1, hr1, by omega, hc1, by omega,
          (fp_bar_hit r c1 c2 r c1 hr1 hc hr1 hc1 (by omega)).mpr ⟨rfl, Or.inl rfl⟩, h⟩
      · exact ⟨r, c2, hr1, by omega, by omega, by omega,
          (fp_bar_hit r c1 c2 r c2 hr1 hc hr1 (by omega) (by omega)).mpr
            ⟨rfl, Or.inr rfl⟩, h⟩

theorem fp_bar_detect (r c1 c2 : Nat) (hr1 : 1 ≤ r) (hr2 : r ≤ 287) (hc1 : 1 ≤ c1)
    (hc : c1 < c2) (hc2 : c2 ≤ 382) :
    (dpfp_fprint_detect_minutiae (fp_bar r c1 c2) dpfp_mset_alloc).2
      = push_all dpfp_mset_alloc
          [{ x := (c1 : Int), y := (r : Int) }, { x := (c2 : Int), y := (r : Int) }] := by
  have h : dpfp_mset_alloc.count < 384 := by decide
  simp only [dpfp_fprint_detect_minutiae, DPFP_IMG_HEIGHT, Nat.reduceSub]
  rw [detect_rows_eq _ _ _ _ h, fp_bar_hits r c1 c2 hr1 hr2 hc1 hc hc2]
  rfl

/-- C14: for every one-pixel-high bar on a row `1 ≤ r ≤ H - 2` from column `c1`
to column `c2` with `1 ≤ c1 < c2 ≤ W - 2`, `dpfp_fprint_thin` ends after one
sweep and returns the bar unchanged (a single connected one-pixel-wide
component), and `dpfp_fprint_detect_minutiae` on the result with an empty set
reports exactly the two bar endpoints: `count` is 2, entry 0 is the left end
and entry 1 the right end. -/
theorem thin_bar_minutiae (r c1 c2 : Nat) (hr1 : 1 ≤ r) (hr2 : r ≤ 287) (hc1 : 1 ≤ c1)
    (hc : c1 < c2) (hc2 : c2 ≤ 382) :
    dpfp_fprint_thin 2 (fp_bar r c1 c2) = some (fp_bar r c1 c2) ∧
    (dpfp_fprint_detect_minutiae (fp_bar r c1 c2) dpfp_mset_alloc).1 = 0 ∧
    (dpfp_fprint_detect_minutiae (fp_bar r c1 c2) dpfp_mset_alloc).2.count = 2 ∧
    (dpfp_fprint_detect_minutiae (fp_bar r c1 c2) dpfp_mset_alloc).2.minutiae 0
      = { x := (c1 : Int), y := (r : Int) } ∧
    (dpfp_fprint_detect_minutiae (fp_bar r c1 c2) dpfp_mset_alloc).2.minutiae 1
      = { x := (c2 : Int), y := (r : Int) } := by
  refine ⟨thin_bar_fixed r c1 c2 hr1 hr2, rfl, ?_, ?_, ?_⟩
  · rw [fp_bar_detect r c1 c2 hr1 hr2 hc1 hc hc2]
    rfl
  · rw [fp_bar_detect r c1 c2 hr1 hr2 hc1 hc hc2]
    rfl
  · rw [fp_bar_detect r c1 c2 hr1 hr2 hc1 hc hc2]
    rfl

/-- Instance of C14 at the bar of the specification: row 144, columns 180 to 189. -/
theorem thin_bar_minutiae_witness :
    dpfp_fprint_thin 2 (fp_bar 144 180 189) = some (fp_bar 144 180 189) ∧
    (dpfp_fprint_detect_minutiae (fp_bar 144 180 189) dpfp_mset_alloc).1 = 0 ∧
    (dpfp_fprint_detect_minutiae (fp_bar 144 180 189) dpfp_mset_alloc).2.count = 2 ∧
    (dpfp_fprint_detect_minutiae (fp_bar 144 180 189) dpfp_mset_alloc).2.minutiae 0
      = { x := 180, y := 144 } ∧
    (dpfp_fprint_detect_minutiae (fp_bar 144 180 189) dpfp_mset_alloc).2.minutiae 1
      = { x := 189, y := 144 } :=
  thin_bar_minutiae 144 180 189 (by decide) (by decide) (by decide) (by decide) (by decide)

/-! ### The deletion table -/

theorem grow_spec : ∀ j k : Fin 9,
    (grow8 (2 ^ k.val)).testBit j = (decide (j = k) || adj8 j k) ∧
    (grow4 (2 ^ k.val)).testBit j = (decide (j = k) || adj4 j k) := by
  decide

/-- C30, as stated, fails: for the map 0272 (`b`, `d`, `e`, `f`, `h` set, the
corners clear) `delet` is 1 although the centre is not 8-simple: clearing it
opens a hole, a second 4-connected component of clear pixels. -/
theorem delet_simple_claim_fails :
    nbcode false true false true true true false true false = 0o272 ∧
    delet.getD 0o272 0 = 1 ∧
    simple8 false true false true true false true false = false ∧
    components grow4 (511 - window false true false true true true false true false) = 4 ∧
    components grow4 (511 - window false true false true false true false true false) = 5 := by
  decide!

/-- C30, amended: for every neighbourhood map `abcdefghi`, `delet` is 1 when
the centre `e` is set, more than one of the eight neighbours is set (the pixel
is no end point), and the centre is 8-simple or all four of `b`, `d`, `f`, `h`
are set; `delet` is 0 otherwise, in particular wherever `e` is clear.  The maps
with `b`, `d`, `e`, `f`, `h` all set are never looked up by a pass that
deletes, because every direction mask then meets a set bit. -/
theorem delet_characterisation : ∀ a b c d e f g h i : Bool,
    delet.getD (nbcode a b c d e f g h i) 0 =
      if (e && decide (1 < set_neighbours a b c d f g h i) &&
          (simple8 a b c d f g h i || (b && d && f && h))) = true then 1 else 0 := by
  decide!

/-! ## Interrupts -/

theorem int_wrap_id (v : Int) (h0 : -2 ^ 31 ≤ v) (h1 : v < 2 ^ 31) : int_wrap v = v := by
  simp only [int_wrap]
  omega

theorem get_irq_retry_succ (dev : irq_source) (fuel : Nat) (timeout : Int) (inf : Bool)
    (s : irq_state) :
    get_irq_retry dev (fuel + 1) timeout inf s =
      if (dev.reads s.pos).ret = -dev.ETIMEDOUT ∧
          ((inf = false ∧ timeout > 0) ∨ inf = true) then
        get_irq_retry dev fuel (int_wrap (timeout - 1)) inf
          { buf := usb_interrupt_read (dev.reads s.pos) s.buf, pos := s.pos + 1 }
      else if (dev.reads s.pos).ret < 0 then
        some ((dev.reads s.pos).ret,
          { buf := usb_interrupt_read (dev.reads s.pos) s.buf, pos := s.pos + 1 })
      else if (dev.reads s.pos).ret < DPFP_IRQ_LENGTH then
        some (-1, { buf := usb_interrupt_read (dev.reads s.pos) s.buf, pos := s.pos + 1 })
      else some (0, { buf := usb_interrupt_read (dev.reads s.pos) s.buf, pos := s.pos + 1 }) :=
  rfl

/-- With a finite timeout `t > 0` left and only timeouts coming, the retry loop
makes `t + 1` reads and returns `-ETIMEDOUT`. -/
theorem get_irq_retry_timeouts (dev : irq_source) (hE : 0 < dev.ETIMEDOUT)
    (hall : ∀ n, (dev.reads n).ret = -dev.ETIMEDOUT) (t : Nat) (ht : (t : Int) < 2 ^ 31)
    (s : irq_state) :
    ∃ b, get_irq_retry dev (t + 1) (t : Int) false s
      = some (-dev.ETIMEDOUT, { buf := b, pos := s.pos + t + 1 }) := by
  induction t generalizing s with
  | zero =>
    rw [get_irq_retry_succ]
    have h1 : ¬ ((dev.reads s.pos).ret = -dev.ETIMEDOUT ∧
        (((false : Bool) = false ∧ ((0 : Nat) : Int) > 0) ∨ (false : Bool) = true)) := by
      simp
    rw [if_neg h1, hall, if_pos (by omega)]
    exact ⟨_, rfl⟩
  | succ t ih =>
    rw [get_irq_retry_succ]
    have h1 : (dev.reads s.pos).ret = -dev.ETIMEDOUT ∧
        (((false : Bool) = false ∧ ((t + 1 : Nat) : Int) > 0) ∨ (false : Bool) = true) :=
      ⟨hall _, Or.inl ⟨rfl, by omega⟩⟩
    rw [if_pos h1]
    have e : int_wrap (((t + 1 : Nat) : Int) - 1) = (t : Int) := by
      rw [int_wrap_id] <;> omega
    rw [e]
    obtain ⟨b, hb⟩ := ih (by omega)
      { buf := usb_interrupt_read (dev.reads s.pos) s.buf, pos := s.pos + 1 }
    refine ⟨b, ?_⟩
    rw [hb]
    simp only [Nat.add_assoc, Nat.add_comm 1 t]

/-- With fewer than `t + 1` reads allowed the loop has not returned. -/
theorem get_irq_retry_timeouts_short (dev : irq_source)
    (hall : ∀ n, (dev.reads n).ret = -dev.ETIMEDOUT) (fuel : Nat) (t : Int)
    (hf : (fuel : Int) ≤ t) (ht : t < 2 ^ 31) (s : irq_state) :
    get_irq_retry dev fuel t false s = none := by
  induction fuel generalizing s t with
  | zero => rfl
  | succ fuel ih =>
    rw [get_irq_retry_succ]
    have h1 : (dev.reads s.pos).ret = -dev.ETIMEDOUT ∧
        (((false : Bool) = false ∧ t > 0) ∨ (false : Bool) = true) :=
      ⟨hall _, Or.inl ⟨rfl, by omega⟩⟩
    rw [if_pos h1, int_wrap_id _ (by omega) (by omega)]
    exact ih (t - 1) (by omega) (by omega) _

/-- With the infinite timeout and only timeouts coming the loop never returns. -/
theorem get_irq_retry_forever (dev : irq_source)
    (hall : ∀ n, (dev.reads n).ret = -dev.ETIMEDOUT) (fuel : Nat) (t : Int) (s : irq_state) :
    get_irq_retry dev fuel t true s = none := by
  induction fuel generalizing s t with
  | zero => rfl
  | succ fuel ih =>
    rw [get_irq_retry_succ]
    have h1 : (dev.reads s.pos).ret = -dev.ETIMEDOUT ∧
        (((true : Bool) = false ∧ t > 0) ∨ (true : Bool) = true) :=
      ⟨hall _, Or.inr rfl⟩
    rw [if_pos h1]
    exact ih _ _

/-- With the infinite timeout, `k` timeouts followed by another outcome are
answered by `k` retries: the loop returns at read `k + 1`. -/
theorem get_irq_retry_infinite (dev : irq_source) (k : Nat) (t : Int) (s : irq_state)
    (hto : ∀ j, j < k → (dev.reads (s.pos + j)).ret = -dev.ETIMEDOUT)
    (hk : (dev.reads (s.pos + k)).ret ≠ -dev.ETIMEDOUT) :
    ∃ b, get_irq_retry dev (k + 1) t true s =
      some (if (dev.reads (s.pos + k)).ret < 0 then (dev.reads (s.pos + k)).ret
            else if (dev.reads (s.pos + k)).ret < DPFP_IRQ_LENGTH then -1 else 0,
            { buf := b, pos := s.pos + k + 1 }) := by
  induction k generalizing s t with
  | zero =>
    rw [get_irq_retry_succ]
    have h1 : ¬ ((dev.reads s.pos).ret = -dev.ETIMEDOUT ∧
        (((true : Bool) = false ∧ t > 0) ∨ (true : Bool) = true)) := fun h => hk h.1
    rw [if_neg h1]
    simp only [Nat.add_zero]
    split_ifs <;> exact ⟨_, rfl⟩
  | succ k ih =>
    rw [get_irq_retry_succ]
    have h1 : (dev.reads s.pos).ret = -dev.ETIMEDOUT ∧
        (((true : Bool) = false ∧ t > 0) ∨ (true : Bool) = true) :=
      ⟨hto 0 (by omega), Or.inr rfl⟩
    rw [if_pos h1]
    have e : ∀ j, s.pos + 1 + j = s.pos + (j + 1) := fun j => by omega
    obtain ⟨b, hb⟩ := ih (int_wrap (t - 1))
      { buf := usb_interrupt_read (dev.reads s.pos) s.buf, pos := s.pos + 1 }
      (fun j hj => by
        show (dev.reads (s.pos + 1 + j)).ret = _
        rw [e]
        exact hto (j + 1) (by omega))
      (by
        show (dev.reads (s.pos + 1 + k)).ret ≠ _
        rw [e]
        exact hk)
    refine ⟨b, ?_⟩
    rw [hb]
    simp only [e, Nat.add_assoc]

/-- A read with another negative outcome ends the loop at once. -/
theorem get_irq_retry_error (dev : irq_source) (fuel : Nat) (t : Int) (inf : Bool)
    (s : irq_state) (hneg : (dev.reads s.pos).ret < 0)
    (hne : (dev.reads s.pos).ret ≠ -dev.ETIMEDOUT) :
    get_irq_retry dev (fuel + 1) t inf s =
      some ((dev.reads s.pos).ret,
        { buf := usb_interrupt_read (dev.reads s.pos) s.buf, pos := s.pos + 1 }) := by
  rw [get_irq_retry_succ, if_neg (fun h => hne h.1), if_pos hneg]

/-- C21: let every interrupt read time out.  For a timeout `T > 0`,
`dpfp_get_irq` returns `-ETIMEDOUT` after exactly `T + 1` reads, that is after
`T` retries (with `T` reads or fewer it has not returned); for `T = 0` it has
not returned after any number of reads.  And whatever the timeout, a first read
with another negative result `r` makes it return `r` after that one read. -/
theorem get_irq_timeout (dev : irq_source) (hE : 0 < dev.ETIMEDOUT) (s : irq_state) :
    ((∀ n, (dev.reads n).ret = -dev.ETIMEDOUT) →
      (∀ T : Int, 0 < T → T < 2 ^ 31 →
        (∃ b, dpfp_get_irq dev (T.toNat + 1) T s
            = some (-dev.ETIMEDOUT, { buf := b, pos := s.pos + T.toNat + 1 })) ∧
        (∀ fuel, fuel ≤ T.toNat → dpfp_get_irq dev fuel T s = none)) ∧
      (∀ fuel, dpfp_get_irq dev fuel 0 s = none)) ∧
    (∀ (T : Int) (fuel : Nat), (dev.reads s.pos).ret < 0 →
      (dev.reads s.pos).ret ≠ -dev.ETIMEDOUT →
      dpfp_get_irq dev (fuel + 1) T s =
        some ((dev.reads s.pos).ret,
          { buf := usb_interrupt_read (dev.reads s.pos) s.buf, pos := s.pos + 1 })) := by
  refine ⟨fun hall => ⟨fun T h0 h1 => ⟨?_, ?_⟩, ?_⟩, ?_⟩
  · have hT : ((T.toNat : Nat) : Int) = T := Int.toNat_of_nonneg (by omega)
    have hd : decide (T = 0) = false := decide_eq_false (by omega)
    obtain ⟨b, hb⟩ := get_irq_retry_timeouts dev hE hall T.toNat (by omega) s
    rw [hT] at hb
    exact ⟨b, by rw [dpfp_get_irq, hd]; exact hb⟩
  · intro fuel hf
    have hd : decide (T = 0) = false := decide_eq_false (by omega)
    rw [dpfp_get_irq, hd]
    exact get_irq_retry_timeouts_short dev hall fuel T (by omega) h1 s
  · intro fuel
    exact get_irq_retry_forever dev hall fuel 0 s
  · intro T fuel hneg hne
    exact get_irq_retry_error dev fuel T _ s hneg hne

/-- Instance of C21 on the source `irq_silent` with timeout 3: four reads, then
`-ETIMEDOUT`. -/
theorem get_irq_timeout_witness :
    (0 : Int) < irq_silent.ETIMEDOUT ∧
    (∃ b, dpfp_get_irq irq_silent 4 3 irq_start = some (-110, { buf := b, pos := 4 })) ∧
    dpfp_get_irq irq_silent 3 3 irq_start = none :=
  ⟨by decide,
   ((get_irq_timeout irq_silent (by decide) irq_start).1 (fun _ => rfl)).1 3
      (by decide) (by decide) |>.1,
   ((get_irq_timeout irq_silent (by decide) irq_start).1 (fun _ => rfl)).1 3
      (by decide) (by decide) |>.2 3 (by decide)⟩

/-! ### Waiting for an interrupt of a given type -/

theorem with_type_succ (dev : irq_source) (g irqtype : Nat) (timeout : Int) (fuel : Nat)
    (s : irq_state) :
    dpfp_simple_get_irq_with_type dev g irqtype timeout (fuel + 1) s =
      match dpfp_get_irq dev g timeout s with
      | none => none
      | some (result, s1) =>
        if result < 0 then some (result, s1)
        else if irq_type s1.buf ≠ irqtype then
          dpfp_simple_get_irq_with_type dev g irqtype timeout fuel s1
        else some (0, s1) :=
  rfl

/-- What `dpfp_get_irq` returns is negative or 0, and when it is 0 the last read
delivered at least 64 bytes into the buffer. -/
theorem get_irq_retry_result (dev : irq_source) (fuel : Nat) (t : Int) (inf : Bool)
    (s s1 : irq_state) (r : Int) (h : get_irq_retry dev fuel t inf s = some (r, s1)) :
    s.pos < s1.pos ∧
    s1.buf = usb_interrupt_read (dev.reads (s1.pos - 1)) s1.buf ∧
    ((r < 0 ∧ ((dev.reads (s1.pos - 1)).ret = r ∨
        (r = -1 ∧ 0 ≤ (dev.reads (s1.pos - 1)).ret ∧
          (dev.reads (s1.pos - 1)).ret < DPFP_IRQ_LENGTH))) ∨
     (r = 0 ∧ (DPFP_IRQ_LENGTH : Int) ≤ (dev.reads (s1.pos - 1)).ret)) := by
  induction fuel generalizing s t with
  | zero => simp [get_irq_retry] at h
  | succ fuel ih =>
    rw [get_irq_retry_succ] at h
    have hidem : ∀ (q : bulk_result) (b : Nat → uchar),
        usb_interrupt_read q b = usb_interrupt_read q (usb_interrupt_read q b) := by
      intro q b
      funext k
      simp only [usb_interrupt_read]
      split_ifs with h1
      · rfl
      · simp only [memcpy]
        split_ifs <;> rfl
    split_ifs at h with h1 h2 h3
    · obtain ⟨a, b⟩ := ih _ _ h
      exact ⟨by simp only at a; omega, b⟩
    · simp only [Option.some.injEq, Prod.mk.injEq] at h
      obtain ⟨e1, e2⟩ := h
      subst e2
      simp only [Nat.add_sub_cancel]
      exact ⟨by omega, hidem _ _, Or.inl ⟨by omega, Or.inl e1⟩⟩
    · simp only [Option.some.injEq, Prod.mk.injEq] at h
      obtain ⟨e1, e2⟩ := h
      subst e2
      simp only [Nat.add_sub_cancel]
      exact ⟨by omega, hidem _ _, Or.inl ⟨by omega, Or.inr ⟨e1.symm, by omega, h3⟩⟩⟩
    · simp only [Option.some.injEq, Prod.mk.injEq] at h
      obtain ⟨e1, e2⟩ := h
      subst e2
      simp only [Nat.add_sub_cancel]
      exact ⟨by omega, hidem _ _, Or.inr ⟨e1.symm, by omega⟩⟩

/-- A read that delivers a full packet makes `dpfp_get_irq` return 0 at once. -/
theorem get_irq_full (dev : irq_source) (hE : 0 < dev.ETIMEDOUT) (g : Nat) (t : Int)
    (s : irq_state) (h : (DPFP_IRQ_LENGTH : Int) ≤ (dev.reads s.pos).ret) :
    dpfp_get_irq dev (g + 1) t s =
      some (0, { buf := usb_interrupt_read (dev.reads s.pos) s.buf, pos := s.pos + 1 }) := by
  simp only [DPFP_IRQ_LENGTH, Nat.cast_ofNat] at h
  rw [dpfp_get_irq, get_irq_retry_succ, if_neg (fun h1 => by omega), if_neg (by omega),
    if_neg (by simp only [DPFP_IRQ_LENGTH, Nat.cast_ofNat]; omega)]

/-- A read that delivers fewer than 64 bytes makes `dpfp_get_irq` return -1. -/
theorem get_irq_short (dev : irq_source) (hE : 0 < dev.ETIMEDOUT) (g : Nat) (t : Int)
    (s : irq_state) (h0 : 0 ≤ (dev.reads s.pos).ret)
    (h : (dev.reads s.pos).ret < DPFP_IRQ_LENGTH) :
    dpfp_get_irq dev (g + 1) t s =
      some (-1, { buf := usb_interrupt_read (dev.reads s.pos) s.buf, pos := s.pos + 1 }) := by
  rw [dpfp_get_irq, get_irq_retry_succ, if_neg (fun h1 => by omega), if_neg (by omega),
    if_pos h]

theorem irq_type_read (r : bulk_result) (b : Nat → uchar) (h : 2 ≤ r.ret) :
    irq_type (usb_interrupt_read r b) = irq_type r.bytes := by
  have h1 : ¬ r.ret < 0 := by omega
  have h2 : (0 : Nat) < r.ret.toNat := by omega
  have h3 : (1 : Nat) < r.ret.toNat := by omega
  simp only [irq_type, usb_interrupt_read, h1, if_false, memcpy, Nat.zero_le, Nat.zero_add,
    true_and, h2, h3, if_true, Nat.sub_zero]

theorem irq_type_bytes (b0 b1 : uchar) :
    ((((b0.val + 256 * b1.val) &&& 0xff) <<< 8) ||| ((b0.val + 256 * b1.val) >>> 8)) % 65536
      = 256 * b0.val + b1.val := by
  have h0 := b0.isLt
  have h1 := b1.isLt
  have e1 : (b0.val + 256 * b1.val) &&& 0xff = b0.val := by
    have e := Nat.and_pow_two_sub_one_eq_mod (b0.val + 256 * b1.val) 8
    have e' : (2 : Nat) ^ 8 - 1 = 0xff := by decide
    rw [e'] at e
    rw [e]
    omega
  have e2 : (b0.val + 256 * b1.val) >>> 8 = b1.val := by
    rw [Nat.shiftRight_eq_div_pow]
    have : (2 : Nat) ^ 8 = 256 := by decide
    omega
  have e3 : b0.val <<< 8 = 2 ^ 8 * b0.val := by
    rw [Nat.shiftLeft_eq, Nat.mul_comm]
  rw [e1, e2, e3, ← Nat.mul_add_lt_is_or (by simp)]
  have : (2 : Nat) ^ 8 = 256 := by decide
  omega

/-- The value compared with `irqtype` is the first byte times 256 plus the second. -/
theorem irq_type_eq (buf : Nat → uchar) : irq_type buf = 256 * (buf 0).val + (buf 1).val :=
  irq_type_bytes (buf 0) (buf 1)

theorem read_fixed_bytes (q : bulk_result) (b : Nat → uchar) (h : b = usb_interrupt_read q b)
    (i : Nat) (hi : (i : Int) < q.ret) : b i = q.bytes i := by
  rw [h]
  have h1 : ¬ q.ret < 0 := by omega
  have h2 : i < q.ret.toNat := by omega
  simp only [usb_interrupt_read, h1, if_false, memcpy, Nat.zero_le, Nat.zero_add, true_and, h2,
    if_true, Nat.sub_zero]

theorem with_type_result (dev : irq_source) (g irqtype : Nat) (T : Int) (fuel : Nat)
    (s s1 : irq_state) (r : Int)
    (h : dpfp_simple_get_irq_with_type dev g irqtype T fuel s = some (r, s1)) :
    (r = 0 ∧ irq_type s1.buf = irqtype ∧
      (DPFP_IRQ_LENGTH : Int) ≤ (dev.reads (s1.pos - 1)).ret ∧
      ∀ i, i < DPFP_IRQ_LENGTH → s1.buf i = (dev.reads (s1.pos - 1)).bytes i) ∨
    (r < 0 ∧ ∃ s0, dpfp_get_irq dev g T s0 = some (r, s1)) := by
  induction fuel generalizing s with
  | zero => simp [dpfp_simple_get_irq_with_type] at h
  | succ fuel ih =>
    rw [with_type_succ] at h
    cases hg : dpfp_get_irq dev g T s with
    | none => simp [hg] at h
    | some p =>
      obtain ⟨r0, s0⟩ := p
      simp only [hg] at h
      split_ifs at h with h1 h2
      · simp only [Option.some.injEq, Prod.mk.injEq] at h
        obtain ⟨e1, e2⟩ := h
        subst e1 e2
        exact Or.inr ⟨h1, s, hg⟩
      · exact ih _ h
      · simp only [Option.some.injEq, Prod.mk.injEq] at h
        obtain ⟨e1, e2⟩ := h
        subst e2
        obtain ⟨_, hb, hr⟩ := get_irq_retry_result dev g T _ s s0 r0 hg
        rcases hr with ⟨hneg, _⟩ | ⟨_, hlen⟩
        · exact absurd hneg h1
        · refine Or.inl ⟨e1.symm, not_not.mp h2, hlen, fun i hi => ?_⟩
          apply read_fixed_bytes _ _ hb
          simp only [DPFP_IRQ_LENGTH, Nat.cast_ofNat] at hlen
          simp only [DPFP_IRQ_LENGTH] at hi
          omega

/-- C22: `dpfp_simple_get_irq_with_type` (with `ETIMEDOUT > 0`).  Whenever it
returns, the value is 0 or negative; when it is 0, the last interrupt read
delivered at least 64 bytes, `irqbuf` holds the first 64 of them, and its first
two bytes read big-endian equal `irqtype`; when it is negative it is what the
failing `dpfp_get_irq` returned.  A full packet with another header is
discarded and the wait goes on with the next read; a failure of `dpfp_get_irq`
ends the wait with its value, and a read of fewer than 64 bytes ends it with
-1. -/
theorem get_irq_with_type (dev : irq_source) (hE : 0 < dev.ETIMEDOUT) (irqtype : Nat)
    (T : Int) :
    (∀ (g fuel : Nat) (s s1 : irq_state) (r : Int),
      dpfp_simple_get_irq_with_type dev g irqtype T fuel s = some (r, s1) →
      (r = 0 ∧ 256 * (s1.buf 0).val + (s1.buf 1).val = irqtype ∧
        (DPFP_IRQ_LENGTH : Int) ≤ (dev.reads (s1.pos - 1)).ret ∧
        ∀ i, i < DPFP_IRQ_LENGTH → s1.buf i = (dev.reads (s1.pos - 1)).bytes i) ∨
      (r < 0 ∧ ∃ s0, dpfp_get_irq dev g T s0 = some (r, s1))) ∧
    (∀ (g fuel : Nat) (s : irq_state),
      (DPFP_IRQ_LENGTH : Int) ≤ (dev.reads s.pos).ret →
      256 * ((dev.reads s.pos).bytes 0).val + ((dev.reads s.pos).bytes 1).val ≠ irqtype →
      dpfp_simple_get_irq_with_type dev (g + 1) irqtype T (fuel + 1) s =
        dpfp_simple_get_irq_with_type dev (g + 1) irqtype T fuel
          { buf := usb_interrupt_read (dev.reads s.pos) s.buf, pos := s.pos + 1 }) ∧
    (∀ (g fuel : Nat) (s : irq_state),
      (DPFP_IRQ_LENGTH : Int) ≤ (dev.reads s.pos).ret →
      256 * ((dev.reads s.pos).bytes 0).val + ((dev.reads s.pos).bytes 1).val = irqtype →
      dpfp_simple_get_irq_with_type dev (g + 1) irqtype T (fuel + 1) s =
        some (0, { buf := usb_interrupt_read (dev.reads s.pos) s.buf, pos := s.pos + 1 })) ∧
    (∀ (g fuel : Nat) (s s1 : irq_state) (r : Int),
      dpfp_get_irq dev g T s = some (r, s1) → r < 0 →
      dpfp_simple_get_irq_with_type dev g irqtype T (fuel + 1) s = some (r, s1)) ∧
    (∀ (g fuel : Nat) (s : irq_state),
      0 ≤ (dev.reads s.pos).ret → (dev.reads s.pos).ret < DPFP_IRQ_LENGTH →
      dpfp_simple_get_irq_with_type dev (g + 1) irqtype T (fuel + 1) s =
        some (-1, { buf := usb_interrupt_read (dev.reads s.pos) s.buf, pos := s.pos + 1 })) := by
  refine ⟨?_, ?_, ?_, ?_, ?_⟩
  · intro g fuel s s1 r h
    have h1 := with_type_result dev g irqtype T fuel s s1 r h
    rw [irq_type_eq] at h1
    exact h1
  · intro g fuel s hlen hne
    have h2 : (2 : Int) ≤ (dev.reads s.pos).ret := by
      simp only [DPFP_IRQ_LENGTH, Nat.cast_ofNat] at hlen
      omega
    rw [with_type_succ, get_irq_full dev hE g T s hlen]
    simp only [irq_type_read _ _ h2, irq_type_eq]
    rw [if_neg (by decide), if_pos hne]
  · intro g fuel s hlen heq
    have h2 : (2 : Int) ≤ (dev.reads s.pos).ret := by
      simp only [DPFP_IRQ_LENGTH, Nat.cast_ofNat] at hlen
      omega
    rw [with_type_succ, get_irq_full dev hE g T s hlen]
    simp only [irq_type_read _ _ h2, irq_type_eq]
    rw [if_neg (by decide), if_neg (not_not.mpr heq)]
  · intro g fuel s s1 r hg hr
    rw [with_type_succ, hg]
    simp only [hr, if_true]
  · intro g fuel s h0 hshort
    rw [with_type_succ, get_irq_short dev hE g T s h0 hshort]
    simp

/-- Instance of C22 on the source `irq_two_packets`, waiting for type 0x56AA:
the packet `01 01` is discarded, the packet `56 AA` ends the wait with 0. -/
theorem get_irq_with_type_witness :
    (0 : Int) < irq_two_packets.ETIMEDOUT ∧
    dpfp_simple_get_irq_with_type irq_two_packets 1 0x56aa 5 2 irq_start =
      dpfp_simple_get_irq_with_type irq_two_packets 1 0x56aa 5 1
        { buf := usb_interrupt_read (irq_two_packets.reads 0) irq_start.buf, pos := 1 } ∧
    dpfp_simple_get_irq_with_type irq_two_packets 1 0x56aa 5 1
        { buf := usb_interrupt_read (irq_two_packets.reads 0) irq_start.buf, pos := 1 } =
      some (0, { buf := usb_interrupt_read (irq_two_packets.reads 1)
                          (usb_interrupt_read (irq_two_packets.reads 0) irq_start.buf),
                 pos := 2 }) :=
  ⟨by decide,
   (get_irq_with_type irq_two_packets (by decide) 0x56aa 5).2.1 0 1 irq_start
     (by decide) (by decide),
   (get_irq_with_type irq_two_packets (by decide) 0x56aa 5).2.2.1 0 0
     { buf := usb_interrupt_read (irq_two_packets.reads 0) irq_start.buf, pos := 1 }
     (by decide) (by decide)⟩

/-! ## Writing a PGM file -/

set_option maxRecDepth 100000 in
theorem decimal_length : ∀ n : Fin 1000,
    (decimal (n.val : Int)).length ≤ 3 ∧ (100 ≤ n.val → (decimal (n.val : Int)).length = 3) := by
  decide!

theorem sprintf_rows (n : Nat) (h : n ≤ 999) :
    sprintf_d 4 (n : Int) = some (decimal (n : Int)) := by
  have h1 : (decimal (n : Int)).length ≤ 3 := (decimal_length ⟨n, by omega⟩).1
  simp only [sprintf_d]
  rw [if_pos (by omega)]

/-- The routine on a file system where every call succeeds, for a fingerprint
of at most 999 rows. -/
theorem write_to_file_ok (env : file_env) (fp : dpfp_fprint) (ho : env.fopen_ok = true)
    (hw : ∀ k, env.write_ok k = true) (h0 : 0 < fp.data_size)
    (hr : fp.data_size / DPFP_IMG_WIDTH ≤ 999) :
    dpfp_fprint_write_to_file env fp =
      some { ret := 0, errno := none,
             file := some (ascii "P5 " ++ decimal (DPFP_IMG_WIDTH : Int) ++ ascii " "
                      ++ decimal ((fp.data_size / DPFP_IMG_WIDTH : Nat) : Int)
                      ++ ascii " 255 " ++ fp_bytes fp) } := by
  have hsz : fp.data_size < 384000 := by
    simp only [DPFP_IMG_WIDTH] at hr
    omega
  have hq : ((fp.data_size / DPFP_IMG_WIDTH : Nat) : Int) ≤ 999 := by exact_mod_cast hr
  have hq0 : (0 : Int) ≤ ((fp.data_size / DPFP_IMG_WIDTH : Nat) : Int) := Int.ofNat_nonneg _
  have e1 : int_wrap ((fp.data_size / DPFP_IMG_WIDTH : Nat) : Int)
      = ((fp.data_size / DPFP_IMG_WIDTH : Nat) : Int) := by
    generalize ((fp.data_size / DPFP_IMG_WIDTH : Nat) : Int) = q at hq hq0
    apply int_wrap_id <;> omega
  have e2 : int_wrap (fp.data_size : Int) = (fp.data_size : Int) := by
    apply int_wrap_id <;> omega
  have e3 : sprintf_d 4 (DPFP_IMG_WIDTH : Int) = some (decimal (DPFP_IMG_WIDTH : Int)) := by
    decide
  have n1 : ¬ fp.data_size ≤ 0 := by omega
  have n2 : ¬ ((fp.data_size / DPFP_IMG_WIDTH : Nat) : Int) > 999 := by omega
  have n3 : ¬ ((fp.data_size : Nat) : Int) < 0 := by omega
  unfold dpfp_fprint_write_to_file
  rw [if_neg n1, e1, if_neg n2, if_neg (by rw [ho]; decide)]
  unfold write_header
  rw [if_neg (by rw [hw]; decide), e3, Option.some_bind, if_neg (by rw [hw]; decide),
    if_neg (by rw [hw]; decide), sprintf_rows _ hr, Option.some_bind,
    if_neg (by rw [hw]; decide), if_neg (by rw [hw]; decide)]
  unfold write_pixels
  rw [if_pos (hw 5), e2, if_neg n3, if_pos (hw 5)]

/-- C24: on a file system where every call succeeds, for every fingerprint with
`0 < data_size` and `data_size / 384 ≤ 999`, `dpfp_fprint_write_to_file`
returns 0 and leaves a file that consists of the ASCII bytes `P5 384 `, the
decimal digits of `R = data_size / 384`, the ASCII bytes ` 255 ` and then the
`data_size` pixel bytes in order. -/
theorem write_to_file_format (env : file_env) (fp : dpfp_fprint) (ho : env.fopen_ok = true)
    (hw : ∀ k, env.write_ok k = true) (h0 : 0 < fp.data_size)
    (hr : fp.data_size / 384 ≤ 999) :
    dpfp_fprint_write_to_file env fp =
      some { ret := 0, errno := none,
             file := some (ascii "P5 384 " ++ decimal ((fp.data_size / 384 : Nat) : Int)
                      ++ ascii " 255 " ++ (List.range fp.data_size).map fp.data) } := by
  rw [write_to_file_ok env fp ho hw h0 hr]
  have e : ascii "P5 " ++ decimal (DPFP_IMG_WIDTH : Int) ++ ascii " " = ascii "P5 384 " := by
    decide
  rw [e]
  rfl

/-- Instance of C24 at the two-row fingerprint `fp_two_rows`: the header is
`P5 384 2 255 `. -/
theorem write_to_file_format_witness :
    dpfp_fprint_write_to_file env_ok fp_two_rows =
      some { ret := 0, errno := none,
             file := some (ascii "P5 384 " ++ ascii "2" ++ ascii " 255 "
                      ++ (List.range 768).map fp_two_rows.data) } :=
  write_to_file_format env_ok fp_two_rows rfl (fun _ => rfl) (by decide) (by decide)

/-! ### Reading a written file back -/

/-- An empty fingerprint is refused with `EIO`, one of more than 999 rows with
`EFBIG`, as long as the row count fits an `int`; no file is opened. -/
theorem write_to_file_rejects (env : file_env) (fp : dpfp_fprint) :
    (fp.data_size = 0 → dpfp_fprint_write_to_file env fp
        = some { ret := -1, errno := some errno_code.EIO, file := none }) ∧
    (999 < fp.data_size / 384 → fp.data_size / 384 < 2 ^ 31 →
      dpfp_fprint_write_to_file env fp
        = some { ret := -1, errno := some errno_code.EFBIG, file := none }) := by
  constructor
  · intro h
    unfold dpfp_fprint_write_to_file
    rw [if_pos (by omega)]
  · intro h1 h2
    have hq : (999 : Int) < ((fp.data_size / DPFP_IMG_WIDTH : Nat) : Int) := by
      exact_mod_cast h1
    have hq2 : ((fp.data_size / DPFP_IMG_WIDTH : Nat) : Int) < 2 ^ 31 := by
      exact_mod_cast h2
    have e1 : int_wrap ((fp.data_size / DPFP_IMG_WIDTH : Nat) : Int)
        = ((fp.data_size / DPFP_IMG_WIDTH : Nat) : Int) := by
      generalize ((fp.data_size / DPFP_IMG_WIDTH : Nat) : Int) = q at hq hq2
      apply int_wrap_id <;> omega
    have n1 : ¬ fp.data_size ≤ 0 := by omega
    unfold dpfp_fprint_write_to_file
    rw [if_neg n1, e1, if_pos hq]

/-- C26 (refuted for the code): the fingerprint `fp_wrapped`, which
`dpfp_capture_fprint` leaves after two bulk reads of 0 bytes, has
`data_size = 2^64 - 64`, far more than 999 rows, but is not refused with
`EFBIG`: the row count is stored in an `int`, where it reads `-1431655766`, so
the test `num_rows > 999` fails, the file is opened, and
`sprintf(pgm_header, "%d", num_rows)` writes 12 bytes into the 4-byte array. -/
theorem write_to_file_huge_not_refused :
    fp_wrapped.data_size = 2 ^ 64 - 64 ∧
    999 < fp_wrapped.data_size / 384 ∧
    int_wrap ((fp_wrapped.data_size / DPFP_IMG_WIDTH : Nat) : Int) = -1431655766 ∧
    decimal (-1431655766) = ascii "-1431655766" ∧
    sprintf_d 4 (-1431655766) = none ∧
    dpfp_fprint_write_to_file env_ok fp_wrapped = none := by
  decide!

/-! ## Matching -/

theorem tdiv_bound (s n b : Int) (hn : 0 < n) (h1 : -(n * b) ≤ s) (h2 : s ≤ n * b) :
    -b ≤ Int.tdiv s n ∧ Int.tdiv s n ≤ b := by
  have hb : 0 ≤ b := by
    by_contra hneg
    have : n * b < 0 := Int.mul_neg_of_pos_of_neg hn (by omega)
    omega
  by_cases hs : 0 ≤ s
  · rw [Int.tdiv_eq_ediv hs (by omega)]
    have h3 : s / n ≤ b := Int.ediv_le_of_le_mul hn (by rw [Int.mul_comm]; exact h2)
    have h4 : 0 ≤ s / n := Int.ediv_nonneg hs (by omega)
    omega
  · have e : s = -(-s) := by omega
    rw [e, Int.neg_tdiv, Int.tdiv_eq_ediv (by omega) (by omega)]
    have h3 : (-s) / n ≤ b := Int.ediv_le_of_le_mul hn (by rw [Int.mul_comm]; omega)
    have h4 : 0 ≤ (-s) / n := Int.ediv_nonneg (by omega) (by omega)
    omega

theorem for_loop_snoc {σ : Type} (body : Nat → σ → σ) (c j : Nat) (t : σ) :
    for_loop body (c + 1) j t = body (j + c) (for_loop body c j t) := by
  induction c generalizing j t with
  | zero => rfl
  | succ c ihc =>
    rw [for_loop_succ, ihc (j + 1) (body j t), for_loop_succ]
    have e1 : j + 1 + c = j + (c + 1) := by omega
    rw [e1]

/-- One more round of a loop from 0 is the body applied to the shorter loop. -/
theorem for_range_succ {σ : Type} (body : Nat → σ → σ) (k : Nat) (s : σ) :
    for_range 0 (k + 1) body s = body k (for_range 0 k body s) := by
  have g := for_loop_snoc body k 0 s
  rw [Nat.zero_add] at g
  simpa only [for_range, Nat.sub_zero] using g

theorem coord_sum_succ (f : dpfp_minutia → Int) (m : Nat → dpfp_minutia) (k : Nat) :
    ((List.range (k + 1)).map (fun i => f (m i))).sum
      = ((List.range k).map (fun i => f (m i))).sum + f (m k) := by
  rw [List.range_succ, List.map_append, List.sum_append]
  simp

/-- The loop that adds up the coordinates, for coordinates of absolute value at
most `2^22`: no sum leaves the range of `int`. -/
theorem mean_loop (mset : dpfp_mset) (n : Nat) (hn : n ≤ 384)
    (hr : ∀ i, i < n →
      -2 ^ 22 ≤ (mset.minutiae i).x ∧ (mset.minutiae i).x ≤ 2 ^ 22 ∧
      -2 ^ 22 ≤ (mset.minutiae i).y ∧ (mset.minutiae i).y ≤ 2 ^ 22) :
    for_range 0 n (mean_body mset) (0, 0)
      = (((List.range n).map (fun i => (mset.minutiae i).x)).sum,
         ((List.range n).map (fun i => (mset.minutiae i).y)).sum) ∧
    -((n : Int) * 2 ^ 22) ≤ ((List.range n).map (fun i => (mset.minutiae i).x)).sum ∧
    ((List.range n).map (fun i => (mset.minutiae i).x)).sum ≤ (n : Int) * 2 ^ 22 ∧
    -((n : Int) * 2 ^ 22) ≤ ((List.range n).map (fun i => (mset.minutiae i).y)).sum ∧
    ((List.range n).map (fun i => (mset.minutiae i).y)).sum ≤ (n : Int) * 2 ^ 22 := by
  have key : ∀ k, k ≤ n →
      for_range 0 k (mean_body mset) (0, 0)
        = (((List.range k).map (fun i => (mset.minutiae i).x)).sum,
           ((List.range k).map (fun i => (mset.minutiae i).y)).sum) ∧
      -((k : Int) * 2 ^ 22) ≤ ((List.range k).map (fun i => (mset.minutiae i).x)).sum ∧
      ((List.range k).map (fun i => (mset.minutiae i).x)).sum ≤ (k : Int) * 2 ^ 22 ∧
      -((k : Int) * 2 ^ 22) ≤ ((List.range k).map (fun i => (mset.minutiae i).y)).sum ∧
      ((List.range k).map (fun i => (mset.minutiae i).y)).sum ≤ (k : Int) * 2 ^ 22 := by
    intro k
    induction k with
    | zero =>
      intro _
      simp [for_range, for_loop]
    | succ k ih =>
      intro hk
      obtain ⟨e, a1, a2, a3, a4⟩ := ih (by omega)
      obtain ⟨b1, b2, b3, b4⟩ := hr k (by omega)
      have hstep := for_range_succ (mean_body mset) k (0, 0)
      rw [hstep, e, coord_sum_succ (fun p => p.x), coord_sum_succ (fun p => p.y)]
      have hk2 : (k : Int) ≤ 383 := by omega
      refine ⟨?_, ?_, ?_, ?_, ?_⟩
      · simp only [mean_body]
        rw [int_wrap_id _ (by omega) (by omega), int_wrap_id _ (by omega) (by omega)]
      · push_cast; omega
      · push_cast; omega
      · push_cast; omega
      · push_cast; omega
  exact key n (le_refl n)

theorem mset_mean_eq (mset : dpfp_mset) (h : mset_within (2 ^ 22) mset) :
    mset_mean mset = (mean_x mset, mean_y mset) ∧
    -2 ^ 22 ≤ mean_x mset ∧ mean_x mset ≤ 2 ^ 22 ∧
    -2 ^ 22 ≤ mean_y mset ∧ mean_y mset ≤ 2 ^ 22 := by
  obtain ⟨h0, h1, hr⟩ := h
  obtain ⟨e, a1, a2, a3, a4⟩ := mean_loop mset mset.count h1 hr
  have hn : (0 : Int) < (mset.count : Int) := by omega
  have bx := tdiv_bound _ (mset.count : Int) (2 ^ 22) hn a1 a2
  have by1 := tdiv_bound _ (mset.count : Int) (2 ^ 22) hn a3 a4
  refine ⟨?_, bx.1, bx.2, by1.1, by1.2⟩
  simp only [mset_mean, e, mean_x, mean_y, coord_sum]

/-- The loop that moves the first set: after `n` rounds the first `n` points
are moved, the others and the count are as before. -/
theorem translate_loop (mean1 mean2 : Int × Int) (mset : dpfp_mset) (n : Nat) :
    for_range 0 n (translate_body mean1 mean2) mset =
      { mset with
        minutiae := fun k =>
          if k < n then
            { x := int_wrap ((mset.minutiae k).x - int_wrap (mean1.1 - mean2.1)),
              y := int_wrap ((mset.minutiae k).y - int_wrap (mean1.2 - mean2.2)) }
          else mset.minutiae k } := by
  induction n with
  | zero => simp [for_range, for_loop]
  | succ n ih =>
    rw [for_range_succ, ih]
    simp only [translate_body, lt_irrefl, if_false]
    congr 1
    funext k
    by_cases h1 : k = n
    · subst h1
      simp
    · by_cases h2 : k < n
      · have h3 : k < n + 1 := by omega
        simp [h1, h2, h3]
      · have h3 : ¬ k < n + 1 := by omega
        simp [h1, h2, h3]

theorem match1_eq (env : float_env) (mset1 mset2 : dpfp_mset) (n1 : mset1.count ≠ 0)
    (n2 : mset2.count ≠ 0) :
    dpfp_fprint_mset_match1 env mset1 mset2 =
      some { score := match_score env (match_moved mset1 mset2) mset2,
             mset1 := match_moved mset1 mset2, mset2 := mset2 } := by
  rw [dpfp_fprint_mset_match1, if_neg n1, if_neg n2]
  rfl

/-- The moved first set, when no `int` operation overflows. -/
theorem match_moved_spec (mset1 mset2 : dpfp_mset)
    (h1 : mset_within (2 ^ 22) mset1) (h2 : mset_within (2 ^ 22) mset2) :
    (match_moved mset1 mset2).count = mset1.count ∧
    (∀ i, i < mset1.count →
      (match_moved mset1 mset2).minutiae i =
        { x := (mset1.minutiae i).x - (mean_x mset1 - mean_x mset2),
          y := (mset1.minutiae i).y - (mean_y mset1 - mean_y mset2) }) ∧
    (∀ i, mset1.count ≤ i → (match_moved mset1 mset2).minutiae i = mset1.minutiae i) := by
  obtain ⟨e1, a1, a2, a3, a4⟩ := mset_mean_eq mset1 h1
  obtain ⟨e2, b1, b2, b3, b4⟩ := mset_mean_eq mset2 h2
  rw [match_moved, translate_loop]
  refine ⟨rfl, ?_, ?_⟩
  · intro i hi
    obtain ⟨c1, c2, c3, c4⟩ := h1.2.2 i hi
    rw [e1, e2]
    simp only [hi, if_true]
    rw [int_wrap_id (mean_x mset1 - mean_x mset2) (by omega) (by omega),
      int_wrap_id (mean_y mset1 - mean_y mset2) (by omega) (by omega),
      int_wrap_id _ (by omega) (by omega), int_wrap_id _ (by omega) (by omega)]
  · intro i hi
    have h3 : ¬ i < mset1.count := by omega
    simp only [h3, if_false]

/-- C29: for two non-empty sets that fit their arrays and whose coordinates
have absolute value at most `2^22` (so that no `int` operation overflows),
`dpfp_fprint_mset_match1` returns and changes the first set only: afterwards
every point `i < count1` of the first set is its old value minus
`(mean1 - mean2)`, where the means are the coordinate means of the two sets
truncated towards zero; the points from `count1` on, the count of the first
set and the whole second set are as before. -/
theorem match_translates (env : float_env) (mset1 mset2 : dpfp_mset)
    (h1 : mset_within (2 ^ 22) mset1) (h2 : mset_within (2 ^ 22) mset2) :
    ∃ r, dpfp_fprint_mset_match1 env mset1 mset2 = some r ∧
      r.mset2 = mset2 ∧ r.mset1.count = mset1.count ∧
      (∀ i, i < mset1.count →
        r.mset1.minutiae i =
          { x := (mset1.minutiae i).x - (mean_x mset1 - mean_x mset2),
            y := (mset1.minutiae i).y - (mean_y mset1 - mean_y mset2) }) ∧
      (∀ i, mset1.count ≤ i → r.mset1.minutiae i = mset1.minutiae i) := by
  have n1 : mset1.count ≠ 0 := by have := h1.1; omega
  have n2 : mset2.count ≠ 0 := by have := h2.1; omega
  obtain ⟨a, b, c⟩ := match_moved_spec mset1 mset2 h1 h2
  exact ⟨_, match1_eq env mset1 mset2 n1 n2, rfl, a, b, c⟩

/-- Instance of C29: matching `mset_near` against the one-point set (7, 4)
moves its points (0, 0) and (10, 0) by the difference (5, 0) - (7, 4) of the
means. -/
theorem match_translates_witness :
    ∃ r, dpfp_fprint_mset_match1 env_exact mset_near (mset_of [{ x := 7, y := 4 }]) = some r ∧
      r.mset2 = mset_of [{ x := 7, y := 4 }] ∧ r.mset1.count = mset_near.count ∧
      (∀ i, i < mset_near.count →
        r.mset1.minutiae i =
          { x := (mset_near.minutiae i).x
                  - (mean_x mset_near - mean_x (mset_of [{ x := 7, y := 4 }])),
            y := (mset_near.minutiae i).y
                  - (mean_y mset_near - mean_y (mset_of [{ x := 7, y := 4 }])) }) ∧
      (∀ i, mset_near.count ≤ i → r.mset1.minutiae i = mset_near.minutiae i) :=
  match_translates env_exact mset_near (mset_of [{ x := 7, y := 4 }])
    ⟨by decide, by decide, by decide⟩ ⟨by decide, by decide, by decide⟩

/-! ### Matching: which points are compared -/

theorem for_range_zero {σ : Type} (body : Nat → σ → σ) (s : σ) : for_range 0 0 body s = s := rfl

/-- The inner loop of the source: whatever the number `n + 1` of rounds, the
result is the value for point `i` of `own` against point `i` of `other`, or 0
when that value is not positive. -/
theorem match_inner_loop (env : float_env) (pw : Int → ℚ) (own other : dpfp_mset) (i n : Nat) :
    for_range 0 (n + 1) (match_inner env pw own other i) 0 =
      if match_new_value env pw (match_dist2 (own.minutiae i) (other.minutiae i)) > 0 then
        match_new_value env pw (match_dist2 (own.minutiae i) (other.minutiae i))
      else 0 := by
  induction n with
  | zero => rw [for_range_succ, for_range_zero, match_inner]
  | succ n ih =>
    rw [for_range_succ, ih, match_inner]
    generalize match_new_value env pw (match_dist2 (own.minutiae i) (other.minutiae i)) = v
    by_cases h : v > 0
    · simp [h]
    · simp [h]

theorem match_sum_two (env : float_env) (pw : Int → ℚ) (own other : dpfp_mset)
    (h1 : own.count = 2) (h2 : other.count = 2) :
    match_sum env pw own other =
      env.rnd32 (env.rnd32 (0 + for_range 0 2 (match_inner env pw own other 0) 0)
        + for_range 0 2 (match_inner env pw own other 1) 0) := by
  rw [match_sum, h1, h2, for_range_succ, for_range_succ, for_range_zero]

theorem match_sum_spec_two (env : float_env) (pw : Int → ℚ) (own other : dpfp_mset)
    (h1 : own.count = 2) (h2 : other.count = 2) :
    match_sum_spec env pw own other =
      env.rnd32 (env.rnd32 (0 + match_inner_spec env pw own other 0 1
          (match_inner_spec env pw own other 0 0 0))
        + match_inner_spec env pw own other 1 1 (match_inner_spec env pw own other 1 0 0)) := by
  rw [match_sum_spec, h1, h2, for_range_succ, for_range_succ, for_range_zero, for_range_succ,
    for_range_succ, for_range_zero, for_range_succ, for_range_succ, for_range_zero]

theorem near_dist2 :
    match_dist2 (mset_near.minutiae 0) (mset_near_swapped.minutiae 0) = 100 ∧
    match_dist2 (mset_near.minutiae 1) (mset_near_swapped.minutiae 1) = 100 ∧
    match_dist2 (mset_near.minutiae 0) (mset_near_swapped.minutiae 1) = 0 ∧
    match_dist2 (mset_near.minutiae 1) (mset_near_swapped.minutiae 0) = 0 ∧
    floor_root 5 100 = 2 ∧ floor_root 5 0 = 0 := by
  decide

theorem env_exact_value (d : Int) :
    match_new_value env_exact env_exact.pow02 d = 1 / ((floor_root 5 d.toNat : ℚ) + 1) := rfl

theorem near_means :
    mset_mean mset_near = (5, 0) ∧ mset_mean mset_near_swapped = (5, 0) ∧
    floor_root 10 (100 ^ 3) = 3 := by
  decide

theorem near_moved :
    for_range 0 mset_near.count
      (translate_body (mset_mean mset_near) (mset_mean mset_near_swapped)) mset_near
      = mset_near := by
  rw [translate_loop, near_means.1, near_means.2.1]
  show ({ minutiae := _, count := _ } : dpfp_mset) = mset_of _
  simp only [mset_of]
  congr 1
  funext k
  by_cases h0 : k = 0
  · subst h0
    decide
  · by_cases h1 : k = 1
    · subst h1
      decide
    · have h2 : ¬ k < mset_near.count := by
        show ¬ k < 2
        omega
      simp only [h2, if_false]
      rfl

theorem env_exact_value3 (d : Int) :
    match_new_value env_exact env_exact.pow03 d
      = 1 / ((floor_root 10 (d.toNat ^ 3) : ℚ) + 1) := rfl

/-- C27 (refuted for the code): the inner loops read `minutiae[i]` of the other
set where `minutiae[j]` is meant, so whatever the number of rounds each point
is scored against the point with the same index only (first part, for every
arithmetic).  For the sets (0,0), (10,0) and (10,0), (0,0), in exact arithmetic
with `pow` rounded down, the A-to-B sum of the source is 1/3 + 1/3 (both points
scored at squared distance 100), whereas scoring each point against its nearest
point, at distance 0, gives 1 + 1. -/
theorem match_compares_same_index :
    (∀ (env : float_env) (pw : Int → ℚ) (own other : dpfp_mset) (i n : Nat),
      for_range 0 (n + 1) (match_inner env pw own other i) 0 =
        if match_new_value env pw (match_dist2 (own.minutiae i) (other.minutiae i)) > 0 then
          match_new_value env pw (match_dist2 (own.minutiae i) (other.minutiae i))
        else 0) ∧
    match_sum env_exact env_exact.pow02 mset_near mset_near_swapped = 1 / 3 + 1 / 3 ∧
    match_sum_spec env_exact env_exact.pow02 mset_near mset_near_swapped = 1 + 1 ∧
    (dpfp_fprint_mset_match1 env_exact mset_near mset_near_swapped).map (fun r => r.score)
      = some ((1 / 3 + 1 / 4) * 50) := by
  obtain ⟨d1, d2, d3, d4, r1, r2⟩ := near_dist2
  have v100 : match_new_value env_exact env_exact.pow02 100 = 1 / 3 := by
    rw [env_exact_value]
    have : (100 : Int).toNat = 100 := rfl
    rw [this, r1]
    norm_num
  have v0 : match_new_value env_exact env_exact.pow02 0 = 1 := by
    rw [env_exact_value]
    have : (0 : Int).toNat = 0 := rfl
    rw [this, r2]
    norm_num
  have hid : ∀ q : ℚ, env_exact.rnd32 q = q := fun _ => rfl
  have s1 : match_sum env_exact env_exact.pow02 mset_near mset_near_swapped = 1 / 3 + 1 / 3 := by
    rw [match_sum_two _ _ _ _ rfl rfl, match_inner_loop, match_inner_loop, d1, d2, v100]
    simp only [hid]
    norm_num
  have d5 : match_dist2 (mset_near_swapped.minutiae 0) (mset_near.minutiae 0) = 100 ∧
      match_dist2 (mset_near_swapped.minutiae 1) (mset_near.minutiae 1) = 100 := by
    decide
  have w100 : match_new_value env_exact env_exact.pow03 100 = 1 / 4 := by
    rw [env_exact_value3]
    have : (100 : Int).toNat = 100 := rfl
    rw [this, near_means.2.2]
    norm_num
  have s2 : match_sum env_exact env_exact.pow03 mset_near_swapped mset_near = 1 / 4 + 1 / 4 := by
    rw [match_sum_two _ _ _ _ rfl rfl, match_inner_loop, match_inner_loop, d5.1, d5.2, w100]
    simp only [hid]
    norm_num
  refine ⟨match_inner_loop, s1, ?_, ?_⟩
  · rw [match_sum_spec_two _ _ _ _ rfl rfl]
    simp only [match_inner_spec, d1, d2, d3, d4, v100, v0, hid]
    norm_num
  · have n1 : mset_near.count ≠ 0 := by decide
    have n2 : mset_near_swapped.count ≠ 0 := by decide
    rw [match1_eq _ _ _ n1 n2]
    simp only [match_score, match_moved, near_moved, s1, s2, hid, Option.map_some']
    have c1 : ((mset_near.count : Nat) : ℚ) = 2 := by
      show ((2 : Nat) : ℚ) = 2
      norm_num
    have c2 : ((mset_near_swapped.count : Nat) : ℚ) = 2 := by
      show ((2 : Nat) : ℚ) = 2
      norm_num
    rw [c1, c2]
    norm_num

/-! ### Matching: the score of a set against itself -/

theorem rnd32_nat (env : float_env) (hok : float_env_ok env) (n : Nat) (hn : n ≤ 384) :
    env.rnd32 (n : ℚ) = (n : ℚ) := hok.2.2.1 n hn

theorem rnd32_zero (env : float_env) (hok : float_env_ok env) : env.rnd32 0 = 0 := by
  have h := rnd32_nat env hok 0 (by omega)
  simpa using h

theorem rnd32_one (env : float_env) (hok : float_env_ok env) : env.rnd32 1 = 1 := by
  have h := rnd32_nat env hok 1 (by omega)
  simpa using h

theorem new_value_zero (env : float_env) (hok : float_env_ok env) (pw : Int → ℚ)
    (h0 : pw 0 = 0) : match_new_value env pw 0 = 1 := by
  simp only [match_new_value, h0, zero_add, hok.2.2.2.1, rnd32_one env hok, div_one]

theorem new_value_bounds (env : float_env) (hok : float_env_ok env) (pw : Int → ℚ)
    (d : Int) (hp : 0 ≤ pw d) :
    0 ≤ match_new_value env pw d ∧ match_new_value env pw d ≤ 1 := by
  have h1 : (1 : ℚ) ≤ env.rnd64 (pw d + 1) := by
    have h := hok.2.1 1 (pw d + 1) (by linarith)
    rwa [hok.2.2.2.1] at h
  have h2 : (1 : ℚ) ≤ env.rnd32 (env.rnd64 (pw d + 1)) := by
    have h := hok.1 1 _ h1
    rwa [rnd32_one env hok] at h
  have h3 : (0 : ℚ) ≤ 1 / env.rnd32 (env.rnd64 (pw d + 1)) := by positivity
  have h4 : 1 / env.rnd32 (env.rnd64 (pw d + 1)) ≤ 1 := by
    rw [div_le_one (by linarith)]
    exact h2
  constructor
  · have h := hok.1 0 _ h3
    rwa [rnd32_zero env hok] at h
  · have h := hok.1 _ 1 h4
    rwa [rnd32_one env hok] at h

/-- A sum of `n ≤ 384` terms between 0 and 1, rounded after each addition, lies
between 0 and `n`. -/
theorem rnd_sum_bound (env : float_env) (hok : float_env_ok env) (t : Nat → ℚ) (n : Nat)
    (hn : n ≤ 384) (ht : ∀ i, i < n → 0 ≤ t i ∧ t i ≤ 1) :
    0 ≤ for_range 0 n (fun i v => env.rnd32 (v + t i)) 0 ∧
    for_range 0 n (fun i v => env.rnd32 (v + t i)) 0 ≤ (n : ℚ) := by
  induction n with
  | zero => simp [for_range_zero]
  | succ n ih =>
    obtain ⟨a1, a2⟩ := ih (by omega) (fun i hi => ht i (by omega))
    obtain ⟨b1, b2⟩ := ht n (by omega)
    rw [for_range_succ]
    constructor
    · have h := hok.1 0 (for_range 0 n (fun i v => env.rnd32 (v + t i)) 0 + t n)
        (by linarith)
      rwa [rnd32_zero env hok] at h
    · have h := hok.1 (for_range 0 n (fun i v => env.rnd32 (v + t i)) 0 + t n)
        ((n + 1 : Nat) : ℚ) (by push_cast; linarith)
      rwa [rnd32_nat env hok (n + 1) hn] at h

/-- A sum of `n ≤ 384` ones, rounded after each addition, is `n`. -/
theorem rnd_sum_ones (env : float_env) (hok : float_env_ok env) (t : Nat → ℚ) (n : Nat)
    (hn : n ≤ 384) (ht : ∀ i, i < n → t i = 1) :
    for_range 0 n (fun i v => env.rnd32 (v + t i)) 0 = (n : ℚ) := by
  induction n with
  | zero => simp [for_range_zero]
  | succ n ih =>
    rw [for_range_succ, ih (by omega) (fun i hi => ht i (by omega)), ht n (by omega)]
    have h := rnd32_nat env hok (n + 1) hn
    push_cast at h ⊢
    exact h

theorem match_dist2_self (p : dpfp_minutia) : match_dist2 p p = 0 := by
  simp only [match_dist2, sub_self]
  decide

theorem match_dist2_nonneg (p q : dpfp_minutia)
    (hx1 : -16384 ≤ q.x - p.x) (hx2 : q.x - p.x ≤ 16384)
    (hy1 : -16384 ≤ q.y - p.y) (hy2 : q.y - p.y ≤ 16384) :
    0 ≤ match_dist2 p q := by
  have ex : int_wrap (q.x - p.x) = q.x - p.x := int_wrap_id _ (by omega) (by omega)
  have ey : int_wrap (q.y - p.y) = q.y - p.y := int_wrap_id _ (by omega) (by omega)
  have sx0 : 0 ≤ (q.x - p.x) * (q.x - p.x) := mul_self_nonneg _
  have sy0 : 0 ≤ (q.y - p.y) * (q.y - p.y) := mul_self_nonneg _
  have sx1 : (q.x - p.x) * (q.x - p.x) ≤ 268435456 := by nlinarith
  have sy1 : (q.y - p.y) * (q.y - p.y) ≤ 268435456 := by nlinarith
  simp only [match_dist2, ex, ey]
  rw [int_wrap_id ((q.x - p.x) * (q.x - p.x)) (by omega) (by omega),
    int_wrap_id ((q.y - p.y) * (q.y - p.y)) (by omega) (by omega),
    int_wrap_id _ (by omega) (by omega)]
  omega

theorem match_sum_self (env : float_env) (hok : float_env_ok env) (pw : Int → ℚ)
    (h0 : pw 0 = 0) (own other : dpfp_mset) (hc : own.count ≤ 384) (ho : 0 < other.count)
    (heq : ∀ i, i < own.count → own.minutiae i = other.minutiae i) :
    match_sum env pw own other = (own.count : ℚ) := by
  obtain ⟨m, hm⟩ : ∃ m, other.count = m + 1 := ⟨other.count - 1, by omega⟩
  rw [match_sum]
  apply rnd_sum_ones env hok _ _ hc
  intro i hi
  rw [hm, match_inner_loop, heq i hi, match_dist2_self, new_value_zero env hok pw h0]
  norm_num

theorem match_sum_le (env : float_env) (hok : float_env_ok env) (pw : Int → ℚ)
    (hpw : ∀ d : Int, 0 ≤ d → 0 ≤ pw d) (own other : dpfp_mset) (hc : own.count ≤ 384)
    (ho : 0 < other.count)
    (hd : ∀ i, i < own.count → 0 ≤ match_dist2 (own.minutiae i) (other.minutiae i)) :
    0 ≤ match_sum env pw own other ∧ match_sum env pw own other ≤ (own.count : ℚ) := by
  obtain ⟨m, hm⟩ : ∃ m, other.count = m + 1 := ⟨other.count - 1, by omega⟩
  rw [match_sum]
  apply rnd_sum_bound env hok _ _ hc
  intro i hi
  rw [hm, match_inner_loop]
  obtain ⟨b1, b2⟩ := new_value_bounds env hok pw _ (hpw _ (hd i hi))
  split_ifs
  · exact ⟨b1, b2⟩
  · exact ⟨le_refl 0, by norm_num⟩

/-- The last lines of the routine: two averages, their sum, times 50. -/
theorem match_score_le (env : float_env) (hok : float_env_ok env) (v1 v2 : ℚ) (n1 n2 : Nat)
    (h1 : 0 < n1) (h1' : n1 ≤ 384) (h2 : 0 < n2) (h2' : n2 ≤ 384)
    (a2 : v1 ≤ (n1 : ℚ)) (b2 : v2 ≤ (n2 : ℚ)) :
    env.rnd32 (env.rnd32 (env.rnd32 (v1 / env.rnd32 (n1 : ℚ))
      + env.rnd32 (v2 / env.rnd32 (n2 : ℚ))) * 50) ≤ 100 := by
  have p1 : (0 : ℚ) < (n1 : ℚ) := by exact_mod_cast h1
  have p2 : (0 : ℚ) < (n2 : ℚ) := by exact_mod_cast h2
  have q1 : env.rnd32 (v1 / env.rnd32 (n1 : ℚ)) ≤ 1 := by
    rw [rnd32_nat env hok n1 h1']
    have h := hok.1 (v1 / (n1 : ℚ)) 1 (by rw [div_le_one p1]; exact a2)
    rwa [rnd32_one env hok] at h
  have q2 : env.rnd32 (v2 / env.rnd32 (n2 : ℚ)) ≤ 1 := by
    rw [rnd32_nat env hok n2 h2']
    have h := hok.1 (v2 / (n2 : ℚ)) 1 (by rw [div_le_one p2]; exact b2)
    rwa [rnd32_one env hok] at h
  have r2 : env.rnd32 ((2 : Nat) : ℚ) = ((2 : Nat) : ℚ) := rnd32_nat env hok 2 (by omega)
  have r100 : env.rnd32 ((100 : Nat) : ℚ) = ((100 : Nat) : ℚ) := rnd32_nat env hok 100 (by omega)
  push_cast at r2 r100
  have q3 : env.rnd32 (env.rnd32 (v1 / env.rnd32 (n1 : ℚ))
      + env.rnd32 (v2 / env.rnd32 (n2 : ℚ))) ≤ 2 := by
    have h := hok.1 (env.rnd32 (v1 / env.rnd32 (n1 : ℚ))
      + env.rnd32 (v2 / env.rnd32 (n2 : ℚ))) 2 (by linarith)
    rwa [r2] at h
  have h := hok.1 (env.rnd32 (env.rnd32 (v1 / env.rnd32 (n1 : ℚ))
      + env.rnd32 (v2 / env.rnd32 (n2 : ℚ))) * 50) 100 (by linarith)
  rwa [r100] at h

theorem match_score_full (env : float_env) (hok : float_env_ok env) (n1 n2 : Nat)
    (h1 : 0 < n1) (h1' : n1 ≤ 384) (h2 : 0 < n2) (h2' : n2 ≤ 384) :
    env.rnd32 (env.rnd32 (env.rnd32 ((n1 : ℚ) / env.rnd32 (n1 : ℚ))
      + env.rnd32 ((n2 : ℚ) / env.rnd32 (n2 : ℚ))) * 50) = 100 := by
  have p1 : (n1 : ℚ) ≠ 0 := by
    have : (0 : ℚ) < (n1 : ℚ) := by exact_mod_cast h1
    exact ne_of_gt this
  have p2 : (n2 : ℚ) ≠ 0 := by
    have : (0 : ℚ) < (n2 : ℚ) := by exact_mod_cast h2
    exact ne_of_gt this
  have r2 : env.rnd32 ((2 : Nat) : ℚ) = ((2 : Nat) : ℚ) := rnd32_nat env hok 2 (by omega)
  have r100 : env.rnd32 ((100 : Nat) : ℚ) = ((100 : Nat) : ℚ) := rnd32_nat env hok 100 (by omega)
  push_cast at r2 r100
  rw [rnd32_nat env hok n1 h1', rnd32_nat env hok n2 h2', div_self p1, div_self p2,
    rnd32_one env hok]
  have e2 : (1 : ℚ) + 1 = 2 := by norm_num
  have e100 : (2 : ℚ) * 50 = 100 := by norm_num
  rw [e2, r2, e100, r100]

theorem coord_sum_bound (f : dpfp_minutia → Int) (m : Nat → dpfp_minutia) (b : Int) (k : Nat)
    (h : ∀ i, i < k → -b ≤ f (m i) ∧ f (m i) ≤ b) :
    -((k : Int) * b) ≤ ((List.range k).map (fun i => f (m i))).sum ∧
    ((List.range k).map (fun i => f (m i))).sum ≤ (k : Int) * b := by
  induction k with
  | zero => simp
  | succ k ih =>
    obtain ⟨a1, a2⟩ := ih (fun i hi => h i (by omega))
    obtain ⟨b1, b2⟩ := h k (by omega)
    rw [coord_sum_succ]
    have e : ((k + 1 : Nat) : Int) * b = (k : Int) * b + b := by
      push_cast
      ring
    rw [e]
    constructor <;> linarith

theorem mean_bound (mset : dpfp_mset) (b : Int) (h : mset_within b mset) :
    -b ≤ mean_x mset ∧ mean_x mset ≤ b ∧ -b ≤ mean_y mset ∧ mean_y mset ≤ b := by
  obtain ⟨h0, _, hr⟩ := h
  have hn : (0 : Int) < (mset.count : Int) := by omega
  obtain ⟨a1, a2⟩ := coord_sum_bound (fun p => p.x) mset.minutiae b mset.count
    (fun i hi => ⟨(hr i hi).1, (hr i hi).2.1⟩)
  obtain ⟨a3, a4⟩ := coord_sum_bound (fun p => p.y) mset.minutiae b mset.count
    (fun i hi => ⟨(hr i hi).2.2.1, (hr i hi).2.2.2⟩)
  have bx := tdiv_bound _ (mset.count : Int) b hn a1 a2
  have by1 := tdiv_bound _ (mset.count : Int) b hn a3 a4
  exact ⟨bx.1, bx.2, by1.1, by1.2⟩

theorem mset_within_mono (b c : Int) (hbc : b ≤ c) (mset : dpfp_mset)
    (h : mset_within b mset) : mset_within c mset := by
  obtain ⟨h0, h1, hr⟩ := h
  refine ⟨h0, h1, fun i hi => ?_⟩
  obtain ⟨a1, a2, a3, a4⟩ := hr i hi
  exact ⟨by omega, by omega, by omega, by omega⟩

/-- The score of any two sets whose points, as far as they are read, have
coordinates of absolute value at most 4096 is at most 100. -/
theorem match_le_hundred (env : float_env) (hok : float_env_ok env) (mset1 mset2 : dpfp_mset)
    (h1 : mset_within 4096 mset1) (h2 : mset_within 4096 mset2)
    (e1 : entries_within 4096 mset1 (max mset1.count mset2.count))
    (e2 : entries_within 4096 mset2 (max mset1.count mset2.count)) :
    ∃ r, dpfp_fprint_mset_match1 env mset1 mset2 = some r ∧ r.score ≤ 100 := by
  have n1 : mset1.count ≠ 0 := by have := h1.1; omega
  have n2 : mset2.count ≠ 0 := by have := h2.1; omega
  obtain ⟨hc, hlt, hge⟩ := match_moved_spec mset1 mset2
    (mset_within_mono _ _ (by norm_num) _ h1) (mset_within_mono _ _ (by norm_num) _ h2)
  obtain ⟨a1, a2, a3, a4⟩ := mean_bound mset1 4096 h1
  obtain ⟨b1, b2, b3, b4⟩ := mean_bound mset2 4096 h2
  refine ⟨_, match1_eq env mset1 mset2 n1 n2, ?_⟩
  have hmoved : ∀ i, i < max mset1.count mset2.count →
      -12288 ≤ ((match_moved mset1 mset2).minutiae i).x ∧
      ((match_moved mset1 mset2).minutiae i).x ≤ 12288 ∧
      -12288 ≤ ((match_moved mset1 mset2).minutiae i).y ∧
      ((match_moved mset1 mset2).minutiae i).y ≤ 12288 := by
    intro i hi
    obtain ⟨c1, c2, c3, c4⟩ := e1 i hi
    by_cases hlt1 : i < mset1.count
    · rw [hlt i hlt1]
      exact ⟨by simp only; omega, by simp only; omega, by simp only; omega, by simp only; omega⟩
    · rw [hge i (by omega)]
      exact ⟨by omega, by omega, by omega, by omega⟩
  show match_score env (match_moved mset1 mset2) mset2 ≤ 100
  rw [match_score]
  apply match_score_le env hok _ _ _ _ (by rw [hc]; exact h1.1) (by rw [hc]; exact h1.2.1)
    h2.1 h2.2.1
  · refine (match_sum_le env hok env.pow02 hok.2.2.2.2.2.2.1 _ _ (by rw [hc]; exact h1.2.1)
      h2.1 ?_).2
    intro i hi
    rw [hc] at hi
    have hi' : i < max mset1.count mset2.count := lt_of_lt_of_le hi (le_max_left _ _)
    obtain ⟨d1, d2, d3, d4⟩ := e2 i hi'
    obtain ⟨x1, x2, y1, y2⟩ := hmoved i hi'
    exact match_dist2_nonneg _ _ (by omega) (by omega) (by omega) (by omega)
  · refine (match_sum_le env hok env.pow03 hok.2.2.2.2.2.2.2 _ _ h2.2.1
      (by rw [hc]; exact h1.1) ?_).2
    intro i hi
    have hi' : i < max mset1.count mset2.count := lt_of_lt_of_le hi (le_max_right _ _)
    obtain ⟨d1, d2, d3, d4⟩ := e2 i hi'
    obtain ⟨x1, x2, y1, y2⟩ := hmoved i hi'
    exact match_dist2_nonneg _ _ (by omega) (by omega) (by omega) (by omega)

theorem match_self_hundred (env : float_env) (hok : float_env_ok env) (s : dpfp_mset)
    (hs : mset_within 4000 s) :
    ∃ r, dpfp_fprint_mset_match1 env s s = some r ∧ r.score = 100 := by
  have n1 : s.count ≠ 0 := by have := hs.1; omega
  have hw := mset_within_mono 4000 (2 ^ 22) (by norm_num) s hs
  obtain ⟨hc, hlt, _⟩ := match_moved_spec s s hw hw
  have heq : ∀ i, i < s.count → (match_moved s s).minutiae i = s.minutiae i := by
    intro i hi
    rw [hlt i hi]
    simp only [sub_self, sub_zero]
  refine ⟨_, match1_eq env s s n1 n1, ?_⟩
  show match_score env (match_moved s s) s = 100
  rw [match_score,
    match_sum_self env hok env.pow02 hok.2.2.2.2.1 _ _ (by rw [hc]; exact hs.2.1) hs.1
      (fun i hi => heq i (by rw [hc] at hi; exact hi)),
    match_sum_self env hok env.pow03 hok.2.2.2.2.2.1 _ _ hs.2.1 (by rw [hc]; exact hs.1)
      (fun i hi => (heq i hi).symm),
    match_score_full env hok _ _ (by rw [hc]; exact hs.1) (by rw [hc]; exact hs.2.1) hs.1 hs.2.1]

/-- C28: let the arithmetic be as IEEE 754 and the C standard guarantee
(`float_env_ok`), and let `S` be a non-empty set that fits its array, with
coordinates of absolute value at most 4000.  Matching `S` against a copy of
itself returns 100; matching it against the copy moved by (50, 50) returns at
most that; and 100 is the greatest score of any two sets whose points, as far as
the routine reads them, have coordinates of absolute value at most 4096. -/
theorem match_self_is_max (env : float_env) (hok : float_env_ok env) (s : dpfp_mset)
    (hs : mset_within 4000 s) :
    (∃ r r', dpfp_fprint_mset_match1 env s s = some r ∧
      dpfp_fprint_mset_match1 env s (mset_shift 50 50 s) = some r' ∧
      r.score = 100 ∧ r'.score ≤ r.score) ∧
    (∀ mset1 mset2 : dpfp_mset, mset_within 4096 mset1 → mset_within 4096 mset2 →
      entries_within 4096 mset1 (max mset1.count mset2.count) →
      entries_within 4096 mset2 (max mset1.count mset2.count) →
      ∃ r, dpfp_fprint_mset_match1 env mset1 mset2 = some r ∧ r.score ≤ 100) := by
  refine ⟨?_, fun m1 m2 => match_le_hundred env hok m1 m2⟩
  obtain ⟨r, hr, hr100⟩ := match_self_hundred env hok s hs
  suffices h : ∃ r', dpfp_fprint_mset_match1 env s (mset_shift 50 50 s) = some r' ∧
      r'.score ≤ 100 by
    obtain ⟨r', hr', hle⟩ := h
    exact ⟨r, r', hr, hr', hr100, by rw [hr100]; exact hle⟩
  have hshift : mset_within 4096 (mset_shift 50 50 s) := by
    refine ⟨hs.1, hs.2.1, fun i hi => ?_⟩
    obtain ⟨a1, a2, a3, a4⟩ := hs.2.2 i hi
    simp only [mset_shift]
    exact ⟨by omega, by omega, by omega, by omega⟩
  have hmax : max s.count (mset_shift 50 50 s).count = s.count := max_self _
  apply match_le_hundred env hok s _ (mset_within_mono _ _ (by norm_num) _ hs) hshift
  · rw [hmax]
    exact (mset_within_mono _ _ (by norm_num) _ hs).2.2
  · rw [hmax]
    exact hshift.2.2

theorem env_exact_ok : float_env_ok env_exact := by
  refine ⟨fun a b h => h, fun a b h => h, fun n _ => rfl, rfl, ?_, ?_, ?_, ?_⟩
  · show ((floor_root 5 (0 : Int).toNat : Nat) : ℚ) = 0
    have : floor_root 5 (0 : Int).toNat = 0 := by decide
    rw [this]
    norm_num
  · show ((floor_root 10 ((0 : Int).toNat ^ 3) : Nat) : ℚ) = 0
    have : floor_root 10 ((0 : Int).toNat ^ 3) = 0 := by decide
    rw [this]
    norm_num
  · intro d _
    show (0 : ℚ) ≤ ((floor_root 5 d.toNat : Nat) : ℚ)
    exact Nat.cast_nonneg _
  · intro d _
    show (0 : ℚ) ≤ ((floor_root 10 (d.toNat ^ 3) : Nat) : ℚ)
    exact Nat.cast_nonneg _

/-- Instance of C28 in exact arithmetic at the set of the points (0, 0) and
(10, 0). -/
theorem match_self_is_max_witness :
    float_env_ok env_exact ∧ mset_within 4000 mset_near ∧
    (∃ r r', dpfp_fprint_mset_match1 env_exact mset_near mset_near = some r ∧
      dpfp_fprint_mset_match1 env_exact mset_near (mset_shift 50 50 mset_near) = some r' ∧
      r.score = 100 ∧ r'.score ≤ r.score) :=
  ⟨env_exact_ok, ⟨by decide, by decide, by decide⟩,
   (match_self_is_max env_exact env_exact_ok mset_near ⟨by decide, by decide, by decide⟩).1⟩

/-! ## Opening a device -/

/-- C23: against the mock device (hwstat reads 0x85 three times and 0x01 from
then on, every other control transfer succeeds, one interrupt `56 AA`),
`dpfp_open_usb` returns a device handle for each of the three device types,
after four hwstat reads and one interrupt read.  The control messages it sends
are, as (request type, value): the hwstat read and write of the power reboot
and the hwstat read that ends it, the read of the firmware encryption byte, and
two rounds of hwstat write and read (with the authentication exchange between
them for type 2); none of them is a mode write, a message with value 0x4E. -/
theorem open_no_mode_write :
    (dpfp_open_usb mock_world 0 1 1 mock_start).map
      (fun r => (r.1, r.2.log.map (fun m => (m.requesttype, m.value)), r.2.dev, r.2.irqs.pos))
      = some (true, [(0xc0, 0x07), (0x40, 0x07), (0xc0, 0x07), (0xc0, 0x7f7), (0x40, 0x07),
                     (0xc0, 0x07), (0x40, 0x07), (0xc0, 0x07)], 4, 1) ∧
    (dpfp_open_usb mock_world 1 1 1 mock_start).map
      (fun r => (r.1, r.2.log.map (fun m => (m.requesttype, m.value)), r.2.dev, r.2.irqs.pos))
      = some (true, [(0xc0, 0x07), (0x40, 0x07), (0xc0, 0x07), (0xc0, 0x52b), (0x40, 0x07),
                     (0xc0, 0x07), (0x40, 0x07), (0xc0, 0x07)], 4, 1) ∧
    (dpfp_open_usb mock_world 2 1 1 mock_start).map
      (fun r => (r.1, r.2.log.map (fun m => (m.requesttype, m.value)), r.2.dev, r.2.irqs.pos))
      = some (true, [(0xc0, 0x07), (0x40, 0x07), (0xc0, 0x07), (0xc0, 0x62e), (0x40, 0x07),
                     (0xc0, 0x07), (0xc0, 0x2010), (0x40, 0x2000), (0x40, 0x07),
                     (0xc0, 0x07)], 4, 1) ∧
    (∀ type, type < 3 →
      (dpfp_open_usb mock_world type 1 1 mock_start).map
        (fun r => (r.1, r.2.log.all (fun m => decide (m.value ≠ MODE_CONTROL))))
        = some (true, true)) := by
  refine ⟨by decide, by decide, by decide, by decide⟩

/-! ## The mask -/

theorem uchar_marks :
    ((0 : uchar) ||| 0x80 = 0x80) ∧ ((0xff : uchar) ||| 0x80 = 0xff) ∧
    ((0x80 : uchar) ||| 0x80 = 0x80) ∧ ((0 : uchar) &&& 0x80 = 0) ∧
    ((0xff : uchar) &&& 0x80 = 0x80) ∧ ((0x80 : uchar) &&& 0x80 = 0x80) := by
  decide

theorem dilate_body_eq (y x : Nat) (b : Nat → uchar) :
    dilate_body y x b = mark_body 0xff (fun v => v ||| 0x80) y x b := rfl

theorem erode_body_eq (y x : Nat) (b : Nat → uchar) :
    erode_body y x b = mark_body 0 (fun v => v &&& 0x80) y x b := rfl

/-- The four stores of a marking step, pixel by pixel. -/
theorem mark_body_apply (t : uchar) (op : uchar → uchar) (y x : Nat) (b : Nat → uchar)
    (hx : 1 ≤ x) (hy : 1 ≤ y) (k : Nat) :
    mark_body t op y x b k =
      if b (x + y * 384) = t ∧
          (k = x - 1 + y * 384 ∨ k = x + 1 + y * 384 ∨ k = x + (y - 1) * 384 ∨
            k = x + (y + 1) * 384) then op (b k) else b k := by
  simp only [mark_body]
  by_cases ht : b (x + y * 384) = t
  · simp only [ht, if_true, true_and, store]
    have d12 : x + 1 + y * 384 ≠ x - 1 + y * 384 := by omega
    have d13 : x + (y - 1) * 384 ≠ x - 1 + y * 384 := by omega
    have d14 : x + (y + 1) * 384 ≠ x - 1 + y * 384 := by omega
    have d23 : x + (y - 1) * 384 ≠ x + 1 + y * 384 := by omega
    have d24 : x + (y + 1) * 384 ≠ x + 1 + y * 384 := by omega
    have d34 : x + (y + 1) * 384 ≠ x + (y - 1) * 384 := by omega
    by_cases h4 : k = x + (y + 1) * 384
    · subst h4
      simp only [if_true, d14, d24, d34, if_false, or_true]
    · by_cases h3 : k = x + (y - 1) * 384
      · subst h3
        simp only [h4, if_false, if_true, d13, d23, or_true, true_or]
      · by_cases h2 : k = x + 1 + y * 384
        · subst h2
          simp only [h4, h3, if_false, if_true, d12, or_true, true_or]
        · by_cases h1 : k = x - 1 + y * 384
          · subst h1
            simp only [h4, h3, h2, if_false, if_true, true_or]
          · simp only [h4, h3, h2, h1, if_false, or_self]
  · simp only [ht, if_false, false_and]

/-- One step of a marking loop keeps the invariant. -/
theorem mark_step (t : uchar) (op : uchar → uchar) (img : Nat → uchar)
    (hop1 : ∀ v : uchar, v = 0 ∨ v = 0xff → (op v = t ↔ v = t))
    (hop2 : ∀ v : uchar, op (op v) = op v) (hb : binary_image img)
    (x y : Nat) (hx1 : 1 ≤ x) (hx2 : x ≤ 382) (hy1 : 1 ≤ y) (hy2 : y ≤ 287)
    (b : Nat → uchar) (h : mark_inv t op img x y b) :
    mark_inv t op img (x + 1) y (mark_body t op y x b) := by
  have hc : b (x + y * 384) = t ↔ img (x + y * 384) = t := by
    rcases h (x + y * 384) with ⟨_, e⟩ | ⟨_, e⟩
    · rw [e]
      exact hop1 _ (hb _ (by omega))
    · rw [e]
  have hnew : ∀ k, marked_by t img (x + 1) y k ↔
      (marked_by t img x y k ∨
        (img (x + y * 384) = t ∧
          (k = x - 1 + y * 384 ∨ k = x + 1 + y * 384 ∨ k = x + (y - 1) * 384 ∨
            k = x + (y + 1) * 384))) := by
    intro k
    constructor
    · rintro ⟨cx, cy, a1, a2, a3, a4, a5, a6, a7⟩
      by_cases hxy : cx = x ∧ cy = y
      · obtain ⟨e1, e2⟩ := hxy
        subst e1 e2
        exact Or.inr ⟨a6, a7⟩
      · exact Or.inl ⟨cx, cy, a1, a2, a3, a4, by omega, a6, a7⟩
    · rintro (⟨cx, cy, a1, a2, a3, a4, a5, a6, a7⟩ | ⟨a6, a7⟩)
      · exact ⟨cx, cy, a1, a2, a3, a4, by omega, a6, a7⟩
      · exact ⟨x, y, hx1, hx2, hy1, hy2, Or.inr ⟨rfl, by omega⟩, a6, a7⟩
  intro k
  rw [mark_body_apply t op y x b hx1 hy1 k, hnew k]
  by_cases hn : img (x + y * 384) = t ∧
      (k = x - 1 + y * 384 ∨ k = x + 1 + y * 384 ∨ k = x + (y - 1) * 384 ∨
        k = x + (y + 1) * 384)
  · rw [if_pos ⟨hc.mpr hn.1, hn.2⟩]
    left
    refine ⟨Or.inr hn, ?_⟩
    rcases h k with ⟨_, e⟩ | ⟨_, e⟩
    · rw [e, hop2]
    · rw [e]
  · rw [if_neg (fun hn' => hn ⟨hc.mp hn'.1, hn'.2⟩)]
    rcases h k with ⟨m, e⟩ | ⟨m, e⟩
    · exact Or.inl ⟨Or.inl m, e⟩
    · exact Or.inr ⟨fun hm => hm.elim m hn, e⟩

/-- The marking loop over a whole image: at its end exactly the pixels that
touch an inner pixel equal to `t` have had `op` applied. -/
theorem mark_loop_inv (t : uchar) (op : uchar → uchar) (img : Nat → uchar)
    (hop1 : ∀ v : uchar, v = 0 ∨ v = 0xff → (op v = t ↔ v = t))
    (hop2 : ∀ v : uchar, op (op v) = op v) (hb : binary_image img) :
    mark_inv t op img 1 288
      (for_range 1 288 (fun y b => for_range 1 383 (mark_body t op y) b) img) := by
  have hrow : ∀ y b, 1 ≤ y → y < 1 + 287 → mark_inv t op img 1 y b →
      mark_inv t op img 1 (y + 1) (for_range 1 383 (mark_body t op y) b) := by
    intro y b hy1 hy2 hinv
    have h := for_loop_inv (mark_body t op y) (fun j s => mark_inv t op img j y s) 382 1 b hinv
      (fun j s hj1 hj2 hs => mark_step t op img hop1 hop2 hb j y hj1 (by omega) hy1 (by omega) s hs)
    have h' : mark_inv t op img 383 y (for_range 1 383 (mark_body t op y) b) := h
    intro k
    rcases h' k with ⟨m, e⟩ | ⟨m, e⟩
    · left
      refine ⟨?_, e⟩
      obtain ⟨cx, cy, a1, a2, a3, a4, a5, a6, a7⟩ := m
      exact ⟨cx, cy, a1, a2, a3, a4, by omega, a6, a7⟩
    · right
      refine ⟨?_, e⟩
      rintro ⟨cx, cy, a1, a2, a3, a4, a5, a6, a7⟩
      exact m ⟨cx, cy, a1, a2, a3, a4, by omega, a6, a7⟩
  have h0 : mark_inv t op img 1 1 img := by
    intro k
    right
    refine ⟨?_, rfl⟩
    rintro ⟨cx, cy, a1, a2, a3, a4, a5, _⟩
    omega
  exact for_loop_inv (fun y b => for_range 1 383 (mark_body t op y) b)
    (fun y s => mark_inv t op img 1 y s) 287 1 img h0 hrow

/-- A loop that visits the pixels `0 .. n - 1` once each and replaces those
that satisfy `p` by `v`. -/
theorem replace_loop (p : uchar → Prop) [DecidablePred p] (v : uchar) (n : Nat)
    (b0 : Nat → uchar) :
    for_range 0 n (fun y b => if p (b y) then store b y v else b) b0
      = fun k => if k < n ∧ p (b0 k) then v else b0 k := by
  induction n with
  | zero =>
    funext k
    simp [for_range_zero]
  | succ n ih =>
    rw [for_range_succ, ih]
    funext k
    have hn : ¬ (n < n) := lt_irrefl n
    simp only [hn, false_and, if_false]
    by_cases hp : p (b0 n)
    · simp only [hp, if_true, store]
      by_cases hk : k = n
      · subst hk
        simp [hp]
      · have h1 : k < n + 1 ↔ k < n := by omega
        simp only [hk, if_false, h1]
    · simp only [hp, if_false]
      by_cases hk : k = n
      · subst hk
        simp [hp]
      · have h1 : k < n + 1 ↔ k < n := by omega
        simp only [h1]

theorem marked_lt (t : uchar) (img : Nat → uchar) (x y k : Nat) (h : marked_by t img x y k) :
    k < 110976 := by
  obtain ⟨cx, cy, a1, a2, a3, a4, _, _, a7⟩ := h
  omega

set_option maxRecDepth 100000 in
theorem or_mark_props :
    (∀ v : uchar, v = 0 ∨ v = 0xff → (v ||| 0x80 = 0xff ↔ v = 0xff)) ∧
    (∀ v : uchar, (v ||| 0x80) ||| 0x80 = v ||| 0x80) ∧
    (∀ v : uchar, v = 0 ∨ v = 0xff → (v &&& 0x80 = 0 ↔ v = 0)) ∧
    (∀ v : uchar, (v &&& 0x80) &&& 0x80 = v &&& 0x80) := by
  refine ⟨?_, by decide, ?_, by decide⟩
  · rintro v (h | h) <;> subst h <;> decide
  · rintro v (h | h) <;> subst h <;> decide

/-- Closed form of `image_dilate` on an image of pixels 0 and 0xff: a pixel of
the image becomes 0xff when it is 0xff or touches an inner pixel that is 0xff,
and 0 otherwise; memory past the image is left alone. -/
theorem image_dilate_spec (img : Nat → uchar) (hb : binary_image img) (k : Nat) :
    (k < 110976 → (img k = 0xff ∨ marked_by 0xff img 1 288 k) → image_dilate img k = 0xff) ∧
    (k < 110976 → ¬ (img k = 0xff ∨ marked_by 0xff img 1 288 k) → image_dilate img k = 0) ∧
    (110976 ≤ k → image_dilate img k = img k) := by
  have hm := mark_loop_inv 0xff (fun v => v ||| 0x80) img or_mark_props.1 or_mark_props.2.1 hb
  have e : image_dilate img =
      for_range 0 110976 (fun y b => if b y ≠ 0 then store b y 0xff else b)
        (for_range 1 288 (fun y b => for_range 1 383 (mark_body 0xff (fun v => v ||| 0x80) y) b)
          img) := rfl
  rw [e, replace_loop (fun v => v ≠ 0) 0xff 110976]
  have h80 : (0x80 : uchar) ≠ 0 := by decide
  have hff : (0xff : uchar) ≠ 0 := by decide
  refine ⟨fun hk h => ?_, fun hk h => ?_, fun hk => ?_⟩
  · simp only [hk, true_and]
    rcases hm k with ⟨m, e1⟩ | ⟨m, e1⟩
    · rw [e1]
      rcases hb k hk with h0 | h0
      · simp only [h0, uchar_marks.1, h80, ne_eq, not_false_eq_true, if_true]
      · simp only [h0, uchar_marks.2.1, hff, ne_eq, not_false_eq_true, if_true]
    · rw [e1]
      rcases h with h | h
      · simp only [h, hff, ne_eq, not_false_eq_true, if_true]
      · exact absurd h m
  · simp only [hk, true_and]
    rcases hm k with ⟨m, _⟩ | ⟨_, e1⟩
    · exact absurd (Or.inr m) h
    · rw [e1]
      rcases hb k hk with h0 | h0
      · simp only [h0, ne_eq, not_true_eq_false, if_false]
      · exact absurd (Or.inl h0) h
  · have hk' : ¬ k < 110976 := by omega
    simp only [hk', false_and, if_false]
    rcases hm k with ⟨m, _⟩ | ⟨_, e1⟩
    · exact absurd (marked_lt _ _ _ _ _ m) hk'
    · exact e1

/-- Closed form of `image_erode` on an image of pixels 0 and 0xff: a pixel of
the image stays 0xff when it is 0xff and touches no inner pixel that is 0, and
becomes 0 otherwise; memory past the image is left alone. -/
theorem image_erode_spec (img : Nat → uchar) (hb : binary_image img) (k : Nat) :
    (k < 110976 → (img k = 0xff ∧ ¬ marked_by 0 img 1 288 k) → image_erode img k = 0xff) ∧
    (k < 110976 → ¬ (img k = 0xff ∧ ¬ marked_by 0 img 1 288 k) → image_erode img k = 0) ∧
    (110976 ≤ k → image_erode img k = img k) := by
  have hm := mark_loop_inv 0 (fun v => v &&& 0x80) img or_mark_props.2.2.1 or_mark_props.2.2.2 hb
  have e : image_erode img =
      for_range 0 110976 (fun y b => if b y ≠ 0xff then store b y 0 else b)
        (for_range 1 288 (fun y b => for_range 1 383 (mark_body 0 (fun v => v &&& 0x80) y) b)
          img) := rfl
  rw [e, replace_loop (fun v => v ≠ 0xff) 0 110976]
  have h80 : (0x80 : uchar) ≠ 0xff := by decide
  have h0ff : (0 : uchar) ≠ 0xff := by decide
  refine ⟨fun hk h => ?_, fun hk h => ?_, fun hk => ?_⟩
  · simp only [hk, true_and]
    rcases hm k with ⟨m, _⟩ | ⟨_, e1⟩
    · exact absurd m h.2
    · rw [e1]
      simp only [h.1, ne_eq, not_true_eq_false, if_false]
  · simp only [hk, true_and]
    rcases hm k with ⟨m, e1⟩ | ⟨m, e1⟩
    · rw [e1]
      rcases hb k hk with h0 | h0
      · simp only [h0, uchar_marks.2.2.2.1, h0ff, ne_eq, not_false_eq_true, if_true]
      · simp only [h0, uchar_marks.2.2.2.2.1, h80, ne_eq, not_false_eq_true, if_true]
    · rw [e1]
      rcases hb k hk with h0 | h0
      · simp only [h0, h0ff, ne_eq, not_false_eq_true, if_true]
      · exact absurd ⟨h0, m⟩ h
  · have hk' : ¬ k < 110976 := by omega
    simp only [hk', false_and, if_false]
    rcases hm k with ⟨m, _⟩ | ⟨_, e1⟩
    · exact absurd (marked_lt _ _ _ _ _ m) hk'
    · exact e1

theorem image_dilate_binary (img : Nat → uchar) (hb : binary_image img) :
    binary_image (image_dilate img) := by
  intro k hk
  by_cases h : img k = 0xff ∨ marked_by 0xff img 1 288 k
  · exact Or.inr ((image_dilate_spec img hb k).1 hk h)
  · exact Or.inl ((image_dilate_spec img hb k).2.1 hk h)

theorem image_erode_binary (img : Nat → uchar) (hb : binary_image img) :
    binary_image (image_erode img) := by
  intro k hk
  by_cases h : img k = 0xff ∧ ¬ marked_by 0 img 1 288 k
  · exact Or.inr ((image_erode_spec img hb k).1 hk h)
  · exact Or.inl ((image_erode_spec img hb k).2.1 hk h)

/-- Closed form of the thresholding loop. -/
theorem mask_threshold_spec (freq : Nat → ℚ) (d : Nat → uchar) :
    mask_threshold freq (mask_clear d)
      = fun k => if k < 110976 then thr_pixel freq k else d k := by
  have hrow : ∀ y (s : Nat → uchar), y < 289 →
      s = (fun k => if k < y * 384 then thr_pixel freq k else mask_clear d k) →
      for_range 0 DPFP_IMG_WIDTH
        (fun x out =>
          if freq (x + y * DPFP_IMG_WIDTH) ≥ freqmin ∧ freq (x + y * DPFP_IMG_WIDTH) ≤ freqmax then
            store (store out (x + y * DPFP_IMG_WIDTH) 0) (x + y * DPFP_IMG_WIDTH) 255
          else store out (x + y * DPFP_IMG_WIDTH) 0) s
        = (fun k => if k < (y + 1) * 384 then thr_pixel freq k else mask_clear d k) := by
    intro y s hy hs
    have h := for_range_inv
      (fun x out =>
          if freq (x + y * DPFP_IMG_WIDTH) ≥ freqmin ∧ freq (x + y * DPFP_IMG_WIDTH) ≤ freqmax then
            store (store out (x + y * DPFP_IMG_WIDTH) 0) (x + y * DPFP_IMG_WIDTH) 255
          else store out (x + y * DPFP_IMG_WIDTH) 0)
      (fun x t => t = fun k => if k < y * 384 + x then thr_pixel freq k else mask_clear d k)
      384 s (hs.trans (by funext k; rw [show y * 384 + 0 = y * 384 from Nat.add_zero _]))
      (by
        intro x t hx ht
        subst ht
        funext k
        have hbody : ∀ (c : Prop) [Decidable c] (t : Nat → uchar) (p : Nat),
            (if c then store (store t p 0) p 255 else store t p 0) k
              = if k = p then (if c then (255 : uchar) else 0) else t k := by
          intro c _ t p
          by_cases hc : c
          · simp only [hc, if_true, store]
            by_cases hk : k = p
            · simp only [hk, if_true]
            · simp only [hk, if_false]
          · simp only [hc, if_false, store]
        simp only [DPFP_IMG_WIDTH]
        rw [hbody]
        by_cases hk : k = x + y * 384
        · subst hk
          have h1 : x + y * 384 < y * 384 + (x + 1) := by omega
          simp only [h1, if_true, thr_pixel]
        · by_cases h2 : k < y * 384 + x
          · have h3 : k < y * 384 + (x + 1) := by omega
            simp only [hk, h2, h3, if_true, if_false]
          · have h3 : ¬ k < y * 384 + (x + 1) := by omega
            simp only [hk, h2, h3, if_false])
    rw [h]
    funext k
    have e : y * 384 + 384 = (y + 1) * 384 := by omega
    rw [e]
  have h := for_range_inv
    (fun y out =>
      for_range 0 DPFP_IMG_WIDTH
        (fun x out =>
          if freq (x + y * DPFP_IMG_WIDTH) ≥ freqmin ∧ freq (x + y * DPFP_IMG_WIDTH) ≤ freqmax then
            store (store out (x + y * DPFP_IMG_WIDTH) 0) (x + y * DPFP_IMG_WIDTH) 255
          else store out (x + y * DPFP_IMG_WIDTH) 0)
        out)
    (fun y t => t = fun k => if k < y * 384 then thr_pixel freq k else mask_clear d k)
    289 (mask_clear d)
    (by
      funext k
      simp)
    (fun y t hy ht => hrow y t hy ht)
  have e : mask_threshold freq (mask_clear d) = _ := h
  rw [e]
  funext k
  by_cases hk : k < 110976
  · have h1 : k < 289 * 384 := by omega
    simp only [hk, h1, if_true]
  · have h1 : ¬ k < 289 * 384 := by omega
    simp only [hk, h1, if_false, mask_clear, DPFP_IMG_WIDTH, DPFP_IMG_HEIGHT]

theorem thr_binary (freq : Nat → ℚ) (d : Nat → uchar) :
    binary_image (fun k => if k < 110976 then thr_pixel freq k else d k) := by
  intro k hk
  simp only [hk, if_true, thr_pixel]
  split_ifs
  · right
    rfl
  · left
    rfl

theorem for_range_binary (f : (Nat → uchar) → (Nat → uchar))
    (hf : ∀ b, binary_image b → binary_image (f b)) (n : Nat) (b : Nat → uchar)
    (hb : binary_image b) : binary_image (for_range 0 n (fun _ s => f s) b) := by
  induction n with
  | zero => exact hb
  | succ n ih =>
    rw [for_range_succ]
    exact hf _ ih

theorem for_range_fixed (f : (Nat → uchar) → (Nat → uchar)) (b : Nat → uchar) (hf : f b = b)
    (n : Nat) : for_range 0 n (fun _ s => f s) b = b := by
  induction n with
  | zero => rfl
  | succ n ih => rw [for_range_succ, ih, hf]

/-- The mask before the last erosion is an image of pixels 0 and 0xff, and the
mask is its erosion. -/
theorem mask_before_last_spec (frequency : dpfp_ffield) (mask : dpfp_fprint) :
    binary_image (mask_before_last frequency mask) ∧
    (dpfp_fprint_get_mask frequency mask).2.data
      = image_erode (mask_before_last frequency mask) := by
  constructor
  · apply for_range_binary image_erode image_erode_binary
    apply for_range_binary image_dilate image_dilate_binary
    rw [mask_threshold_spec]
    exact thr_binary _ _
  · have e12 : (12 : Nat) = 11 + 1 := rfl
    unfold dpfp_fprint_get_mask mask_before_last
    simp only []
    rw [e12, for_range_succ]

/-! ### The mask: what an erosion guarantees -/

theorem img_hole_binary (d : Nat → uchar) : binary_image (img_hole d) := by
  intro k hk
  simp only [img_hole, hk, if_true]
  split_ifs
  · left
    rfl
  · right
    rfl

theorem img_hole_dilate (d : Nat → uchar) : image_dilate (img_hole d) = img_hole d := by
  funext k
  obtain ⟨h1, h2, h3⟩ := image_dilate_spec (img_hole d) (img_hole_binary d) k
  by_cases hk : k < 110976
  · by_cases h0 : k = 0
    · subst h0
      have e : img_hole d 0 = 0 := rfl
      rw [e]
      apply h2 hk
      rintro (h | ⟨cx, cy, a1, a2, a3, a4, _, _, a7⟩)
      · rw [e] at h
        exact absurd h (by decide)
      · omega
    · have e : img_hole d k = 0xff := by
        simp only [img_hole, hk, h0, if_true, if_false]
      rw [e]
      exact h1 hk (Or.inl e)
  · exact h3 (by omega)

theorem img_hole_erode (d : Nat → uchar) : image_erode (img_hole d) = img_hole d := by
  funext k
  obtain ⟨h1, h2, h3⟩ := image_erode_spec (img_hole d) (img_hole_binary d) k
  have hno : ¬ marked_by 0 (img_hole d) 1 288 k := by
    rintro ⟨cx, cy, a1, a2, a3, a4, _, a6, _⟩
    have hlt : cx + cy * 384 < 110976 := by omega
    have hne : ¬ cx + cy * 384 = 0 := by omega
    simp only [img_hole, hlt, hne, if_true, if_false] at a6
    exact absurd a6 (by decide)
  by_cases hk : k < 110976
  · by_cases h0 : k = 0
    · subst h0
      have e : img_hole d 0 = 0 := rfl
      rw [e]
      apply h2 hk
      rintro ⟨h, _⟩
      rw [e] at h
      exact absurd h (by decide)
    · have e : img_hole d k = 0xff := by
        simp only [img_hole, hk, h0, if_true, if_false]
      rw [e]
      exact h1 hk ⟨e, hno⟩
  · exact h3 (by omega)

theorem freq_hole_threshold (d : Nat → uchar) :
    mask_threshold freq_hole.pimg (mask_clear d) = img_hole d := by
  rw [mask_threshold_spec]
  funext k
  by_cases hk : k < 110976
  · simp only [hk, if_true, img_hole, thr_pixel, freq_hole]
    by_cases h0 : k = 0
    · subst h0
      have hn : ¬ ((0 : ℚ) ≥ freqmin ∧ (0 : ℚ) ≤ freqmax) := by
        rintro ⟨h, _⟩
        simp only [freqmin] at h
        norm_num at h
      simp only [if_true, hn, if_false]
    · have hp : ((1 : ℚ) / 10 ≥ freqmin ∧ (1 : ℚ) / 10 ≤ freqmax) := by
        simp only [freqmin, freqmax]
        constructor <;> norm_num
      simp only [h0, if_false, hp, and_self, if_true]
  · simp only [hk, if_false, img_hole]

/-- For the field `freq_hole` the mask is 0xff everywhere except at pixel
(0, 0), before the last erosion and after it. -/
theorem freq_hole_mask (mask : dpfp_fprint) :
    mask_before_last freq_hole mask = img_hole mask.data ∧
    (dpfp_fprint_get_mask freq_hole mask).2.data = img_hole mask.data := by
  have e1 : mask_before_last freq_hole mask = img_hole mask.data := by
    rw [mask_before_last, freq_hole_threshold,
      for_range_fixed image_dilate _ (img_hole_dilate _),
      for_range_fixed image_erode _ (img_hole_erode _)]
  refine ⟨e1, ?_⟩
  rw [(mask_before_last_spec freq_hole mask).2, e1, img_hole_erode]

/-- C17, as stated, fails: for the frequency field that is in range everywhere
except at pixel (0, 0), the mask is 0xff at pixel (1, 0), offset 1, although
its left neighbour (0, 0), offset 0, is zero in the mask as it stood before the
last erosion.  A border pixel is never the centre of a dilation or erosion
step, so a zero there erodes nothing. -/
theorem mask_claim_fails :
    (dpfp_fprint_get_mask freq_hole (fp_const 0)).2.data 1 = 0xff ∧
    mask_before_last freq_hole (fp_const 0) 0 = 0 := by
  rw [(freq_hole_mask (fp_const 0)).1, (freq_hole_mask (fp_const 0)).2]
  exact ⟨rfl, rfl⟩

/-- C17, amended: for every frequency field, a pixel (x, y) of the mask produced
by `dpfp_fprint_get_mask` that equals 0xff was 0xff before the last erosion
pass, and each of its four neighbours that is an inner pixel (column 1 to
`W - 2`, row 1 to `H - 2`) was non-zero then.  Nothing is said of neighbours on
the border of the image. -/
theorem mask_erosion_invariant (frequency : dpfp_ffield) (mask : dpfp_fprint) (x y : Nat)
    (hx : x < 384) (hy : y < 289)
    (h : (dpfp_fprint_get_mask frequency mask).2.data (x + y * 384) = 0xff) :
    mask_before_last frequency mask (x + y * 384) = 0xff ∧
    (2 ≤ x → 1 ≤ y → y ≤ 287 → mask_before_last frequency mask (x - 1 + y * 384) ≠ 0) ∧
    (x ≤ 381 → 1 ≤ y → y ≤ 287 → mask_before_last frequency mask (x + 1 + y * 384) ≠ 0) ∧
    (1 ≤ x → x ≤ 382 → 2 ≤ y → mask_before_last frequency mask (x + (y - 1) * 384) ≠ 0) ∧
    (1 ≤ x → x ≤ 382 → y ≤ 286 → mask_before_last frequency mask (x + (y + 1) * 384) ≠ 0) := by
  obtain ⟨hb, he⟩ := mask_before_last_spec frequency mask
  rw [he] at h
  have hk : x + y * 384 < 110976 := by omega
  obtain ⟨_, h2, _⟩ := image_erode_spec (mask_before_last frequency mask) hb (x + y * 384)
  have hsurv : mask_before_last frequency mask (x + y * 384) = 0xff ∧
      ¬ marked_by 0 (mask_before_last frequency mask) 1 288 (x + y * 384) := by
    by_contra hc
    have h0 := h2 hk hc
    rw [h0] at h
    exact absurd h (by decide)
  obtain ⟨hs1, hs2⟩ := hsurv
  refine ⟨hs1, ?_, ?_, ?_, ?_⟩
  · intro a1 a2 a3 hz
    exact hs2 ⟨x - 1, y, by omega, by omega, a2, a3, by omega, hz, by omega⟩
  · intro a1 a2 a3 hz
    exact hs2 ⟨x + 1, y, by omega, by omega, a2, a3, by omega, hz, by omega⟩
  · intro a1 a2 a3 hz
    exact hs2 ⟨x, y - 1, a1, a2, by omega, by omega, by omega, hz, by omega⟩
  · intro a1 a2 a3 hz
    exact hs2 ⟨x, y + 1, a1, a2, by omega, by omega, by omega, hz, by omega⟩

/-- Instance of C17, amended, for the field `freq_hole` at pixel (1, 1). -/
theorem mask_erosion_invariant_witness :
    (dpfp_fprint_get_mask freq_hole (fp_const 0)).2.data (1 + 1 * 384) = 0xff ∧
    mask_before_last freq_hole (fp_const 0) (1 + 1 * 384) = 0xff ∧
    (1 ≤ 1 → 1 ≤ 382 → 1 ≤ 286 →
      mask_before_last freq_hole (fp_const 0) (1 + (1 + 1) * 384) ≠ 0) :=
  ⟨by rw [(freq_hole_mask (fp_const 0)).2]; rfl,
   (mask_erosion_invariant freq_hole (fp_const 0) 1 1 (by decide) (by decide)
      (by rw [(freq_hole_mask (fp_const 0)).2]; rfl)).1,
   (mask_erosion_invariant freq_hole (fp_const 0) 1 1 (by decide) (by decide)
      (by rw [(freq_hole_mask (fp_const 0)).2]; rfl)).2.2.2.2⟩

/-! ### Thinning: a pass against the parallel operator -/

theorem pixel_set_lit (img : Nat → uchar) (x y : Nat) (hx : x < 384) (hy : y < 289) :
    pixel_set img (x : Int) (y : Int) = lit img x y := by
  have h : (0 : Int) ≤ x ∧ (x : Int) < 384 ∧ (0 : Int) ≤ y ∧ (y : Int) < 289 := by omega
  simp [pixel_set, lit, h]

theorem pixel_set_out (img : Nat → uchar) (x y : Int)
    (h : x < 0 ∨ 384 ≤ x ∨ y < 0 ∨ 289 ≤ y) : pixel_set img x y = false := by
  have h1 : ¬ (0 ≤ x ∧ x < 384 ∧ 0 ≤ y ∧ y < 289) := by omega
  simp [pixel_set, h1]

set_option maxRecDepth 100000 in
theorem thin_deletable_bits : ∀ a b c d e f g h i : Bool,
    (thin_deletable 0o200 (nbcode a b c d e f g h i) =
      (decide (delet.getD (nbcode a b c d e f g h i) 0 = 1) && !b)) ∧
    (thin_deletable 0o002 (nbcode a b c d e f g h i) =
      (decide (delet.getD (nbcode a b c d e f g h i) 0 = 1) && !h)) ∧
    (thin_deletable 0o040 (nbcode a b c d e f g h i) =
      (decide (delet.getD (nbcode a b c d e f g h i) 0 = 1) && !d)) ∧
    (thin_deletable 0o010 (nbcode a b c d e f g h i) =
      (decide (delet.getD (nbcode a b c d e f g h i) 0 = 1) && !f)) := by
  decide!

theorem pixel_set_nat (img : Nat → uchar) (x y : Int) (a b : Nat) (hx : x = a) (hy : y = b)
    (ha : a < 384) (hb : b < 289) : pixel_set img x y = lit img a b := by
  subst hx hy
  exact pixel_set_lit img a b ha hb

theorem thin_top_eq (img : Nat → uchar) (y n : Nat) (u v : Int) (hu : u = (n : Int) - 1)
    (hv : v = (y : Int) - 1) (hn : 2 ≤ n) (hy : y < 289) :
    thin_top img y n = pixel_set img u v := by
  have n0 : ¬ n = 0 := by omega
  have n1 : ¬ n = 1 := by omega
  by_cases h : n ≤ 384
  · by_cases h0 : y = 0
    · rw [pixel_set_out img u v (by omega)]
      simp [thin_top, n0, n1, h, h0]
    · rw [pixel_set_nat img u v (n - 1) (y - 1) (by omega) (by omega) (by omega) (by omega)]
      simp [thin_top, n0, n1, h, h0]
  · rw [pixel_set_out img u v (by omega)]
    simp [thin_top, n0, n1, h]

theorem thin_mid_eq (img : Nat → uchar) (y n : Nat) (u v : Int) (hu : u = (n : Int) - 1)
    (hv : v = (y : Int)) (hn : 2 ≤ n) (hy : y < 289) :
    thin_mid img y n = pixel_set img u v := by
  have n0 : ¬ n = 0 := by omega
  have n1 : ¬ n = 1 := by omega
  by_cases h : n ≤ 384
  · rw [pixel_set_nat img u v (n - 1) y (by omega) (by omega) (by omega) (by omega)]
    simp [thin_mid, n0, n1, h]
  · rw [pixel_set_out img u v (by omega)]
    simp [thin_mid, n0, n1, h]

theorem thin_bot_eq (img : Nat → uchar) (y n : Nat) (u v : Int) (hu : u = (n : Int) - 1)
    (hv : v = (y : Int) + 1) (hn : 2 ≤ n) (hy : y < 288) :
    thin_bot img y n = pixel_set img u v := by
  have n0 : ¬ n = 0 := by omega
  have n1 : ¬ n = 1 := by omega
  by_cases h : n ≤ 384
  · rw [pixel_set_nat img u v (n - 1) (y + 1) (by omega) (by omega) (by omega) (by omega)]
    simp [thin_bot, n0, n1, h]
  · rw [pixel_set_out img u v (by omega)]
    simp [thin_bot, n0, n1, h]

/-- For a pixel in column 2 or further right, the neighbourhood map a pass
tests is the 3 x 3 neighbourhood code of the image. -/
theorem thin_code_neighbourhood (img : Nat → uchar) (x y : Nat) (hx : 2 ≤ x) (hy : y < 289) :
    thin_code img x y = neighbourhood img (x : Int) (y : Int) := by
  by_cases h8 : y = 288
  · subst h8
    have b1 : ¬ x + 1 = 0 := by omega
    have b2 : ¬ x + 1 = 1 := by omega
    have b3 : ¬ x + 1 = 2 := by omega
    have b4 : ¬ x + 1 + 1 = 0 := by omega
    have b5 : ¬ x + 1 + 1 = 1 := by omega
    have b6 : ¬ x + 1 + 1 = 2 := by omega
    have b7 : ¬ x + 1 + 2 = 0 := by omega
    have b8 : ¬ x + 1 + 2 = 1 := by omega
    have b9 : ¬ x + 1 + 2 = 2 := by omega
    simp only [thin_code, if_true, thin_botp, neighbourhood, thin_btop, thin_bmid, thin_bbot,
      b1, b2, b3, b4, b5, b6, b7, b8, b9, if_false]
    rw [thin_top_eq img 288 (x + 1 - 1) ((x : Int) - 1) _ (by omega) rfl (by omega) (by omega),
      thin_top_eq img 288 (x + 1 + 1 - 1) ((x : Int)) _ (by omega) rfl (by omega) (by omega),
      thin_top_eq img 288 (x + 1 + 2 - 1) ((x : Int) + 1) _ (by omega) rfl (by omega) (by omega),
      thin_mid_eq img 288 (x + 1 - 1) ((x : Int) - 1) _ (by omega) rfl (by omega) (by omega),
      thin_mid_eq img 288 (x + 1 + 1 - 1) ((x : Int)) _ (by omega) rfl (by omega) (by omega),
      thin_mid_eq img 288 (x + 1 + 2 - 1) ((x : Int) + 1) _ (by omega) rfl (by omega) (by omega),
      pixel_set_out img ((x : Int) - 1) (((288 : Nat) : Int) + 1) (by omega),
      pixel_set_out img (x : Int) (((288 : Nat) : Int) + 1) (by omega),
      pixel_set_out img ((x : Int) + 1) (((288 : Nat) : Int) + 1) (by omega)]
  · simp only [thin_code, h8, if_false, thin_rowp, neighbourhood]
    rw [thin_top_eq img y (x + 1 - 1) ((x : Int) - 1) _ (by omega) rfl (by omega) hy,
      thin_top_eq img y (x + 1) ((x : Int)) _ (by omega) rfl (by omega) hy,
      thin_top_eq img y (x + 1 + 1) ((x : Int) + 1) _ (by omega) rfl (by omega) hy,
      thin_mid_eq img y (x + 1 - 1) ((x : Int) - 1) _ (by omega) rfl (by omega) hy,
      thin_mid_eq img y (x + 1) ((x : Int)) _ (by omega) rfl (by omega) hy,
      thin_mid_eq img y (x + 1 + 1) ((x : Int) + 1) _ (by omega) rfl (by omega) hy,
      thin_bot_eq img y (x + 1 - 1) ((x : Int) - 1) _ (by omega) rfl (by omega) (by omega),
      thin_bot_eq img y (x + 1) ((x : Int)) _ (by omega) rfl (by omega) (by omega),
      thin_bot_eq img y (x + 1 + 1) ((x : Int) + 1) _ (by omega) rfl (by omega) (by omega)]

theorem neighbourhood_bits (img : Nat → uchar) (x y : Int) :
    ∃ a b c d e f g h i : Bool, neighbourhood img x y = nbcode a b c d e f g h i ∧
      direction_neighbour img 0 x y = b ∧ direction_neighbour img 1 x y = h ∧
      direction_neighbour img 2 x y = d ∧ direction_neighbour img 3 x y = f :=
  ⟨_, _, _, _, _, _, _, _, _, rfl, rfl, rfl, rfl, rfl⟩

/-- Away from the two leftmost columns a pass of `dpfp_fprint_thin` is the
parallel operator: for every image, every pass `i` and every pixel in a column
from 2 on, the pass leaves the value that `parallel_pass` gives. -/
theorem thin_pass_parallel_right (s : thin_state) (hq : s.qb 383 = 0) (i k : Nat) (hi : i < 4)
    (hk : k < 110976) (hx : 2 ≤ k % 384) :
    (thin_pass (masks.getD i 0) s).imgbuf k = parallel_pass s.imgbuf i k := by
  rw [(thin_pass_spec _ s hq).1]
  have hy : k / 384 < 289 := by omega
  simp only [thin_pass_img, parallel_pass, thin_del, hk, true_and]
  rw [thin_code_neighbourhood s.imgbuf (k % 384) (k / 384) hx hy]
  obtain ⟨a, b, c, d, e, f, g, h, i', hc, h0, h1, h2, h3⟩ :=
    neighbourhood_bits s.imgbuf ((k % 384 : Nat) : Int) ((k / 384 : Nat) : Int)
  rw [hc]
  obtain ⟨t0, t1, t2, t3⟩ := thin_deletable_bits a b c d e f g h i'
  have hi4 : i = 0 ∨ i = 1 ∨ i = 2 ∨ i = 3 := by omega
  rcases hi4 with r | r | r | r
  · subst r
    have em : masks.getD 0 0 = 0o200 := rfl
    rw [em, t0, h0]
    by_cases hd : delet.getD (nbcode a b c d e f g h i') 0 = 1 <;> cases b <;> simp [hd]
  · subst r
    have em : masks.getD 1 0 = 0o002 := rfl
    rw [em, t1, h1]
    by_cases hd : delet.getD (nbcode a b c d e f g h i') 0 = 1 <;> cases h <;> simp [hd]
  · subst r
    have em : masks.getD 2 0 = 0o040 := rfl
    rw [em, t2, h2]
    by_cases hd : delet.getD (nbcode a b c d e f g h i') 0 = 1 <;> cases d <;> simp [hd]
  · subst r
    have em : masks.getD 3 0 = 0o010 := rfl
    rw [em, t3, h3]
    by_cases hd : delet.getD (nbcode a b c d e f g h i') 0 = 1 <;> cases f <;> simp [hd]

set_option maxRecDepth 100000 in
theorem fp_edge_del : thin_del fp_edge.data 0o200 384 = false := by decide

set_option maxRecDepth 100000 in
theorem fp_edge_parallel : parallel_pass fp_edge.data 0 384 = 0 := by decide

/-- C31: the first pass (direction N) of `dpfp_fprint_thin` over the image
`fp_edge` leaves pixel (0, 1), offset 384, at 0xff, while the parallel operator
of the specification sets it to 0: its neighbourhood code is 023 (`e`, `h`, `i`
set), `delet[023] = 1` and the pixel above is zero.  The pass builds the map of
a pixel in column 0 from image column 1 (the row start takes `(q << 3) & 0110`
of `qb[0]`): the map it tests is 003, with a zero centre. -/
theorem thin_pass_not_parallel :
    (thin_pass (masks.getD 0 0) (thin_start fp_edge)).imgbuf 384 = 0xff ∧
    parallel_pass (thin_start fp_edge).imgbuf 0 384 = 0 ∧
    neighbourhood fp_edge.data 0 1 = 0o023 ∧ delet.getD 0o023 0 = 1 ∧
    direction_neighbour fp_edge.data 0 0 1 = false ∧
    thin_code fp_edge.data 0 1 = 0o003 := by
  refine ⟨?_, fp_edge_parallel, by decide, by decide, by decide, by decide⟩
  rw [(thin_pass_spec _ (thin_start fp_edge) rfl).1]
  have em : masks.getD 0 0 = 0o200 := rfl
  have e1 : (thin_start fp_edge).imgbuf = fp_edge.data := rfl
  rw [em, e1]
  simp only [thin_pass_img, fp_edge_del]
  decide

/-! ## Dilation -/

theorem marked_by_touches (img : Nat → uchar) (x y : Nat) (hx : x < 384) :
    marked_by 0xff img 1 288 (x + y * 384) ↔ touches_inner img x y := by
  constructor
  · rintro ⟨cx, cy, a1, a2, a3, a4, _, a6, a7⟩
    refine ⟨cx, cy, a1, a2, a3, a4, ?_, a6⟩
    simp only [adjacent4]
    omega
  · rintro ⟨cx, cy, a1, a2, a3, a4, a5, a6⟩
    refine ⟨cx, cy, a1, a2, a3, a4, by omega, a6, ?_⟩
    simp only [adjacent4] at a5
    rcases a5 with ⟨p, q⟩ | ⟨p, q⟩ | ⟨p, q⟩ | ⟨p, q⟩
    · right; left
      omega
    · left
      omega
    · right; right; right
      rw [← q, p]
    · right; right; left
      rw [q, p]
      simp

theorem img_left_edge_binary : binary_image img_left_edge := by
  intro k _
  simp only [img_left_edge]
  split_ifs
  · right; rfl
  · left; rfl

theorem img_dot_binary : binary_image img_dot := by
  intro k _
  simp only [img_dot]
  split_ifs
  · right; rfl
  · left; rfl

/-- C32, as stated, fails: in the image that is 0xff only at the border pixel
(0, 1), pixel (1, 1) is 0 and is 4-adjacent to that 0xff pixel, and it is still
0 after `image_dilate`.  Only inner pixels act as centres of the kernel. -/
theorem dilate_claim_fails :
    binary_image img_left_edge ∧ img_left_edge (1 + 1 * 384) = 0 ∧
    img_left_edge (0 + 1 * 384) = 0xff ∧ adjacent4 1 1 0 1 ∧
    image_dilate img_left_edge (1 + 1 * 384) = 0 := by
  refine ⟨img_left_edge_binary, rfl, rfl, Or.inl ⟨rfl, rfl⟩, ?_⟩
  apply (image_dilate_spec img_left_edge img_left_edge_binary (1 + 1 * 384)).2.1 (by decide)
  rintro (h | ⟨cx, cy, a1, a2, a3, a4, _, a6, a7⟩)
  · exact absurd h (by decide)
  · simp only [img_left_edge] at a6
    split_ifs at a6 with h
    · omega
    · exact absurd a6 (by decide)

/-- C32, amended: for every `W * H` image whose pixels are all 0 or 0xFF, after
one `image_dilate` pass every pixel that was 0xFF is 0xFF, every pixel that was
0 and is 4-adjacent to an inner pixel (column 1 to `W - 2`, row 1 to `H - 2`)
that was 0xFF is 0xFF, and every other pixel is 0. -/
theorem dilate_inner (img : Nat → uchar) (hb : binary_image img) (x y : Nat) (hx : x < 384)
    (hy : y < 289) :
    (img (x + y * 384) = 0xff → image_dilate img (x + y * 384) = 0xff) ∧
    (img (x + y * 384) = 0 → touches_inner img x y → image_dilate img (x + y * 384) = 0xff) ∧
    (img (x + y * 384) = 0 → ¬ touches_inner img x y → image_dilate img (x + y * 384) = 0) := by
  have hk : x + y * 384 < 110976 := by omega
  obtain ⟨h1, h2, _⟩ := image_dilate_spec img hb (x + y * 384)
  refine ⟨fun h => h1 hk (Or.inl h), fun _ h => h1 hk (Or.inr ((marked_by_touches img x y hx).mpr h)),
    fun h0 h => h2 hk ?_⟩
  rintro (h3 | h3)
  · rw [h0] at h3
    exact absurd h3 (by decide)
  · exact h ((marked_by_touches img x y hx).mp h3)

/-- Instance of C32 (amended) at the image with the single inner 0xff pixel
(1, 1): its left neighbour (0, 1) becomes 0xff. -/
theorem dilate_inner_witness :
    binary_image img_dot ∧ image_dilate img_dot (0 + 1 * 384) = 0xff :=
  ⟨img_dot_binary,
   (dilate_inner img_dot img_dot_binary 0 1 (by decide) (by decide)).2.1 rfl
     ⟨1, 1, by decide, by decide, by decide, by decide, Or.inr (Or.inl ⟨rfl, rfl⟩), rfl⟩⟩

/-! ### Thinning only deletes -/

theorem thin_pass_img_keeps (img : Nat → uchar) (m k : Nat) :
    thin_pass_img img m k = img k ∨ thin_pass_img img m k = 0 := by
  simp only [thin_pass_img]
  split_ifs
  · right; rfl
  · left; rfl

theorem thin_sweep_img_keeps (img : Nat → uchar) (k : Nat) :
    thin_sweep_img img k = img k ∨ thin_sweep_img img k = 0 := by
  simp only [thin_sweep_img]
  rcases thin_pass_img_keeps
    (thin_pass_img (thin_pass_img (thin_pass_img img 0o200) 0o002) 0o040) 0o010 k with h4 | h4
  · rcases thin_pass_img_keeps (thin_pass_img (thin_pass_img img 0o200) 0o002) 0o040 k
      with h3 | h3
    · rcases thin_pass_img_keeps (thin_pass_img img 0o200) 0o002 k with h2 | h2
      · rcases thin_pass_img_keeps img 0o200 k with h1 | h1
        · left
          rw [h4, h3, h2, h1]
        · right
          rw [h4, h3, h2, h1]
      · right
        rw [h4, h3, h2]
    · right
      rw [h4, h3]
  · right
    exact h4

/-- What every sweep of the thinning loop preserves: `qb[W - 1]` is 0 and each
pixel is the pixel of `orig` or 0. -/
theorem thin_sweep_keeps (orig : Nat → uchar) (s : thin_state) (hq : s.qb 383 = 0)
    (hs : ∀ k, s.imgbuf k = orig k ∨ s.imgbuf k = 0) :
    (thin_sweep s).qb 383 = 0 ∧
    ∀ k, (thin_sweep s).imgbuf k = orig k ∨ (thin_sweep s).imgbuf k = 0 := by
  obtain ⟨w1, _, w3⟩ := thin_sweep_spec s hq
  refine ⟨w3, fun k => ?_⟩
  rw [w1]
  rcases thin_sweep_img_keeps s.imgbuf k with h | h
  · rw [h]
    exact hs k
  · right
    exact h

theorem thin_iterate_keeps (orig : Nat → uchar) (n : Nat) (s : thin_state) (hq : s.qb 383 = 0)
    (hs : ∀ k, s.imgbuf k = orig k ∨ s.imgbuf k = 0) :
    (thin_sweep^[n] s).qb 383 = 0 ∧
    ∀ k, (thin_sweep^[n] s).imgbuf k = orig k ∨ (thin_sweep^[n] s).imgbuf k = 0 := by
  induction n generalizing s with
  | zero => exact ⟨hq, hs⟩
  | succ n ih =>
    rw [Function.iterate_succ_apply]
    exact ih (thin_sweep s) (thin_sweep_keeps orig s hq hs).1 (thin_sweep_keeps orig s hq hs).2

theorem thin_loop_keeps (orig : Nat → uchar) (n : Nat) (s s' : thin_state) (hq : s.qb 383 = 0)
    (hs : ∀ k, s.imgbuf k = orig k ∨ s.imgbuf k = 0) (h : thin_loop n s = some s') :
    ∀ k, s'.imgbuf k = orig k ∨ s'.imgbuf k = 0 := by
  induction n generalizing s with
  | zero => simp [thin_loop] at h
  | succ n ih =>
    by_cases hc : s.count ≠ 0
    · rw [thin_loop, if_pos hc] at h
      exact ih (thin_sweep s) (thin_sweep_keeps orig s hq hs).1 (thin_sweep_keeps orig s hq hs).2 h
    · rw [thin_loop, if_neg hc] at h
      cases h
      exact hs

/-- C36: `dpfp_fprint_thin` only deletes.  For every image `I`, after any number
`n` of sweeps of the loop every pixel is the pixel of `I` or 0; and whenever the
routine returns (the loop ends within `fuel` evaluations of its condition), every
pixel of the result is the pixel of `I` or 0, and the header and the sizes are
those of `I`. -/
theorem thin_only_deletes (I : dpfp_fprint) (n fuel : Nat) :
    (∀ k, (thin_sweep^[n] (thin_start I)).imgbuf k = I.data k ∨
      (thin_sweep^[n] (thin_start I)).imgbuf k = 0) ∧
    (∀ J, dpfp_fprint_thin fuel I = some J →
      (∀ k, J.data k = I.data k ∨ J.data k = 0) ∧
      J.header = I.header ∧ J.header_size = I.header_size ∧ J.data_size = I.data_size) := by
  have h0 : ∀ k, (thin_start I).imgbuf k = I.data k ∨ (thin_start I).imgbuf k = 0 :=
    fun k => Or.inl rfl
  refine ⟨(thin_iterate_keeps I.data n (thin_start I) rfl h0).2, fun J h => ?_⟩
  simp only [dpfp_fprint_thin, Option.map_eq_some'] at h
  obtain ⟨s', h1, h2⟩ := h
  subst h2
  exact ⟨thin_loop_keeps I.data fuel (thin_start I) s' rfl h0 h1, rfl, rfl, rfl⟩


/-! ### Minutiae detection: a set that is not empty on entry -/

/-- C37: `dpfp_fprint_detect_minutiae` does not reset the set it is given.  For
every image and every set with `count = c0 < 384` on entry, the first `c0`
entries are unchanged after the call, the entries from index `c0` on are the
qualifying pixels of the image in scan order (as many as fit below 384), the
final count is `c0` plus their number, and so at least `c0`. -/
theorem detect_minutiae_appends (fp : dpfp_fprint) (mset : dpfp_mset)
    (h : mset.count < DPFP_MAX_MINUTIAE) :
    (∀ idx, idx < mset.count →
      (dpfp_fprint_detect_minutiae fp mset).2.minutiae idx = mset.minutiae idx) ∧
    mset_list (dpfp_fprint_detect_minutiae fp mset).2
      = mset_list mset ++ (qualifying fp.data).take (DPFP_MAX_MINUTIAE - mset.count) ∧
    (∀ k (hk : k < ((qualifying fp.data).take (DPFP_MAX_MINUTIAE - mset.count)).length),
      (dpfp_fprint_detect_minutiae fp mset).2.minutiae (mset.count + k)
        = ((qualifying fp.data).take (DPFP_MAX_MINUTIAE - mset.count)).get ⟨k, hk⟩) ∧
    (dpfp_fprint_detect_minutiae fp mset).2.count
      = mset.count + min (DPFP_MAX_MINUTIAE - mset.count) (qualifying fp.data).length ∧
    mset.count ≤ (dpfp_fprint_detect_minutiae fp mset).2.count := by
  have e : (dpfp_fprint_detect_minutiae fp mset).2
      = push_all mset ((hits fp.data 287 1).take (384 - mset.count)) :=
    detect_rows_eq fp.data 287 1 mset h
  rw [hits_eq_qualifying] at e
  have hc : (dpfp_fprint_detect_minutiae fp mset).2.count
      = mset.count + min (DPFP_MAX_MINUTIAE - mset.count) (qualifying fp.data).length := by
    rw [e, push_all_count, List.length_take]
  refine ⟨fun idx hi => ?_, ?_, fun k hk => ?_, hc, by omega⟩
  · rw [e]
    exact push_all_old _ _ _ hi
  · rw [e, mset_list_push_all]
  · rw [e]
    exact push_all_new _ _ k hk

theorem fp_pair_qualifying :
    qualifying fp_pair.data = [{ x := 1, y := 1 }, { x := 2, y := 1 }] := by
  rw [← hits_eq_qualifying]
  exact fp_pair_hits

/-- Instance of C37 at the image `fp_pair` and the set `mset_three`, which
holds three minutiae on entry: the two minutiae of the image land at indices 3
and 4. -/
theorem detect_minutiae_appends_witness :
    mset_three.count < DPFP_MAX_MINUTIAE ∧
    (∀ idx, idx < mset_three.count →
      (dpfp_fprint_detect_minutiae fp_pair mset_three).2.minutiae idx
        = mset_three.minutiae idx) ∧
    mset_list (dpfp_fprint_detect_minutiae fp_pair mset_three).2
      = mset_list mset_three ++ [{ x := 1, y := 1 }, { x := 2, y := 1 }] ∧
    (dpfp_fprint_detect_minutiae fp_pair mset_three).2.count = 5 := by
  have h := detect_minutiae_appends fp_pair mset_three (by decide)
  rw [fp_pair_qualifying] at h
  exact ⟨by decide, h.1, h.2.1, h.2.2.2.1⟩

/-! ### Matching: sets of different counts -/

/-- The first scoring loop for a set `own` of two points against a set `other`
of one point: the second point of `own` is scored against `other->minutiae[1]`,
an entry past the count of `other`. -/
theorem match_sum_two_one (env : float_env) (pw : Int → ℚ) (own other : dpfp_mset)
    (h1 : own.count = 2) (h2 : other.count = 1) :
    match_sum env pw own other =
      env.rnd32 (env.rnd32 (0 +
        (if match_new_value env pw (match_dist2 (own.minutiae 0) (other.minutiae 0)) > 0 then
          match_new_value env pw (match_dist2 (own.minutiae 0) (other.minutiae 0)) else 0))
        + (if match_new_value env pw (match_dist2 (own.minutiae 1) (other.minutiae 1)) > 0 then
          match_new_value env pw (match_dist2 (own.minutiae 1) (other.minutiae 1)) else 0)) := by
  rw [match_sum, h1, h2, for_range_succ, for_range_succ, for_range_zero, match_inner_loop,
    match_inner_loop]

theorem match_sum_one_two (env : float_env) (pw : Int → ℚ) (own other : dpfp_mset)
    (h1 : own.count = 1) (h2 : other.count = 2) :
    match_sum env pw own other =
      env.rnd32 (0 +
        (if match_new_value env pw (match_dist2 (own.minutiae 0) (other.minutiae 0)) > 0 then
          match_new_value env pw (match_dist2 (own.minutiae 0) (other.minutiae 0)) else 0)) := by
  rw [match_sum, h1, h2, for_range_succ, for_range_zero, match_inner_loop]

theorem one_means :
    mset_mean mset_one = (5, 0) ∧ mset_mean mset_one_stale = (5, 0) ∧
    floor_root 5 25 = 1 ∧ floor_root 10 (25 ^ 3) = 2 := by
  decide

theorem one_dist2 :
    match_dist2 (mset_near.minutiae 0) (mset_one.minutiae 0) = 25 ∧
    match_dist2 (mset_near.minutiae 1) (mset_one.minutiae 1) = 100 ∧
    match_dist2 (mset_near.minutiae 0) (mset_one_stale.minutiae 0) = 25 ∧
    match_dist2 (mset_near.minutiae 1) (mset_one_stale.minutiae 1) = 0 ∧
    match_dist2 (mset_one.minutiae 0) (mset_near.minutiae 0) = 25 ∧
    match_dist2 (mset_one_stale.minutiae 0) (mset_near.minutiae 0) = 25 := by
  decide

theorem near_moved_to (mset2 : dpfp_mset) (h : mset_mean mset2 = (5, 0)) :
    match_moved mset_near mset2 = mset_near := by
  rw [match_moved, translate_loop, near_means.1, h]
  show ({ minutiae := _, count := _ } : dpfp_mset) = mset_of _
  simp only [mset_of]
  congr 1
  funext k
  by_cases h0 : k = 0
  · subst h0
    decide
  · by_cases h1 : k = 1
    · subst h1
      decide
    · have h2 : ¬ k < mset_near.count := by
        show ¬ k < 2
        omega
      simp only [h2, if_false]
      rfl

/-- C38: the routine reads a point past the count of its owning set when the
counts differ.  The sets `mset_one` and `mset_one_stale` have the same count 1
and the same point (5, 0); they differ only in the array entry at index 1.
Matched against the two points (0, 0), (10, 0), in exact arithmetic with `pow`
rounded down, they score 75/2 and 325/6: the first loop scores point 1 of the
first set against entry 1 of the second. -/
theorem match_reads_past_count :
    mset_near.count = 2 ∧ mset_one.count = 1 ∧ mset_one_stale.count = 1 ∧
    mset_one.minutiae 0 = mset_one_stale.minutiae 0 ∧
    (dpfp_fprint_mset_match1 env_exact mset_near mset_one).map (fun r => r.score)
      = some (75 / 2) ∧
    (dpfp_fprint_mset_match1 env_exact mset_near mset_one_stale).map (fun r => r.score)
      = some (325 / 6) := by
  obtain ⟨m1, m2, r1, r2⟩ := one_means
  obtain ⟨d1, d2, d3, d4, d5, d6⟩ := one_dist2
  have hid : ∀ q : ℚ, env_exact.rnd32 q = q := fun _ => rfl
  have v25 : match_new_value env_exact env_exact.pow02 25 = 1 / 2 := by
    rw [env_exact_value]
    have : (25 : Int).toNat = 25 := rfl
    rw [this, r1]
    norm_num
  have v100 : match_new_value env_exact env_exact.pow02 100 = 1 / 3 := by
    rw [env_exact_value]
    have : (100 : Int).toNat = 100 := rfl
    rw [this, near_dist2.2.2.2.2.1]
    norm_num
  have v0 : match_new_value env_exact env_exact.pow02 0 = 1 := by
    rw [env_exact_value]
    have : (0 : Int).toNat = 0 := rfl
    rw [this, near_dist2.2.2.2.2.2]
    norm_num
  have w25 : match_new_value env_exact env_exact.pow03 25 = 1 / 3 := by
    rw [env_exact_value3]
    have : (25 : Int).toNat = 25 := rfl
    rw [this, r2]
    norm_num
  have c2 : ((mset_near.count : Nat) : ℚ) = 2 := by
    show ((2 : Nat) : ℚ) = 2
    norm_num
  have c1 : ((mset_one.count : Nat) : ℚ) = 1 := by
    show ((1 : Nat) : ℚ) = 1
    norm_num
  have c1s : ((mset_one_stale.count : Nat) : ℚ) = 1 := by
    show ((1 : Nat) : ℚ) = 1
    norm_num
  refine ⟨rfl, rfl, rfl, rfl, ?_, ?_⟩
  · have n1 : mset_near.count ≠ 0 := by decide
    have n2 : mset_one.count ≠ 0 := by decide
    rw [match1_eq _ _ _ n1 n2, near_moved_to _ m1]
    simp only [match_score, Option.map_some']
    rw [match_sum_two_one _ _ _ _ rfl rfl, match_sum_one_two _ _ _ _ rfl rfl, d1, d2, d5, v25,
      v100, w25, c1, c2]
    simp only [hid]
    norm_num
  · have n1 : mset_near.count ≠ 0 := by decide
    have n2 : mset_one_stale.count ≠ 0 := by decide
    rw [match1_eq _ _ _ n1 n2, near_moved_to _ m2]
    simp only [match_score, Option.map_some']
    rw [match_sum_two_one _ _ _ _ rfl rfl, match_sum_one_two _ _ _ _ rfl rfl, d3, d4, d6, v25,
      v0, w25, c1s, c2]
    simp only [hid]
    norm_num

/-! ## Ridge frequency: the peaks of an x-signature -/

theorem peaks_upto_succ (Xsig : Nat → ℚ) (n : Nat) :
    peaks_upto Xsig (n + 1) =
      if is_peak Xsig (n + 1) = true then peaks_upto Xsig n ++ [n + 1] else peaks_upto Xsig n := by
  simp only [peaks_upto, List.range'_1_concat, List.filter_append, List.filter_cons,
    List.filter_nil]
  have e : 1 + n = n + 1 := by omega
  rw [e]
  split_ifs <;> simp

theorem peaks_upto_mem (Xsig : Nat → ℚ) (n k : Nat) (h : k ∈ peaks_upto Xsig n) :
    1 ≤ k ∧ k ≤ n ∧ is_peak Xsig k = true := by
  simp only [peaks_upto, List.mem_filter, List.mem_range'_1] at h
  exact ⟨h.1.1, by omega, h.2⟩

/-- The peak search loop leaves the local maxima in `peak_pos`, in increasing
order, and their number in `peak_cnt`. -/
theorem peak_loop_spec (Xsig : Nat → ℚ) :
    (for_range 1 (BLOCK_L - 1) (peak_body Xsig) { peak_pos := fun _ => 0, peak_cnt := 0 }).peak_cnt
      = (peak_list Xsig).length ∧
    ∀ i, i < (peak_list Xsig).length →
      (for_range 1 (BLOCK_L - 1) (peak_body Xsig)
        { peak_pos := fun _ => 0, peak_cnt := 0 }).peak_pos i
        = (((peak_list Xsig).getD i 0 : Nat) : Int) := by
  have h := for_loop_inv (peak_body Xsig)
    (fun k t => t.peak_cnt = (peaks_upto Xsig (k - 1)).length ∧
      ∀ i, i < t.peak_cnt → t.peak_pos i = (((peaks_upto Xsig (k - 1)).getD i 0 : Nat) : Int))
    30 1 { peak_pos := fun _ => 0, peak_cnt := 0 }
    ⟨rfl, fun i hi => absurd hi (Nat.not_lt_zero i)⟩
    (by
      intro k t hk1 hk2 ⟨hc, hp⟩
      have ek : k + 1 - 1 = (k - 1) + 1 := by omega
      have ek2 : k - 1 + 1 = k := by omega
      rw [ek, peaks_upto_succ, ek2]
      by_cases hpk : is_peak Xsig k = true
      · have hcond : Xsig (k - 1) < Xsig k ∧ Xsig k ≥ Xsig (k + 1) := by
          simpa [is_peak] using hpk
        simp only [peak_body, hcond, and_self, if_true, hpk, List.length_append,
          List.length_singleton]
        refine ⟨by rw [hc], fun i hi => ?_⟩
        by_cases hi2 : i = t.peak_cnt
        · rw [if_pos hi2, hi2, hc, List.getD_append_right _ _ _ _ (le_refl _)]
          simp
        · rw [if_neg hi2, hp i (by omega), List.getD_append _ _ _ _ (by omega)]
      · have hcond : ¬ (Xsig (k - 1) < Xsig k ∧ Xsig k ≥ Xsig (k + 1)) := by
          simpa [is_peak] using hpk
        simp only [peak_body, hcond, if_false, hpk]
        exact ⟨hc, hp⟩)
  have e : for_range 1 (BLOCK_L - 1) (peak_body Xsig) { peak_pos := fun _ => 0, peak_cnt := 0 }
      = for_loop (peak_body Xsig) 30 1 { peak_pos := fun _ => 0, peak_cnt := 0 } := rfl
  rw [e]
  obtain ⟨h1, h2⟩ := h
  refine ⟨h1, fun i hi => h2 i ?_⟩
  rw [h1]
  exact hi

/-- A sum of differences of integers of moderate size, accumulated in a
`double`, is exact and telescopes. -/
theorem spacing_sum (env : float_env) (hok : double_ints_exact env) (pos : Nat → Int) (m : Nat)
    (hb : ∀ i, i ≤ m → 0 ≤ pos i ∧ pos i ≤ 2 ^ 52) :
    for_range 0 m (fun k peak_freq => env.rnd64 (peak_freq + ((pos (k + 1) - pos k : Int) : ℚ))) 0
      = ((pos m - pos 0 : Int) : ℚ) := by
  induction m with
  | zero =>
    rw [for_range_zero]
    simp
  | succ m ih =>
    rw [for_range_succ, ih (fun i hi => hb i (by omega))]
    have e : ((pos m - pos 0 : Int) : ℚ) + ((pos (m + 1) - pos m : Int) : ℚ)
        = ((pos (m + 1) - pos 0 : Int) : ℚ) := by
      push_cast
      ring
    rw [e]
    have b1 := hb (m + 1) (le_refl _)
    have b0 := hb 0 (by omega)
    exact hok _ (by omega) (by omega)

/-- The first loop leaves the least and the greatest value of the x-signature:
`pmin` and `pmax` bound every `X[k]`, `k < 32`, and each is one of them. -/
theorem signal_range_spec (Xsig : Nat → ℚ) :
    (∀ j, j < 32 → (signal_range Xsig).1 ≤ Xsig j ∧ Xsig j ≤ (signal_range Xsig).2) ∧
    (∃ j, j < 32 ∧ (signal_range Xsig).1 = Xsig j) ∧
    (∃ j, j < 32 ∧ (signal_range Xsig).2 = Xsig j) := by
  have h := for_loop_inv
    (fun k (p : ℚ × ℚ) =>
      (if p.1 > Xsig k then Xsig k else p.1, if p.2 < Xsig k then Xsig k else p.2))
    (fun k p => (∀ j, j < k → p.1 ≤ Xsig j ∧ Xsig j ≤ p.2) ∧
      (∃ j, j < k ∧ p.1 = Xsig j) ∧ (∃ j, j < k ∧ p.2 = Xsig j))
    31 1 (Xsig 0, Xsig 0)
    ⟨fun j hj => by
        have e : j = 0 := by omega
        subst e
        exact ⟨le_refl _, le_refl _⟩,
      ⟨0, by omega, rfl⟩, ⟨0, by omega, rfl⟩⟩
    (by
      intro k p _ _ ⟨hb, ⟨j1, hj1, e1⟩, ⟨j2, hj2, e2⟩⟩
      refine ⟨fun j hj => ?_, ?_, ?_⟩
      · by_cases hjk : j = k
        · subst hjk
          constructor
          · show (if p.1 > Xsig j then Xsig j else p.1) ≤ Xsig j
            split_ifs with h1
            · exact le_refl _
            · exact not_lt.mp h1
          · show Xsig j ≤ (if p.2 < Xsig j then Xsig j else p.2)
            split_ifs with h1
            · exact le_refl _
            · exact not_lt.mp h1
        · have hb1 := hb j (by omega)
          constructor
          · show (if p.1 > Xsig k then Xsig k else p.1) ≤ Xsig j
            split_ifs with h1
            · exact le_trans (le_of_lt h1) hb1.1
            · exact hb1.1
          · show Xsig j ≤ (if p.2 < Xsig k then Xsig k else p.2)
            split_ifs with h1
            · exact le_trans hb1.2 (le_of_lt h1)
            · exact hb1.2
      · show ∃ j, j < k + 1 ∧ (if p.1 > Xsig k then Xsig k else p.1) = Xsig j
        split_ifs with h1
        · exact ⟨k, by omega, rfl⟩
        · exact ⟨j1, by omega, e1⟩
      · show ∃ j, j < k + 1 ∧ (if p.2 < Xsig k then Xsig k else p.2) = Xsig j
        split_ifs with h1
        · exact ⟨k, by omega, rfl⟩
        · exact ⟨j2, by omega, e2⟩)
  exact h

theorem find_peaks_strong (env : float_env) (Xsig : Nat → ℚ)
    (hs : env.rnd64 ((signal_range Xsig).2 - (signal_range Xsig).1) > 64) :
    (find_peaks env Xsig).peak_cnt = (peak_list Xsig).length ∧
    ∀ i, i < (peak_list Xsig).length →
      (find_peaks env Xsig).peak_pos i = (((peak_list Xsig).getD i 0 : Nat) : Int) := by
  rw [find_peaks, if_pos hs]
  exact peak_loop_spec Xsig

theorem find_peaks_weak (env : float_env) (Xsig : Nat → ℚ)
    (hs : ¬ env.rnd64 ((signal_range Xsig).2 - (signal_range Xsig).1) > 64) :
    (find_peaks env Xsig).peak_cnt = 0 := by
  rw [find_peaks, if_neg hs]

theorem peak_list_getD_range (Xsig : Nat → ℚ) (i : Nat) :
    (peak_list Xsig).getD i 0 ≤ 30 := by
  by_cases hi : i < (peak_list Xsig).length
  · rw [List.getD_eq_getElem _ _ hi]
    exact (peaks_upto_mem Xsig 30 _ (List.getElem_mem hi)).2.1
  · rw [List.getD_eq_default _ _ (by omega)]
    omega

/-- The mean spacing that the routine computes from a strong signal with at
least two peaks. -/
theorem mean_spacing_eq (env : float_env) (hok : double_ints_exact env) (Xsig : Nat → ℚ)
    (hs : env.rnd64 ((signal_range Xsig).2 - (signal_range Xsig).1) > 64)
    (hn : 2 ≤ (peak_list Xsig).length) :
    mean_spacing env (find_peaks env Xsig) =
      env.rnd64 ((((peak_list Xsig).getD ((peak_list Xsig).length - 1) 0 : Nat) -
          ((peak_list Xsig).getD 0 0 : Nat) : ℚ) / (((peak_list Xsig).length : ℚ) - 1)) := by
  obtain ⟨hc, hp⟩ := find_peaks_strong env Xsig hs
  have hc2 : (find_peaks env Xsig).peak_cnt ≥ 2 := by omega
  rw [mean_spacing, if_pos hc2, hc]
  have hb : ∀ i, i ≤ (peak_list Xsig).length - 1 →
      (0 : Int) ≤ (((peak_list Xsig).getD i 0 : Nat) : Int) ∧
      (((peak_list Xsig).getD i 0 : Nat) : Int) ≤ 2 ^ 52 := by
    intro i _
    have h30 := peak_list_getD_range Xsig i
    constructor <;> omega
  have hsum : for_range 0 ((peak_list Xsig).length - 1)
      (fun k peak_freq => env.rnd64 (peak_freq +
        (((((peak_list Xsig).getD (k + 1) 0 : Nat) : Int)
          - (((peak_list Xsig).getD k 0 : Nat) : Int) : Int) : ℚ))) 0
      = (((((peak_list Xsig).getD ((peak_list Xsig).length - 1) 0 : Nat) : Int)
          - (((peak_list Xsig).getD 0 0 : Nat) : Int) : Int) : ℚ) :=
    spacing_sum env hok
      (fun i => (((peak_list Xsig).getD i 0 : Nat) : Int)) ((peak_list Xsig).length - 1) hb
  have hloop : for_range 0 ((peak_list Xsig).length - 1)
      (fun k peak_freq => env.rnd64 (peak_freq +
        (((find_peaks env Xsig).peak_pos (k + 1) - (find_peaks env Xsig).peak_pos k : Int) : ℚ))) 0
      = for_range 0 ((peak_list Xsig).length - 1)
      (fun k peak_freq => env.rnd64 (peak_freq +
        (((((peak_list Xsig).getD (k + 1) 0 : Nat) : Int)
          - (((peak_list Xsig).getD k 0 : Nat) : Int) : Int) : ℚ))) 0 := by
    simp only [for_range, Nat.sub_zero]
    have key : ∀ (n j : Nat) (t : ℚ), j + n ≤ (peak_list Xsig).length - 1 →
        for_loop (fun k peak_freq => env.rnd64 (peak_freq +
          (((find_peaks env Xsig).peak_pos (k + 1) - (find_peaks env Xsig).peak_pos k : Int) : ℚ)))
          n j t
        = for_loop (fun k peak_freq => env.rnd64 (peak_freq +
          (((((peak_list Xsig).getD (k + 1) 0 : Nat) : Int)
            - (((peak_list Xsig).getD k 0 : Nat) : Int) : Int) : ℚ))) n j t := by
      intro n
      induction n with
      | zero => intro j t _; rfl
      | succ n ih =>
        intro j t hj
        rw [for_loop_succ, for_loop_succ, hp (j + 1) (by omega), hp j (by omega)]
        exact ih (j + 1) _ (by omega)
    exact key _ 0 0 (by omega)
  rw [hloop, hsum]
  congr 1
  have e1 : (((peak_list Xsig).length - 1 : Nat) : ℚ) = ((peak_list Xsig).length : ℚ) - 1 := by
    rw [Nat.cast_sub (by omega)]
    simp
  rw [e1]
  push_cast
  rfl

theorem block_frequency_eq (env : float_env) (Xsig : Nat → ℚ) :
    block_frequency env Xsig =
      if 2 ≤ mean_spacing env (find_peaks env Xsig) ∧ mean_spacing env (find_peaks env Xsig) ≤ 30
      then env.rnd64 (1 / mean_spacing env (find_peaks env Xsig)) else 0 := by
  rw [block_frequency]
  generalize mean_spacing env (find_peaks env Xsig) = v
  by_cases h1 : v > 30
  · have h2 : ¬ (2 ≤ v ∧ v ≤ 30) := fun h => absurd h.2 (not_le.mpr h1)
    rw [if_pos h1, if_neg h2]
  · by_cases h3 : v < 2
    · have h2 : ¬ (2 ≤ v ∧ v ≤ 30) := fun h => absurd h.1 (not_le.mpr h3)
      rw [if_neg h1, if_pos h3, if_neg h2]
    · rw [if_neg h1, if_neg h3, if_pos ⟨not_lt.mp h3, not_lt.mp h1⟩]

theorem mean_spacing_few (env : float_env) (s : peak_state) (h : s.peak_cnt < 2) :
    mean_spacing env s = 0 := by
  rw [mean_spacing, if_neg (by omega)]

theorem env_exact_ints : double_ints_exact env_exact := fun _ _ _ => rfl

theorem sig_comb_strong :
    env_exact.rnd64 ((signal_range sig_comb).2 - (signal_range sig_comb).1) > 64 := by
  obtain ⟨hb, _, _⟩ := signal_range_spec sig_comb
  have h0 := (hb 0 (by decide)).1
  have h1 := (hb 1 (by decide)).2
  have e0 : sig_comb 0 = 0 := by simp [sig_comb]
  have e1 : sig_comb 1 = 100 := by simp [sig_comb]
  rw [e0] at h0
  rw [e1] at h1
  show (signal_range sig_comb).2 - (signal_range sig_comb).1 > 64
  linarith

theorem sig_comb_is_peak (k : Nat) (hk : 1 ≤ k) :
    is_peak sig_comb k = decide (k % 2 = 1) := by
  by_cases h : k % 2 = 1
  · have h1 : ¬ (k - 1) % 2 = 1 := by omega
    have h2 : ¬ (k + 1) % 2 = 1 := by omega
    simp [is_peak, sig_comb, h, h1, h2]
  · have h1 : (k - 1) % 2 = 1 := by omega
    simp [is_peak, sig_comb, h, h1]

theorem sig_comb_peaks :
    peak_list sig_comb = [1, 3, 5, 7, 9, 11, 13, 15, 17, 19, 21, 23, 25, 27, 29] := by
  have e : peak_list sig_comb = (List.range' 1 30).filter (fun k => decide (k % 2 = 1)) := by
    apply List.filter_congr
    intro k hk
    exact sig_comb_is_peak k (List.mem_range'_1.mp hk).1
  rw [e]
  decide

theorem sig_two_strong :
    env_exact.rnd64 ((signal_range sig_two).2 - (signal_range sig_two).1) > 64 := by
  obtain ⟨hb, _, _⟩ := signal_range_spec sig_two
  have h0 := (hb 0 (by decide)).1
  have h1 := (hb 5 (by decide)).2
  have e0 : sig_two 0 = 0 := by simp [sig_two]
  have e1 : sig_two 5 = 100 := by simp [sig_two]
  rw [e0] at h0
  rw [e1] at h1
  show (signal_range sig_two).2 - (signal_range sig_two).1 > 64
  linarith

theorem sig_two_is_peak (k : Nat) :
    is_peak sig_two k = decide (k = 5 ∨ k = 12) := by
  have v : ∀ j, sig_two j = if j = 5 ∨ j = 12 then 100 else 0 := fun _ => rfl
  by_cases h : k = 5 ∨ k = 12
  · have h1 : ¬ (k - 1 = 5 ∨ k - 1 = 12) := by omega
    have h2 : ¬ (k + 1 = 5 ∨ k + 1 = 12) := by omega
    simp only [is_peak, v, if_pos h, if_neg h1, if_neg h2, h]
    norm_num
  · by_cases h1 : k - 1 = 5 ∨ k - 1 = 12
    · simp only [is_peak, v, if_neg h, if_pos h1, h]
      norm_num
    · simp only [is_peak, v, if_neg h, if_neg h1, h]
      norm_num

theorem sig_two_peaks : peak_list sig_two = [5, 12] := by
  have e : peak_list sig_two = (List.range' 1 30).filter (fun k => decide (k = 5 ∨ k = 12)) := by
    apply List.filter_congr
    intro k _
    exact sig_two_is_peak k
  rw [e]
  decide

/-- C33, as stated, fails: for the x-signature that alternates between 0 and
100, max - min is 100 > 64 and there are 15 local maxima, at 1, 3, .., 29; the
mean spacing is (29 - 1) / 14 = 2, which is not strictly between 2 and 30, and
the frequency stored is 1/2, not 0.  The code rejects a spacing only if it is
above 30 or below 2. -/
theorem frequency_claim_fails :
    env_exact.rnd64 ((signal_range sig_comb).2 - (signal_range sig_comb).1) > 64 ∧
    (peak_list sig_comb).length = 15 ∧
    mean_spacing env_exact (find_peaks env_exact sig_comb) = 2 ∧
    ¬ ((2 : ℚ) < mean_spacing env_exact (find_peaks env_exact sig_comb)) ∧
    block_frequency env_exact sig_comb = 1 / 2 := by
  have hm : mean_spacing env_exact (find_peaks env_exact sig_comb) = 2 := by
    rw [mean_spacing_eq env_exact env_exact_ints sig_comb sig_comb_strong
      (by rw [sig_comb_peaks]; decide), sig_comb_peaks]
    show ((((29 : Nat) : ℚ) - ((1 : Nat) : ℚ)) / (((15 : Nat) : ℚ) - 1)) = 2
    norm_num
  refine ⟨sig_comb_strong, by rw [sig_comb_peaks]; rfl, hm, by rw [hm]; norm_num, ?_⟩
  rw [block_frequency_eq, hm]
  show (if (2 : ℚ) ≤ 2 ∧ (2 : ℚ) ≤ 30 then (1 / 2 : ℚ) else 0) = 1 / 2
  norm_num

/-- C33, amended: in `dpfp_fprint_get_frequency`, for every x-signature whose
max - min (as the routine computes it) exceeds 64 and which has `n >= 2` local
maxima (`X[k-1] < X[k] >= X[k+1]`, `1 <= k <= 30`), the computed mean spacing is
the double for (last peak position - first peak position) / (n - 1); the
block's frequency is 1/spacing if the spacing lies between 2 and 30, both
included, and 0 otherwise; it is also 0 when fewer than 2 peaks are found or
the signal is weak. -/
theorem frequency_block_spec (env : float_env) (hok : double_ints_exact env) (Xsig : Nat → ℚ) :
    (env.rnd64 ((signal_range Xsig).2 - (signal_range Xsig).1) > 64 →
      2 ≤ (peak_list Xsig).length →
      mean_spacing env (find_peaks env Xsig) =
        env.rnd64 ((((peak_list Xsig).getD ((peak_list Xsig).length - 1) 0 : Nat) -
          ((peak_list Xsig).getD 0 0 : Nat) : ℚ) / (((peak_list Xsig).length : ℚ) - 1))) ∧
    (block_frequency env Xsig =
      if 2 ≤ mean_spacing env (find_peaks env Xsig) ∧ mean_spacing env (find_peaks env Xsig) ≤ 30
      then env.rnd64 (1 / mean_spacing env (find_peaks env Xsig)) else 0) ∧
    ((¬ env.rnd64 ((signal_range Xsig).2 - (signal_range Xsig).1) > 64 ∨
        (peak_list Xsig).length < 2) →
      mean_spacing env (find_peaks env Xsig) = 0 ∧ block_frequency env Xsig = 0) := by
  refine ⟨mean_spacing_eq env hok Xsig, block_frequency_eq env Xsig, fun h => ?_⟩
  have hm : mean_spacing env (find_peaks env Xsig) = 0 := by
    apply mean_spacing_few
    rcases h with h | h
    · rw [find_peaks_weak env Xsig h]
      decide
    · by_cases hs : env.rnd64 ((signal_range Xsig).2 - (signal_range Xsig).1) > 64
      · rw [(find_peaks_strong env Xsig hs).1]
        exact h
      · rw [find_peaks_weak env Xsig hs]
        decide
  refine ⟨hm, ?_⟩
  rw [block_frequency_eq, hm]
  norm_num

/-- Instance of C33 (amended) in exact arithmetic at the x-signature with the
two peaks 5 and 12: the spacing is 7 and the frequency 1/7. -/
theorem frequency_block_spec_witness :
    double_ints_exact env_exact ∧
    env_exact.rnd64 ((signal_range sig_two).2 - (signal_range sig_two).1) > 64 ∧
    2 ≤ (peak_list sig_two).length ∧
    mean_spacing env_exact (find_peaks env_exact sig_two) = 7 ∧
    block_frequency env_exact sig_two = 1 / 7 := by
  have h := frequency_block_spec env_exact env_exact_ints sig_two
  have hn : 2 ≤ (peak_list sig_two).length := by rw [sig_two_peaks]; decide
  have hm : mean_spacing env_exact (find_peaks env_exact sig_two) = 7 := by
    rw [h.1 sig_two_strong hn, sig_two_peaks]
    show ((((12 : Nat) : ℚ) - ((5 : Nat) : ℚ)) / (((2 : Nat) : ℚ) - 1)) = 7
    norm_num
  refine ⟨env_exact_ints, sig_two_strong, hn, hm, ?_⟩
  rw [h.2.1, hm]
  show (if (2 : ℚ) ≤ 7 ∧ (7 : ℚ) ≤ 30 then (1 / 7 : ℚ) else 0) = 1 / 7
  norm_num

/-! ## Authentication -/

theorem set_hwstat_eq {σ : Type} (w : usb_world σ) (s : open_state σ) (v : uchar) :
    dpfp_set_hwstat w s v = ((w.control s.dev (hwstat_write v)).1, after_msg w s (hwstat_write v)) :=
  rfl

theorem get_hwstat_eq {σ : Type} (w : usb_world σ) (s : open_state σ) (old : uchar) :
    dpfp_get_hwstat w s old =
      ((w.control s.dev hwstat_read).1,
        read_byte (w.control s.dev hwstat_read).1 (w.control s.dev hwstat_read).2.1 old,
        after_msg w s hwstat_read) :=
  rfl

/-- The routine `dpfp_simple_auth_cr` in terms of the two messages it sends. -/
theorem auth_cr_eq {σ : Type} (w : usb_world σ) (s : open_state σ) :
    dpfp_simple_auth_cr w s =
      if (w.control s.dev auth_challenge_read).1 < 0 then
        ((w.control s.dev auth_challenge_read).1, after_msg w s auth_challenge_read)
      else if (w.control s.dev auth_challenge_read).1 < 0x10 then
        (-w.EIO, after_msg w s auth_challenge_read)
      else if (w.control (w.control s.dev auth_challenge_read).2.2
              (auth_response_write (w.aes w.aeskey
                (challenge_of (w.control s.dev auth_challenge_read).2.1)))).1 > 0 ∧
            (w.control (w.control s.dev auth_challenge_read).2.2
              (auth_response_write (w.aes w.aeskey
                (challenge_of (w.control s.dev auth_challenge_read).2.1)))).1 < 0x10
        then (-w.EIO, after_msg w (after_msg w s auth_challenge_read)
          (auth_response_write
            (w.aes w.aeskey (challenge_of (w.control s.dev auth_challenge_read).2.1))))
        else ((w.control (w.control s.dev auth_challenge_read).2.2
              (auth_response_write (w.aes w.aeskey
                (challenge_of (w.control s.dev auth_challenge_read).2.1)))).1,
          after_msg w (after_msg w s auth_challenge_read)
          (auth_response_write
            (w.aes w.aeskey (challenge_of (w.control s.dev auth_challenge_read).2.1)))) :=
  rfl

/-- C35: after `dpfp_init` (the global `aeskey` is the schedule of the key
`79 AC 91 79 5C A1 47 8E 98 E0 0F 3C 59 8F 5F 4B` with 128 bits),
`dpfp_simple_auth_cr` sends the control read with value 0x2010 and size 16.  If
the read returns a negative value, that value is returned and nothing else is
sent; if it returns fewer than 16 bytes, `-EIO` is returned and nothing else is
sent; otherwise the routine sends one control write with value 0x2000 whose 16
bytes are `AES_encrypt` of the challenge under that key, a function of the
challenge alone, and returns what the write returns (`-EIO` for a short
write). -/
theorem auth_cr_spec {σ : Type} (w : usb_world σ) (s : open_state σ)
    (hkey : w.aeskey = dpfp_init) :
    ((w.control s.dev auth_challenge_read).1 < 0 →
      dpfp_simple_auth_cr w s =
        ((w.control s.dev auth_challenge_read).1, after_msg w s auth_challenge_read)) ∧
    (¬ (w.control s.dev auth_challenge_read).1 < 0 →
      (w.control s.dev auth_challenge_read).1 < 16 →
      dpfp_simple_auth_cr w s = (-w.EIO, after_msg w s auth_challenge_read)) ∧
    (16 ≤ (w.control s.dev auth_challenge_read).1 →
      (dpfp_simple_auth_cr w s).2 =
        after_msg w (after_msg w s auth_challenge_read)
          (auth_response_write
            (w.aes (some (crkey, 128)) (challenge_of (w.control s.dev auth_challenge_read).2.1))) ∧
      (dpfp_simple_auth_cr w s).2.log = s.log ++
        [auth_challenge_read,
         auth_response_write
           (w.aes (some (crkey, 128)) (challenge_of (w.control s.dev auth_challenge_read).2.1))] ∧
      (dpfp_simple_auth_cr w s).1 =
        if (w.control (w.control s.dev auth_challenge_read).2.2
              (auth_response_write (w.aes (some (crkey, 128))
                (challenge_of (w.control s.dev auth_challenge_read).2.1)))).1 > 0 ∧
            (w.control (w.control s.dev auth_challenge_read).2.2
              (auth_response_write (w.aes (some (crkey, 128))
                (challenge_of (w.control s.dev auth_challenge_read).2.1)))).1 < 16
        then -w.EIO
        else (w.control (w.control s.dev auth_challenge_read).2.2
              (auth_response_write (w.aes (some (crkey, 128))
                (challenge_of (w.control s.dev auth_challenge_read).2.1)))).1) := by
  have hk : w.aeskey = some (crkey, 128) := hkey
  rw [auth_cr_eq, hk]
  refine ⟨fun h => ?_, fun h1 h2 => ?_, fun h => ?_⟩
  · rw [if_pos h]
  · rw [if_neg h1, if_pos h2]
  · have h1 : ¬ (w.control s.dev auth_challenge_read).1 < 0 := by omega
    have h2 : ¬ (w.control s.dev auth_challenge_read).1 < 0x10 := by omega
    rw [if_neg h1, if_neg h2]
    split_ifs
    · exact ⟨rfl, by simp [after_msg], rfl⟩
    · exact ⟨rfl, by simp [after_msg], rfl⟩

/-- Instance of C35 at the mock device `stuck_world`, which delivers the
challenge 0, 1, .., 15 and whose stand-in cipher is the exclusive-or with the
key: the response written is `crkey` xor the challenge, and the routine returns
16. -/
theorem auth_cr_spec_witness :
    stuck_world.aeskey = dpfp_init ∧
    16 ≤ (stuck_world.control mock_start.dev auth_challenge_read).1 ∧
    (dpfp_simple_auth_cr stuck_world mock_start).2.log =
      [auth_challenge_read,
       auth_response_write
         [0x79, 0xad, 0x93, 0x7a, 0x58, 0xa4, 0x41, 0x89,
          0x90, 0xe9, 0x05, 0x37, 0x55, 0x82, 0x51, 0x44]] ∧
    (dpfp_simple_auth_cr stuck_world mock_start).1 = 16 := by
  have h16 : 16 ≤ (stuck_world.control mock_start.dev auth_challenge_read).1 := by decide
  obtain ⟨_, h2, h3⟩ := (auth_cr_spec stuck_world mock_start rfl).2.2 h16
  refine ⟨rfl, h16, ?_, ?_⟩
  · rw [h2]
    decide
  · rw [h3]
    decide

/-! ## The power loop -/

theorem hwstat_writes_append (l1 l2 : List ctrl_msg) :
    hwstat_writes (l1 ++ l2) = hwstat_writes l1 ++ hwstat_writes l2 := by
  simp [hwstat_writes]

theorem hwstat_writes_facts (v : uchar) (data : List uchar) :
    hwstat_writes [hwstat_write v] = [hwstat_write v] ∧ hwstat_writes [hwstat_read] = [] ∧
    hwstat_writes [auth_challenge_read] = [] ∧
    hwstat_writes [auth_challenge_read, auth_response_write data] = [] := by
  refine ⟨?_, ?_, ?_, ?_⟩ <;> simp [hwstat_writes, hwstat_write, hwstat_read,
    auth_challenge_read, auth_response_write]

/-- The authentication inside the power loop, when its transfers are complete:
it does not fail, sends no hwstat write and reads no interrupt. -/
theorem auth_cr_frame {σ : Type} (w : usb_world σ) (type : Nat) (R : σ → Prop)
    (h : power_never_up w type R) (ht : type = DEV_TYPE_URU4000Bg2) (s : open_state σ)
    (hs : R s.dev) :
    ¬ (dpfp_simple_auth_cr w s).1 < 0 ∧
    ∃ l, (dpfp_simple_auth_cr w s).2.log = s.log ++ l ∧ hwstat_writes l = [] ∧
      (dpfp_simple_auth_cr w s).2.irqs = s.irqs ∧ R (dpfp_simple_auth_cr w s).2.dev := by
  obtain ⟨hR, _, _, ha⟩ := h
  obtain ⟨a1, a2⟩ := ha ht s.dev hs
  have a3 := a2 (w.aes w.aeskey (challenge_of (w.control s.dev auth_challenge_read).2.1))
  have h1 : ¬ (w.control s.dev auth_challenge_read).1 < 0 := by omega
  have h2 : ¬ (w.control s.dev auth_challenge_read).1 < 0x10 := by omega
  have h3 : ¬ ((w.control (w.control s.dev auth_challenge_read).2.2
              (auth_response_write (w.aes w.aeskey
                (challenge_of (w.control s.dev auth_challenge_read).2.1)))).1 > 0 ∧
            (w.control (w.control s.dev auth_challenge_read).2.2
              (auth_response_write (w.aes w.aeskey
                (challenge_of (w.control s.dev auth_challenge_read).2.1)))).1 < 0x10) := by
    omega
  rw [auth_cr_eq, if_neg h1, if_neg h2, if_neg h3]
  refine ⟨by simp only; omega,
    [auth_challenge_read, auth_response_write
      (w.aes w.aeskey (challenge_of (w.control s.dev auth_challenge_read).2.1))], ?_, ?_, rfl, ?_⟩
  · simp [after_msg]
  · exact (hwstat_writes_facts 0 _).2.2.2
  · exact hR _ _ (hR _ _ hs)

theorem read_byte_head (r : Int) (reply : List uchar) (old b : uchar) (hr : 0 < r)
    (hb : reply.head? = some b) : read_byte r reply old = b := by
  rw [read_byte, if_pos hr]
  cases reply with
  | nil => simp at hb
  | cons x xs =>
    simp only [List.head?_cons, Option.some.injEq] at hb
    simp [hb]

/-- One round of the power loop after its hwstat write, when the read has bit
0x80 set: the loop goes on, with no further hwstat write and no interrupt
read. -/
theorem power_up_round_stuck {σ : Type} (w : usb_world σ) (type : Nat) (R : σ → Prop)
    (h : power_never_up w type R) (s : open_state σ) (hs : R s.dev) (buf0 : uchar) :
    ∃ b t l, power_up_round w type s buf0 = .ok (false, b, t) ∧ b.val &&& 0x80 ≠ 0 ∧
      t.log = s.log ++ l ∧ hwstat_writes l = [] ∧ t.irqs = s.irqs ∧ R t.dev := by
  obtain ⟨hR, hrd, hwr, ha⟩ := h
  obtain ⟨r1, b, r2, r3⟩ := hrd s.dev hs
  have e1 : (dpfp_get_hwstat w s buf0).1 = (w.control s.dev hwstat_read).1 := rfl
  have e2 : (dpfp_get_hwstat w s buf0).2.1 = b := by
    rw [get_hwstat_eq]
    exact read_byte_head _ _ _ _ r1 r2
  have e3 : (dpfp_get_hwstat w s buf0).2.2 = after_msg w s hwstat_read := rfl
  have n1 : ¬ (dpfp_get_hwstat w s buf0).1 < 0 := by rw [e1]; omega
  have n2 : ¬ (dpfp_get_hwstat w s buf0).2.1.val &&& 0x80 = 0 := by rw [e2]; exact r3
  have hR1 : R (after_msg w s hwstat_read).dev := hR _ _ hs
  rw [power_up_round, if_neg n1, if_neg n2]
  by_cases ht : type = DEV_TYPE_URU4000Bg2
  · obtain ⟨c1, l, c2, c3, c4, c5⟩ :=
      auth_cr_frame w type R ⟨hR, hrd, hwr, ha⟩ ht (after_msg w s hwstat_read) hR1
    rw [if_pos ht, e3, if_neg c1, e2]
    refine ⟨b, _, [hwstat_read] ++ l, rfl, r3, ?_, ?_, c4, c5⟩
    · rw [c2]
      simp [after_msg]
    · rw [hwstat_writes_append, c3, (hwstat_writes_facts 0 []).2.1]
      rfl
  · rw [if_neg ht, e2, e3]
    exact ⟨b, _, [hwstat_read], rfl, r3, rfl, (hwstat_writes_facts 0 []).2.1, rfl, hR1⟩

/-- The power loop with `n` rounds left, when no read has bit 0x80 clear: it
runs all `n` rounds, each with one hwstat write of `status & 0xf`. -/
theorem power_up_stuck {σ : Type} (w : usb_world σ) (type : Nat) (status : uchar)
    (R : σ → Prop) (h : power_never_up w type R) (n : Nat) (s : open_state σ) (hs : R s.dev)
    (buf0 : uchar) :
    ∃ b t l, power_up w type status n s buf0 = .ok (b, t) ∧
      (n = 0 → b = buf0) ∧ (0 < n → b.val &&& 0x80 ≠ 0) ∧ t.log = s.log ++ l ∧
      hwstat_writes l = List.replicate n (hwstat_write (Fin.ofNat (status.val &&& 0xf))) ∧
      t.irqs = s.irqs ∧ R t.dev := by
  induction n generalizing s buf0 with
  | zero =>
    exact ⟨buf0, s, [], rfl, fun _ => rfl, fun h0 => absurd h0 (lt_irrefl 0), by simp, rfl, rfl,
      hs⟩
  | succ n ih =>
    have n1 : ¬ (dpfp_set_hwstat w s (Fin.ofNat (status.val &&& 0xf))).1 < 0 := h.2.2.1 _ _ hs
    have hR1 : R (after_msg w s (hwstat_write (Fin.ofNat (status.val &&& 0xf)))).dev :=
      h.1 _ _ hs
    obtain ⟨b, t, l, p1, p2, p3, p4, p5, p6⟩ :=
      power_up_round_stuck w type R h _ hR1 buf0
    obtain ⟨b', t', l', q1, q2, q3, q4, q5, q6, q7⟩ := ih t p6 b
    rw [power_up, if_neg n1, set_hwstat_eq]
    simp only
    rw [p1]
    simp only
    refine ⟨b', t', [hwstat_write (Fin.ofNat (status.val &&& 0xf))] ++ l ++ l', q1,
      fun h0 => absurd h0 (Nat.succ_ne_zero n), fun _ => ?_, ?_, ?_, ?_, q7⟩
    · by_cases hn : n = 0
      · rw [q2 hn]
        exact p2
      · exact q3 (by omega)
    · rw [q4, p3]
      simp [after_msg]
    · rw [hwstat_writes_append, hwstat_writes_append, p4, q5,
        (hwstat_writes_facts _ []).1, List.replicate_succ]
      simp
    · rw [q6, p5]
      rfl

theorem quiet_after {σ : Type} (w : usb_world σ) (R : σ → Prop)
    (hR : ∀ d m, R d → R (w.control d m).2.2) (s t : open_state σ) (h : quiet_from R s t)
    (m : ctrl_msg) : quiet_from R s (after_msg w t m) :=
  ⟨h.1, hR _ _ h.2⟩

theorem fix_firmware_quiet {σ : Type} (w : usb_world σ) (type : Nat) (R : σ → Prop)
    (hR : ∀ d m, R d → R (w.control d m).2.2) (s : open_state σ) (hs : R s.dev) :
    quiet_from R s (fix_firmware w type s).2 := by
  have q0 : quiet_from R s s := ⟨rfl, hs⟩
  simp only [fix_firmware, usb_control_msg]
  split_ifs
  · exact quiet_after w R hR s s q0 _
  · exact quiet_after w R hR s s q0 _
  · exact quiet_after w R hR s _ (quiet_after w R hR s s q0 _) _
  · exact quiet_after w R hR s _ (quiet_after w R hR s s q0 _) _

theorem reboot_wait_quiet {σ : Type} (w : usb_world σ) (R : σ → Prop)
    (hR : ∀ d m, R d → R (w.control d m).2.2) (s0 : open_state σ) (n : Nat) (s : open_state σ)
    (hs : quiet_from R s0 s) (status : uchar) :
    quiet_step R s0 (reboot_wait w n s status) := by
  induction n generalizing s status with
  | zero => exact hs
  | succ n ih =>
    have q1 : quiet_from R s0 (dpfp_get_hwstat w s status).2.2 := quiet_after w R hR s0 s hs _
    rw [reboot_wait]
    split_ifs
    · exact q1
    · exact q1
    · exact ih _ q1 _

theorem power_reboot_quiet {σ : Type} (w : usb_world σ) (R : σ → Prop)
    (hR : ∀ d m, R d → R (w.control d m).2.2) (s : open_state σ) (hs : R s.dev)
    (status : uchar) : quiet_step R s (power_reboot w s status) := by
  have q0 : quiet_from R s s := ⟨rfl, hs⟩
  have q1 : quiet_from R s (dpfp_set_hwstat w s (Fin.ofNat (status.val &&& 0xf))).2 :=
    quiet_after w R hR s s q0 _
  have q2 := reboot_wait_quiet w R hR s 100 _ q1 status
  rw [power_reboot]
  split_ifs
  · exact q1
  · revert q2
    generalize reboot_wait w 100 (dpfp_set_hwstat w s (Fin.ofNat (status.val &&& 0xf))).2 status = x
    intro q2
    cases x with
    | error e => exact q2
    | ok p =>
      obtain ⟨st, t⟩ := p
      simp only
      split_ifs
      · exact q2
      · exact q2
  · exact q0

theorem scan_power_off_quiet {σ : Type} (w : usb_world σ) (R : σ → Prop)
    (hR : ∀ d m, R d → R (w.control d m).2.2) (s : open_state σ) (hs : R s.dev)
    (status : uchar) : quiet_step R s (scan_power_off w s status) := by
  have q0 : quiet_from R s s := ⟨rfl, hs⟩
  rw [scan_power_off]
  split_ifs
  · exact quiet_after w R hR s s q0 _
  · exact quiet_after w R hR s s q0 _
  · exact q0

/-- The end of `dpfp_open_usb` when the power loop never sees bit 0x80 clear:
no device handle is returned and no interrupt is read. -/
theorem open_power_up_stuck {σ : Type} (w : usb_world σ) (type : Nat) (R : σ → Prop)
    (h : power_never_up w type R) (fuel g : Nat) (s : open_state σ) (hs : R s.dev)
    (status : uchar) :
    ∃ t, open_power_up w type fuel g s status = some (false, t) ∧ quiet_from R s t := by
  have q1 := fix_firmware_quiet w type R h.1 s hs
  rw [open_power_up]
  split_ifs with h1
  · exact ⟨_, rfl, q1⟩
  · obtain ⟨b, t, l, p1, _, p3, _, _, p6, p7⟩ :=
      power_up_stuck w type status R h 100 (fix_firmware w type s).2 q1.2 0
    rw [p1]
    simp only
    rw [if_pos (p3 (by decide))]
    exact ⟨t, rfl, p6.trans q1.1, p7⟩

theorem open_handshake_stuck {σ : Type} (w : usb_world σ) (type : Nat) (R : σ → Prop)
    (h : power_never_up w type R) (fuel g : Nat) (s : open_state σ) (hs : R s.dev) :
    ∃ t, open_handshake w type fuel g s = some (false, t) ∧ quiet_from R s t := by
  have q0 : quiet_from R s s := ⟨rfl, hs⟩
  have q1 : quiet_from R s (dpfp_get_hwstat w s 0).2.2 := quiet_after w R h.1 s s q0 _
  rw [open_handshake]
  split_ifs
  · exact ⟨_, rfl, q1⟩
  · have q2 := power_reboot_quiet w R h.1 _ q1.2 (dpfp_get_hwstat w s 0).2.1
    revert q2
    generalize power_reboot w (dpfp_get_hwstat w s 0).2.2 (dpfp_get_hwstat w s 0).2.1 = x
    intro q2
    cases x with
    | error e => exact ⟨e, rfl, q2.1.trans q1.1, q2.2⟩
    | ok p =>
      obtain ⟨status, t⟩ := p
      simp only
      have q3 := scan_power_off_quiet w R h.1 t q2.2 status
      revert q3
      generalize scan_power_off w t status = y
      intro q3
      cases y with
      | error e => exact ⟨e, rfl, q3.1.trans (q2.1.trans q1.1), q3.2⟩
      | ok p2 =>
        obtain ⟨status2, t2⟩ := p2
        simp only
        obtain ⟨t3, r1, r2⟩ := open_power_up_stuck w type R h fuel g t2 q3.2 status2
        exact ⟨t3, r1, r2.1.trans (q3.1.trans (q2.1.trans q1.1)), r2.2⟩

theorem open_usb_stuck {σ : Type} (w : usb_world σ) (type : Nat) (R : σ → Prop)
    (h : power_never_up w type R) (fuel g : Nat) (s : open_state σ) (hs : R s.dev) :
    ∃ t, dpfp_open_usb w type fuel g s = some (false, t) ∧ t.irqs = s.irqs := by
  rw [dpfp_open_usb]
  by_cases h1 : w.open_ok = false
  · rw [if_pos h1]
    exact ⟨s, rfl, rfl⟩
  · rw [if_neg h1]
    cases find_interface w.interfaces with
    | none => exact ⟨s, rfl, rfl⟩
    | some d =>
      simp only
      by_cases h2 : endpoints_ok d = false
      · rw [if_pos h2]
        exact ⟨s, rfl, rfl⟩
      · rw [if_neg h2]
        by_cases h3 : w.claim < 0
        · rw [if_pos h3]
          exact ⟨s, rfl, rfl⟩
        · rw [if_neg h3]
          by_cases h4 : w.malloc_ok = false
          · rw [if_pos h4]
            exact ⟨s, rfl, rfl⟩
          · rw [if_neg h4]
            obtain ⟨t, r1, r2⟩ := open_handshake_stuck w type R h fuel g s hs
            exact ⟨t, r1, r2.1⟩

theorem stuck_world_never_up : power_never_up stuck_world 2 (fun _ => True) := by
  refine ⟨fun _ _ _ => trivial, fun d _ => ?_, fun d v _ => ?_, fun _ d _ => ⟨?_, fun data => ?_⟩⟩
  · exact ⟨by simp [stuck_world, hwstat_read], 0x81, by simp [stuck_world, hwstat_read],
      by decide⟩
  · simp [stuck_world, hwstat_write]
  · simp [stuck_world, auth_challenge_read]
  · simp [stuck_world, auth_challenge_read, auth_response_write]

/-- C34: when every hwstat read during the power loop of `dpfp_open_usb` returns a
byte with bit 0x80 set and the other transfers succeed (`power_never_up`), the
loop runs its 100 rounds, with exactly 100 hwstat writes, each of
`status & 0x0F`, and ends with bit 0x80 set in `buf[0]`; the open then returns
`NULL` without reading an interrupt (from `fix_firmware` on, and for the whole
of `dpfp_open_usb`).  Second part: in any round, if the write succeeds and the
read succeeds with bit 0x80 clear, the loop ends in that round, right after the
read. -/
theorem power_loop_spec {σ : Type} (w : usb_world σ) (type : Nat) (status : uchar) :
    (∀ (R : σ → Prop) (s : open_state σ) (buf0 : uchar) (fuel g : Nat),
      power_never_up w type R → R s.dev →
      (∃ b t l, power_up w type status 100 s buf0 = .ok (b, t) ∧ b.val &&& 0x80 ≠ 0 ∧
        t.log = s.log ++ l ∧
        hwstat_writes l = List.replicate 100 (hwstat_write (Fin.ofNat (status.val &&& 0xf))) ∧
        t.irqs = s.irqs) ∧
      (∃ t, open_power_up w type fuel g s status = some (false, t) ∧ t.irqs = s.irqs) ∧
      (∃ t, dpfp_open_usb w type fuel g s = some (false, t) ∧ t.irqs = s.irqs)) ∧
    (∀ (n : Nat) (u : open_state σ) (b0 : uchar),
      ¬ (w.control u.dev (hwstat_write (Fin.ofNat (status.val &&& 0xf)))).1 < 0 →
      ¬ (w.control (after_msg w u (hwstat_write (Fin.ofNat (status.val &&& 0xf)))).dev
          hwstat_read).1 < 0 →
      (read_byte
        (w.control (after_msg w u (hwstat_write (Fin.ofNat (status.val &&& 0xf)))).dev
          hwstat_read).1
        (w.control (after_msg w u (hwstat_write (Fin.ofNat (status.val &&& 0xf)))).dev
          hwstat_read).2.1 b0).val &&& 0x80 = 0 →
      power_up w type status (n + 1) u b0 =
        .ok (read_byte
          (w.control (after_msg w u (hwstat_write (Fin.ofNat (status.val &&& 0xf)))).dev
            hwstat_read).1
          (w.control (after_msg w u (hwstat_write (Fin.ofNat (status.val &&& 0xf)))).dev
            hwstat_read).2.1 b0,
          after_msg w (after_msg w u (hwstat_write (Fin.ofNat (status.val &&& 0xf))))
            hwstat_read)) := by
  refine ⟨fun R s buf0 fuel g h hs => ⟨?_, ?_, open_usb_stuck w type R h fuel g s hs⟩, ?_⟩
  · obtain ⟨b, t, l, p1, _, p3, p4, p5, p6, _⟩ := power_up_stuck w type status R h 100 s hs buf0
    exact ⟨b, t, l, p1, p3 (by decide), p4, p5, p6⟩
  · obtain ⟨t, r1, r2⟩ := open_power_up_stuck w type R h fuel g s hs status
    exact ⟨t, r1, r2.1⟩
  · intro n u b0 h1 h2 h3
    have n1 : ¬ (dpfp_set_hwstat w u (Fin.ofNat (status.val &&& 0xf))).1 < 0 := h1
    rw [power_up, if_neg n1, set_hwstat_eq]
    simp only
    have n2 : ¬ (dpfp_get_hwstat w
        (after_msg w u (hwstat_write (Fin.ofNat (status.val &&& 0xf)))) b0).1 < 0 := h2
    have n3 : (dpfp_get_hwstat w
        (after_msg w u (hwstat_write (Fin.ofNat (status.val &&& 0xf)))) b0).2.1.val &&& 0x80 = 0 :=
      h3
    rw [power_up_round, if_neg n2, if_pos n3]
    rfl

set_option maxRecDepth 1000000 in
theorem stuck_world_open :
    (dpfp_open_usb stuck_world 2 1 1 mock_start).map
      (fun r => (r.1, (hwstat_writes r.2.log).length, r.2.log.length, r.2.irqs.pos))
      = some (false, 100, 402, 0) := by
  decide

/-- Instance of C34.  Against `stuck_world`, whose hwstat register always reads
0x81, `dpfp_open_usb` for a device of type 2 returns `NULL` with no interrupt
read, after 402 control messages of which 100 are hwstat writes.  Against
`mock_world` in the device state 3, where the hwstat register reads 0x01, the
power loop with 100 rounds left ends in its first round. -/
theorem power_loop_spec_witness :
    power_never_up stuck_world 2 (fun _ => True) ∧
    (∃ t, dpfp_open_usb stuck_world 2 1 1 mock_start = some (false, t) ∧
      t.irqs = mock_start.irqs) ∧
    (dpfp_open_usb stuck_world 2 1 1 mock_start).map
      (fun r => (r.1, (hwstat_writes r.2.log).length, r.2.log.length, r.2.irqs.pos))
      = some (false, 100, 402, 0) ∧
    power_up mock_world 0 0x85 (99 + 1) { dev := 3, log := [], irqs := irq_start } 0x85 =
      .ok (0x01, { dev := 4, log := [hwstat_write 5, hwstat_read], irqs := irq_start }) :=
  ⟨stuck_world_never_up,
   ((power_loop_spec stuck_world 2 0x81).1 (fun _ => True) mock_start 0 1 1
     stuck_world_never_up trivial).2.2,
   stuck_world_open,
   (power_loop_spec mock_world 0 0x85).2 99 { dev := 3, log := [], irqs := irq_start } 0x85
     (by decide) (by decide) (by decide)⟩

/-! ## The value returned by the orientation routines -/

/-- C39: with `filter_size > 0` and every allocation succeeding,
`dpfp_fprint_get_direction` returns what `fprint_direction_low_pass` returns,
and that is the value of its local `result`, which is never assigned on that
path: for the values 1 and -2 held by the unassigned variable, the call with
`block_size = 7`, `filter_size = 8` returns 1 and -2, with `errno` not set.  With
`filter_size = 0` the routine returns 0, and with a failed allocation -1 with
`errno = ENOMEM`. -/
theorem get_direction_result_unassigned :
    dpfp_fprint_get_direction (fp_const 0) 7 8 true allocs_ok 1 = (1, none) ∧
    dpfp_fprint_get_direction (fp_const 0) 7 8 true allocs_ok (-2) = (-2, none) ∧
    dpfp_fprint_get_direction (fp_const 0) 7 0 true allocs_ok 1 = (0, none) ∧
    dpfp_fprint_get_direction (fp_const 0) 7 8 false allocs_ok 1
      = (-1, some errno_code.ENOMEM) ∧
    dpfp_fprint_get_direction (fp_const 0) 7 8 true { allocs_ok with phiy := false } 1
      = (-1, some errno_code.ENOMEM) := by
  refine ⟨by decide, by decide, by decide, by decide, by decide⟩

/-- With `filter_size > 0` and every allocation succeeding, the value returned
is the one the unassigned local holds, whatever the image and the block size. -/
theorem get_direction_low_pass_value (fp : dpfp_fprint) (block_size filter_size v : Int)
    (h : filter_size > 0) :
    dpfp_fprint_get_direction fp block_size filter_size true allocs_ok v = (v, none) := by
  simp [dpfp_fprint_get_direction, fprint_direction_low_pass, allocs_ok, h]

/-! ### Thinning a 2 x 2 square -/

theorem fp_square_lit (x y : Nat) (hx : x < 384) (h : lit fp_square.data x y = true) :
    (x = 10 ∧ y = 10) ∨ (x = 11 ∧ y = 10) ∨ (x = 10 ∧ y = 11) ∨ (x = 11 ∧ y = 11) := by
  have h1 := lit_true _ _ _ h
  simp only [fp_square] at h1
  split_ifs at h1 with h2
  · omega
  · exact absurd rfl h1

set_option maxRecDepth 100000 in
theorem fp_square_del :
    thin_del fp_square.data 0o200 3850 = true ∧ thin_del fp_square.data 0o200 3851 = true ∧
    thin_del fp_square.data 0o200 4234 = false ∧ thin_del fp_square.data 0o200 4235 = false := by
  decide

theorem fp_square_del_where (k : Nat) (hd : thin_del fp_square.data 0o200 k = true) :
    k = 3850 ∨ k = 3851 := by
  have hk : k = 3850 ∨ k = 3851 ∨ k = 4234 ∨ k = 4235 := by
    rcases thin_del_centre _ _ k hd with ⟨hy, hm⟩ | ⟨hy, hm⟩
    · simp only [thin_mid] at hm
      split_ifs at hm
      all_goals first
        | (have h3 := fp_square_lit _ _ (by omega) hm
           omega)
    · simp only [thin_bmid] at hm
      split_ifs at hm
      all_goals first
        | omega
        | (simp only [thin_mid] at hm
           split_ifs at hm
           all_goals first
             | omega
             | (have hq := fp_square_lit _ 288 (by omega) hm
                omega))
  rcases hk with h | h | h | h
  · exact Or.inl h
  · exact Or.inr h
  · rw [h, fp_square_del.2.2.1] at hd
    exact absurd hd (by decide)
  · rw [h, fp_square_del.2.2.2] at hd
    exact absurd hd (by decide)

/-- The pass N over the square deletes its top row and leaves the bar on row
11, columns 10 and 11. -/
theorem fp_square_pass : thin_pass_img fp_square.data 0o200 = (fp_bar 11 10 11).data := by
  funext k
  simp only [thin_pass_img]
  split_ifs with hk
  · rcases fp_square_del_where k hk.2 with h | h
    · rw [h]
      rfl
    · rw [h]
      rfl
  · have h1 : ¬ k = 3850 := by
      intro h
      rw [h] at hk
      exact hk ⟨by decide, fp_square_del.1⟩
    have h2 : ¬ k = 3851 := by
      intro h
      rw [h] at hk
      exact hk ⟨by decide, fp_square_del.2.1⟩
    simp only [fp_square, fp_bar]
    by_cases h3 : k = 4234 ∨ k = 4235
    · have h4 : k = 3850 ∨ k = 3851 ∨ k = 4234 ∨ k = 4235 := by omega
      have h5 : k / 384 = 11 ∧ 10 ≤ k % 384 ∧ k % 384 ≤ 11 := by omega
      rw [if_pos h4, if_pos h5]
    · have h4 : ¬ (k = 3850 ∨ k = 3851 ∨ k = 4234 ∨ k = 4235) := by omega
      have h5 : ¬ (k / 384 = 11 ∧ 10 ≤ k % 384 ∧ k % 384 ≤ 11) := by omega
      rw [if_neg h4, if_neg h5]

theorem fp_bar_pass (r c1 c2 : Nat) (hr1 : 1 ≤ r) (hr2 : r ≤ 287) (m : Nat) :
    thin_pass_img (fp_bar r c1 c2).data m = (fp_bar r c1 c2).data :=
  thin_pass_img_of_count_zero _ m
    (thin_pass_count_zero _ m 110976
      (fun k _ => thin_del_single_row _ r hr1 hr2 (fp_bar_row r c1 c2) m k))

theorem fp_square_sweep : thin_sweep_img fp_square.data = (fp_bar 11 10 11).data := by
  simp only [thin_sweep_img, fp_square_pass,
    fp_bar_pass 11 10 11 (by decide) (by decide)]

/-- The routine `dpfp_fprint_thin` on the square: the first sweep deletes the
top row, the second deletes nothing, and the loop ends; the result is the bar
on row 11. -/
theorem fp_square_thin : dpfp_fprint_thin 3 fp_square = some (fp_bar 11 10 11) := by
  have c0 : (thin_start fp_square).count ≠ 0 := by decide
  obtain ⟨w1, w2, w3⟩ := thin_sweep_spec (thin_start fp_square) rfl
  have e1 : (thin_start fp_square).imgbuf = fp_square.data := rfl
  rw [e1] at w1 w2
  have c1 : (thin_sweep (thin_start fp_square)).count ≠ 0 := by
    rw [w2]
    exact thin_sweep_count_pos _ 3850 (by decide) fp_square_del.1
  obtain ⟨v1, v2, _⟩ := thin_sweep_spec (thin_sweep (thin_start fp_square)) w3
  rw [w1, fp_square_sweep] at v1 v2
  have c2 : ¬ (thin_sweep (thin_sweep (thin_start fp_square))).count ≠ 0 := by
    rw [v2, thin_sweep_count_single_row _ 11 (by decide) (by decide) (fp_bar_row 11 10 11)]
    decide
  have hb : thin_sweep_img (fp_bar 11 10 11).data = (fp_bar 11 10 11).data := by
    simp only [thin_sweep_img, fp_bar_pass 11 10 11 (by decide) (by decide)]
  rw [hb] at v1
  simp only [dpfp_fprint_thin]
  rw [thin_loop, if_pos c0, thin_loop, if_pos c1, thin_loop, if_neg c2]
  simp only [Option.map_some', v1]
  rfl

/-- Instance of C36 at the 2 x 2 square, on which `dpfp_fprint_thin` returns
after three evaluations of the loop condition: the top row of the square is
deleted (offset 3850 goes from 0xff to 0) and the bottom row keeps its value. -/
theorem thin_only_deletes_witness :
    dpfp_fprint_thin 3 fp_square = some (fp_bar 11 10 11) ∧
    (∀ k, (fp_bar 11 10 11).data k = fp_square.data k ∨ (fp_bar 11 10 11).data k = 0) ∧
    fp_square.data 3850 = 0xff ∧ (fp_bar 11 10 11).data 3850 = 0 ∧
    (fp_bar 11 10 11).data 4234 = 0xff :=
  ⟨fp_square_thin,
   ((thin_only_deletes fp_square 0 3).2 (fp_bar 11 10 11) fp_square_thin).1,
   rfl, rfl, rfl⟩

/-! ### Frame capture: when it fails -/

/-- C19, amended: `dpfp_capture_fprint` fails (returns a negative value) exactly
when a bulk read returns a negative value, and it returns that value: the
first read's, or else the second's.  A short read (a count that is not
negative, whatever its size) is accepted: when neither read returns a negative
value the capture returns 0. -/
theorem capture_fails_iff (r1 r2 : bulk_result) (fp : dpfp_fprint) :
    ((dpfp_capture_fprint r1 r2 fp).1 < 0 ↔ (r1.ret < 0 ∨ r2.ret < 0)) ∧
    (r1.ret < 0 → (dpfp_capture_fprint r1 r2 fp).1 = r1.ret) ∧
    (0 ≤ r1.ret → r2.ret < 0 → (dpfp_capture_fprint r1 r2 fp).1 = r2.ret) ∧
    (0 ≤ r1.ret → 0 ≤ r2.ret → (dpfp_capture_fprint r1 r2 fp).1 = 0) := by
  have a : r1.ret < 0 → (dpfp_capture_fprint r1 r2 fp).1 = r1.ret := by
    intro h
    simp only [dpfp_capture_fprint, h, if_true]
  have b : 0 ≤ r1.ret → r2.ret < 0 → (dpfp_capture_fprint r1 r2 fp).1 = r2.ret := by
    intro h1 h2
    have n1 : ¬ r1.ret < 0 := by omega
    simp only [dpfp_capture_fprint, n1, h2, if_false, if_true]
  have c : 0 ≤ r1.ret → 0 ≤ r2.ret → (dpfp_capture_fprint r1 r2 fp).1 = 0 := by
    intro h1 h2
    rw [capture_ok r1 r2 fp h1 h2]
  refine ⟨?_, a, b, c⟩
  by_cases h1 : r1.ret < 0
  · rw [a h1]
    exact ⟨fun _ => Or.inl h1, fun _ => h1⟩
  · by_cases h2 : r2.ret < 0
    · rw [b (by omega) h2]
      exact ⟨fun _ => Or.inr h2, fun _ => h2⟩
    · rw [c (by omega) (by omega)]
      constructor
      · intro h
        omega
      · intro h
        omega

/-- Instance of C19 (amended): a first read of 100 bytes followed by a full
second read is accepted, and a second read that returns -5 makes the capture
return -5. -/
theorem capture_fails_iff_witness :
    (dpfp_capture_fprint (bulk_of 100 7) (bulk_of 0xb340 9) fp_ramp).1 = 0 ∧
    (dpfp_capture_fprint (bulk_of 100 7) { ret := -5, bytes := fun _ => 0 } fp_ramp).1 = -5 :=
  ⟨(capture_fails_iff (bulk_of 100 7) (bulk_of 0xb340 9) fp_ramp).2.2.2 (by decide) (by decide),
   (capture_fails_iff (bulk_of 100 7) { ret := -5, bytes := fun _ => 0 } fp_ramp).2.2.1
     (by decide) (by decide)⟩

/-! ### Thinning twice -/

/-- C13 (refuted for the code): on the image `fp_stuck` the routine has no
output to apply it to again.  `dpfp_fprint_thin` has not returned after any
number of sweeps, so neither has its application to its own output, whatever
the numbers of sweeps allowed to the two calls.  The cause is the row start of
a pass, which counts a deletion at a pixel that is zero already.  Wherever the
routine does return an image `J`, a second call returns `J` unchanged after one
sweep (third part), as on the 2 x 2 square, which it thins to a bar. -/
theorem thin_twice_no_result :
    (∀ n, dpfp_fprint_thin n fp_stuck = none) ∧
    (∀ n m, (dpfp_fprint_thin n fp_stuck).bind (dpfp_fprint_thin m) = none) ∧
    (∀ (I J : dpfp_fprint) (n : Nat),
      dpfp_fprint_thin n I = some J → dpfp_fprint_thin 2 J = some J) ∧
    (dpfp_fprint_thin 3 fp_square).bind (dpfp_fprint_thin 2) = dpfp_fprint_thin 3 fp_square ∧
    dpfp_fprint_thin 3 fp_square = some (fp_bar 11 10 11) := by
  have h : ∀ n, dpfp_fprint_thin n fp_stuck = none := by
    intro n
    have h := fp_stuck_loop n (thin_start fp_stuck) rfl rfl (by decide)
    simp only [dpfp_fprint_thin, h, Option.map_none']
  refine ⟨h, fun n m => by rw [h n]; rfl, thin_result_fixed, ?_, fp_square_thin⟩
  rw [fp_square_thin, Option.some_bind]
  exact thin_bar_fixed 11 10 11 (by decide) (by decide)

/-! ### The enhancement of a uniform image -/

theorem for_range_keeps {σ : Type} (body : Nat → σ → σ) (Q : σ → Prop) (lo hi : Nat) (s : σ)
    (h0 : Q s) (hstep : ∀ k t, lo ≤ k → k < hi → Q t → Q (body k t)) :
    Q (for_range lo hi body s) := by
  have h := for_loop_inv body (fun _ t => Q t) (hi - lo) lo s h0
    (fun k t h1 h2 hq => hstep k t h1 (by omega) hq)
  exact h

theorem rnd64_int (env : float_env) (h : double_ints_exact env) (q : ℚ) (z : Int)
    (hq : q = (z : ℚ)) (h1 : -2 ^ 53 ≤ z) (h2 : z ≤ 2 ^ 53) : env.rnd64 q = q := by
  subst hq
  exact h z h1 h2

theorem rnd64_zero (env : float_env) (h : double_ints_exact env) : env.rnd64 0 = 0 :=
  rnd64_int env h 0 0 (by norm_num) (by norm_num) (by norm_num)

theorem for_range_add_const (f : Nat → Nat) (n v c0 : Nat) (h : ∀ p, p < n → f p = v) :
    for_range 0 n (fun p c => c + f p) c0 = c0 + v * n := by
  refine for_range_inv (fun p c => c + f p) (fun k c => c = c0 + v * k) n c0 rfl ?_
  intro k t hk ht
  show t + f k = c0 + v * (k + 1)
  rw [ht, h k hk]
  ring

theorem soften_sum_uniform (copy : Nat → uchar) (x y : Nat) (hx1 : 1 ≤ x) (hx : x < 383)
    (hy1 : 1 ≤ y) (hy : y < 288) (h : ∀ k, k < 110976 → copy k = 128) :
    soften_sum copy 1 x y = 1152 := by
  have hp : ∀ p q, p < 3 → q < 3 →
      (copy ((x + p - 1) + (y + q - 1) * DPFP_IMG_WIDTH)).val = 128 := by
    intro p q hp hq
    rw [h _ (by simp only [DPFP_IMG_WIDTH]; omega)]
    rfl
  have hrow : ∀ q c, q < 3 →
      for_range 0 (2 * 1 + 1)
        (fun p c => c + (copy ((x + p - 1) + (y + q - 1) * DPFP_IMG_WIDTH)).val) c
        = c + 384 := by
    intro q c hq
    rw [for_range_add_const _ (2 * 1 + 1) 128 c (fun p hp3 => hp p q hp3 hq)]
  have hall := for_range_inv
    (fun q c =>
      for_range 0 (2 * 1 + 1)
        (fun p c => c + (copy ((x + p - 1) + (y + q - 1) * DPFP_IMG_WIDTH)).val) c)
    (fun k c => c = 384 * k) (2 * 1 + 1) 0 rfl
    (fun k t hk ht => by
      show for_range 0 (2 * 1 + 1)
        (fun p c => c + (copy ((x + p - 1) + (y + k - 1) * DPFP_IMG_WIDTH)).val) t = 384 * (k + 1)
      rw [hrow k t hk, ht]
      ring)
  exact hall

/-- On an image whose pixels are all 128, `dpfp_fprint_soften_mean(fp, 3)`
returns 0 and leaves every pixel at 128. -/
theorem soften_mean_uniform (fp : dpfp_fprint) (hsz : 110976 ≤ fp.data_size)
    (hpix : ∀ k, k < 110976 → fp.data k = 128) :
    ∃ fp1, dpfp_fprint_soften_mean true fp 3 = some (0, fp1) ∧
      fp1.data_size = fp.data_size ∧ ∀ k, k < 110976 → fp1.data k = 128 := by
  have hn : ¬ ((3 : Nat) = 0 ∨ fp.data_size < DPFP_IMG_WIDTH * DPFP_IMG_HEIGHT) := by
    simp only [DPFP_IMG_WIDTH, DPFP_IMG_HEIGHT]
    omega
  refine ⟨{ fp with
      data :=
        for_range 1 288
          (fun y buf =>
            for_range 1 383
              (fun x buf =>
                store buf (x + y * 384) (Fin.ofNat (soften_sum fp.data 1 x y / 9)))
              buf)
          fp.data }, ?_, rfl, ?_⟩
  · rw [dpfp_fprint_soften_mean, if_neg (by decide), if_neg hn]
    rfl
  dsimp only
  refine for_range_keeps _ (fun buf : Nat → uchar => ∀ k, k < 110976 → buf k = 128) _ _ _ hpix ?_
  intro y t hy1 hy2 ht
  have hy1 : 1 ≤ y := hy1
  have hy2 : y < 288 := hy2
  refine for_range_keeps _ (fun buf : Nat → uchar => ∀ k, k < 110976 → buf k = 128) _ _ _ ht ?_
  intro x b hx1 hx2 hb k hk
  have hx1 : 1 ≤ x := hx1
  have hx2 : x < 383 := hx2
  have e : soften_sum fp.data 1 x y = 1152 :=
    soften_sum_uniform fp.data x y hx1 hx2 hy1 hy2 hpix
  simp only [store, e]
  split_ifs
  · rfl
  · exact hb k hk

theorem clip_le (u : Int) (hi : Nat) : clip u hi ≤ hi := by
  simp only [clip]
  split_ifs <;> omega

theorem x_signature_uniform (env : float_env) (lm : libm) (henv : double_ints_exact env)
    (imgbuf : Nat → uchar) (x y : Nat) (cosdir sindir : ℚ)
    (h : ∀ k, k < 110976 → imgbuf k = 128) (k : Nat) (hk : k < 32) :
    x_signature env lm imgbuf x y cosdir sindir k = 128 := by
  have hpx : ∀ d k, (((imgbuf (sample_u env lm x d k cosdir sindir
      + sample_v env lm y d k cosdir sindir * DPFP_IMG_WIDTH)).val : Nat) : ℚ) = 128 := by
    intro d k
    have h1 := clip_le (lm.to_int (env.rnd64 (env.rnd64 ((x : ℚ)
        + env.rnd64 ((((d : Int) - (BLOCK_W2 : Int) : Int) : ℚ) * cosdir))
      + env.rnd64 ((((k : Int) - (BLOCK_L2 : Int) : Int) : ℚ) * sindir)))) (DPFP_IMG_WIDTH - 1)
    have h2 := clip_le (lm.to_int (env.rnd64 (env.rnd64 ((y : ℚ)
        + env.rnd64 ((((d : Int) - (BLOCK_W2 : Int) : Int) : ℚ) * sindir))
      - env.rnd64 ((((k : Int) - (BLOCK_L2 : Int) : Int) : ℚ) * cosdir)))) (DPFP_IMG_HEIGHT - 1)
    have h1 : sample_u env lm x d k cosdir sindir ≤ 383 := h1
    have h2 : sample_v env lm y d k cosdir sindir ≤ 288 := h2
    rw [h _ (by simp only [DPFP_IMG_WIDTH]; omega)]
    rfl
  have hsum : ∀ k, for_range 0 BLOCK_W
      (fun d acc =>
        env.rnd64 (acc + (((imgbuf (sample_u env lm x d k cosdir sindir
          + sample_v env lm y d k cosdir sindir * DPFP_IMG_WIDTH)).val : Nat) : ℚ)))
      0 = 2048 := by
    intro k
    have hh := for_range_inv
      (fun d acc =>
        env.rnd64 (acc + (((imgbuf (sample_u env lm x d k cosdir sindir
          + sample_v env lm y d k cosdir sindir * DPFP_IMG_WIDTH)).val : Nat) : ℚ)))
      (fun n acc => acc = 128 * (n : ℚ)) BLOCK_W 0 (by norm_num)
      (fun n t hn ht => by
        show env.rnd64 (t + (((imgbuf (sample_u env lm x n k cosdir sindir
          + sample_v env lm y n k cosdir sindir * DPFP_IMG_WIDTH)).val : Nat) : ℚ))
            = 128 * ((n + 1 : Nat) : ℚ)
        rw [hpx, ht]
        have hn : n < 16 := hn
        rw [rnd64_int env henv _ (128 * ((n : Int) + 1)) (by push_cast; ring) (by omega)
          (by omega)]
        push_cast
        ring)
    rw [hh]
    norm_num
  have hall := for_range_inv
    (fun k Xsig =>
      dstore Xsig k
        (env.rnd64
          (for_range 0 BLOCK_W
              (fun d acc =>
                env.rnd64 (acc + (((imgbuf (sample_u env lm x d k cosdir sindir
                  + sample_v env lm y d k cosdir sindir * DPFP_IMG_WIDTH)).val : Nat) : ℚ)))
              0
            / (BLOCK_W : ℚ))))
    (fun n Xsig => ∀ k, k < n → Xsig k = 128) BLOCK_L (fun _ => 0)
    (fun k hk => absurd hk (Nat.not_lt_zero k))
    (fun n t _ ht k hk => by
      show dstore t n _ k = 128
      simp only [dstore]
      split_ifs with e
      · rw [hsum n]
        rw [rnd64_int env henv _ 128 (by norm_num) (by norm_num) (by norm_num)]
        norm_num
      · exact ht k (by omega))
  exact hall k hk

theorem block_frequency_flat (env : float_env) (henv : double_ints_exact env) (Xsig : Nat → ℚ)
    (h : ∀ k, k < 32 → Xsig k = 128) : block_frequency env Xsig = 0 := by
  obtain ⟨_, ⟨j1, hj1, e1⟩, ⟨j2, hj2, e2⟩⟩ := signal_range_spec Xsig
  have hs : ¬ env.rnd64 ((signal_range Xsig).2 - (signal_range Xsig).1) > 64 := by
    rw [e1, e2, h j1 hj1, h j2 hj2, sub_self, rnd64_zero env henv]
    norm_num
  have hc := find_peaks_weak env Xsig hs
  have hm := mean_spacing_few env (find_peaks env Xsig) (by omega)
  rw [block_frequency_eq, hm, if_neg (by norm_num)]

theorem frequency_blocks_uniform (env : float_env) (lm : libm) (henv : double_ints_exact env)
    (imgbuf : Nat → uchar) (orientation : Nat → ℚ)
    (h : ∀ k, k < 110976 → imgbuf k = 128) (k : Nat) :
    frequency_blocks env lm imgbuf orientation (fun _ => 0) k = 0 := by
  revert k
  refine for_range_keeps _ (fun out : Nat → ℚ => ∀ k, out k = 0) _ _ _ (fun _ => rfl) ?_
  intro y t _ _ ht
  refine for_range_keeps _ (fun out : Nat → ℚ => ∀ k, out k = 0) _ _ _ ht ?_
  intro x b _ _ hb k
  simp only [dstore]
  split_ifs
  · exact block_frequency_flat env henv _ (x_signature_uniform env lm henv imgbuf x y _ _ h)
  · exact hb k

theorem EPSILON_pos : (0 : ℚ) < EPSILON := by
  norm_num [EPSILON]

theorem frequency_fill_zero (out : Nat → ℚ) (h : ∀ k, out k = 0) (k : Nat) :
    frequency_fill out k = 0 := by
  revert k
  refine for_range_keeps _ (fun out : Nat → ℚ => ∀ k, out k = 0) _ _ _ h ?_
  intro y t _ _ ht
  refine for_range_keeps _ (fun out : Nat → ℚ => ∀ k, out k = 0) _ _ _ ht ?_
  intro x b _ _ hb k
  have h1 : b (x + y * DPFP_IMG_WIDTH) < EPSILON := by
    rw [hb]
    exact EPSILON_pos
  have h2 : ¬ b (x + (y - 1) * DPFP_IMG_WIDTH) > EPSILON := by
    rw [hb]
    exact not_lt.mpr EPSILON_pos.le
  have h3 : ¬ b (x - 1 + y * DPFP_IMG_WIDTH) > EPSILON := by
    rw [hb]
    exact not_lt.mpr EPSILON_pos.le
  show (if b (x + y * DPFP_IMG_WIDTH) < EPSILON then
      if b (x + (y - 1) * DPFP_IMG_WIDTH) > EPSILON then
        dstore b (x + y * DPFP_IMG_WIDTH) (b (x + (y - 1) * DPFP_IMG_WIDTH))
      else if b (x - 1 + y * DPFP_IMG_WIDTH) > EPSILON then
        dstore b (x + y * DPFP_IMG_WIDTH) (b (x - 1 + y * DPFP_IMG_WIDTH))
      else b
    else b) k = 0
  rw [if_pos h1, if_neg h2, if_neg h3]
  exact hb k

theorem frequency_smooth_zero (env : float_env) (henv : double_ints_exact env)
    (out freq : Nat → ℚ) (h : ∀ k, out k = 0) (hf : ∀ k, k < 110976 → freq k = 0)
    (k : Nat) (hk : k < 110976) : frequency_smooth env out freq k = 0 := by
  revert k
  refine for_range_keeps _ (fun f : Nat → ℚ => ∀ k, k < 110976 → f k = 0) _ _ _ hf ?_
  intro y t _ _ ht
  refine for_range_keeps _ (fun f : Nat → ℚ => ∀ k, k < 110976 → f k = 0) _ _ _ ht ?_
  intro x b _ _ hb k hk
  have hsum : for_range 0 (2 * LPSIZE + 1)
      (fun v peak_freq =>
        for_range 0 (2 * LPSIZE + 1)
          (fun u peak_freq =>
            env.rnd64 (peak_freq
              + out ((x + u - LPSIZE) + (y + v - LPSIZE) * DPFP_IMG_WIDTH)))
          peak_freq)
      0 = 0 := by
    refine for_range_keeps _ (fun q : ℚ => q = 0) _ _ _ rfl ?_
    intro v q _ _ hq
    refine for_range_keeps _ (fun q : ℚ => q = 0) _ _ _ hq ?_
    intro u q _ _ hq
    rw [hq, h, add_zero, rnd64_zero env henv]
  simp only [dstore]
  split_ifs
  · rw [hsum, zero_mul, rnd64_zero env henv]
  · exact hb k hk

/-- On an image whose pixels are all 128, `dpfp_fprint_get_frequency` returns 0
and leaves a field that is 0 at every pixel, whatever the orientation field. -/
theorem get_frequency_uniform (env : float_env) (lm : libm) (henv : double_ints_exact env)
    (fp : dpfp_fprint) (direction frequency : dpfp_ffield)
    (h : ∀ k, k < 110976 → fp.data k = 128) :
    (dpfp_fprint_get_frequency env lm true fp direction frequency).1 = 0 ∧
    ∀ k, k < 110976 →
      (dpfp_fprint_get_frequency env lm true fp direction frequency).2.pimg k = 0 := by
  refine ⟨rfl, fun k hk => ?_⟩
  rw [dpfp_fprint_get_frequency, if_neg (by decide)]
  dsimp only
  exact frequency_smooth_zero env henv
    (frequency_fill (frequency_blocks env lm fp.data direction.pimg (fun _ => 0)))
    (fun k => if k < DPFP_IMG_WIDTH * DPFP_IMG_HEIGHT then 0 else frequency.pimg k)
    (fun j => frequency_fill_zero _ (frequency_blocks_uniform env lm henv fp.data _ h) j)
    (fun j hj => by
      simp only [DPFP_IMG_WIDTH, DPFP_IMG_HEIGHT, Nat.reduceMul, hj, if_true])
    k hk

theorem image_dilate_zero (img : Nat → uchar) (h : ∀ k, k < 110976 → img k = 0)
    (k : Nat) (hk : k < 110976) : image_dilate img k = 0 := by
  have hb : binary_image img := fun j hj => Or.inl (h j hj)
  refine (image_dilate_spec img hb k).2.1 hk ?_
  rintro (h1 | ⟨cx, cy, _, hcx, _, hcy, _, hv, _⟩)
  · rw [h k hk] at h1
    exact absurd h1 (by decide)
  · rw [h _ (by omega)] at hv
    exact absurd hv (by decide)

theorem image_erode_zero (img : Nat → uchar) (h : ∀ k, k < 110976 → img k = 0)
    (k : Nat) (hk : k < 110976) : image_erode img k = 0 := by
  have hb : binary_image img := fun j hj => Or.inl (h j hj)
  refine (image_erode_spec img hb k).2.1 hk ?_
  rintro ⟨h1, _⟩
  rw [h k hk] at h1
  exact absurd h1 (by decide)

theorem freqmin_pos : (0 : ℚ) < freqmin := by
  norm_num [freqmin]

/-- For a frequency field that is 0 at every pixel, the mask of
`dpfp_fprint_get_mask` is 0 at every pixel. -/
theorem get_mask_zero (frequency : dpfp_ffield) (mask : dpfp_fprint)
    (h : ∀ k, k < 110976 → frequency.pimg k = 0) (k : Nat) (hk : k < 110976) :
    (dpfp_fprint_get_mask frequency mask).2.data k = 0 := by
  revert k
  simp only [dpfp_fprint_get_mask]
  refine for_range_keeps _ (fun b : Nat → uchar => ∀ k, k < 110976 → b k = 0) _ _ _ ?_
    (fun _ t _ _ ht => image_erode_zero t ht)
  refine for_range_keeps _ (fun b : Nat → uchar => ∀ k, k < 110976 → b k = 0) _ _ _ ?_
    (fun _ t _ _ ht => image_dilate_zero t ht)
  intro k hk
  rw [mask_threshold_spec]
  have hn : ¬ (frequency.pimg k ≥ freqmin ∧ frequency.pimg k ≤ freqmax) := by
    rw [h k hk]
    exact fun hh => absurd hh.1 (not_le.mpr freqmin_pos)
  simp only [hk, if_true, thr_pixel, if_neg hn]

/-- With a mask that is 0 at every pixel, `dpfp_fprint_enhance_gabor` returns 0
and leaves an image that is 0 at every pixel: no pixel is selected, and the
cleared array `enhanced` is copied over the image. -/
theorem enhance_gabor_masked (env : float_env) (lm : libm) (fp : dpfp_fprint)
    (direction frequency : dpfp_ffield) (mask : dpfp_fprint) (radius : ℚ)
    (h : ∀ k, k < 110976 → mask.data k = 0) :
    (dpfp_fprint_enhance_gabor env lm true fp direction frequency (some mask) radius).1 = 0 ∧
    ∀ k, k < 110976 →
      (dpfp_fprint_enhance_gabor env lm true fp direction frequency (some mask) radius).2.data k
        = 0 := by
  refine ⟨rfl, fun k hk => ?_⟩
  have he : ∀ j,
      for_range 8 (DPFP_IMG_HEIGHT - 8)
        (fun j enhanced =>
          for_range 8 (DPFP_IMG_WIDTH - 8)
            (fun i enhanced =>
              if mask_selects (some mask) (i + j * DPFP_IMG_WIDTH) = true then
                store enhanced (i + j * DPFP_IMG_WIDTH)
                  (gabor_pixel lm
                    (gabor_sum env lm fp.data (direction.pimg (i + j * DPFP_IMG_WIDTH))
                      (frequency.pimg (i + j * DPFP_IMG_WIDTH))
                      (env.rnd64 (radius * radius)) i j))
              else enhanced)
            enhanced)
        (fun _ => (0 : uchar)) j = 0 := by
    refine for_range_keeps _ (fun e : Nat → uchar => ∀ k, e k = 0) _ _ _ (fun _ => rfl) ?_
    intro j t _ hj ht
    refine for_range_keeps _ (fun e : Nat → uchar => ∀ k, e k = 0) _ _ _ ht ?_
    intro i b _ hi hb
    have hj : j < 281 := hj
    have hi : i < 376 := hi
    have hm : ¬ mask_selects (some mask) (i + j * DPFP_IMG_WIDTH) = true := by
      simp only [mask_selects, h _ (show i + j * DPFP_IMG_WIDTH < 110976 by
        simp only [DPFP_IMG_WIDTH]; omega)]
      decide
    rw [if_neg hm]
    exact hb
  show memcpy fp.data 0 _ 0 (DPFP_IMG_WIDTH * DPFP_IMG_HEIGHT) k = 0
  simp only [memcpy]
  rw [if_pos ⟨Nat.zero_le k, by simp only [DPFP_IMG_WIDTH, DPFP_IMG_HEIGHT]; omega⟩]
  exact he _

theorem neighbours_full (buf : Nat → uchar) (h : ∀ k, k < 110976 → buf k = 0xff)
    (i j : Nat) (hi : i ≤ 287) (hj : j ≤ 382) : neighbours buf i j = 8 := by
  have hr : ∀ x y, x ≤ 383 → y ≤ 288 → ridge buf x y = 1 := by
    intro x y hx hy
    simp only [ridge]
    rw [h _ (by simp only [DPFP_IMG_WIDTH]; omega)]
    decide
  simp only [neighbours]
  rw [hr (j - 1) (i - 1) (by omega) (by omega), hr j (i - 1) (by omega) (by omega),
    hr (j + 1) (i - 1) (by omega) (by omega), hr (j - 1) i (by omega) (by omega),
    hr (j + 1) i (by omega) (by omega), hr (j - 1) (i + 1) (by omega) (by omega),
    hr j (i + 1) (by omega) (by omega), hr (j + 1) (i + 1) (by omega) (by omega)]

/-- On an image that is 0xFF at every pixel, `dpfp_fprint_detect_minutiae`
returns 0 and adds nothing to a set that is not full: every pixel it looks at
has eight ridge neighbours. -/
theorem detect_minutiae_full (fp : dpfp_fprint) (mset : dpfp_mset)
    (h : ∀ k, k < 110976 → fp.data k = 0xff) (hc : mset.count < 384) :
    dpfp_fprint_detect_minutiae fp mset = (0, mset) := by
  have hn : hits fp.data 287 1 = [] := by
    rw [List.eq_nil_iff_forall_not_mem]
    intro p hp
    obtain ⟨i, j, hi1, hi2, hj1, hj2, hd, _⟩ := (mem_hits fp.data 287 1 p).mp hp
    have h8 := neighbours_full fp.data h i j (by omega) (by omega)
    have hh := ((detect_hit_iff fp.data i j hi1 hj1).mp hd).2
    omega
  show ((0 : Int), detect_rows fp.data 287 1 mset) = (0, mset)
  rw [detect_rows_eq fp.data 287 1 mset hc, hn, List.take_nil]
  rfl

/-- C15: for a full frame whose pixels are all 128, the calls
`soften_mean(3)`, `get_direction(7, 8)`, `get_frequency`, `get_mask`,
`enhance_gabor` with radius 4.0 and `binarize(0x80)` followed by
`detect_minutiae` on a set with count 0 end with the detection returning 0 and
the set unchanged, so with a count of 0.  This holds for whatever libm's `sin`,
`cos`, `atan2` and `exp` return and whatever the conversion of a double to an
integer gives, and for any contents of the mask buffer beforehand; of the
arithmetic on doubles only the exactness on integers up to 2^53 is used.  The
smoothing leaves every pixel at 128, every x-signature is 128 throughout, so
the frequency field and the mask are 0, the filter writes no pixel and leaves
the image 0, `binarize` makes it 0xFF, and no pixel has one or three ridge
neighbours. -/
theorem enhance_uniform_no_minutiae (env : float_env) (lm : libm) (fp mask : dpfp_fprint)
    (mset : dpfp_mset) (henv : double_ints_exact env) (hsz : 110976 ≤ fp.data_size)
    (hpix : ∀ k, k < 110976 → fp.data k = 128) (hc : mset.count = 0) :
    ∃ r, enhance_and_detect env lm fp mask mset = some r ∧ r.1 = 0 ∧ r.2.count = 0 ∧
      r.2 = mset := by
  obtain ⟨fp1, e1, _, h1⟩ := soften_mean_uniform fp hsz hpix
  have hf := (get_frequency_uniform env lm henv fp1
    (get_direction_field env lm true allocs_ok fp1 dpfp_ffield_alloc 7 8) dpfp_ffield_alloc h1).2
  have hm := get_mask_zero
    (dpfp_fprint_get_frequency env lm true fp1
      (get_direction_field env lm true allocs_ok fp1 dpfp_ffield_alloc 7 8)
      dpfp_ffield_alloc).2 mask hf
  have hg := (enhance_gabor_masked env lm fp1
    (get_direction_field env lm true allocs_ok fp1 dpfp_ffield_alloc 7 8)
    (dpfp_fprint_get_frequency env lm true fp1
      (get_direction_field env lm true allocs_ok fp1 dpfp_ffield_alloc 7 8)
      dpfp_ffield_alloc).2
    (dpfp_fprint_get_mask
      (dpfp_fprint_get_frequency env lm true fp1
        (get_direction_field env lm true allocs_ok fp1 dpfp_ffield_alloc 7 8)
        dpfp_ffield_alloc).2 mask).2 4 hm).2
  have hb : ∀ k, k < 110976 →
      (dpfp_fprint_binarize
        (dpfp_fprint_enhance_gabor env lm true fp1
          (get_direction_field env lm true allocs_ok fp1 dpfp_ffield_alloc 7 8)
          (dpfp_fprint_get_frequency env lm true fp1
            (get_direction_field env lm true allocs_ok fp1 dpfp_ffield_alloc 7 8)
            dpfp_ffield_alloc).2
          (some (dpfp_fprint_get_mask
            (dpfp_fprint_get_frequency env lm true fp1
              (get_direction_field env lm true allocs_ok fp1 dpfp_ffield_alloc 7 8)
              dpfp_ffield_alloc).2 mask).2) 4).2 0x80).data k = 0xff := by
    intro k hk
    rw [binarize_data]
    simp only [hk, if_true, hg k hk]
    rfl
  have hd := detect_minutiae_full _ mset hb (by omega)
  refine ⟨(0, mset), ?_, rfl, hc, rfl⟩
  simp only [enhance_and_detect, e1, Option.map_some', hd]

/-- Instance of C15: the frame `fp_const 128`, the set of `dpfp_mset_alloc`, a
mask buffer full of 7s, exact arithmetic and the stand-in `libm_at_zero`. -/
theorem enhance_uniform_no_minutiae_witness :
    double_ints_exact env_exact ∧ 110976 ≤ (fp_const 128).data_size ∧
    (∀ k, k < 110976 → (fp_const 128).data k = 128) ∧ dpfp_mset_alloc.count = 0 ∧
    ∃ r, enhance_and_detect env_exact libm_at_zero (fp_const 128) (fp_const 7) dpfp_mset_alloc
        = some r ∧ r.1 = 0 ∧ r.2.count = 0 ∧ r.2 = dpfp_mset_alloc :=
  ⟨env_exact_ints, Nat.le_refl _, fun _ _ => rfl, rfl,
    enhance_uniform_no_minutiae env_exact libm_at_zero (fp_const 128) (fp_const 7)
      dpfp_mset_alloc env_exact_ints (Nat.le_refl _) (fun _ _ => rfl) rfl⟩

end Dpfp
